import Mathlib

/-!
# Journal subsystem of the database engine (`database/engine/journalfile.c`)

A shallow embedding of the journal v2 index code: the validator
`check_journal_v2_file`, the loader `load_journal_file_v2` and the migrator
`do_migrate_to_v2_callback`, over a byte-level model of the mapped file; and
of the replay of a v1 journal: `restore_extent_metadata`,
`replay_transaction` and `iterate_transactions`, over the readable memory and
the calls made into the metrics registry and the open cache; and of the
writer side of a v1 journal: `wal_flush_transaction_buffer` with its
completion callback, `unlink_journal_file` and `destroy_journal_file_unsafe`,
over the counters they touch and the file operations they issue.

Conventions of the embedding.

* A mapped file is a `List Nat` of byte values; an access outside the mapping
  is undefined behaviour in C and is `none` here.
* Pointers into the mapping are offsets from `data_start`; a pointer that may
  be `NULL` is an `Option Nat`.
* Machine integers are `Nat`/`Int` with explicit reduction modulo `2 ^ w`.
* `fatal_assert` failures do not return: they are `none` as well.
-/

namespace Journalfile

/-! ## Machine integers -/

/-- Truncation to `uint16_t`. -/
def u16 (x : Nat) : Nat := x % 2 ^ 16

/-- Truncation to `uint32_t`. -/
def u32 (x : Nat) : Nat := x % 2 ^ 32

/-- Truncation to `uint64_t` (`size_t`, `usec_t`, `unsigned long`). -/
def u64 (x : Nat) : Nat := x % 2 ^ 64

/-- Conversion of a signed value (`time_t`) to an unsigned 64-bit one. -/
def int_to_u64 (x : Int) : Nat := (x % 2 ^ 64).toNat

/-- Conversion of an unsigned 64-bit value to `time_t` (two's complement). -/
def u64_to_time (x : Nat) : Int :=
  if x % 2 ^ 64 < 2 ^ 63 then ((x % 2 ^ 64 : Nat) : Int) else ((x % 2 ^ 64 : Nat) : Int) - 2 ^ 64

/-- `USEC_PER_SEC` of libnetdata (the spec: seconds times `1e6`). -/
def USEC_PER_SEC : Nat := 1000000

/-- `LONG_MAX` on the 64-bit host. -/
def LONG_MAX : Int := 2 ^ 63 - 1

/-! ## Memory -/

/-- Little-endian encoding of `v` on `width` bytes (the value is truncated). -/
def le_bytes : Nat → Nat → List Nat
  | 0, _ => []
  | w + 1, v => (v % 256) :: le_bytes w (v / 256)

/-- Value of a little-endian byte sequence. -/
def le_value : List Nat → Nat
  | [] => 0
  | b :: bs => b % 256 + 256 * le_value bs

/-- Read `len` bytes at offset `off` of the mapping. -/
def mem_read (data : List Nat) (off len : Nat) : Option (List Nat) :=
  if off + len ≤ data.length then some ((data.drop off).take len) else none

/-- Store the bytes `bs` at offset `off` of the mapping (`memcpy`). -/
def mem_write (data : List Nat) (off : Nat) (bs : List Nat) : Option (List Nat) :=
  if off + bs.length ≤ data.length then
    some (data.take off ++ bs ++ data.drop (off + bs.length))
  else none

/-- Load an unsigned little-endian field of `width` bytes. -/
def read_le (data : List Nat) (off width : Nat) : Option Nat :=
  (mem_read data off width).map le_value

/-- Store an unsigned little-endian field of `width` bytes. -/
def write_le (data : List Nat) (off width v : Nat) : Option (List Nat) :=
  mem_write data off (le_bytes width v)

/-! ## CRC-32 (zlib `crc32`) -/

/-- The reflected CRC-32 polynomial. -/
def CRC32_POLY : Nat := 0xEDB88320

/-- One bit of the CRC-32 register update. -/
def crc32_shift (c : Nat) : Nat :=
  if c % 2 = 1 then (c / 2) ^^^ CRC32_POLY else c / 2

/-- One byte of the CRC-32 register update. -/
def crc32_byte (c b : Nat) : Nat :=
  crc32_shift (crc32_shift (crc32_shift (crc32_shift
    (crc32_shift (crc32_shift (crc32_shift (crc32_shift (c ^^^ (b % 256)))))))))

/-- The function `crc32(crc, buf, len)` of zlib over the bytes `buf`; the
initial value `crc32(0L, Z_NULL, 0)` is `0`. -/
def crc32 (crc : Nat) (buf : List Nat) : Nat :=
  (buf.foldl crc32_byte (crc ^^^ 0xFFFFFFFF)) ^^^ 0xFFFFFFFF

/-- Modelled from the spec: `crc32cmp` of rrdenginelib.h is not among the
sources; a block trailer holds `checksum:u32`, which is compared with the
computed value. The result is non-zero (`true`) on mismatch. -/
def crc32cmp (data : List Nat) (checksum_off : Nat) (crc : Nat) : Option Bool :=
  (read_le data checksum_off 4).map (fun loaded => decide (loaded ≠ crc))

/-- Modelled from the spec: `crc32set` of rrdenginelib.h is not among the
sources; it stores the computed value into the `checksum:u32` field. -/
def crc32set (data : List Nat) (checksum_off : Nat) (crc : Nat) : Option (List Nat) :=
  write_le data checksum_off 4 crc

/-! ## On-disk layout of journal v2 -/

/-- Constants of journalfile.h, which is not among the sources: the three
magic numbers, the header padding, and the offsets of the members `crc` and
`checksum` inside `struct journal_page_header` are parameters of the
embedding. -/
structure Consts where
  JOURVAL_V2_MAGIC : Nat
  JOURVAL_V2_REBUILD_MAGIC : Nat
  JOURVAL_V2_SKIP_MAGIC : Nat
  JOURNAL_V2_HEADER_PADDING_SZ : Nat
  PAGE_HEADER_CRC : Nat
  PAGE_HEADER_CHECKSUM : Nat
deriving DecidableEq, Repr

/-- The magic numbers are three distinct 32-bit values; the members `crc`
and `checksum` are 32-bit members of the page header placed after its
`uuid`, `entries` and `uuid_offset`. -/
def Consts.WF (K : Consts) : Prop :=
  K.JOURVAL_V2_MAGIC < 2 ^ 32 ∧ K.JOURVAL_V2_REBUILD_MAGIC < 2 ^ 32 ∧
  K.JOURVAL_V2_SKIP_MAGIC < 2 ^ 32 ∧
  K.JOURVAL_V2_MAGIC ≠ K.JOURVAL_V2_REBUILD_MAGIC ∧
  K.JOURVAL_V2_MAGIC ≠ K.JOURVAL_V2_SKIP_MAGIC ∧
  K.JOURVAL_V2_REBUILD_MAGIC ≠ K.JOURVAL_V2_SKIP_MAGIC ∧
  24 ≤ K.PAGE_HEADER_CRC ∧ K.PAGE_HEADER_CRC + 4 ≤ 32 ∧
  24 ≤ K.PAGE_HEADER_CHECKSUM ∧ K.PAGE_HEADER_CHECKSUM + 4 ≤ 32

instance (K : Consts) : Decidable K.WF := by unfold Consts.WF; infer_instance

/-- Modelled from the spec: `struct journal_v2_header` is declared in
journalfile.h, which is not among the sources. Spec section 4.5 lists the
fields in this order, `u32` unless noted, with the natural alignment of the
host: magic 0, reserved 4, start_time_ut 8 (u64), end_time_ut 16 (u64),
extent_count 24, extent_offset 28, extent_trailer_offset 32, metric_count 36,
metric_offset 40, metric_trailer_offset 44, page_count 48, page_offset 52,
total_file_size 56, original_file_size 60, data 64 (pointer). -/
structure journal_v2_header where
  magic : Nat
  start_time_ut : Nat
  end_time_ut : Nat
  extent_count : Nat
  extent_offset : Nat
  extent_trailer_offset : Nat
  metric_count : Nat
  metric_offset : Nat
  metric_trailer_offset : Nat
  page_count : Nat
  page_offset : Nat
  total_file_size : Nat
  original_file_size : Nat
  data : Nat
deriving DecidableEq, Repr

/-- Modelled from the spec: `sizeof(struct journal_v2_header)`. -/
def sizeof_journal_v2_header : Nat := 72

/-- Modelled from the spec: `sizeof(struct journal_extent_list)`, the record
`{ file_index:u16 at 0, datafile_offset:u64 at 8, datafile_size:u32 at 16,
pages:u16 at 20 }`. -/
def sizeof_journal_extent_list : Nat := 24

/-- Modelled from the spec: `sizeof(struct journal_metric_list)`, the record
`{ uuid[16] at 0, entries:u32 at 16, page_offset:u32 at 20,
delta_start_s:u32 at 24, delta_end_s:u32 at 28 }`. -/
def sizeof_journal_metric_list : Nat := 32

/-- Modelled from the spec: `sizeof(struct journal_page_header)`, the record
`{ uuid[16] at 0, entries:u32 at 16, uuid_offset:u32 at 20, crc:u32,
checksum:u32 }`; the places of `crc` and `checksum` are `Consts` members. -/
def sizeof_journal_page_header : Nat := 32

/-- Modelled from the spec: `sizeof(struct journal_page_list)`, the record
`{ delta_start_s:u32 at 0, delta_end_s:u32 at 4, extent_index:u32 at 8,
update_every_s:u32 at 12, page_length:u16 at 16, type:u8 at 18 }`. -/
def sizeof_journal_page_list : Nat := 20

/-- Modelled from the spec: `sizeof(struct journal_v2_block_trailer)`, the
record `{ checksum:u32 }`. -/
def sizeof_journal_v2_block_trailer : Nat := 4

/-- The bytes of a `struct journal_v2_header` whose padding is zero (the
struct is cleared with `memset` before its fields are assigned). -/
def journal_v2_header.bytes (h : journal_v2_header) : List Nat :=
  le_bytes 4 h.magic ++ le_bytes 4 0 ++ le_bytes 8 h.start_time_ut ++
  le_bytes 8 h.end_time_ut ++ le_bytes 4 h.extent_count ++ le_bytes 4 h.extent_offset ++
  le_bytes 4 h.extent_trailer_offset ++ le_bytes 4 h.metric_count ++
  le_bytes 4 h.metric_offset ++ le_bytes 4 h.metric_trailer_offset ++
  le_bytes 4 h.page_count ++ le_bytes 4 h.page_offset ++
  le_bytes 4 h.total_file_size ++ le_bytes 4 h.original_file_size ++ le_bytes 8 h.data

/-! ## The validator -/

/-- Checks that the extent list checksum is valid. The length `extent_count *
sizeof(struct journal_extent_list)` is a `size_t` that zlib's `crc32` receives
in its 32-bit `uInt len`. -/
def check_journal_v2_extent_list (data_start : List Nat) (_file_size : Nat) : Option Nat := do
  let extent_trailer_offset ← read_le data_start 32 4
  let extent_offset ← read_le data_start 28 4
  let extent_count ← read_le data_start 24 4
  let buf ← mem_read data_start extent_offset
    (u32 (extent_count * sizeof_journal_extent_list))
  let crc := crc32 0 buf
  let rc ← crc32cmp data_start extent_trailer_offset crc
  if rc then some 1 else some 0

/-- Checks that the metric list (UUIDs) checksum is valid. The length
`metric_count * sizeof(struct journal_metric_list)` is narrowed to the 32-bit
`uInt len` of `crc32` as well. -/
def check_journal_v2_metric_list (data_start : List Nat) (_file_size : Nat) : Option Nat := do
  let metric_trailer_offset ← read_le data_start 44 4
  let metric_offset ← read_le data_start 40 4
  let metric_count ← read_le data_start 36 4
  let buf ← mem_read data_start metric_offset
    (u32 (metric_count * sizeof_journal_metric_list))
  let crc := crc32 0 buf
  let rc ← crc32cmp data_start metric_trailer_offset crc
  if rc then some 1 else some 0

/-- The loop "Verify complete UUID chain" of `check_journal_v2_file`:
`remaining` iterations are left, `metric` is the offset of the current metric
list entry, `verified` counts the entries whose page block verified. The
result is the return code of the function when the loop decides it (`some
(some 1)` on the EOF test) and otherwise the final `verified`. -/
def check_journal_v2_chain (K : Consts) (data_start : List Nat) (file_size : Nat) :
    Nat → Nat → Nat → Option (Nat ⊕ Nat)
  | 0, _, verified => some (Sum.inr verified)
  | remaining + 1, metric, verified => do
    let _uuid ← mem_read data_start metric 16
    let page_offset ← read_le data_start (metric + 20) 4
    let hdr ← mem_read data_start page_offset sizeof_journal_page_header
    let local_hdr ← mem_write hdr K.PAGE_HEADER_CRC (le_bytes 4 K.JOURVAL_V2_MAGIC)
    let crc := crc32 0 local_hdr
    let rc ← crc32cmp data_start (page_offset + K.PAGE_HEADER_CHECKSUM) crc
    let hdr_entries := le_value ((hdr.drop 16).take 4)
    let verified' ←
      (if rc then some verified
       else
        (mem_read data_start (page_offset + sizeof_journal_page_header)
          (hdr_entries * sizeof_journal_page_list)).bind (fun buf =>
        (crc32cmp data_start
          (page_offset + sizeof_journal_page_header + hdr_entries * sizeof_journal_page_list)
          (crc32 0 buf)).bind (fun rc =>
        if rc then some verified else some (verified + 1))))
    let metric' := metric + sizeof_journal_metric_list
    if u32 metric' > u32 file_size then some (Sum.inl 1)
    else check_journal_v2_chain K data_start file_size remaining metric' verified'

/-- The validator of a mapped v2 file. Return: 0 Ok, 1 Invalid, 2 Force
rebuild, 3 skip. `db_engine_journal_check` is the global of that name. -/
def check_journal_v2_file (K : Consts) (db_engine_journal_check : Bool)
    (data_start : List Nat) (file_size : Nat) (original_size : Nat) : Option Nat := do
  let magic ← read_le data_start 0 4
  if magic = K.JOURVAL_V2_REBUILD_MAGIC then some 2
  else if magic = K.JOURVAL_V2_SKIP_MAGIC then some 3
  else if magic ≠ K.JOURVAL_V2_MAGIC then some 1
  else do
    let total_file_size ← read_le data_start 56 4
    if total_file_size ≠ file_size then some 1
    else do
      let differs ←
        (if original_size ≠ 0 then
          (read_le data_start 60 4).map (fun original_file_size =>
            decide (original_file_size ≠ original_size))
         else some false)
      if differs then some 1
      else if file_size < sizeof_journal_v2_block_trailer then none
      else do
        let hdr ← mem_read data_start 0 sizeof_journal_v2_header
        let crc := crc32 0 hdr
        let rc ← crc32cmp data_start (file_size - sizeof_journal_v2_block_trailer) crc
        if rc then some 1
        else do
          let rc ← check_journal_v2_extent_list data_start file_size
          if rc ≠ 0 then some 1
          else do
            let rc ← check_journal_v2_metric_list data_start file_size
            if rc ≠ 0 then some 1
            else if !db_engine_journal_check then some 0
            else do
              let metric_offset ← read_le data_start 40 4
              let metric_count ← read_le data_start 36 4
              let r ← check_journal_v2_chain K data_start file_size metric_count metric_offset 0
              match r with
              | Sum.inl rc => some rc
              | Sum.inr verified => if metric_count ≠ verified then some 1 else some 0

/-! ## In-memory indices handed to the migrator -/

/-- The `struct jv2_extents_info` of rrdengine.h. -/
structure jv2_extents_info where
  index : Nat
  pos : Nat
  bytes : Nat
  number_of_pages : Nat
deriving DecidableEq, Repr

/-- The `struct jv2_page_info` of rrdengine.h. `custom_data` is `none` for a
`NULL` pointer and otherwise the `page_length` of the `struct
extent_io_data` it points to (the only member the migrator reads). -/
structure jv2_page_info where
  start_time_s : Int
  end_time_s : Int
  update_every_s : Int
  page_length : Nat
  extent_index : Nat
  custom_data : Option Nat
deriving DecidableEq, Repr

/-- The `struct jv2_metrics_info` of rrdengine.h. A JudyL array is the list
of its values in the order `JudyLFirstThenNext` visits them (ascending
key). -/
structure jv2_metrics_info where
  uuid : List Nat
  first_time_s : Int
  last_time_s : Int
  number_of_pages : Nat
  JudyL_pages_by_start_time : List jv2_page_info
deriving DecidableEq, Repr

/-- The 16 bytes of a `uuid_t`. -/
def uuid_bytes (uuid : List Nat) : List Nat :=
  (List.range 16).map (fun i => uuid.getD i 0 % 256)

/-- Modelled from the spec: `uuid_compare` of libuuid, a byte-wise unsigned
comparison of the two identifiers (negative, zero or positive). -/
def uuid_compare : List Nat → List Nat → Int
  | a :: as, b :: bs => if a < b then -1 else if b < a then 1 else uuid_compare as bs
  | _, _ => 0

/-- The comparison function handed to `qsort`. -/
def journal_metric_compare (metric1 metric2 : jv2_metrics_info) : Int :=
  uuid_compare (uuid_bytes metric1.uuid) (uuid_bytes metric2.uuid)

/-- The order `qsort` sorts by: `journal_metric_compare` is not positive. -/
def journal_metric_le (metric1 metric2 : jv2_metrics_info) : Prop :=
  journal_metric_compare metric1 metric2 ≤ 0

instance : DecidableRel journal_metric_le := fun a b => by
  unfold journal_metric_le; infer_instance

/-- The call `qsort(uuid_list, number_of_metrics, ..., journal_metric_compare)`. -/
def qsort_uuid_list (uuid_list : List jv2_metrics_info) : List jv2_metrics_info :=
  List.insertionSort journal_metric_le uuid_list

/-- A time difference stored in a `uint32_t` member: `(uint32_t)(t -
start_time_ut / USEC_PER_SEC)`. -/
def delta_s (t : Int) (start_time_ut : Nat) : Nat :=
  ((t - ((start_time_ut / USEC_PER_SEC : Nat) : Int)) % 2 ^ 32).toNat

/-! ## The section writers of the migrator -/

/-- Write list of extents for the journalfile: the loop of
`journal_v2_write_extent_list` over the extents, `base` being the offset of
`j2_extent_base`. The pointer the function returns is `base + count *
sizeof(struct journal_extent_list)`, `count` being the number of extents. -/
def journal_v2_write_extent_list :
    List jv2_extents_info → List Nat → Nat → Option (List Nat)
  | [], img, _ => some img
  | ext_info :: rest, img, base => do
    let entry := base + ext_info.index * sizeof_journal_extent_list
    let img ← write_le img entry 2 0
    let img ← write_le img (entry + 8) 8 ext_info.pos
    let img ← write_le img (entry + 16) 4 ext_info.bytes
    let img ← write_le img (entry + 20) 2 ext_info.number_of_pages
    journal_v2_write_extent_list rest img base

/-- The space guard: `data` is the offset of the cursor from
`j2_header->data`; the result is `true` when the guard returns 1. -/
def verify_journal_space (j2_header : journal_v2_header) (data bytes : Nat) : Bool :=
  decide (u64 (data + bytes) >
    u64 (j2_header.total_file_size + 2 ^ 64 - sizeof_journal_v2_block_trailer))

/-- Writes one metric list entry at the cursor `data`; the new cursor is
`none` when the function returns `NULL`. -/
def journal_v2_write_metric_page (j2_header : journal_v2_header) (img : List Nat)
    (data : Nat) (metric_info : jv2_metrics_info) (pages_offset : Nat) :
    Option (List Nat × Option Nat) :=
  if verify_journal_space j2_header data sizeof_journal_metric_list then some (img, none)
  else do
    let img ← mem_write img data
      (uuid_bytes metric_info.uuid ++ le_bytes 4 metric_info.number_of_pages ++
       le_bytes 4 pages_offset ++
       le_bytes 4 (delta_s metric_info.first_time_s j2_header.start_time_ut) ++
       le_bytes 4 (delta_s metric_info.last_time_s j2_header.start_time_ut))
    some (img, some (data + sizeof_journal_metric_list))

/-- Writes the page header of a metric at `data` and returns the cursor that
follows it. -/
def journal_v2_write_data_page_header (K : Consts) (img : List Nat) (data : Nat)
    (metric_info : jv2_metrics_info) (uuid_offset : Nat) : Option (List Nat × Nat) := do
  let img ← mem_write img data
    (uuid_bytes metric_info.uuid ++ le_bytes 4 metric_info.number_of_pages ++
     le_bytes 4 uuid_offset)
  let img ← write_le img (data + K.PAGE_HEADER_CRC) 4 K.JOURVAL_V2_MAGIC
  let hdr ← mem_read img data sizeof_journal_page_header
  let crc := crc32 0 hdr
  let img ← crc32set img (data + K.PAGE_HEADER_CHECKSUM) crc
  some (img, data + sizeof_journal_page_header)

/-- Writes the trailer of a page block at `data`; `page_header` is the
offset of the header of the block. -/
def journal_v2_write_data_page_trailer (img : List Nat) (data : Nat) (page_header : Nat) :
    Option (List Nat × Nat) := do
  let entries ← read_le img (page_header + 16) 4
  let buf ← mem_read img (page_header + sizeof_journal_page_header)
    (entries * sizeof_journal_page_list)
  let crc := crc32 0 buf
  let img ← crc32set img data crc
  some (img, data + sizeof_journal_v2_block_trailer)

/-- Writes one page list entry at the cursor `data`; the new cursor is
`none` when the function returns `NULL`. -/
def journal_v2_write_data_page (j2_header : journal_v2_header) (img : List Nat)
    (data : Nat) (page_info : jv2_page_info) : Option (List Nat × Option Nat) :=
  if verify_journal_space j2_header data sizeof_journal_page_list then some (img, none)
  else do
    let page_length :=
      match page_info.custom_data with
      | some ei_page_length => ei_page_length
      | none => page_info.page_length
    let img ← mem_write img data
      (le_bytes 4 (delta_s page_info.start_time_s j2_header.start_time_ut) ++
       le_bytes 4 (delta_s page_info.end_time_s j2_header.start_time_ut) ++
       le_bytes 4 page_info.extent_index ++
       le_bytes 4 (int_to_u64 page_info.update_every_s) ++
       le_bytes 2 page_length ++ le_bytes 1 0)
    some (img, some (data + sizeof_journal_page_list))

/-- The loop of `journal_v2_write_descriptors` over the pages of a metric in
ascending start time; the result cursor is `none` when a page did not fit. -/
def journal_v2_write_descriptors (j2_header : journal_v2_header) :
    List jv2_page_info → List Nat → Nat → Option (List Nat × Option Nat)
  | [], img, data_page => some (img, some data_page)
  | page_info :: rest, img, data_page => do
    let (img, next) ← journal_v2_write_data_page j2_header img data_page page_info
    match next with
    | none => some (img, none)
    | some data_page => journal_v2_write_descriptors j2_header rest img data_page

/-! ## The migrator -/

/-- The section offsets computed at the start of `do_migrate_to_v2_callback`
(`uint32_t` locals) and the `size_t total_file_size`. -/
structure v2_layout where
  extent_offset : Nat
  extent_offset_trailer : Nat
  metrics_offset : Nat
  metric_offset_trailer : Nat
  pages_offset : Nat
  trailer_offset : Nat
  total_file_size : Nat
deriving DecidableEq, Repr

/-- The offset computation of `do_migrate_to_v2_callback`. -/
def compute_layout (K : Consts) (number_of_extents number_of_metrics number_of_pages : Nat) :
    v2_layout :=
  let total_file_size := sizeof_journal_v2_header + K.JOURNAL_V2_HEADER_PADDING_SZ
  let extent_offset := u32 total_file_size
  let total_file_size := total_file_size + number_of_extents * sizeof_journal_extent_list
  let extent_offset_trailer := u32 total_file_size
  let total_file_size := total_file_size + sizeof_journal_v2_block_trailer
  let metrics_offset := u32 total_file_size
  let total_file_size := total_file_size + number_of_metrics * sizeof_journal_metric_list
  let metric_offset_trailer := u32 total_file_size
  let total_file_size := total_file_size + sizeof_journal_v2_block_trailer
  let pages_offset := u32 total_file_size
  let total_file_size := total_file_size + number_of_pages *
    (sizeof_journal_page_list + sizeof_journal_page_header + sizeof_journal_v2_block_trailer)
  let trailer_offset := u32 total_file_size
  let total_file_size := total_file_size + sizeof_journal_v2_block_trailer
  { extent_offset := extent_offset, extent_offset_trailer := extent_offset_trailer,
    metrics_offset := metrics_offset, metric_offset_trailer := metric_offset_trailer,
    pages_offset := pages_offset, trailer_offset := trailer_offset,
    total_file_size := total_file_size }

/-- The variables the loop over the sorted metrics updates: the mapping, the
cursor `data` (`none` for `NULL`) and `pages_offset`. -/
structure migrate_state where
  img : List Nat
  data : Option Nat
  pages_offset : Nat
deriving DecidableEq, Repr

/-- One iteration of the loop over the sorted metrics, entered with the
cursor `data`; the flag is `false` when the iteration leaves by `break`. -/
def migrate_metric (K : Consts) (j2_header : journal_v2_header) (st : migrate_state)
    (data : Nat) (metric_info : jv2_metrics_info) : Option (migrate_state × Bool) := do
  let uuid_offset := u32 data
  let (img, data') ← journal_v2_write_metric_page j2_header st.img data metric_info st.pages_offset
  match data' with
  | none => some ({ img := img, data := none, pages_offset := st.pages_offset }, false)
  | some data' => do
    let (img, metric_page) ←
      journal_v2_write_data_page_header K img st.pages_offset metric_info uuid_offset
    let (img, page_trailer) ←
      journal_v2_write_descriptors j2_header metric_info.JudyL_pages_by_start_time img metric_page
    match page_trailer with
    | none => some ({ img := img, data := some data', pages_offset := st.pages_offset }, false)
    | some page_trailer => do
      let (img, next_page_address) ←
        journal_v2_write_data_page_trailer img page_trailer st.pages_offset
      let pages_offset := u32 (st.pages_offset +
        (metric_info.number_of_pages * sizeof_journal_page_list +
          sizeof_journal_page_header + sizeof_journal_v2_block_trailer))
      if pages_offset ≠ u32 next_page_address then
        some ({ img := img, data := some 0, pages_offset := pages_offset }, false)
      else
        some ({ img := img, data := some data', pages_offset := pages_offset }, true)

/-- The loop `for (Index = 0; Index < number_of_metrics; Index++)` over the
sorted `uuid_list`. -/
def migrate_metrics (K : Consts) (j2_header : journal_v2_header) :
    List jv2_metrics_info → migrate_state → Option migrate_state
  | [], st => some st
  | metric_info :: rest, st =>
    match st.data with
    | none => none
    | some data => do
      let (st', continues) ← migrate_metric K j2_header st data metric_info
      if continues then migrate_metrics K j2_header rest st' else some st'

/-- `MIN` of libnetdata on `time_t`. -/
def MIN (a b : Int) : Int := if a < b then a else b

/-- `MAX` of libnetdata on `time_t`. -/
def MAX (a b : Int) : Int := if a > b then a else b

/-- The `j2_header` that `do_migrate_to_v2_callback` assembles: the magic,
the counts and offsets, the sizes, and the times `min_time_s * USEC_PER_SEC`
and `max_time_s * USEC_PER_SEC` gathered over the metrics (`min_time_s`
starts at `LONG_MAX`, `max_time_s` at 0). Its `data` member is the base of
the mapping while the sections are written (the cursors of this embedding
are offsets from it) and is `NULL` when the header is written. -/
def migration_header (K : Consts) (journalfile_pos : Nat)
    (JudyL_metrics : List jv2_metrics_info)
    (number_of_extents number_of_metrics number_of_pages : Nat) : journal_v2_header :=
  let L := compute_layout K number_of_extents number_of_metrics number_of_pages
  let min_time_s := JudyL_metrics.foldl (fun acc m => MIN acc m.first_time_s) LONG_MAX
  let max_time_s := JudyL_metrics.foldl (fun acc m => MAX acc m.last_time_s) 0
  { magic := K.JOURVAL_V2_MAGIC
    start_time_ut := u64 (int_to_u64 min_time_s * USEC_PER_SEC)
    end_time_ut := u64 (int_to_u64 max_time_s * USEC_PER_SEC)
    extent_count := u32 number_of_extents
    extent_offset := L.extent_offset
    extent_trailer_offset := L.extent_offset_trailer
    metric_count := u32 number_of_metrics
    metric_offset := L.metrics_offset
    metric_trailer_offset := L.metric_offset_trailer
    page_count := u32 number_of_pages
    page_offset := L.pages_offset
    total_file_size := u32 L.total_file_size
    original_file_size := u32 journalfile_pos
    data := 0 }

/-- What `do_migrate_to_v2_callback` leaves behind: the bytes of the v2
file, the pair `(journal_data, journal_data_size)` it published on the
journal file (`none` when it published nothing), and what it added to
`ctx->disk_space` and to the `fs_errors` counters. -/
structure migrate_result where
  file : List Nat
  journal_data : Option (List Nat × Nat)
  disk_space : Nat
  fs_errors : Nat
deriving DecidableEq, Repr

/-- The migrator. `mapping` is the content of the region `netdata_mmap`
returns for the new file (its length must be the requested
`total_file_size`), `truncate_ok` tells whether the `truncate` of the abort
path succeeds, and `journalfile_pos` is `journalfile->pos`. -/
def do_migrate_to_v2_callback (K : Consts) (mapping : List Nat) (truncate_ok : Bool)
    (journalfile_pos : Nat)
    (JudyL_metrics : List jv2_metrics_info) (JudyL_extents_pos : List jv2_extents_info)
    (number_of_extents number_of_metrics number_of_pages : Nat) : Option migrate_result :=
  let L := compute_layout K number_of_extents number_of_metrics number_of_pages
  if mapping.length ≠ L.total_file_size then none
  else do
    -- memset(data_start, 0, extent_offset)
    let img ← mem_write mapping 0 (List.replicate L.extent_offset 0)
    -- Write list of extents
    let img ← journal_v2_write_extent_list JudyL_extents_pos img L.extent_offset
    let data := L.extent_offset + JudyL_extents_pos.length * sizeof_journal_extent_list
    -- fatal_assert(data == data_start + extent_offset_trailer)
    if data ≠ L.extent_offset_trailer then none
    else do
      -- Calculate CRC for extents
      let buf ← mem_read img L.extent_offset (number_of_extents * sizeof_journal_extent_list)
      let img ← crc32set img L.extent_offset_trailer (crc32 0 buf)
      let data := data + sizeof_journal_v2_block_trailer
      -- fatal_assert(data == data_start + metrics_offset)
      if data ≠ L.metrics_offset then none
      -- fatal_assert(count < number_of_metrics) and use of the whole uuid_list
      else if JudyL_metrics.length ≠ number_of_metrics then none
      else do
        let j2_header := migration_header K journalfile_pos JudyL_metrics
          number_of_extents number_of_metrics number_of_pages
        let uuid_list := qsort_uuid_list JudyL_metrics
        let st ← migrate_metrics K j2_header uuid_list
          { img := img, data := some data, pages_offset := L.pages_offset }
        if st.data = some L.metric_offset_trailer then do
          -- Calculate CRC for metrics
          let buf ← mem_read st.img L.metrics_offset
            (number_of_metrics * sizeof_journal_metric_list)
          let img ← crc32set st.img L.metric_offset_trailer (crc32 0 buf)
          -- Prepare to write checksum for the file
          let img ← crc32set img L.trailer_offset (crc32 0 j2_header.bytes)
          -- Write header to the file
          let img ← mem_write img 0 j2_header.bytes
          some { file := img, journal_data := some (img, L.total_file_size),
                 disk_space := L.total_file_size, fs_errors := 0 }
        else do
          let skip_header := { j2_header with magic := K.JOURVAL_V2_SKIP_MAGIC }
          let img ← mem_write st.img 0 skip_header.bytes
          let resize_file_to := u32 sizeof_journal_v2_header
          if resize_file_to = L.total_file_size then
            some { file := img, journal_data := none, disk_space := 0, fs_errors := 0 }
          else if truncate_ok then
            some { file := img.take resize_file_to, journal_data := none,
                   disk_space := sizeof_journal_v2_header, fs_errors := 0 }
          else
            some { file := img, journal_data := none,
                   disk_space := L.total_file_size, fs_errors := 1 }

/-! ## The loader -/

/-- The `MRG_ENTRY` of metric.h (without its `section`). -/
structure MRG_ENTRY where
  uuid : List Nat
  first_time_s : Int
  last_time_s : Int
  latest_update_every_s : Nat
deriving DecidableEq, Repr

/-- What `update_metric_retention_and_granularity_by_uuid` hands to the
registry: the entry of `mrg_metric_add_and_acquire` and the arguments
`(first_time_s, last_time_s, update_every_s)` of
`mrg_metric_expand_retention`, which is called when the metric was not
added. -/
structure retention_update where
  entry : MRG_ENTRY
  expand_first_time_s : Int
  expand_last_time_s : Int
  expand_update_every_s : Int
deriving DecidableEq, Repr

/-- The helper that clamps the retention of a metric and feeds the
registry. -/
def update_metric_retention_and_granularity_by_uuid (uuid : List Nat)
    (first_time_s last_time_s update_every_s now_s : Int) : retention_update :=
  let last_time_s := if last_time_s > now_s then now_s else last_time_s
  let first_time_s := if first_time_s > last_time_s then last_time_s else first_time_s
  { entry :=
      { uuid := uuid, first_time_s := first_time_s, last_time_s := last_time_s,
        latest_update_every_s := u32 (int_to_u64 update_every_s) }
    expand_first_time_s := first_time_s
    expand_last_time_s := last_time_s
    expand_update_every_s := update_every_s }

/-- The arguments `(uuid, start_time_s, end_time_s, update_every_s)` that one
iteration of the loop of `load_journal_file_v2` computes for the metric list
entry at offset `metric`; `entries` is the local of that name. A division by
zero does not return. -/
def load_metric_entry (data_start : List Nat) (header_start_time_s : Int) (entries : Nat)
    (metric : Nat) : Option (List Nat × Int × Int × Int) := do
  let delta_start_s ← read_le data_start (metric + 24) 4
  let delta_end_s ← read_le data_start (metric + 28) 4
  let metric_entries ← read_le data_start (metric + 16) 4
  let start_time_s := header_start_time_s + (delta_start_s : Int)
  let end_time_s := header_start_time_s + (delta_end_s : Int)
  let update_every_s ←
    (if metric_entries > 1 then
      if u32 (entries + 2 ^ 32 - 1) = 0 then none
      else some (Int.tdiv (end_time_s - start_time_s) ((u32 (entries + 2 ^ 32 - 1) : Nat) : Int))
     else some 0)
  let uuid ← mem_read data_start metric 16
  some (uuid, start_time_s, end_time_s, update_every_s)

/-- The loop `for (i = 0; i < entries; i++)` of `load_journal_file_v2`, with
`remaining` iterations left and `metric` the offset of the current entry. -/
def load_metric_list (data_start : List Nat) (header_start_time_s now_s : Int) (entries : Nat) :
    Nat → Nat → Option (List retention_update)
  | 0, _ => some []
  | remaining + 1, metric => do
    let (uuid, start_time_s, end_time_s, update_every_s) ←
      load_metric_entry data_start header_start_time_s entries metric
    let upd := update_metric_retention_and_granularity_by_uuid uuid start_time_s end_time_s
      update_every_s now_s
    let rest ← load_metric_list data_start header_start_time_s now_s entries remaining
      (metric + sizeof_journal_metric_list)
    some (upd :: rest)

/-- What `open` and `mmap` give for the v2 file. -/
inductive v2_file where
  | enoent
  | open_failed
  | fstat_failed
  | mmap_failed (file_size : Nat)
  | mapped (data_start : List Nat)
deriving DecidableEq, Repr

/-- What `load_journal_file_v2` does: its return value, the pair
`(journal_data, journal_data_size)` it stores on the journal file (`none`
when it stores nothing), what it adds to `fs_errors`, and the registry
updates in order. -/
structure load_result where
  rc : Nat
  journal_data : Option (List Nat × Nat)
  fs_errors : Nat
  updates : List retention_update
deriving DecidableEq, Repr

/-- The loader of a v2 file. `v1_size` is the `st_size` of the v1 journal
when `stat` succeeds, `now_s` is `now_realtime_sec()`. -/
def load_journal_file_v2 (K : Consts) (db_engine_journal_check : Bool)
    (v1_size : Option Nat) (v2 : v2_file) (now_s : Int) : Option load_result :=
  let original_file_size :=
    match v1_size with
    | some st_size => u32 st_size
    | none => 0
  match v2 with
  | .enoent => some { rc := 1, journal_data := none, fs_errors := 0, updates := [] }
  | .open_failed => some { rc := 1, journal_data := none, fs_errors := 1, updates := [] }
  | .fstat_failed => some { rc := 1, journal_data := none, fs_errors := 0, updates := [] }
  | .mmap_failed _ => some { rc := 1, journal_data := none, fs_errors := 0, updates := [] }
  | .mapped data_start =>
    let file_size := data_start.length
    if file_size < sizeof_journal_v2_header then
      some { rc := 1, journal_data := none, fs_errors := 0, updates := [] }
    else do
      let rc ← check_journal_v2_file K db_engine_journal_check data_start file_size
        original_file_size
      if rc ≠ 0 then
        some { rc := rc, journal_data := none, fs_errors := 0, updates := [] }
      else do
        let entries ← read_le data_start 36 4
        if entries = 0 then
          some { rc := 1, journal_data := none, fs_errors := 0, updates := [] }
        else do
          let metric_offset ← read_le data_start 40 4
          let start_time_ut ← read_le data_start 8 8
          let header_start_time_s := u64_to_time (start_time_ut / USEC_PER_SEC)
          let updates ← load_metric_list data_start header_start_time_s now_s entries
            entries metric_offset
          some { rc := 0, journal_data := some (data_start, file_size), fs_errors := 0,
                 updates := updates }

/-! ## Loading a v1 journal: the file position -/

/-- Modelled from the spec: `RRDENG_BLOCK_SIZE` of rrddiskprotocol.h, the
4 KiB block. -/
def RRDENG_BLOCK_SIZE : Nat := 4096

/-- Modelled from the spec: `ALIGN_BYTES_FLOOR` of rrdenginelib.h, the block
boundary at or below `x`. -/
def ALIGN_BYTES_FLOOR (x : Nat) : Nat := (x / RRDENG_BLOCK_SIZE) * RRDENG_BLOCK_SIZE

/-- The `journalfile->pos` that `load_journal_file` sets for a v1 journal of
`file_size` bytes before it replays it and hands it to the migrator:
`file_size = ALIGN_BYTES_FLOOR(file_size); journalfile->pos = file_size`. -/
def load_journal_file_pos (file_size : Nat) : Nat := ALIGN_BYTES_FLOOR file_size

/-! ## Concrete inputs used to evaluate the embedding -/

/-- The constants of journalfile.h in the upstream repository: the magic
numbers `0x01221019`, `0x00221019` (rebuild), `0x02221019` (skip); the header
is padded to one block of 4096 bytes; `crc` and `checksum` share the same
four bytes of the page header. -/
def upstream_consts : Consts :=
  { JOURVAL_V2_MAGIC := 0x01221019, JOURVAL_V2_REBUILD_MAGIC := 0x00221019,
    JOURVAL_V2_SKIP_MAGIC := 0x02221019, JOURNAL_V2_HEADER_PADDING_SZ := 4096 - 72,
    PAGE_HEADER_CRC := 24, PAGE_HEADER_CHECKSUM := 24 }

/-- The upstream magic numbers with a header padding of 8 bytes, which keeps
the example files short. -/
def example_consts : Consts := { upstream_consts with JOURNAL_V2_HEADER_PADDING_SZ := 8 }

/-- A page of one minute that starts at `start_time_s`. -/
def example_page (start_time_s : Int) : jv2_page_info :=
  { start_time_s := start_time_s, end_time_s := start_time_s + 59, update_every_s := 1,
    page_length := 240, extent_index := 0, custom_data := none }

/-- Three metrics with one, two and one page; their identifiers differ in
the first byte. -/
def example_metrics : List jv2_metrics_info :=
  [ { uuid := [2, 2, 3, 4, 5, 6, 7, 8, 9, 10, 11, 12, 13, 14, 15, 16],
      first_time_s := 1000, last_time_s := 1059, number_of_pages := 1,
      JudyL_pages_by_start_time := [example_page 1000] },
    { uuid := [1, 2, 3, 4, 5, 6, 7, 8, 9, 10, 11, 12, 13, 14, 15, 16],
      first_time_s := 1000, last_time_s := 1119, number_of_pages := 2,
      JudyL_pages_by_start_time := [example_page 1000, example_page 1060] },
    { uuid := [3, 2, 3, 4, 5, 6, 7, 8, 9, 10, 11, 12, 13, 14, 15, 16],
      first_time_s := 1060, last_time_s := 1119, number_of_pages := 1,
      JudyL_pages_by_start_time := [example_page 1060] } ]

/-- One extent holding the four pages. -/
def example_extents : List jv2_extents_info :=
  [ { index := 0, pos := 0, bytes := 4096, number_of_pages := 4 } ]

/-- A fresh mapping of the size the example migration asks for. -/
def example_mapping : List Nat :=
  List.replicate (compute_layout example_consts 1 3 4).total_file_size 0

/-- The migration of the example indices for a v1 journal whose
`journalfile->pos` is `journalfile_pos`, into a fresh (zeroed) mapping. -/
def example_migration (journalfile_pos : Nat) : Option migrate_result :=
  do_migrate_to_v2_callback example_consts example_mapping true
    journalfile_pos example_metrics example_extents 1 3 4

/-! ## Frame conditions -/

/-- The mapping `img'` is the mapping `img` with bytes changed at most at
the offsets of `[lo, hi)`. -/
def modified_within (lo hi : Nat) (img img' : List Nat) : Prop :=
  img'.length = img.length ∧ ∀ i, (i < lo ∨ hi ≤ i) → img'[i]? = img[i]?

/-- The bytes of the metric list entry that `journal_v2_write_metric_page`
stores for `metric_info` when its page block is at `pages_offset`. -/
def metric_entry_bytes (j2_header : journal_v2_header) (metric_info : jv2_metrics_info)
    (pages_offset : Nat) : List Nat :=
  uuid_bytes metric_info.uuid ++ le_bytes 4 metric_info.number_of_pages ++
  le_bytes 4 pages_offset ++
  le_bytes 4 (delta_s metric_info.first_time_s j2_header.start_time_ut) ++
  le_bytes 4 (delta_s metric_info.last_time_s j2_header.start_time_ut)

/-- The first 24 bytes (`uuid`, `entries`, `uuid_offset`) of the page header
that `journal_v2_write_data_page_header` stores for `metric_info`. -/
def page_header_bytes (metric_info : jv2_metrics_info) (uuid_offset : Nat) : List Nat :=
  uuid_bytes metric_info.uuid ++ le_bytes 4 metric_info.number_of_pages ++
  le_bytes 4 uuid_offset

/-- The offsets of consecutive page blocks, the first at `pages_offset`: the
block of a metric takes a page header, `entries` page list entries and a
trailer, `entries` being its 32-bit page count. -/
def page_offsets (pages_offset : Nat) : List jv2_metrics_info → List Nat
  | [] => []
  | metric_info :: rest =>
    pages_offset ::
      page_offsets (pages_offset + 36 + 20 * (metric_info.number_of_pages % 2 ^ 32)) rest

/-- The facts about a file that `do_migrate_to_v2_callback` published. -/
structure published_file (K : Consts) (journalfile_pos : Nat)
    (JudyL_metrics : List jv2_metrics_info) (ne nm np : Nat) (file : List Nat) : Prop where
  length_eq : file.length = (compute_layout K ne nm np).total_file_size
  header : mem_read file 0 72 = some (migration_header K journalfile_pos JudyL_metrics ne nm np).bytes
  file_trailer : read_le file (compute_layout K ne nm np).trailer_offset 4 =
    some (crc32 0 (migration_header K journalfile_pos JudyL_metrics ne nm np).bytes)
  extents : ∃ buf, mem_read file (compute_layout K ne nm np).extent_offset (ne * 24) = some buf ∧
    read_le file (compute_layout K ne nm np).extent_offset_trailer 4 = some (crc32 0 buf)
  metrics : ∃ buf, mem_read file (compute_layout K ne nm np).metrics_offset (nm * 32) = some buf ∧
    read_le file (compute_layout K ne nm np).metric_offset_trailer 4 = some (crc32 0 buf)
  count : JudyL_metrics.length = nm
  entries : ∀ i m po, (qsort_uuid_list JudyL_metrics)[i]? = some m →
    (page_offsets (compute_layout K ne nm np).pages_offset (qsort_uuid_list JudyL_metrics))[i]? =
      some po →
    mem_read file ((compute_layout K ne nm np).metrics_offset + 32 * i) 32 =
      some (metric_entry_bytes (migration_header K journalfile_pos JudyL_metrics ne nm np) m po) ∧
    mem_read file po 24 =
      some (page_header_bytes m (u32 ((compute_layout K ne nm np).metrics_offset + 32 * i)))

/-- The result of the example migration for a v1 journal that is two blocks
long. -/
def example_result : migrate_result :=
  match example_migration 8192 with
  | some r => r
  | none => { file := [], journal_data := none, disk_space := 0, fs_errors := 0 }

/-- A header whose start second is 1000. -/
def example_header : journal_v2_header :=
  migration_header example_consts 8192 example_metrics 1 3 4

/-- A metric with a well-formed identifier and the retention `[1000, 1059]`. -/
def example_metric : jv2_metrics_info :=
  { uuid := [2, 2, 3, 4, 5, 6, 7, 8, 9, 10, 11, 12, 13, 14, 15, 16],
    first_time_s := 1000, last_time_s := 1059, number_of_pages := 1,
    JudyL_pages_by_start_time := [example_page 1000] }

/-! ## The CRC-32 register as a polynomial modulo the generator

One step of `crc32_shift` multiplies the register, read as a polynomial over
the two-element field (bit 31 is the coefficient of degree 0), by the
indeterminate modulo the generator polynomial. -/

/-- The register that holds the polynomial 1. -/
def gf_one : Nat := 2 ^ 31

/-- The sum of the first `n` terms of the product of the polynomial in `u`
and the register `w`: the coefficient of degree `i` of `u` contributes `w`
shifted `i` times. -/
def gf_mul_upto (u w : Nat) : Nat → Nat
  | 0 => 0
  | n + 1 => gf_mul_upto u w n ^^^ (if u.testBit (31 - n) then crc32_shift^[n] w else 0)

/-- The product of two registers modulo the generator polynomial. -/
def gf_mul (u w : Nat) : Nat := gf_mul_upto u w 32

/-- Square and multiply: `acc * base ^ n` for `n < 2 ^ fuel`. -/
def gf_pow_aux : Nat → Nat → Nat → Nat → Nat
  | 0, _, _, acc => acc
  | fuel + 1, n, base, acc =>
    if n = 0 then acc
    else gf_pow_aux fuel (n / 2) (gf_mul base base) (if n % 2 = 1 then gf_mul acc base else acc)

/-- The register that holds the indeterminate to the power `n`. -/
def gf_x_pow (n : Nat) : Nat := gf_pow_aux 33 n (crc32_shift gf_one) gf_one

/-- A header that declares one extent list entry at offset 0, so that the
extent list is the first 24 bytes of the header itself, and no metric. -/
def overlapping_header : journal_v2_header :=
  { magic := 0x01221019, start_time_ut := 0, end_time_ut := 0, extent_count := 1,
    extent_offset := 0, extent_trailer_offset := 72, metric_count := 0, metric_offset := 76,
    metric_trailer_offset := 76, page_count := 0, page_offset := 80, total_file_size := 84,
    original_file_size := 8192, data := 0 }

/-- The image of 84 bytes made of `overlapping_header`, the extent trailer,
the metric trailer and the file trailer, each holding the CRC-32 of the bytes
that the validator hashes for it. -/
def overlapping_image : List Nat :=
  overlapping_header.bytes ++ le_bytes 4 (crc32 0 (overlapping_header.bytes.take 24)) ++
    le_bytes 4 (crc32 0 []) ++ le_bytes 4 (crc32 0 overlapping_header.bytes)

/-- A header that declares `2 ^ 29` extent list entries at offset 72 of a
file of 100 bytes: the length of the list, `2 ^ 29 * 24 = 3 * 2 ^ 32` bytes,
is 0 in the 32-bit `uInt len` that `crc32` receives. -/
def long_list_header : journal_v2_header :=
  { magic := 0x01221019, start_time_ut := 0, end_time_ut := 0, extent_count := 2 ^ 29,
    extent_offset := 72, extent_trailer_offset := 88, metric_count := 0, metric_offset := 72,
    metric_trailer_offset := 92, page_count := 0, page_offset := 96, total_file_size := 100,
    original_file_size := 8192, data := 0 }

/-- The image of 100 bytes made of `long_list_header`, 16 zero bytes, the
extent trailer, the metric trailer and the file trailer, each holding the
CRC-32 of the bytes that the validator hashes for it. -/
def long_list_image : List Nat :=
  long_list_header.bytes ++ List.replicate 16 0 ++ le_bytes 4 (crc32 0 []) ++
    le_bytes 4 (crc32 0 []) ++ le_bytes 4 (crc32 0 long_list_header.bytes)

/-! ## The v1 journal: on-disk records and the interfaces replay calls -/

/-- Constants and record layouts of rrddiskprotocol.h, which is not among
the sources: the transaction type tags, the largest page type,
`sizeof(struct rrdeng_jf_sb)`, the size of `struct
rrdeng_jf_transaction_header` with the offsets of its members `type` (one
byte), `id` (`uint64_t`) and `payload_length` (an unsigned member of
`JF_HEADER_PAYLOAD_LENGTH_SZ` bytes), the size of `struct
rrdeng_jf_transaction_trailer` (its `checksum` comes first), the size of the
fixed part of `struct rrdeng_jf_store_data` with the offsets of
`extent_offset` (`uint64_t`), `extent_size` (`uint32_t`) and
`number_of_pages` (one byte), and the size of `struct
rrdeng_extent_page_descr` with the offsets of `type` (one byte), `uuid` and
`page_length` (`uint32_t`). They are parameters of the embedding. -/
structure Protocol where
  STORE_PADDING : Nat
  STORE_DATA : Nat
  PAGE_TYPE_MAX : Nat
  sizeof_rrdeng_jf_sb : Nat
  sizeof_jf_transaction_header : Nat
  JF_HEADER_TYPE : Nat
  JF_HEADER_ID : Nat
  JF_HEADER_PAYLOAD_LENGTH : Nat
  JF_HEADER_PAYLOAD_LENGTH_SZ : Nat
  sizeof_jf_transaction_trailer : Nat
  sizeof_jf_store_data : Nat
  JF_STORE_EXTENT_OFFSET : Nat
  JF_STORE_EXTENT_SIZE : Nat
  JF_STORE_NUMBER_OF_PAGES : Nat
  sizeof_extent_page_descr : Nat
  DESCR_TYPE : Nat
  DESCR_UUID : Nat
  DESCR_PAGE_LENGTH : Nat
deriving DecidableEq, Repr

/-- The members lie inside their records, `payload_length` is at most 32
bits wide, the trailer holds the 4-byte checksum, and the largest store-data
payload (255 descriptors) is below `2 ^ 32` bytes. -/
def Protocol.WF (P : Protocol) : Prop :=
  P.JF_HEADER_TYPE + 1 ≤ P.sizeof_jf_transaction_header ∧
  P.JF_HEADER_ID + 8 ≤ P.sizeof_jf_transaction_header ∧
  P.JF_HEADER_PAYLOAD_LENGTH + P.JF_HEADER_PAYLOAD_LENGTH_SZ ≤ P.sizeof_jf_transaction_header ∧
  P.JF_HEADER_PAYLOAD_LENGTH_SZ ≤ 4 ∧
  4 ≤ P.sizeof_jf_transaction_trailer ∧
  P.JF_STORE_EXTENT_OFFSET + 8 ≤ P.sizeof_jf_store_data ∧
  P.JF_STORE_EXTENT_SIZE + 4 ≤ P.sizeof_jf_store_data ∧
  P.JF_STORE_NUMBER_OF_PAGES + 1 ≤ P.sizeof_jf_store_data ∧
  P.DESCR_TYPE + 1 ≤ P.sizeof_extent_page_descr ∧
  P.DESCR_UUID + 16 ≤ P.sizeof_extent_page_descr ∧
  P.DESCR_PAGE_LENGTH + 4 ≤ P.sizeof_extent_page_descr ∧
  P.sizeof_jf_store_data + P.sizeof_extent_page_descr * 255 < 2 ^ 32

instance (P : Protocol) : Decidable P.WF := by unfold Protocol.WF; infer_instance

/-- `READAHEAD_BYTES`. -/
def READAHEAD_BYTES : Nat := RRDENG_BLOCK_SIZE * 256

/-- The `VALIDATED_PAGE_DESCRIPTOR` of rrdengine.h. -/
structure VALIDATED_PAGE_DESCRIPTOR where
  start_time_s : Int
  end_time_s : Int
  update_every_s : Int
  page_length : Nat
  point_size : Nat
  entries : Nat
  type : Nat
  data_on_disk_valid : Bool
deriving DecidableEq, Repr

/-- The arguments of `pgc_open_add_hot_page` that vary within one journal
file (the section `ctx` and the datafile are the same for all calls). -/
structure hot_page where
  metric_id : Nat
  start_time_s : Int
  end_time_s : Int
  update_every_s : Int
  extent_offset : Nat
  extent_size : Nat
  page_length : Nat
deriving DecidableEq, Repr

/-- The calls that replay makes into the metrics registry and the open
cache, with their arguments. A `METRIC *` is a handle; `none` is `NULL`. -/
inductive external_call where
  | mrg_metric_get_and_acquire (uuid : List Nat)
  | mrg_metric_add_and_acquire (entry : MRG_ENTRY)
  | mrg_metric_expand_retention (metric : Nat) (first_time_s last_time_s update_every_s : Int)
  | pgc_open_add_hot_page (page : hot_page)
  | mrg_metric_release (metric : Option Nat)
deriving DecidableEq, Repr

/-- The functions of the registry (metric.h), of the open cache and of the
page validation that `restore_extent_metadata` calls; their code is not among
the sources, so they are parameters: `σ` is the state of the registry and the
cache. `validate_extent_page_descr` receives the bytes of the descriptor,
`now_s`, `overwrite_zero_update_every_s` and `have_read_error`;
`mrg_metric_add_and_acquire` returns the handle and the flag `added`. -/
structure Externals (σ : Type) where
  validate_extent_page_descr : List Nat → Int → Int → Bool → VALIDATED_PAGE_DESCRIPTOR
  mrg_metric_get_and_acquire : σ → List Nat → Option Nat × σ
  mrg_metric_get_update_every_s : σ → Nat → Int
  mrg_metric_add_and_acquire : σ → MRG_ENTRY → (Nat × Bool) × σ
  mrg_metric_id : σ → Nat → Nat
  mrg_metric_expand_retention : σ → Nat → Int → Int → Int → σ
  pgc_open_add_hot_page : σ → hot_page → σ
  mrg_metric_release : σ → Option Nat → σ

/-! ## Replay of a v1 journal -/

/-- The part of one iteration of the loop of `restore_extent_metadata` that
follows a successful validation: the metric is added when it was not found,
its retention is expanded unless it was just added, the hot page is
registered and the metric is released. `descr` is the offset of
`jf_metric_data->descr[i]` and `buf` the offset of `jf_metric_data`. -/
def restore_valid_descr {σ : Type} (P : Protocol) (E : Externals σ) (mem : List Nat)
    (buf descr : Nat) (temp_id : List Nat) (vd : VALIDATED_PAGE_DESCRIPTOR)
    (metric : Option Nat) (st : σ) : Option (σ × List external_call) :=
  let entry : MRG_ENTRY :=
    { uuid := temp_id, first_time_s := vd.start_time_s, last_time_s := vd.end_time_s,
      latest_update_every_s := u32 (int_to_u64 vd.update_every_s) }
  let acquired : (Nat × Bool) × σ × List external_call :=
    match metric with
    | some m => ((m, true), st, [])
    | none =>
      (((E.mrg_metric_add_and_acquire st entry).1.1,
          !(E.mrg_metric_add_and_acquire st entry).1.2),
        (E.mrg_metric_add_and_acquire st entry).2,
        [external_call.mrg_metric_add_and_acquire entry])
  let m := acquired.1.1
  let update_metric_time := acquired.1.2
  let st1 := acquired.2.1
  let metric_id := E.mrg_metric_id st1 m
  let st2 :=
    if update_metric_time then
      E.mrg_metric_expand_retention st1 m vd.start_time_s vd.end_time_s vd.update_every_s
    else st1
  let expand : List external_call :=
    if update_metric_time then
      [external_call.mrg_metric_expand_retention m vd.start_time_s vd.end_time_s
        vd.update_every_s]
    else []
  (read_le mem (buf + P.JF_STORE_EXTENT_OFFSET) 8).bind (fun extent_offset =>
  (read_le mem (buf + P.JF_STORE_EXTENT_SIZE) 4).bind (fun extent_size =>
  (read_le mem (descr + P.DESCR_PAGE_LENGTH) 4).bind (fun page_length =>
    let page : hot_page :=
      { metric_id := metric_id, start_time_s := vd.start_time_s, end_time_s := vd.end_time_s,
        update_every_s := vd.update_every_s, extent_offset := extent_offset,
        extent_size := extent_size, page_length := page_length }
    some (E.mrg_metric_release (E.pgc_open_add_hot_page st2 page) (some m),
      [external_call.mrg_metric_get_and_acquire temp_id] ++ acquired.2.2 ++ expand ++
        [external_call.pgc_open_add_hot_page page,
         external_call.mrg_metric_release (some m)]))))

/-- One iteration of the loop of `restore_extent_metadata`, for the
descriptor `i`: the new state and the calls made, in order. The messages
about unknown page types (and the bitmap that limits them to one per type)
are not part of the embedding. -/
def restore_extent_descr {σ : Type} (P : Protocol) (E : Externals σ) (now_s : Int)
    (mem : List Nat) (buf i : Nat) (st : σ) : Option (σ × List external_call) :=
  let descr := buf + P.sizeof_jf_store_data + i * P.sizeof_extent_page_descr
  (read_le mem (descr + P.DESCR_TYPE) 1).bind (fun page_type =>
    if page_type > P.PAGE_TYPE_MAX then some (st, [])
    else
      (mem_read mem (descr + P.DESCR_UUID) 16).bind (fun temp_id =>
      (mem_read mem descr P.sizeof_extent_page_descr).bind (fun descr_bytes =>
        let metric := (E.mrg_metric_get_and_acquire st temp_id).1
        let st1 := (E.mrg_metric_get_and_acquire st temp_id).2
        let vd := E.validate_extent_page_descr descr_bytes now_s
          (match metric with
            | some m => E.mrg_metric_get_update_every_s st1 m
            | none => 0) false
        if !vd.data_on_disk_valid then
          some (E.mrg_metric_release st1 metric,
            [external_call.mrg_metric_get_and_acquire temp_id,
             external_call.mrg_metric_release metric])
        else restore_valid_descr P E mem buf descr temp_id vd metric st1)))

/-- The loop `for (i = 0; i < count; ++i)` of `restore_extent_metadata`,
with `remaining = count - i` iterations left. -/
def restore_extent_descrs {σ : Type} (P : Protocol) (E : Externals σ) (now_s : Int)
    (mem : List Nat) (buf : Nat) : Nat → Nat → σ → Option (σ × List external_call)
  | 0, _, st => some (st, [])
  | remaining + 1, i, st =>
    (restore_extent_descr P E now_s mem buf i st).bind (fun r =>
    (restore_extent_descrs P E now_s mem buf remaining (i + 1) r.1).bind (fun r' =>
      some (r'.1, r.2 ++ r'.2)))

/-- The function `restore_extent_metadata`: `mem` is the readable memory,
`buf` the offset of the payload in it, `now_s` the value of
`now_realtime_sec()`. The result is the new state of the registry and the
cache and the calls made, in order. -/
def restore_extent_metadata {σ : Type} (P : Protocol) (E : Externals σ) (now_s : Int)
    (mem : List Nat) (buf max_size : Nat) (st : σ) : Option (σ × List external_call) :=
  (read_le mem (buf + P.JF_STORE_NUMBER_OF_PAGES) 1).bind (fun count =>
    let descr_size := u32 (P.sizeof_extent_page_descr * count)
    let payload_length := u32 (P.sizeof_jf_store_data + descr_size)
    if payload_length > max_size then some (st, [])
    else restore_extent_descrs P E now_s mem buf count 0 st)

/-- What a call of `replay_transaction` leaves: the value returned, the
value stored in `*id`, the calls made by `restore_extent_metadata` (`none`
when it was not invoked) and the state of the registry and the cache. -/
structure replay_result (σ : Type) where
  ret : Nat
  id : Nat
  restored : Option (List external_call)
  state : σ
deriving DecidableEq, Repr

/-- Replays transaction by interpreting up to `max_size` bytes from `buf`,
an offset into the readable memory `mem`. Sets `id` to the current
transaction id or to 0 if unknown. Returns size of transaction record or 0
for unknown size. -/
def replay_transaction {σ : Type} (P : Protocol) (E : Externals σ) (now_s : Int)
    (mem : List Nat) (buf max_size : Nat) (st : σ) : Option (replay_result σ) :=
  (read_le mem (buf + P.JF_HEADER_TYPE) 1).bind (fun type =>
    if P.STORE_PADDING = type then some { ret := 0, id := 0, restored := none, state := st }
    else if P.sizeof_jf_transaction_header > max_size then
      some { ret := 0, id := 0, restored := none, state := st }
    else
      (read_le mem (buf + P.JF_HEADER_ID) 8).bind (fun id =>
      (read_le mem (buf + P.JF_HEADER_PAYLOAD_LENGTH) P.JF_HEADER_PAYLOAD_LENGTH_SZ).bind
        (fun payload_length =>
        let size_bytes := u32 (P.sizeof_jf_transaction_header + payload_length +
          P.sizeof_jf_transaction_trailer)
        if size_bytes > max_size then some { ret := 0, id := id, restored := none, state := st }
        else
          (mem_read mem buf (u32 (P.sizeof_jf_transaction_header + payload_length))).bind
            (fun record =>
          (crc32cmp mem (buf + P.sizeof_jf_transaction_header + payload_length)
            (crc32 0 record)).bind (fun ret =>
            if ret then some { ret := size_bytes, id := id, restored := none, state := st }
            else if type = P.STORE_DATA then
              (restore_extent_metadata P E now_s mem (buf + P.sizeof_jf_transaction_header)
                payload_length st).bind (fun r =>
                some { ret := size_bytes, id := id, restored := some r.2, state := r.1 })
            else some { ret := size_bytes, id := id, restored := none, state := st })))))

/-- Conversion of an `unsigned` value to `int` (two's complement): the
`int ret` of `iterate_transactions` receives the `unsigned` that
`replay_transaction` returns. -/
def unsigned_to_int (x : Nat) : Int :=
  if x % 2 ^ 32 < 2 ^ 31 then ((x % 2 ^ 32 : Nat) : Int) else ((x % 2 ^ 32 : Nat) : Int) - 2 ^ 32

/-- The chunk cursor after `replay_transaction` returned `ret` at the cursor
`pos_i`: unknown transaction size, move on to the next block; otherwise
`pos_i += ret`. -/
def next_pos_i (pos_i ret : Nat) : Nat :=
  if unsigned_to_int ret = 0 then ALIGN_BYTES_FLOOR (u64 (pos_i + RRDENG_BLOCK_SIZE))
  else int_to_u64 ((pos_i : Int) + unsigned_to_int ret)

/-- One call of `replay_transaction` made by `iterate_transactions`: the file
offset `pos` of the chunk, the chunk cursor `pos_i`, the offset `buf` in the
readable memory and the `max_size` passed, the size returned and the id
reported. -/
structure replay_record where
  pos : Nat
  pos_i : Nat
  buf : Nat
  max_size : Nat
  ret : Nat
  id : Nat
deriving DecidableEq, Repr

/-- What `iterate_transactions` leaves: the `max_id` it returns, the state
of the registry and the cache, the calls made into them, the calls of
`replay_transaction` in order, and what was added to `io_read_requests` and
`io_read_bytes`. -/
structure iterate_result (σ : Type) where
  max_id : Nat
  state : σ
  calls : List external_call
  replays : List replay_record
  io_read_requests : Nat
  io_read_bytes : Nat
deriving DecidableEq, Repr

/-- The loop `for (pos_i = 0; pos_i < size_bytes; )` over one chunk: `mem`
is the readable memory, `buf` the offset of the chunk in it and `pos` the
file offset of the chunk. The first argument bounds the number of
iterations; the result is `none` when it is used up. -/
def iterate_chunk {σ : Type} (P : Protocol) (E : Externals σ) (now_s : Int)
    (mem : List Nat) (buf pos size_bytes : Nat) :
    Nat → Nat → iterate_result σ → Option (iterate_result σ)
  | 0, pos_i, acc => if pos_i < size_bytes then none else some acc
  | fuel + 1, pos_i, acc =>
    if pos_i < size_bytes then
      (replay_transaction P E now_s mem (buf + pos_i) (u32 (u64 (pos + size_bytes - pos_i)))
        acc.state).bind (fun r =>
        iterate_chunk P E now_s mem buf pos size_bytes fuel (next_pos_i pos_i r.ret)
          { max_id := if acc.max_id > r.id then acc.max_id else r.id
            state := r.state
            calls := acc.calls ++ r.restored.getD []
            replays := acc.replays ++
              [{ pos := pos, pos_i := pos_i, buf := buf + pos_i,
                 max_size := u32 (u64 (pos + size_bytes - pos_i)), ret := r.ret, id := r.id }]
            io_read_requests := acc.io_read_requests
            io_read_bytes := acc.io_read_bytes })
    else some acc

/-- The loop `for (pos = sizeof(struct rrdeng_jf_sb); pos < file_size; pos
+= READAHEAD_BYTES)`. `journalfile_data` is the mapping of the journal
(`none` when `journalfile->data` is `NULL`); without a mapping each chunk is
read into the buffer `heap` by `uv_fs_read`, given here as the function from
the file offset and the length to the bytes read (`none` for an error, which
leaves the loop by `goto skip_file`). The first argument bounds the number
of chunks and `fuel` the iterations within one chunk. -/
def iterate_chunks {σ : Type} (P : Protocol) (E : Externals σ) (now_s : Int)
    (file_size : Nat) (journalfile_data : Option (List Nat))
    (uv_fs_read : Nat → Nat → Option (List Nat)) (fuel : Nat) :
    Nat → Nat → Nat → List Nat → iterate_result σ → Option (iterate_result σ)
  | 0, pos, _, _, acc => if pos < file_size then none else some acc
  | chunks + 1, pos, buf, heap, acc =>
    if pos < file_size then
      match journalfile_data with
      | none =>
        match uv_fs_read pos
            (u32 (if READAHEAD_BYTES < u64 (file_size - pos) then READAHEAD_BYTES
              else u64 (file_size - pos))) with
        | none => some acc
        | some bytes =>
          (iterate_chunk P E now_s
            (bytes.take (u32 (if READAHEAD_BYTES < u64 (file_size - pos) then READAHEAD_BYTES
                else u64 (file_size - pos))) ++
              heap.drop (bytes.take (u32 (if READAHEAD_BYTES < u64 (file_size - pos)
                then READAHEAD_BYTES else u64 (file_size - pos)))).length)
            buf pos
            (u32 (if READAHEAD_BYTES < u64 (file_size - pos) then READAHEAD_BYTES
              else u64 (file_size - pos)))
            fuel 0
            { acc with
              io_read_requests := acc.io_read_requests + 1
              io_read_bytes := acc.io_read_bytes +
                u32 (if READAHEAD_BYTES < u64 (file_size - pos) then READAHEAD_BYTES
                  else u64 (file_size - pos)) }).bind (fun acc' =>
            iterate_chunks P E now_s file_size journalfile_data uv_fs_read fuel chunks
              (u64 (pos + READAHEAD_BYTES)) buf
              (bytes.take (u32 (if READAHEAD_BYTES < u64 (file_size - pos) then READAHEAD_BYTES
                  else u64 (file_size - pos))) ++
                heap.drop (bytes.take (u32 (if READAHEAD_BYTES < u64 (file_size - pos)
                  then READAHEAD_BYTES else u64 (file_size - pos)))).length)
              acc')
      | some data =>
        (iterate_chunk P E now_s data buf pos
          (u32 (if READAHEAD_BYTES < u64 (file_size - pos) then READAHEAD_BYTES
            else u64 (file_size - pos)))
          fuel 0 acc).bind (fun acc' =>
          iterate_chunks P E now_s file_size journalfile_data uv_fs_read fuel chunks
            (u64 (pos + READAHEAD_BYTES))
            (buf + u32 (if READAHEAD_BYTES < u64 (file_size - pos) then READAHEAD_BYTES
              else u64 (file_size - pos)))
            heap acc')
    else some acc

/-- Iterates journal file transactions and populates the page cache.
Returns the maximum transaction id it discovered. `journalfile_pos` is
`journalfile->pos`, `journalfile_data` the mapping `journalfile->data`,
`heap` the content of the buffer that `posix_memalign` returns when there is
no mapping, and `fuel` bounds the number of chunks and the iterations within
each chunk. -/
def iterate_transactions {σ : Type} (P : Protocol) (E : Externals σ) (now_s : Int)
    (journalfile_pos : Nat) (journalfile_data : Option (List Nat)) (heap : List Nat)
    (uv_fs_read : Nat → Nat → Option (List Nat)) (fuel : Nat) (st : σ) :
    Option (iterate_result σ) :=
  iterate_chunks P E now_s journalfile_pos journalfile_data uv_fs_read fuel fuel
    P.sizeof_rrdeng_jf_sb
    (match journalfile_data with
      | none => 0
      | some _ => P.sizeof_rrdeng_jf_sb)
    heap
    { max_id := 1, state := st, calls := [], replays := [], io_read_requests := 0,
      io_read_bytes := 0 }

/-! ## Concrete inputs for replay -/

/-- The layout of rrddiskprotocol.h in the upstream repository: packed
records; the transaction header is `{ type:u8, reserved:u32, id:u64,
payload_length:u16 }`, the store-data payload `{ extent_offset:u64,
extent_size:u32, number_of_pages:u8, descr[] }` and a page descriptor `{
type:u8, uuid[16], page_length:u32, start_time_ut:u64, end_time_ut:u64 }`;
the superblock fills one block. -/
def upstream_protocol : Protocol :=
  { STORE_PADDING := 0, STORE_DATA := 1, PAGE_TYPE_MAX := 1, sizeof_rrdeng_jf_sb := 4096,
    sizeof_jf_transaction_header := 15, JF_HEADER_TYPE := 0, JF_HEADER_ID := 5,
    JF_HEADER_PAYLOAD_LENGTH := 13, JF_HEADER_PAYLOAD_LENGTH_SZ := 2,
    sizeof_jf_transaction_trailer := 4, sizeof_jf_store_data := 13,
    JF_STORE_EXTENT_OFFSET := 0, JF_STORE_EXTENT_SIZE := 8, JF_STORE_NUMBER_OF_PAGES := 12,
    sizeof_extent_page_descr := 37, DESCR_TYPE := 0, DESCR_UUID := 1,
    DESCR_PAGE_LENGTH := 17 }

/-- A small registry used to evaluate replay: the state is the list of the
identifiers registered, a handle is a position in it, `metric_id` is the
handle plus one, every `update_every_s` is 0; the validation stand-in takes
the times of the descriptor in seconds, an update interval of 1 second when
nothing overrides it, and accepts the page when `0 < start ≤ end ≤ now`. -/
def example_externals : Externals (List (List Nat)) :=
  { validate_extent_page_descr := fun descr now_s overwrite_zero_update_every_s _ =>
      { start_time_s := (le_value ((descr.drop 21).take 8) / USEC_PER_SEC : Nat)
        end_time_s := (le_value ((descr.drop 29).take 8) / USEC_PER_SEC : Nat)
        update_every_s := if overwrite_zero_update_every_s = 0 then 1
          else overwrite_zero_update_every_s
        page_length := le_value ((descr.drop 17).take 4)
        point_size := 4
        entries := le_value ((descr.drop 17).take 4) / 4
        type := descr.getD 0 0
        data_on_disk_valid :=
          decide (0 < le_value ((descr.drop 21).take 8) / USEC_PER_SEC ∧
            le_value ((descr.drop 21).take 8) / USEC_PER_SEC ≤
              le_value ((descr.drop 29).take 8) / USEC_PER_SEC ∧
            ((le_value ((descr.drop 29).take 8) / USEC_PER_SEC : Nat) : Int) ≤ now_s) }
    mrg_metric_get_and_acquire := fun st uuid =>
      (if st.indexOf uuid < st.length then some (st.indexOf uuid) else none, st)
    mrg_metric_get_update_every_s := fun _ _ => 0
    mrg_metric_add_and_acquire := fun st entry =>
      if st.indexOf entry.uuid < st.length then ((st.indexOf entry.uuid, false), st)
      else ((st.length, true), st ++ [entry.uuid])
    mrg_metric_id := fun _ m => m + 1
    mrg_metric_expand_retention := fun st _ _ _ _ => st
    pgc_open_add_hot_page := fun st _ => st
    mrg_metric_release := fun st _ => st }

/-- A transaction record in the upstream layout: header, payload and the
trailer with the CRC-32 of header and payload. -/
def example_transaction (type id : Nat) (payload : List Nat) : List Nat :=
  [type] ++ le_bytes 4 0 ++ le_bytes 8 id ++ le_bytes 2 payload.length ++ payload ++
    le_bytes 4 (crc32 0 ([type] ++ le_bytes 4 0 ++ le_bytes 8 id ++
      le_bytes 2 payload.length ++ payload))

/-- A page descriptor in the upstream layout. -/
def example_descr (type : Nat) (uuid : List Nat) (page_length start_time_s end_time_s : Nat) :
    List Nat :=
  [type] ++ uuid_bytes uuid ++ le_bytes 4 page_length ++
    le_bytes 8 (start_time_s * USEC_PER_SEC) ++ le_bytes 8 (end_time_s * USEC_PER_SEC)

/-- A store-data payload in the upstream layout. -/
def example_store_data (extent_offset extent_size : Nat) (descrs : List (List Nat)) :
    List Nat :=
  le_bytes 8 extent_offset ++ le_bytes 4 extent_size ++ le_bytes 1 descrs.length ++
    descrs.flatten

/-- The identifier of the example metric. -/
def example_uuid : List Nat := [1, 2, 3, 4, 5, 6, 7, 8, 9, 10, 11, 12, 13, 14, 15, 16]

/-- The payload of one extent `{pos = 0, size = 4096}` with one page
`{uuid, start = 1000, end = 1059, type = 0, length = 240}`. -/
def example_payload : List Nat :=
  example_store_data 0 4096 [example_descr 0 example_uuid 240 1000 1059]

/-- A v1 journal of two blocks given by the records of its second block: the
superblock, the records, and zero bytes (the padding tag) up to the end of
the block. -/
def example_journal (records : List Nat) : List Nat :=
  List.replicate 4096 0 ++ records ++ List.replicate (4096 - records.length) 0

/-- The header of a store-data record with id 7 that announces a payload of
4100 bytes. -/
def oversized_record : List Nat := [1] ++ le_bytes 4 0 ++ le_bytes 8 7 ++ le_bytes 2 4100

/-- A journal whose second block holds the valid transaction 1 followed by a
record with id 99 in which one payload byte was changed after the checksum
was computed. -/
def corrupted_journal : List Nat :=
  example_journal (example_transaction 1 1 example_payload ++
    (example_transaction 1 99 example_payload).set 20 77)

/-- The calls `seg` that one descriptor accounts for, as the claims about
`restore_extent_metadata` state them: for the descriptor `i` of the payload
at `buf`, none when its page type is above `PAGE_TYPE_MAX`; the lookup and
the release only when its validation reports the data invalid; otherwise the
lookup, then registry insertions or retention expansions only, then one
`pgc_open_add_hot_page` with the validated `(start, end, update_every)`, the
`extent_offset` and `extent_size` of the record and the `page_length` of the
descriptor, then the release. -/
def descriptor_calls {σ : Type} (P : Protocol) (E : Externals σ) (now_s : Int)
    (mem : List Nat) (buf i : Nat) (seg : List external_call) : Prop :=
  ∃ page_type temp_id descr_bytes extent_offset extent_size page_length,
    read_le mem (buf + P.sizeof_jf_store_data + i * P.sizeof_extent_page_descr +
      P.DESCR_TYPE) 1 = some page_type ∧
    mem_read mem (buf + P.sizeof_jf_store_data + i * P.sizeof_extent_page_descr +
      P.DESCR_UUID) 16 = some temp_id ∧
    mem_read mem (buf + P.sizeof_jf_store_data + i * P.sizeof_extent_page_descr)
      P.sizeof_extent_page_descr = some descr_bytes ∧
    read_le mem (buf + P.JF_STORE_EXTENT_OFFSET) 8 = some extent_offset ∧
    read_le mem (buf + P.JF_STORE_EXTENT_SIZE) 4 = some extent_size ∧
    read_le mem (buf + P.sizeof_jf_store_data + i * P.sizeof_extent_page_descr +
      P.DESCR_PAGE_LENGTH) 4 = some page_length ∧
    (page_type > P.PAGE_TYPE_MAX → seg = []) ∧
    (page_type ≤ P.PAGE_TYPE_MAX →
      ∃ metric overwrite_zero_update_every_s,
        ((E.validate_extent_page_descr descr_bytes now_s overwrite_zero_update_every_s
            false).data_on_disk_valid = false →
          seg = [external_call.mrg_metric_get_and_acquire temp_id,
            external_call.mrg_metric_release metric]) ∧
        ((E.validate_extent_page_descr descr_bytes now_s overwrite_zero_update_every_s
            false).data_on_disk_valid = true →
          ∃ m metric_id pre,
            seg = [external_call.mrg_metric_get_and_acquire temp_id] ++ pre ++
              [external_call.pgc_open_add_hot_page
                { metric_id := metric_id
                  start_time_s := (E.validate_extent_page_descr descr_bytes now_s
                    overwrite_zero_update_every_s false).start_time_s
                  end_time_s := (E.validate_extent_page_descr descr_bytes now_s
                    overwrite_zero_update_every_s false).end_time_s
                  update_every_s := (E.validate_extent_page_descr descr_bytes now_s
                    overwrite_zero_update_every_s false).update_every_s
                  extent_offset := extent_offset, extent_size := extent_size,
                  page_length := page_length },
               external_call.mrg_metric_release (some m)] ∧
            ∀ c ∈ pre,
              (∃ entry, c = external_call.mrg_metric_add_and_acquire entry) ∨
              (∃ x a b d, c = external_call.mrg_metric_expand_retention x a b d)))

/-- The invariant of the scan of `iterate_transactions`: `max_id` is the
maximum of 1 and the ids of the calls of `replay_transaction` made so far,
and each recorded call is a call of `replay_transaction` that returned the
recorded size and id. -/
def scan_invariant {σ : Type} (P : Protocol) (E : Externals σ) (now_s : Int)
    (acc : iterate_result σ) : Prop :=
  acc.max_id = (acc.replays.map (fun c => c.id)).foldl max 1 ∧
  ∀ c ∈ acc.replays, ∃ mem st r,
    replay_transaction P E now_s mem c.buf c.max_size st = some r ∧
    r.ret = c.ret ∧ r.id = c.id

/-- A metric whose `number_of_pages` is 2 while its page index holds one
page: the cursor check after its page block fails. -/
def mismatched_metrics : List jv2_metrics_info :=
  [ { uuid := [2, 2, 3, 4, 5, 6, 7, 8, 9, 10, 11, 12, 13, 14, 15, 16],
      first_time_s := 1000, last_time_s := 1059, number_of_pages := 2,
      JudyL_pages_by_start_time := [example_page 1000] } ]

/-- The migration of `mismatched_metrics` (one extent, one metric, two pages
announced) into a fresh mapping; `truncate_ok` tells whether `truncate`
succeeds. -/
def aborted_migration (truncate_ok : Bool) : Option migrate_result :=
  do_migrate_to_v2_callback example_consts
    (List.replicate (compute_layout example_consts 1 1 2).total_file_size 0) truncate_ok
    8192 mismatched_metrics example_extents 1 1 2

/-! ## Inputs for the loader and the layout -/

/-- One metric with one page whose retention starts at second 0. -/
def zero_start_metrics : List jv2_metrics_info :=
  [ { uuid := [1, 2, 3, 4, 5, 6, 7, 8, 9, 10, 11, 12, 13, 14, 15, 16],
      first_time_s := 0, last_time_s := 59, number_of_pages := 1,
      JudyL_pages_by_start_time := [example_page 0] } ]

/-- The v2 file that the migrator publishes for `zero_start_metrics` (one
extent, one metric, one page) in a fresh mapping. -/
def zero_start_file : List Nat :=
  match do_migrate_to_v2_callback example_consts
      (List.replicate (compute_layout example_consts 1 1 1).total_file_size 0) true 8192
      zero_start_metrics [{ index := 0, pos := 0, bytes := 4096, number_of_pages := 1 }]
      1 1 1 with
  | some r => r.file
  | none => []

/-- What the loader does with the file of the example migration when the
clock reads second 1100. -/
def example_load : load_result :=
  match load_journal_file_v2 example_consts false (some 8192) (.mapped example_result.file)
      1100 with
  | some r => r
  | none => { rc := 1, journal_data := none, fs_errors := 0, updates := [] }


/-- The size that section 4.7 of the specification gives for the file: the
header and its padding, the extent list and the metric list with their
trailers, one page block per metric (a page header, one page list entry per
page of the metric, a trailer), and the file trailer. -/
def specified_total_file_size (K : Consts) (number_of_extents : Nat)
    (metrics : List jv2_metrics_info) : Nat :=
  sizeof_journal_v2_header + K.JOURNAL_V2_HEADER_PADDING_SZ +
  number_of_extents * sizeof_journal_extent_list + sizeof_journal_v2_block_trailer +
  metrics.length * sizeof_journal_metric_list + sizeof_journal_v2_block_trailer +
  (metrics.map (fun m => sizeof_journal_page_header +
    m.number_of_pages * sizeof_journal_page_list + sizeof_journal_v2_block_trailer)).sum +
  sizeof_journal_v2_block_trailer

/-- A header whose `total_file_size` is 20: no entry of 20 bytes or more fits
below the file trailer. -/
def small_header : journal_v2_header := { example_header with total_file_size := 20 }

/-- The bytes of the page list entry that `journal_v2_write_data_page`
stores for `page_info`: the members up to `type`; the byte of padding that
ends the 20-byte record is not written. -/
def page_entry_bytes (j2_header : journal_v2_header) (page_info : jv2_page_info) : List Nat :=
  le_bytes 4 (delta_s page_info.start_time_s j2_header.start_time_ut) ++
  le_bytes 4 (delta_s page_info.end_time_s j2_header.start_time_ut) ++
  le_bytes 4 page_info.extent_index ++
  le_bytes 4 (int_to_u64 page_info.update_every_s) ++
  le_bytes 2 (match page_info.custom_data with
    | some ei_page_length => ei_page_length
    | none => page_info.page_length) ++
  le_bytes 1 0

/-! ## The WAL flusher -/

/-- An increment of a statistics counter. Modelled from the spec:
`rrdeng_stats_t` is declared in rrdenginelib.h, which is not among the
sources; the counters are taken as `unsigned long` of the 64-bit host. -/
def stat_add (x n : Nat) : Nat := u64 (x + n)

/-- The `struct generic_io_descriptor` of rrdengine.h, without its pointers:
`bytes` is an `unsigned`, `pos` a `uint64_t`, `completion` is `none` for
`NULL`. -/
structure generic_io_descriptor where
  bytes : Nat
  pos : Nat
  completion : Option Nat
deriving DecidableEq, Repr

/-- The `WAL` of rrdengine.h: `buf` is the content of the buffer, `size` the
number of bytes used and `buf_size` the size of the buffer. -/
structure WAL where
  transaction_id : Nat
  buf : List Nat
  size : Nat
  buf_size : Nat
  io_descr : generic_io_descriptor
deriving DecidableEq, Repr

/-- The calls that leave the flusher and its completion callback; `wal` is
the address of the WAL that the request carries in `req.data`. The write is
recorded with the content of the buffer at submission, the length of the
`uv_buf_t` (the `unsigned int` parameter of `uv_buf_init`) and the file
offset. -/
inductive flush_call where
  | uv_fs_write (wal : Nat) (iov_base : List Nat) (iov_len : Nat) (offset : Nat)
  | uv_fs_req_cleanup (wal : Nat)
  | wal_release (wal : Nat)
deriving DecidableEq, Repr

/-- The members of the journal file and of the engine context that the
flusher and its callback touch, the global counter `global_io_errors`, and
the calls made so far (oldest first). -/
structure flush_state where
  journalfile_pos : Nat
  disk_space : Nat
  io_write_bytes : Nat
  io_write_requests : Nat
  io_errors : Nat
  global_io_errors : Nat
  extents_currently_being_flushed : Nat
  calls : List flush_call
deriving DecidableEq, Repr

/-- The completion callback of the journal write: `wal` is the address in
`req->data`, `result` is `req->result`. -/
def flush_transaction_buffer_cb (st : flush_state) (wal : Nat) (result : Int) : flush_state :=
  let st :=
    if result < 0 then
      { st with io_errors := stat_add st.io_errors 1,
                global_io_errors := stat_add st.global_io_errors 1 }
    else st
  { st with
    calls := st.calls ++ [flush_call.uv_fs_req_cleanup wal, flush_call.wal_release wal]
    extents_currently_being_flushed := u32 (st.extents_currently_being_flushed + 2 ^ 32 - 1) }

/-- The flusher: `wal_ptr` is the address of `wal`, `ret` is what
`uv_fs_write` returns. The result is the new state and the WAL as the
function leaves it; it is `none` when the store of the padding byte is
outside the buffer or `fatal_assert(-1 != ret)` fails. -/
def wal_flush_transaction_buffer (P : Protocol) (st : flush_state) (wal_ptr : Nat) (wal : WAL)
    (ret : Int) : Option (flush_state × WAL) := do
  let buf ←
    (if wal.size < wal.buf_size then
      -- simulate an empty transaction to skip the rest of the block
      mem_write wal.buf wal.size [P.STORE_PADDING % 256]
     else some wal.buf)
  let io_descr : generic_io_descriptor :=
    { bytes := u32 wal.buf_size, pos := st.journalfile_pos, completion := none }
  let calls := st.calls ++
    [flush_call.uv_fs_write wal_ptr buf (u32 wal.buf_size) st.journalfile_pos]
  if ret = -1 then none
  else
    some ({ st with
            journalfile_pos := u64 (st.journalfile_pos + wal.buf_size)
            disk_space := u64 (st.disk_space + wal.buf_size)
            io_write_bytes := stat_add st.io_write_bytes wal.buf_size
            io_write_requests := stat_add st.io_write_requests 1
            calls := calls },
          { wal with buf := buf, io_descr := io_descr })

/-- What happens to a journal, in order: a buffer is handed to the flusher,
or the write of an earlier one completes. -/
inductive flush_event where
  | flush (wal_ptr : Nat) (wal : WAL) (ret : Int)
  | completion (wal_ptr : Nat) (result : Int)
deriving DecidableEq, Repr

/-- The state after a sequence of flushes and completions. -/
def flush_run (P : Protocol) : List flush_event → flush_state → Option flush_state
  | [], st => some st
  | flush_event.flush wal_ptr wal ret :: rest, st =>
    (wal_flush_transaction_buffer P st wal_ptr wal ret).bind (fun r => flush_run P rest r.1)
  | flush_event.completion wal_ptr result :: rest, st =>
    flush_run P rest (flush_transaction_buffer_cb st wal_ptr result)

/-- The byte ranges `(offset, length)` of the writes among `calls`. -/
def write_ranges : List flush_call → List (Nat × Nat)
  | [] => []
  | flush_call.uv_fs_write _ _ iov_len offset :: rest => (offset, iov_len) :: write_ranges rest
  | _ :: rest => write_ranges rest

/-- The ranges follow one another without gap: the first starts at `p`, each
next one where the one before ends, and the last ends at `q`. -/
def contiguous_from : Nat → List (Nat × Nat) → Nat → Prop
  | p, [], q => p = q
  | p, r :: rest, q => r.1 = p ∧ contiguous_from (p + r.2) rest q

/-- The bytes handed to the flusher by the events. -/
def flushed_bytes : List flush_event → Nat
  | [] => 0
  | flush_event.flush _ wal _ :: rest => wal.buf_size + flushed_bytes rest
  | flush_event.completion _ _ :: rest => flushed_bytes rest

/-- Every buffer handed to the flusher is shorter than `2 ^ 32` bytes (the
size that `wal_get` receives is an `unsigned`). -/
def small_buffers : List flush_event → Prop
  | [] => True
  | flush_event.flush _ wal _ :: rest => wal.buf_size < 2 ^ 32 ∧ small_buffers rest
  | flush_event.completion _ _ :: rest => small_buffers rest

instance small_buffers.decidable : (events : List flush_event) → Decidable (small_buffers events)
  | [] => isTrue trivial
  | flush_event.flush _ wal _ :: rest =>
    @instDecidableAnd _ _ (Nat.decLt wal.buf_size (2 ^ 32)) (small_buffers.decidable rest)
  | flush_event.completion _ _ :: rest => small_buffers.decidable rest

/-- A state with nothing written yet, the journal just created (position
after the superblock), one extent in flight. -/
def example_flush_state : flush_state :=
  { journalfile_pos := 4096, disk_space := 4096, io_write_bytes := 0, io_write_requests := 0,
    io_errors := 0, global_io_errors := 0, extents_currently_being_flushed := 1, calls := [] }

/-- A WAL of one block of which 100 bytes are used; the unused bytes hold
the value 170. -/
def example_wal : WAL :=
  { transaction_id := 1, buf := List.replicate 100 7 ++ List.replicate 3996 170, size := 100,
    buf_size := 4096, io_descr := { bytes := 0, pos := 0, completion := none } }


/-- Two buffers are flushed one after the other; the first write succeeds,
the second fails with the error -5. -/
def example_flush_events : List flush_event :=
  [flush_event.flush 1 example_wal 0, flush_event.completion 1 4096,
   flush_event.flush 2 { example_wal with transaction_id := 2, size := 4096 } 0,
   flush_event.completion 2 (-5)]

/-- The state that `example_flush_events` leaves. -/
def example_flush_result : flush_state :=
  match flush_run upstream_protocol example_flush_events example_flush_state with
  | some st => st
  | none => example_flush_state

/-! ## Deleting a journal file -/

/-- The calls that leave `close_uv_file`, `unlink_journal_file` and
`destroy_journal_file_unsafe`; the flag of an unlink tells whether the path
is the one of the v2 file. -/
inductive fs_call where
  | uv_fs_ftruncate (file : Int) (offset : Nat)
  | uv_fs_close (file : Int)
  | uv_fs_unlink (v2 : Bool)
  | uv_fs_req_cleanup
  | munmap (journal_data_size : Nat)
deriving DecidableEq, Repr

/-- The counters `fs_errors` and `journalfile_deletions` of the engine
context, the global counter `global_fs_errors`, and the calls made so far
(oldest first). -/
structure fs_state where
  fs_errors : Nat
  global_fs_errors : Nat
  journalfile_deletions : Nat
  calls : List fs_call
deriving DecidableEq, Repr

/-- The block `if (ret < 0) { error(...); ++ctx->stats.fs_errors;
rrd_stat_atomic_add(&global_fs_errors, 1); }` that follows each file
operation. -/
def count_fs_error (st : fs_state) (ret : Int) : fs_state :=
  if ret < 0 then
    { st with fs_errors := stat_add st.fs_errors 1,
              global_fs_errors := stat_add st.global_fs_errors 1 }
  else st

/-- Closes the file; `ret` is what `uv_fs_close` returns. -/
def close_uv_file (st : fs_state) (file : Int) (ret : Int) : fs_state × Int :=
  let st := { st with calls := st.calls ++ [fs_call.uv_fs_close file] }
  let st := count_fs_error st ret
  ({ st with calls := st.calls ++ [fs_call.uv_fs_req_cleanup] }, ret)

/-- Removes the v1 journal; `ret` is what `uv_fs_unlink` returns. -/
def unlink_journal_file (st : fs_state) (ret : Int) : fs_state × Int :=
  let st := { st with calls := st.calls ++ [fs_call.uv_fs_unlink false] }
  let st := count_fs_error st ret
  let st := { st with calls := st.calls ++ [fs_call.uv_fs_req_cleanup] }
  ({ st with journalfile_deletions := stat_add st.journalfile_deletions 1 }, ret)

/-- Truncates and closes the v1 journal when it is open, removes the v2 file
and the v1 journal, and unmaps the v2 file when it is mapped.
`journalfile_file` is `journalfile->file`, `journal_data` the size of the
mapping (`none` when nothing is mapped); the other arguments are what
`uv_fs_ftruncate`, `uv_fs_close` and the two `uv_fs_unlink` return (a
failing `munmap` is logged and changes nothing else). -/
def destroy_journal_file_unsafe (st : fs_state) (journalfile_file : Int)
    (journal_data : Option Nat)
    (ftruncate_ret close_ret unlink_v2_ret unlink_ret : Int) : fs_state × Int :=
  let st :=
    if journalfile_file ≠ 0 then
      let st := { st with calls := st.calls ++ [fs_call.uv_fs_ftruncate journalfile_file 0] }
      let st := count_fs_error st ftruncate_ret
      let st := { st with calls := st.calls ++ [fs_call.uv_fs_req_cleanup] }
      (close_uv_file st journalfile_file close_ret).1
    else st
  -- This is the new journal v2 index file
  let st := { st with calls := st.calls ++ [fs_call.uv_fs_unlink true] }
  let st := count_fs_error st unlink_v2_ret
  let st := { st with calls := st.calls ++ [fs_call.uv_fs_req_cleanup] }
  let st := { st with calls := st.calls ++ [fs_call.uv_fs_unlink false] }
  let st := count_fs_error st unlink_ret
  let st := { st with calls := st.calls ++ [fs_call.uv_fs_req_cleanup] }
  let st := { st with journalfile_deletions := stat_add st.journalfile_deletions 1 }
  let st := { st with journalfile_deletions := stat_add st.journalfile_deletions 1 }
  let st :=
    match journal_data with
    | some journal_data_size =>
      { st with calls := st.calls ++ [fs_call.munmap journal_data_size] }
    | none => st
  (st, unlink_ret)

/-- Counters of an engine that has deleted three journal files. -/
def example_fs_state : fs_state :=
  { fs_errors := 0, global_fs_errors := 0, journalfile_deletions := 3, calls := [] }

/-! ## Page blocks -/

/-- The page block at `po` verifies in `img` with `entries` page list
entries: `entries` is the count in its header, the checksum member of the
header is the CRC-32 of a copy of the header whose `crc` is the magic, and
the trailer after the entries is the CRC-32 of the entries. -/
def page_block_verifies (K : Consts) (img : List Nat) (po entries : Nat) : Prop :=
  read_le img (po + 16) 4 = some entries ∧
  ∃ hdr local_hdr buf,
    mem_read img po 32 = some hdr ∧
    mem_write hdr K.PAGE_HEADER_CRC (le_bytes 4 K.JOURVAL_V2_MAGIC) = some local_hdr ∧
    read_le img (po + K.PAGE_HEADER_CHECKSUM) 4 = some (crc32 0 local_hdr) ∧
    mem_read img (po + 32) (entries * 20) = some buf ∧
    read_le img (po + 32 + entries * 20) 4 = some (crc32 0 buf)

/-- The bytes that the page blocks of the metrics take: a header, the page
list entries of the 32-bit page count, and a trailer for each. -/
def page_blocks_size (ms : List jv2_metrics_info) : Nat :=
  (ms.map (fun m => 36 + 20 * (m.number_of_pages % 2 ^ 32))).sum

/-- The example constants with `checksum` as a member of its own after
`crc` in the page header. -/
def separate_members_consts : Consts := { example_consts with PAGE_HEADER_CHECKSUM := 28 }

/-! ## Inputs at which the code parts from the claims -/

/-- One metric whose `number_of_pages` is 1 while its page index holds two
pages. -/
def overfull_metrics : List jv2_metrics_info :=
  [ { uuid := [2, 2, 3, 4, 5, 6, 7, 8, 9, 10, 11, 12, 13, 14, 15, 16],
      first_time_s := 1000, last_time_s := 1119, number_of_pages := 1,
      JudyL_pages_by_start_time := [example_page 1000, example_page 1060] } ]

/-- The migration of `overfull_metrics` (one extent, one metric, one page
announced) into a fresh mapping. -/
def overfull_migration : Option migrate_result :=
  do_migrate_to_v2_callback example_consts
    (List.replicate (compute_layout example_consts 1 1 1).total_file_size 0) true 8192
    overfull_metrics [{ index := 0, pos := 0, bytes := 4096, number_of_pages := 1 }] 1 1 1

/-- One metric with two pages. -/
def two_page_metrics : List jv2_metrics_info :=
  [ { uuid := [1, 2, 3, 4, 5, 6, 7, 8, 9, 10, 11, 12, 13, 14, 15, 16],
      first_time_s := 1000, last_time_s := 1119, number_of_pages := 2,
      JudyL_pages_by_start_time := [example_page 1000, example_page 1060] } ]

/-- The v2 file that the migrator publishes for `two_page_metrics` (one
extent, one metric, two pages) in a fresh mapping. -/
def two_page_file : List Nat :=
  match do_migrate_to_v2_callback example_consts
      (List.replicate (compute_layout example_consts 1 1 2).total_file_size 0) true 8192
      two_page_metrics [{ index := 0, pos := 0, bytes := 4096, number_of_pages := 2 }]
      1 1 2 with
  | some r => r.file
  | none => []

/-- The second block of a journal of two blocks: nineteen records of the
unknown type 2 that take 4066 bytes together (eighteen of 219 bytes and one
of 124), then the first 30 bytes of the store-data transaction 5, which is 69
bytes long. -/
def straddling_block : List Nat :=
  (List.replicate 18 (example_transaction 2 4 (List.replicate 200 0))).flatten ++
    example_transaction 2 4 (List.replicate 105 0) ++
    (example_transaction 1 5 example_payload).take 30

/-- A read buffer whose bytes after the first block are the last 39 bytes of
the store-data transaction 5, left there by an earlier use. -/
def stale_heap : List Nat :=
  List.replicate 4096 0 ++ (example_transaction 1 5 example_payload).drop 30 ++
    List.replicate 4096 0

/-- The replay of the journal whose second block is `straddling_block`,
without a mapping: `uv_fs_read` delivers the block into `stale_heap`. -/
def straddling_replay : Option (iterate_result (List (List Nat))) :=
  iterate_transactions upstream_protocol example_externals 2000 8192 none stale_heap
    (fun pos len => if pos = 4096 ∧ len = 4096 then some straddling_block else none) 30 []

/-- The value that `init_commit_log` stores in
`ctx->commit_log.transaction_id`. -/
def init_commit_log : Nat := 1

/-- The statement `ctx->commit_log.transaction_id =
MAX(ctx->commit_log.transaction_id, max_id + 1)` of `load_journal_file`, on
`uint64_t` values. -/
def load_journal_file_transaction_id (transaction_id max_id : Nat) : Nat :=
  if transaction_id > u64 (max_id + 1) then transaction_id else u64 (max_id + 1)

/-- The replay step of `load_journal_file`: `iterate_transactions` over the
journal and the update of `ctx->commit_log.transaction_id`, whose value before
the call is `transaction_id`. The result is the new value and what the scan
leaves. -/
def load_journal_file_replay {σ : Type} (P : Protocol) (E : Externals σ) (now_s : Int)
    (journalfile_pos : Nat) (journalfile_data : Option (List Nat)) (heap : List Nat)
    (uv_fs_read : Nat → Nat → Option (List Nat)) (fuel : Nat) (st : σ)
    (transaction_id : Nat) : Option (Nat × iterate_result σ) :=
  (iterate_transactions P E now_s journalfile_pos journalfile_data heap uv_fs_read fuel
    st).map (fun r => (load_journal_file_transaction_id transaction_id r.max_id, r))

/-- A record of 19 bytes with the id `2 ^ 64 - 1`, an empty payload and a
zero checksum. -/
def last_id_record : List Nat :=
  [1] ++ le_bytes 4 0 ++ le_bytes 8 (2 ^ 64 - 1) ++ le_bytes 2 0 ++ [0, 0, 0, 0]

/-- A store-data payload with one descriptor of the example metric whose
times are zero: the validation stand-in reports it invalid. -/
def invalid_descr_payload : List Nat :=
  example_store_data 0 4096 [example_descr 0 example_uuid 240 0 0]

/-! ## The start second of the deltas, and the pointer after the extent list -/

/-- The start second of the page entry deltas, `(time_t)
(j2_header->start_time_ut) / USEC_PER_SEC`: the cast binds to
`start_time_ut` alone and the division by the `unsigned long long` constant
converts the `time_t` back to an unsigned value. -/
def page_start_second (start_time_ut : Nat) : Nat :=
  int_to_u64 (u64_to_time start_time_ut) / USEC_PER_SEC

/-- The start second of the metric entry deltas, `(time_t)
(j2_header->start_time_ut / USEC_PER_SEC)`. -/
def metric_start_second (start_time_ut : Nat) : Int :=
  u64_to_time (start_time_ut / USEC_PER_SEC)

/-- The delta of a page entry as `journal_v2_write_data_page` computes it:
`(uint32_t) (t - (time_t) (start_time_ut) / USEC_PER_SEC)`, an unsigned
64-bit subtraction. -/
def page_delta_s (t : Int) (start_time_ut : Nat) : Nat :=
  u32 (u64 (int_to_u64 t + 2 ^ 64 - page_start_second start_time_ut))

/-- The delta of a metric entry as `journal_v2_write_metric_page` computes
it: `(uint32_t) (t - (time_t) (start_time_ut / USEC_PER_SEC))`, a `time_t`
subtraction. -/
def metric_delta_s (t : Int) (start_time_ut : Nat) : Nat :=
  u32 (int_to_u64 (t - metric_start_second start_time_ut))

/-- Three pages of one metric in ascending start time. -/
def three_pages : List jv2_page_info :=
  [{ start_time_s := 1700000000, end_time_s := 1700000059, update_every_s := 1,
     page_length := 240, extent_index := 0, custom_data := none },
   { start_time_s := 1700000060, end_time_s := 1700000119, update_every_s := 1,
     page_length := 240, extent_index := 1, custom_data := some 120 },
   { start_time_s := 1700000120, end_time_s := 1700000121, update_every_s := 2,
     page_length := 8, extent_index := 1, custom_data := none }]

/-- The `count` of `journal_v2_write_extent_list` after the loop: it starts
at `count` and is incremented once for every extent visited. -/
def journal_v2_write_extent_list_count : List jv2_extents_info → Nat → Nat
  | [], count => count
  | _ :: rest, count => journal_v2_write_extent_list_count rest (count + 1)

/-- The pointer `journal_v2_write_extent_list` returns, `j2_extent_base +
count`, as an offset of the mapping. -/
def journal_v2_write_extent_list_return (exts : List jv2_extents_info) (base : Nat) : Nat :=
  base + journal_v2_write_extent_list_count exts 0 * sizeof_journal_extent_list

/-- The offset `k` lies in a member that `journal_v2_write_extent_list`
assigns in the slot of the extent `ext_info`. -/
def extent_slot_assigns (base : Nat) (ext_info : jv2_extents_info) (k : Nat) : Prop :=
  (base + ext_info.index * sizeof_journal_extent_list ≤ k ∧
    k < base + ext_info.index * sizeof_journal_extent_list + 2) ∨
  (base + ext_info.index * sizeof_journal_extent_list + 8 ≤ k ∧
    k < base + ext_info.index * sizeof_journal_extent_list + 22)

instance (base : Nat) (ext_info : jv2_extents_info) (k : Nat) :
    Decidable (extent_slot_assigns base ext_info k) := by
  unfold extent_slot_assigns; infer_instance

/-- Three extents as an extent map may enumerate them: ascending datafile
position, the indices out of order. -/
def shuffled_extents : List jv2_extents_info :=
  [{ index := 2, pos := 4096, bytes := 4096, number_of_pages := 3 },
   { index := 0, pos := 8192, bytes := 8192, number_of_pages := 64 },
   { index := 1, pos := 16384, bytes := 512, number_of_pages := 1 }]

/-- The read-ahead buffer after the second block of a journal of 8192 bytes
was read into it: one store-data record, zero bytes up to the end of the
block, and the rest of the buffer. -/
def readahead_buffer : List Nat :=
  example_transaction 1 5 example_payload ++ List.replicate 8200 0

/-- The second block of a journal of two blocks: nineteen records of an
unknown type (eighteen of 219 bytes and one of 135) and, in the last 19
bytes of the block, a store-data record with id 7, an empty payload and a
matching checksum. -/
def short_payload_block : List Nat :=
  (List.replicate 18 (example_transaction 2 4 (List.replicate 200 0))).flatten ++
    example_transaction 2 4 (List.replicate 116 0) ++ example_transaction 1 7 []

/-- Two metrics: the first has the one page it announces, the second, last
in the order of the identifiers, announces one page and has two in its page
index. -/
def overfull_second_metrics : List jv2_metrics_info :=
  [ { uuid := [1, 2, 3, 4, 5, 6, 7, 8, 9, 10, 11, 12, 13, 14, 15, 16],
      first_time_s := 1000, last_time_s := 1059, number_of_pages := 1,
      JudyL_pages_by_start_time := [example_page 1000] },
    { uuid := [2, 2, 3, 4, 5, 6, 7, 8, 9, 10, 11, 12, 13, 14, 15, 16],
      first_time_s := 1000, last_time_s := 1119, number_of_pages := 1,
      JudyL_pages_by_start_time := [example_page 1000, example_page 1060] } ]

/-- The migration of `overfull_second_metrics` (one extent, two metrics, two
pages announced) into a fresh mapping. -/
def overfull_second_migration : Option migrate_result :=
  do_migrate_to_v2_callback example_consts
    (List.replicate (compute_layout example_consts 1 2 2).total_file_size 0) true 8192
    overfull_second_metrics [{ index := 0, pos := 0, bytes := 4096, number_of_pages := 2 }]
    1 2 2

/-- The `size_bytes` of the chunk at the file offset `pos`:
`MIN(READAHEAD_BYTES, file_size - pos)`, stored in an `unsigned`. -/
def chunk_size_bytes (file_size pos : Nat) : Nat :=
  u32 (if READAHEAD_BYTES < u64 (file_size - pos) then READAHEAD_BYTES
    else u64 (file_size - pos))

/-- The memory `mem` is the one that `iterate_transactions` scans for the
chunk at the file offset `pos`: the mapping of the journal when there is
one, and otherwise the read buffer after `uv_fs_read` delivered the bytes of
the chunk into it (what follows them is what the buffer held before). -/
def chunk_memory (file_size : Nat) (journalfile_data : Option (List Nat))
    (uv_fs_read : Nat → Nat → Option (List Nat)) (pos : Nat) (mem : List Nat) : Prop :=
  match journalfile_data with
  | some data => mem = data
  | none => ∃ (bytes heap : List Nat), uv_fs_read pos (chunk_size_bytes file_size pos) = some bytes ∧
      mem = bytes.take (chunk_size_bytes file_size pos) ++
        heap.drop (bytes.take (chunk_size_bytes file_size pos)).length

/-- The calls `steps` are the ones of a walk of `iterate_transactions` over
the chunk (`size_bytes` bytes at `buf` in `mem`, file offset `pos`) that
starts with the cursor at `p`: each call is made at the cursor, which lies
inside the chunk, and logs the size that `replay_transaction` returns there;
the next cursor lies after it and is the next block boundary when the size
is 0, and the cursor plus the size otherwise; the walk ends when the cursor
has left the chunk. -/
def cursor_walk {σ : Type} (P : Protocol) (E : Externals σ) (now_s : Int) (mem : List Nat)
    (buf pos size_bytes : Nat) : Nat → List replay_record → Prop
  | p, [] => size_bytes ≤ p
  | p, c :: rest =>
    p < size_bytes ∧ c.pos_i = p ∧
    (∃ (st : σ) (x : replay_result σ),
      replay_transaction P E now_s mem (buf + p) (u32 (u64 (pos + size_bytes - p))) st =
        some x ∧ x.ret = c.ret) ∧
    ∃ q, cursor_walk P E now_s mem buf pos size_bytes q rest ∧ p < q ∧
      (c.ret = 0 → q = p / RRDENG_BLOCK_SIZE * RRDENG_BLOCK_SIZE + RRDENG_BLOCK_SIZE) ∧
      (c.ret ≠ 0 → q = p + c.ret)

/-- The layout of the spec, `header{ id:u64, type:u8, reserved,
payload_length:u32 }`: the upstream layout with a `payload_length` of four
bytes. -/
def wide_protocol : Protocol :=
  { upstream_protocol with sizeof_jf_transaction_header := 17, JF_HEADER_PAYLOAD_LENGTH_SZ := 4 }

/-- The header of a record of an unknown type with id 7 that announces a
payload of `2 ^ 31 - 21` bytes, in the layout `wide_protocol`: the record is
`2 ^ 31` bytes long. -/
def wide_record_header : List Nat :=
  [2] ++ le_bytes 4 0 ++ le_bytes 8 7 ++ le_bytes 4 (2 ^ 31 - 21)

/-- A mapped journal of more than 4 GiB: zero bytes up to the chunk at the
file offset `2 ^ 31 + 4096`, which starts with `wide_record_header`, and
zero bytes after it. -/
def wide_journal : List Nat :=
  List.replicate (2 ^ 31 + 4096) 0 ++ wide_record_header ++ List.replicate (2 ^ 31) 0

/-- The read buffer after the second block of a journal of 8192 bytes was
read into it, with enough bytes behind the block for the longest record that
a header of the upstream layout can announce. -/
def long_readahead_buffer : List Nat :=
  example_transaction 1 5 example_payload ++ List.replicate 70000 0

/-- The record of a call of `replay_transaction` on a memory that has `k`
more bytes in front: the offset of the call is larger by `k`. -/
def shift_replay_record (k : Nat) (c : replay_record) : replay_record :=
  { c with buf := k + c.buf }

/-- The result of a walk on a memory that has `k` more bytes in front. -/
def shift_iterate_result {σ : Type} (k : Nat) (r : iterate_result σ) : iterate_result σ :=
  { r with replays := r.replays.map (shift_replay_record k) }

/-! # Theorems -/

/-! ## Little-endian fields and memory accesses -/

theorem length_le_bytes (w v : Nat) : (le_bytes w v).length = w := by
  induction w generalizing v with
  | zero => rfl
  | succ w ih => simp [le_bytes, ih]

theorem le_value_le_bytes (w v : Nat) : le_value (le_bytes w v) = v % 256 ^ w := by
  induction w generalizing v with
  | zero => simp [le_bytes, le_value, Nat.mod_one]
  | succ w ih =>
    simp only [le_bytes, le_value, ih, Nat.mod_mod]
    rw [pow_succ, Nat.mul_comm (256 ^ w) 256, Nat.mod_mul]

theorem le_bytes_lt (w v : Nat) : ∀ b ∈ le_bytes w v, b < 256 := by
  induction w generalizing v with
  | zero => simp [le_bytes]
  | succ w ih =>
    intro b hb
    simp only [le_bytes, List.mem_cons] at hb
    rcases hb with rfl | hb
    · exact Nat.mod_lt _ (by norm_num)
    · exact ih _ b hb

theorem le_value_lt (l : List Nat) : le_value l < 256 ^ l.length := by
  induction l with
  | nil => simp [le_value]
  | cons b bs ih =>
    simp only [le_value, List.length_cons, pow_succ]
    have : b % 256 < 256 := Nat.mod_lt _ (by norm_num)
    omega

theorem mem_read_eq_some {data : List Nat} {off len : Nat} {l : List Nat}
    (h : mem_read data off len = some l) :
    off + len ≤ data.length ∧ l = (data.drop off).take len := by
  unfold mem_read at h
  split at h
  · exact ⟨by assumption, by simpa using h.symm⟩
  · simp at h

theorem mem_read_length {data : List Nat} {off len : Nat} {l : List Nat}
    (h : mem_read data off len = some l) : l.length = len := by
  obtain ⟨h1, rfl⟩ := mem_read_eq_some h
  simp; omega

theorem mem_read_of_le {data : List Nat} {off len : Nat} (h : off + len ≤ data.length) :
    mem_read data off len = some ((data.drop off).take len) := by
  simp [mem_read, h]

theorem mem_write_eq_some {data : List Nat} {off : Nat} {bs img : List Nat}
    (h : mem_write data off bs = some img) :
    off + bs.length ≤ data.length ∧
      img = data.take off ++ bs ++ data.drop (off + bs.length) := by
  unfold mem_write at h
  split at h
  · exact ⟨by assumption, by simpa using h.symm⟩
  · simp at h

theorem mem_write_length {data : List Nat} {off : Nat} {bs img : List Nat}
    (h : mem_write data off bs = some img) : img.length = data.length := by
  obtain ⟨h1, rfl⟩ := mem_write_eq_some h
  simp; omega

theorem mem_write_getElem? {data : List Nat} {off : Nat} {bs img : List Nat}
    (h : mem_write data off bs = some img) (i : Nat) :
    img[i]? = if off ≤ i ∧ i < off + bs.length then bs[i - off]? else data[i]? := by
  obtain ⟨h1, rfl⟩ := mem_write_eq_some h
  by_cases hlo : i < off
  · have : ¬ (off ≤ i ∧ i < off + bs.length) := by omega
    rw [if_neg this, List.append_assoc, List.getElem?_append_left (by simp; omega)]
    simp [List.getElem?_take, hlo]
  · by_cases hhi : i < off + bs.length
    · rw [if_pos ⟨by omega, hhi⟩, List.append_assoc, List.getElem?_append_right (by simp; omega),
        List.getElem?_append_left (by simp; omega)]
      simp
      congr 1; omega
    · have : ¬ (off ≤ i ∧ i < off + bs.length) := by omega
      rw [if_neg this, List.getElem?_append_right (by simp; omega)]
      simp
      congr 1; omega

theorem mem_read_getElem? {data : List Nat} {off len : Nat} {l : List Nat}
    (h : mem_read data off len = some l) (i : Nat) (hi : i < len) :
    l[i]? = data[off + i]? := by
  obtain ⟨h1, rfl⟩ := mem_read_eq_some h
  simp [List.getElem?_take, hi]

theorem mem_read_congr {d1 d2 : List Nat} {off len : Nat} (hlen : d1.length = d2.length)
    (h : ∀ i, off ≤ i → i < off + len → d1[i]? = d2[i]?) :
    mem_read d1 off len = mem_read d2 off len := by
  unfold mem_read
  rw [hlen]
  split
  · rename_i hle
    congr 1
    apply List.ext_getElem?
    intro i
    by_cases hi : i < len
    · simp [List.getElem?_take, hi]
      exact h (off + i) (by omega) (by omega)
    · simp [List.getElem?_take, hi]
  · rfl

theorem mem_read_write_other {data : List Nat} {off : Nat} {bs img : List Nat}
    (h : mem_write data off bs = some img) (o n : Nat)
    (hd : o + n ≤ off ∨ off + bs.length ≤ o) :
    mem_read img o n = mem_read data o n := by
  apply mem_read_congr (mem_write_length h)
  intro i h1 h2
  rw [mem_write_getElem? h]
  have : ¬ (off ≤ i ∧ i < off + bs.length) := by omega
  rw [if_neg this]

theorem mem_read_write_same {data : List Nat} {off : Nat} {bs img : List Nat}
    (h : mem_write data off bs = some img) :
    mem_read img off bs.length = some bs := by
  obtain ⟨h1, rfl⟩ := mem_write_eq_some h
  unfold mem_read
  rw [if_pos (by simp; omega)]
  congr 1
  rw [List.append_assoc, List.drop_append_of_le_length (by simp; omega)]
  have : List.drop off (List.take off data) = [] := by simp
  rw [this]; simp

/-! ## The validator: return codes -/

theorem check_journal_v2_chain_code (K : Consts) (data_start : List Nat) (file_size : Nat)
    (remaining metric verified rc : Nat)
    (h : check_journal_v2_chain K data_start file_size remaining metric verified =
      some (Sum.inl rc)) : rc = 1 := by
  induction remaining generalizing metric verified with
  | zero => simp [check_journal_v2_chain] at h
  | succ n ih =>
    unfold check_journal_v2_chain at h
    obtain ⟨_, _, h⟩ := Option.bind_eq_some.mp h
    obtain ⟨_, _, h⟩ := Option.bind_eq_some.mp h
    obtain ⟨_, _, h⟩ := Option.bind_eq_some.mp h
    obtain ⟨_, _, h⟩ := Option.bind_eq_some.mp h
    obtain ⟨_, _, h⟩ := Option.bind_eq_some.mp h
    obtain ⟨_, _, h⟩ := Option.bind_eq_some.mp h
    by_cases hc : u32 (metric + sizeof_journal_metric_list) > u32 file_size
    · rw [if_pos hc] at h
      simp at h; exact h.symm
    · rw [if_neg hc] at h
      exact ih _ _ h

theorem check_journal_v2_file_code (K : Consts) (deep : Bool) (data_start : List Nat)
    (file_size original_size rc : Nat)
    (h : check_journal_v2_file K deep data_start file_size original_size = some rc) :
    rc = 0 ∨ rc = 1 ∨ rc = 2 ∨ rc = 3 := by
  unfold check_journal_v2_file at h
  obtain ⟨m, _, h⟩ := Option.bind_eq_some.mp h
  by_cases h1 : m = K.JOURVAL_V2_REBUILD_MAGIC
  · rw [if_pos h1] at h; simp at h; omega
  rw [if_neg h1] at h
  by_cases h2 : m = K.JOURVAL_V2_SKIP_MAGIC
  · rw [if_pos h2] at h; simp at h; omega
  rw [if_neg h2] at h
  by_cases h3 : m ≠ K.JOURVAL_V2_MAGIC
  · rw [if_pos h3] at h; simp at h; omega
  rw [if_neg h3] at h
  obtain ⟨t, _, h⟩ := Option.bind_eq_some.mp h
  by_cases h4 : t ≠ file_size
  · rw [if_pos h4] at h; simp at h; omega
  rw [if_neg h4] at h
  obtain ⟨differs, _, h⟩ := Option.bind_eq_some.mp h
  by_cases h5 : differs = true
  · rw [if_pos h5] at h; simp at h; omega
  rw [if_neg h5] at h
  by_cases h6 : file_size < sizeof_journal_v2_block_trailer
  · rw [if_pos h6] at h; simp at h
  rw [if_neg h6] at h
  obtain ⟨_, _, h⟩ := Option.bind_eq_some.mp h
  obtain ⟨rc1, _, h⟩ := Option.bind_eq_some.mp h
  by_cases h7 : rc1 = true
  · rw [if_pos h7] at h; simp at h; omega
  rw [if_neg h7] at h
  obtain ⟨rc2, _, h⟩ := Option.bind_eq_some.mp h
  by_cases h8 : rc2 ≠ 0
  · rw [if_pos h8] at h; simp at h; omega
  rw [if_neg h8] at h
  obtain ⟨rc3, _, h⟩ := Option.bind_eq_some.mp h
  by_cases h9 : rc3 ≠ 0
  · rw [if_pos h9] at h; simp at h; omega
  rw [if_neg h9] at h
  by_cases h10 : (!deep) = true
  · rw [if_pos h10] at h; simp at h; omega
  rw [if_neg h10] at h
  obtain ⟨_, _, h⟩ := Option.bind_eq_some.mp h
  obtain ⟨mc, _, h⟩ := Option.bind_eq_some.mp h
  obtain ⟨r, hr, h⟩ := Option.bind_eq_some.mp h
  cases r with
  | inl c =>
    have := check_journal_v2_chain_code _ _ _ _ _ _ _ hr
    simp at h; omega
  | inr v =>
    by_cases h11 : mc ≠ v
    · simp [h11] at h; omega
    · simp [h11] at h; omega

/-- C6: the validator decodes the magic first. Whatever the rest of the
mapping holds, a header magic equal to the rebuild magic gives 2, one equal
to the skip magic gives 3, one that is none of the three magics gives 1; and
every value the validator returns is 0, 1, 2 or 3. -/
theorem check_journal_v2_file_magic_first (K : Consts) (hK : K.WF) (deep : Bool)
    (data_start : List Nat) (file_size original_size magic : Nat)
    (hmagic : read_le data_start 0 4 = some magic) :
    (magic = K.JOURVAL_V2_REBUILD_MAGIC →
      check_journal_v2_file K deep data_start file_size original_size = some 2) ∧
    (magic = K.JOURVAL_V2_SKIP_MAGIC →
      check_journal_v2_file K deep data_start file_size original_size = some 3) ∧
    (magic ≠ K.JOURVAL_V2_REBUILD_MAGIC → magic ≠ K.JOURVAL_V2_SKIP_MAGIC →
      magic ≠ K.JOURVAL_V2_MAGIC →
      check_journal_v2_file K deep data_start file_size original_size = some 1) ∧
    (∀ rc, check_journal_v2_file K deep data_start file_size original_size = some rc →
      rc = 0 ∨ rc = 1 ∨ rc = 2 ∨ rc = 3) := by
  obtain ⟨_, _, _, _, _, hrs, _⟩ := hK
  refine ⟨?_, ?_, ?_, fun rc h => check_journal_v2_file_code _ _ _ _ _ _ h⟩
  · intro h
    simp [check_journal_v2_file, hmagic, h]
  · intro h
    have : ¬ K.JOURVAL_V2_SKIP_MAGIC = K.JOURVAL_V2_REBUILD_MAGIC := fun e => hrs e.symm
    simp [check_journal_v2_file, hmagic, h, this]
  · intro h1 h2 h3
    simp [check_journal_v2_file, hmagic, h1, h2, h3]

/-- C7: for a header that bears the v2 magic, the validator returns 1 when
the header's `total_file_size` differs from the mapped size, and returns 1
when `original_size` is non-zero and differs from the header's
`original_file_size`; with `original_size` 0 the validator gives what it
gives when the original sizes agree (the comparison is not made). -/
theorem check_journal_v2_file_sizes (K : Consts) (hK : K.WF) (deep : Bool)
    (data_start : List Nat) (file_size original_size total original : Nat)
    (hmagic : read_le data_start 0 4 = some K.JOURVAL_V2_MAGIC)
    (htotal : read_le data_start 56 4 = some total)
    (horiginal : read_le data_start 60 4 = some original) :
    (total ≠ file_size →
      check_journal_v2_file K deep data_start file_size original_size = some 1) ∧
    (original_size ≠ 0 → original ≠ original_size →
      check_journal_v2_file K deep data_start file_size original_size = some 1) ∧
    (check_journal_v2_file K deep data_start file_size 0 =
      check_journal_v2_file K deep data_start file_size original) := by
  obtain ⟨_, _, _, h1, h2, _⟩ := hK
  refine ⟨?_, ?_, ?_⟩
  · intro h
    simp [check_journal_v2_file, hmagic, htotal, h1, h2, h]
  · intro h3 h4
    by_cases h : total = file_size
    · simp [check_journal_v2_file, hmagic, htotal, horiginal, h1, h2, h, h3, h4]
    · simp [check_journal_v2_file, hmagic, htotal, h1, h2, h]
  · by_cases h : original = 0
    · rw [h]
    · simp [check_journal_v2_file, hmagic, htotal, horiginal, h1, h2, h]

/-! ## Reading back what a writer stored -/

theorem mem_read_sub {data : List Nat} {off len : Nat} {l : List Nat}
    (h : mem_read data off len = some l) (a n : Nat) (han : a + n ≤ len) :
    mem_read data (off + a) n = some ((l.drop a).take n) := by
  obtain ⟨h1, rfl⟩ := mem_read_eq_some h
  rw [mem_read_of_le (by omega)]
  congr 1
  apply List.ext_getElem?
  intro i
  by_cases hi : i < n
  · simp [List.getElem?_take, hi]
    rw [if_pos (by omega)]
    congr 1; omega
  · simp [List.getElem?_take, hi]

theorem mem_read_write_block (pre mid post : List Nat) {data : List Nat} {off : Nat}
    {img : List Nat}
    (h : mem_write data off (pre ++ mid ++ post) = some img) :
    mem_read img (off + pre.length) mid.length = some mid := by
  have h1 := mem_read_sub (mem_read_write_same h) pre.length mid.length (by simp)
  rw [h1]
  simp

theorem read_le_write_block (pre post : List Nat) {data : List Nat} {off w v : Nat}
    {img : List Nat}
    (h : mem_write data off (pre ++ le_bytes w v ++ post) = some img) :
    read_le img (off + pre.length) w = some (v % 256 ^ w) := by
  have h1 := mem_read_write_block pre (le_bytes w v) post h
  rw [length_le_bytes] at h1
  simp [read_le, h1, le_value_le_bytes]

theorem uuid_bytes_length (uuid : List Nat) : (uuid_bytes uuid).length = 16 := by
  simp [uuid_bytes]

/-- A well-formed `uuid_t`: 16 byte values. -/
theorem uuid_bytes_eq_self (uuid : List Nat) (hlen : uuid.length = 16)
    (hb : ∀ b ∈ uuid, b < 256) : uuid_bytes uuid = uuid := by
  apply List.ext_getElem?
  intro i
  unfold uuid_bytes
  by_cases hi : i < 16
  · have hi' : i < uuid.length := by omega
    simp [List.getElem?_map, List.getElem?_range hi, List.getD_eq_getElem?_getD,
      List.getElem?_eq_getElem hi']
    exact hb _ (List.getElem_mem _)
  · rw [List.getElem?_eq_none (by simp; omega), List.getElem?_eq_none (by omega)]

theorem u64_to_time_div (ut : Nat) (h : ut < 2 ^ 64) :
    u64_to_time (ut / USEC_PER_SEC) = ((ut / USEC_PER_SEC : Nat) : Int) := by
  unfold u64_to_time USEC_PER_SEC
  have h1 : ut / 1000000 < 2 ^ 63 := by
    have : ut / 1000000 ≤ ut / 2 := Nat.div_le_div_left (by norm_num) (by norm_num)
    omega
  have h2 : ut / 1000000 % 2 ^ 64 = ut / 1000000 := Nat.mod_eq_of_lt (by omega)
  rw [h2, if_pos h1]

theorem delta_s_roundtrip (t : Int) (ut : Nat) (hut : ut < 2 ^ 64)
    (hlo : 0 ≤ t - u64_to_time (ut / USEC_PER_SEC))
    (hhi : t - u64_to_time (ut / USEC_PER_SEC) ≤ 2 ^ 32 - 1) :
    u64_to_time (ut / USEC_PER_SEC) + ((delta_s t ut % 256 ^ 4 : Nat) : Int) = t := by
  rw [u64_to_time_div ut hut] at *
  unfold delta_s
  have h1 : (t - ((ut / USEC_PER_SEC : Nat) : Int)) % 2 ^ 32 = t - ((ut / USEC_PER_SEC : Nat) : Int) :=
    Int.emod_eq_of_lt hlo (by omega)
  rw [h1]
  have h2 : (t - ((ut / USEC_PER_SEC : Nat) : Int)).toNat < 256 ^ 4 := by
    have : (256 : Nat) ^ 4 = 2 ^ 32 := by norm_num
    omega
  rw [Nat.mod_eq_of_lt h2]
  omega

/-- C2: round trip of the retention of a metric through a v2 metric list
entry. When `journal_v2_write_metric_page` stores the entry of a metric whose
`first_time_s` and `last_time_s` lie between 0 and `2 ^ 32 - 1` seconds above
the header start second, the loader's `header_start_time_s + delta_start_s`
is the `first_time_s` given, `header_start_time_s + delta_end_s` is the
`last_time_s` given, and the `uuid` read back is the one given; the entry the
loop of the loader computes carries these three values. -/
theorem metric_retention_round_trip (j2_header : journal_v2_header) (img img' : List Nat)
    (data data' pages_offset entries : Nat) (metric_info : jv2_metrics_info)
    (hut : j2_header.start_time_ut < 2 ^ 64)
    (huuid : metric_info.uuid.length = 16) (hbytes : ∀ b ∈ metric_info.uuid, b < 256)
    (hfirst_lo : 0 ≤ metric_info.first_time_s -
      u64_to_time (j2_header.start_time_ut / USEC_PER_SEC))
    (hfirst_hi : metric_info.first_time_s -
      u64_to_time (j2_header.start_time_ut / USEC_PER_SEC) ≤ 2 ^ 32 - 1)
    (hlast_lo : 0 ≤ metric_info.last_time_s -
      u64_to_time (j2_header.start_time_ut / USEC_PER_SEC))
    (hlast_hi : metric_info.last_time_s -
      u64_to_time (j2_header.start_time_ut / USEC_PER_SEC) ≤ 2 ^ 32 - 1)
    (hwrite : journal_v2_write_metric_page j2_header img data metric_info pages_offset =
      some (img', some data')) :
    ∃ delta_start_s delta_end_s,
      read_le img' (data + 24) 4 = some delta_start_s ∧
      read_le img' (data + 28) 4 = some delta_end_s ∧
      mem_read img' data 16 = some metric_info.uuid ∧
      u64_to_time (j2_header.start_time_ut / USEC_PER_SEC) + (delta_start_s : Int) =
        metric_info.first_time_s ∧
      u64_to_time (j2_header.start_time_ut / USEC_PER_SEC) + (delta_end_s : Int) =
        metric_info.last_time_s ∧
      ∀ r, load_metric_entry img' (u64_to_time (j2_header.start_time_ut / USEC_PER_SEC))
          entries data = some r →
        r.1 = metric_info.uuid ∧ r.2.1 = metric_info.first_time_s ∧
        r.2.2.1 = metric_info.last_time_s := by
  unfold journal_v2_write_metric_page at hwrite
  by_cases hs : verify_journal_space j2_header data sizeof_journal_metric_list = true
  · rw [if_pos hs] at hwrite; simp at hwrite
  rw [if_neg hs] at hwrite
  obtain ⟨img1, hw, h⟩ := Option.bind_eq_some.mp hwrite
  simp only [Option.some.injEq, Prod.mk.injEq] at h
  obtain ⟨rfl, _⟩ := h
  have hu : mem_read img1 data 16 = some metric_info.uuid := by
    have := mem_read_write_block ([]) (uuid_bytes metric_info.uuid) (le_bytes 4 metric_info.number_of_pages ++ le_bytes 4 pages_offset ++
        le_bytes 4 (delta_s metric_info.first_time_s j2_header.start_time_ut) ++
        le_bytes 4 (delta_s metric_info.last_time_s j2_header.start_time_ut))
      (by simpa [List.append_assoc] using hw)
    rw [uuid_bytes_length, uuid_bytes_eq_self _ huuid hbytes] at this
    simpa using this
  have hds : read_le img1 (data + 24) 4 =
      some (delta_s metric_info.first_time_s j2_header.start_time_ut % 256 ^ 4) := by
    have := read_le_write_block (uuid_bytes metric_info.uuid ++ le_bytes 4 metric_info.number_of_pages ++
        le_bytes 4 pages_offset) (le_bytes 4 (delta_s metric_info.last_time_s j2_header.start_time_ut)) hw
    simpa [uuid_bytes_length, length_le_bytes] using this
  have hde : read_le img1 (data + 28) 4 =
      some (delta_s metric_info.last_time_s j2_header.start_time_ut % 256 ^ 4) := by
    have := read_le_write_block (uuid_bytes metric_info.uuid ++ le_bytes 4 metric_info.number_of_pages ++
        le_bytes 4 pages_offset ++
        le_bytes 4 (delta_s metric_info.first_time_s j2_header.start_time_ut)) ([]) (by simpa using hw)
    simpa [uuid_bytes_length, length_le_bytes] using this
  have e1 := delta_s_roundtrip _ _ hut hfirst_lo hfirst_hi
  have e2 := delta_s_roundtrip _ _ hut hlast_lo hlast_hi
  refine ⟨_, _, hds, hde, hu, e1, e2, ?_⟩
  intro r hr
  unfold load_metric_entry at hr
  rw [hds, hde] at hr
  obtain ⟨_, h1, hr⟩ := Option.bind_eq_some.mp hr
  cases h1
  obtain ⟨_, h1, hr⟩ := Option.bind_eq_some.mp hr
  cases h1
  obtain ⟨_, _, hr⟩ := Option.bind_eq_some.mp hr
  obtain ⟨_, _, hr⟩ := Option.bind_eq_some.mp hr
  obtain ⟨_, h1, hr⟩ := Option.bind_eq_some.mp hr
  rw [hu] at h1
  cases h1
  cases hr
  exact ⟨rfl, e1, e2⟩

/-! ## Frame conditions of the writers -/

theorem modified_within.refl (lo hi : Nat) (img : List Nat) : modified_within lo hi img img :=
  ⟨rfl, fun _ _ => rfl⟩

theorem modified_within.trans {lo hi : Nat} {a b c : List Nat}
    (h1 : modified_within lo hi a b) (h2 : modified_within lo hi b c) :
    modified_within lo hi a c :=
  ⟨h2.1.trans h1.1, fun i hi => (h2.2 i hi).trans (h1.2 i hi)⟩

theorem modified_within.mono {lo hi lo' hi' : Nat} {a b : List Nat}
    (h : modified_within lo hi a b) (hlo : lo' ≤ lo) (hhi : hi ≤ hi') :
    modified_within lo' hi' a b :=
  ⟨h.1, fun i hi => h.2 i (by omega)⟩

theorem modified_within.mem_read {lo hi : Nat} {a b : List Nat}
    (h : modified_within lo hi a b) (o n : Nat) (hd : o + n ≤ lo ∨ hi ≤ o) :
    mem_read b o n = mem_read a o n :=
  mem_read_congr h.1 (fun i h1 h2 => h.2 i (by omega))

theorem modified_within.read_le {lo hi : Nat} {a b : List Nat}
    (h : modified_within lo hi a b) (o n : Nat) (hd : o + n ≤ lo ∨ hi ≤ o) :
    read_le b o n = read_le a o n := by
  unfold Journalfile.read_le
  rw [h.mem_read o n hd]

theorem mem_write_modified {data : List Nat} {off : Nat} {bs img : List Nat}
    (h : mem_write data off bs = some img) :
    modified_within off (off + bs.length) data img := by
  refine ⟨mem_write_length h, fun i hi => ?_⟩
  rw [mem_write_getElem? h]
  have : ¬ (off ≤ i ∧ i < off + bs.length) := by omega
  rw [if_neg this]

theorem journal_v2_write_metric_page_spec {j2_header : journal_v2_header} {img img' : List Nat}
    {data pages_offset : Nat} {metric_info : jv2_metrics_info} {next : Option Nat}
    (h : journal_v2_write_metric_page j2_header img data metric_info pages_offset =
      some (img', next)) :
    modified_within data (data + 32) img img' ∧
    (next = none ∨
      (next = some (data + 32) ∧
        mem_read img' data 32 = some
          (uuid_bytes metric_info.uuid ++ le_bytes 4 metric_info.number_of_pages ++
           le_bytes 4 pages_offset ++
           le_bytes 4 (delta_s metric_info.first_time_s j2_header.start_time_ut) ++
           le_bytes 4 (delta_s metric_info.last_time_s j2_header.start_time_ut)))) := by
  unfold journal_v2_write_metric_page at h
  by_cases hs : verify_journal_space j2_header data sizeof_journal_metric_list = true
  · rw [if_pos hs] at h
    simp only [Option.some.injEq, Prod.mk.injEq] at h
    obtain ⟨rfl, rfl⟩ := h
    exact ⟨modified_within.refl _ _ _, Or.inl rfl⟩
  rw [if_neg hs] at h
  obtain ⟨img1, hw, h⟩ := Option.bind_eq_some.mp h
  simp only [Option.some.injEq, Prod.mk.injEq] at h
  obtain ⟨rfl, rfl⟩ := h
  have hm := mem_write_modified hw
  have hr := mem_read_write_same hw
  simp only [List.length_append, uuid_bytes_length, length_le_bytes] at hm hr
  exact ⟨hm, Or.inr ⟨rfl, hr⟩⟩

theorem journal_v2_write_data_page_header_spec {K : Consts} (hK : K.WF) {img img' : List Nat}
    {data uuid_offset next : Nat} {metric_info : jv2_metrics_info}
    (h : journal_v2_write_data_page_header K img data metric_info uuid_offset =
      some (img', next)) :
    modified_within data (data + 32) img img' ∧ next = data + 32 ∧
    mem_read img' data 24 = some
      (uuid_bytes metric_info.uuid ++ le_bytes 4 metric_info.number_of_pages ++
       le_bytes 4 uuid_offset) ∧ data + 32 ≤ img.length := by
  obtain ⟨_, _, _, _, _, _, hc1, hc2, hk1, hk2⟩ := hK
  unfold journal_v2_write_data_page_header at h
  obtain ⟨img1, hw1, h⟩ := Option.bind_eq_some.mp h
  obtain ⟨img2, hw2, h⟩ := Option.bind_eq_some.mp h
  obtain ⟨hdr, hrd, h⟩ := Option.bind_eq_some.mp h
  obtain ⟨img3, hw3, h⟩ := Option.bind_eq_some.mp h
  simp only [Option.some.injEq, Prod.mk.injEq] at h
  obtain ⟨rfl, rfl⟩ := h
  have m1 := mem_write_modified hw1
  have m2 := mem_write_modified hw2
  have m3 := mem_write_modified hw3
  have r1 := mem_read_write_same hw1
  simp only [List.length_append, uuid_bytes_length, length_le_bytes] at m1 m2 m3 r1
  have hb := (mem_read_eq_some hrd).1
  rw [m2.1, m1.1] at hb
  refine ⟨?_, rfl, ?_, hb⟩
  · exact ((m1.mono (le_refl _) (by omega)).trans (m2.mono (by omega) (by omega))).trans
      (m3.mono (by omega) (by omega))
  · rw [m3.mem_read data 24 (Or.inl (by omega)), m2.mem_read data 24 (Or.inl (by omega))]
    exact r1

theorem journal_v2_write_data_page_spec {j2_header : journal_v2_header} {img img' : List Nat}
    {data : Nat} {page_info : jv2_page_info} {next : Option Nat}
    (h : journal_v2_write_data_page j2_header img data page_info = some (img', next)) :
    modified_within data (data + 20) img img' ∧ (next = none ∨ next = some (data + 20)) := by
  unfold journal_v2_write_data_page at h
  by_cases hs : verify_journal_space j2_header data sizeof_journal_page_list = true
  · rw [if_pos hs] at h
    simp only [Option.some.injEq, Prod.mk.injEq] at h
    obtain ⟨rfl, rfl⟩ := h
    exact ⟨modified_within.refl _ _ _, Or.inl rfl⟩
  rw [if_neg hs] at h
  obtain ⟨img1, hw, h⟩ := Option.bind_eq_some.mp h
  simp only [Option.some.injEq, Prod.mk.injEq] at h
  obtain ⟨rfl, rfl⟩ := h
  have hm := mem_write_modified hw
  simp only [List.length_append, length_le_bytes] at hm
  exact ⟨hm.mono (le_refl _) (by omega), Or.inr rfl⟩

theorem journal_v2_write_descriptors_spec {j2_header : journal_v2_header}
    (pages : List jv2_page_info) {img img' : List Nat} {data_page : Nat} {next : Option Nat}
    (h : journal_v2_write_descriptors j2_header pages img data_page = some (img', next)) :
    modified_within data_page (data_page + 20 * pages.length) img img' ∧
    (∀ page_trailer, next = some page_trailer → page_trailer = data_page + 20 * pages.length) := by
  induction pages generalizing img data_page with
  | nil =>
    simp only [journal_v2_write_descriptors, Option.some.injEq, Prod.mk.injEq] at h
    obtain ⟨rfl, rfl⟩ := h
    exact ⟨modified_within.refl _ _ _, fun _ e => by simpa using e.symm⟩
  | cons p rest ih =>
    unfold journal_v2_write_descriptors at h
    obtain ⟨⟨img1, n1⟩, hw, h⟩ := Option.bind_eq_some.mp h
    obtain ⟨m1, hn⟩ := journal_v2_write_data_page_spec hw
    simp only [List.length_cons]
    cases n1 with
    | none =>
      simp only [Option.some.injEq, Prod.mk.injEq] at h
      obtain ⟨rfl, rfl⟩ := h
      exact ⟨m1.mono (le_refl _) (by omega), fun _ e => by simp at e⟩
    | some d1 =>
      simp only at h
      rcases hn with hn | hn
      · simp at hn
      · simp only [Option.some.injEq] at hn
        subst hn
        obtain ⟨m2, hpt⟩ := ih h
        refine ⟨(m1.mono (le_refl _) (by omega)).trans (m2.mono (by omega) (by omega)), ?_⟩
        intro pt e
        rw [hpt pt e]; omega

theorem journal_v2_write_data_page_trailer_spec {img img' : List Nat}
    {data page_header next : Nat}
    (h : journal_v2_write_data_page_trailer img data page_header = some (img', next)) :
    modified_within data (data + 4) img img' ∧ next = data + 4 ∧ data + 4 ≤ img.length ∧
    ∃ entries, read_le img (page_header + 16) 4 = some entries ∧
      page_header + 32 + entries * 20 ≤ img.length := by
  unfold journal_v2_write_data_page_trailer at h
  obtain ⟨entries, he, h⟩ := Option.bind_eq_some.mp h
  obtain ⟨buf, hb, h⟩ := Option.bind_eq_some.mp h
  obtain ⟨img1, hw, h⟩ := Option.bind_eq_some.mp h
  simp only [Option.some.injEq, Prod.mk.injEq] at h
  obtain ⟨rfl, rfl⟩ := h
  have hm := mem_write_modified hw
  have hl := (mem_write_eq_some hw).1
  have hb' := (mem_read_eq_some hb).1
  simp only [length_le_bytes] at hm hl
  exact ⟨hm, rfl, hl, entries, he, hb'⟩

theorem read_le_of_block (pre post : List Nat) {img : List Nat} {off w v n : Nat}
    (h : mem_read img off n = some (pre ++ le_bytes w v ++ post)) :
    read_le img (off + pre.length) w = some (v % 256 ^ w) := by
  have hn := mem_read_length h
  simp only [List.length_append, length_le_bytes] at hn
  have h1 := mem_read_sub h pre.length w (by omega)
  unfold read_le
  rw [h1]
  have : List.take w (List.drop pre.length (pre ++ le_bytes w v ++ post)) = le_bytes w v := by
    rw [List.append_assoc, List.drop_left]
    rw [List.take_append_of_le_length (by rw [length_le_bytes])]
    rw [List.take_of_length_le (by rw [length_le_bytes])]
  rw [this]
  simp [le_value_le_bytes]

theorem pages_offset_step (po np k pt len entries : Nat)
    (hc : (po + (np * 20 + 32 + 4)) % 4294967296 = (pt + 4) % 4294967296)
    (hpt : pt = po + 32 + 20 * k) (hfit : pt + 4 ≤ len) (hlen : len < 4294967296)
    (hent : np % 4294967296 = entries) (hefit : po + 32 + entries * 20 ≤ len) :
    (po + (np * 20 + 32 + 4)) % 4294967296 = po + 36 + 20 * (np % 4294967296) ∧
      np % 4294967296 = k := by
  have h1 : (pt + 4) % 4294967296 = pt + 4 := Nat.mod_eq_of_lt (by omega)
  rw [h1] at hc
  have h3 : (po + (np * 20 + 32 + 4)) % 4294967296 = (po + entries * 20 + 36) % 4294967296 := by
    have e : po + (np * 20 + 32 + 4) =
        (po + entries * 20 + 36) + 4294967296 * (np / 4294967296 * 20) := by
      have := Nat.div_add_mod np 4294967296
      rw [hent] at this
      generalize np / 4294967296 = q at this ⊢
      clear hc hent
      omega
    rw [e, Nat.add_mul_mod_self_left]
  rw [h3] at hc ⊢
  rw [hent]
  clear h3 h1 hent
  have h4 : po + entries * 20 + 36 < 4294967296 + 4 := by clear hc; omega
  have h6 : 36 ≤ pt + 4 := by clear hc; omega
  have h5 : po + entries * 20 + 36 = pt + 4 := by
    generalize po + entries * 20 + 36 = x at hc h4
    generalize pt + 4 = y at hc h6
    clear hefit hfit hlen hpt
    omega
  clear hc
  constructor
  · rw [Nat.mod_eq_of_lt (by omega)]; omega
  · omega

set_option maxHeartbeats 1000000 in
/-- The effect of one iteration of the loop over the sorted metrics. -/
theorem migrate_metric_spec {K : Consts} (hK : K.WF) {j2_header : journal_v2_header}
    {st st1 : migrate_state} {data : Nat} {metric_info : jv2_metrics_info} {continues : Bool}
    (h : migrate_metric K j2_header st data metric_info = some (st1, continues))
    (hlen : st.img.length < 2 ^ 32) (hsep : data + 32 ≤ st.pages_offset) :
    st1.img.length = st.img.length ∧
    (∀ i, (i < data ∨ (data + 32 ≤ i ∧ i < st.pages_offset)) → st1.img[i]? = st.img[i]?) ∧
    (st1.data = none ∨ st1.data = some 0 ∨
      (st1.data = some (data + 32) ∧
        mem_read st1.img data 32 = some
          (uuid_bytes metric_info.uuid ++ le_bytes 4 metric_info.number_of_pages ++
           le_bytes 4 st.pages_offset ++
           le_bytes 4 (delta_s metric_info.first_time_s j2_header.start_time_ut) ++
           le_bytes 4 (delta_s metric_info.last_time_s j2_header.start_time_ut)) ∧
        mem_read st1.img st.pages_offset 24 = some
          (uuid_bytes metric_info.uuid ++ le_bytes 4 metric_info.number_of_pages ++
           le_bytes 4 (u32 data)) ∧
        st.pages_offset + 32 ≤ st.img.length)) ∧
    (continues = true → st1.data = some (data + 32) ∧
      st1.pages_offset = st.pages_offset + 36 + 20 * (metric_info.number_of_pages % 2 ^ 32) ∧
      metric_info.number_of_pages % 2 ^ 32 = metric_info.JudyL_pages_by_start_time.length) := by
  unfold migrate_metric at h
  obtain ⟨⟨img1, n1⟩, hw1, h⟩ := Option.bind_eq_some.mp h
  obtain ⟨m1, hn1⟩ := journal_v2_write_metric_page_spec hw1
  cases n1 with
  | none =>
    simp only [Option.some.injEq, Prod.mk.injEq] at h
    obtain ⟨rfl, rfl⟩ := h
    exact ⟨m1.1, fun i hi => m1.2 i (by omega), Or.inl rfl, fun e => by simp at e⟩
  | some d1 =>
    rcases hn1 with hn1 | ⟨hd1, hr1⟩
    · simp at hn1
    simp only [Option.some.injEq] at hd1
    subst hd1
    simp only at h
    obtain ⟨⟨img2, metric_page⟩, hw2, h⟩ := Option.bind_eq_some.mp h
    obtain ⟨m2, hmp, hr2, hb2⟩ := journal_v2_write_data_page_header_spec hK hw2
    subst hmp
    rw [m1.1] at hb2
    obtain ⟨⟨img3, n3⟩, hw3, h⟩ := Option.bind_eq_some.mp h
    obtain ⟨m3, hn3⟩ := journal_v2_write_descriptors_spec _ hw3
    have e3 : mem_read img3 data 32 = mem_read img1 data 32 := by
      rw [m3.mem_read data 32 (Or.inl (by omega)), m2.mem_read data 32 (Or.inl (by omega))]
    have p3 : mem_read img3 st.pages_offset 24 = mem_read img2 st.pages_offset 24 :=
      m3.mem_read _ 24 (Or.inl (by omega))
    have f3 : ∀ i, (i < data ∨ (data + 32 ≤ i ∧ i < st.pages_offset)) → img3[i]? = st.img[i]? := by
      intro i hi
      rw [m3.2 i (by omega), m2.2 i (by omega), m1.2 i (by omega)]
    have l3 : img3.length = st.img.length := by rw [m3.1, m2.1, m1.1]
    cases n3 with
    | none =>
      simp only [Option.some.injEq, Prod.mk.injEq] at h
      obtain ⟨rfl, rfl⟩ := h
      exact ⟨l3, f3, Or.inr (Or.inr ⟨rfl, e3.trans hr1, p3.trans hr2, hb2⟩),
        fun e => by simp at e⟩
    | some pt =>
      have hpt := hn3 pt rfl
      simp only at h
      obtain ⟨⟨img4, npa⟩, hw4, h⟩ := Option.bind_eq_some.mp h
      obtain ⟨m4, hnpa, hfit, entries, hent, hefit⟩ := journal_v2_write_data_page_trailer_spec hw4
      subst hnpa
      have e4 : mem_read img4 data 32 = mem_read img1 data 32 := by
        rw [m4.mem_read data 32 (Or.inl (by omega))]; exact e3
      have p4 : mem_read img4 st.pages_offset 24 = mem_read img2 st.pages_offset 24 := by
        rw [m4.mem_read _ 24 (Or.inl (by omega))]; exact p3
      have f4 : ∀ i, (i < data ∨ (data + 32 ≤ i ∧ i < st.pages_offset)) →
          img4[i]? = st.img[i]? := by
        intro i hi
        rw [m4.2 i (by omega)]; exact f3 i hi
      have l4 : img4.length = st.img.length := by rw [m4.1, l3]
      by_cases hc : u32 (st.pages_offset + (metric_info.number_of_pages * sizeof_journal_page_list +
          sizeof_journal_page_header + sizeof_journal_v2_block_trailer)) ≠ u32 (pt + 4)
      · rw [if_pos hc] at h
        simp only [Option.some.injEq, Prod.mk.injEq] at h
        obtain ⟨rfl, rfl⟩ := h
        exact ⟨l4, f4, Or.inr (Or.inl rfl), fun e => by simp at e⟩
      · rw [if_neg hc] at h
        simp only [Option.some.injEq, Prod.mk.injEq] at h
        obtain ⟨rfl, rfl⟩ := h
        refine ⟨l4, f4, Or.inr (Or.inr ⟨rfl, e4.trans hr1, p4.trans hr2, hb2⟩), fun _ => ?_⟩
        have hent2 : read_le img3 (st.pages_offset + 16) 4 =
            some (metric_info.number_of_pages % 256 ^ 4) := by
          have := read_le_of_block (uuid_bytes metric_info.uuid) (le_bytes 4 (u32 data)) (p3.trans hr2)
          rwa [uuid_bytes_length] at this
        rw [hent2] at hent
        simp only [Option.some.injEq] at hent
        have e256 : (256 : Nat) ^ 4 = 4294967296 := by norm_num
        have e232 : (2 : Nat) ^ 32 = 4294967296 := by norm_num
        have hc' : (st.pages_offset + (metric_info.number_of_pages * 20 + 32 + 4)) % 4294967296 =
            (pt + 4) % 4294967296 := by
          have := not_not.mp hc
          simpa only [u32, sizeof_journal_page_list, sizeof_journal_page_header,
            sizeof_journal_v2_block_trailer, e232] using this
        rw [e256] at hent
        rw [e232] at hlen
        have goal := pages_offset_step st.pages_offset metric_info.number_of_pages
          metric_info.JudyL_pages_by_start_time.length pt img3.length entries hc' hpt hfit
          (by omega) hent hefit
        refine ⟨rfl, ?_, ?_⟩
        · simp only [u32, sizeof_journal_page_list, sizeof_journal_page_header,
            sizeof_journal_v2_block_trailer, e232]
          exact goal.1
        · rw [e232]; exact goal.2

theorem page_offsets_length (po : Nat) (ms : List jv2_metrics_info) :
    (page_offsets po ms).length = ms.length := by
  induction ms generalizing po with
  | nil => rfl
  | cons m rest ih => simp [page_offsets, ih]

theorem page_offsets_ge (po : Nat) (ms : List jv2_metrics_info) (i p : Nat)
    (h : (page_offsets po ms)[i]? = some p) : po ≤ p := by
  induction ms generalizing po i with
  | nil => simp [page_offsets] at h
  | cons m rest ih =>
    cases i with
    | zero => simp [page_offsets] at h; omega
    | succ j =>
      simp only [page_offsets, List.getElem?_cons_succ] at h
      have := ih _ _ h
      omega

set_option maxHeartbeats 1000000 in
/-- The effect of the loop over the sorted metrics when it ends with the
cursor after the last metric list entry: the mapping keeps its size, nothing
changes below the first entry nor between the metric list and the first page
block, and every entry and page header is in place. -/
theorem migrate_metrics_spec {K : Consts} (hK : K.WF) {j2_header : journal_v2_header}
    (ms : List jv2_metrics_info) {st st' : migrate_state} {d0 : Nat}
    (h : migrate_metrics K j2_header ms st = some st')
    (hd : st.data = some d0)
    (hsucc : st'.data = some (d0 + 32 * ms.length))
    (hlen : st.img.length < 2 ^ 32)
    (hsep : d0 + 32 * ms.length ≤ st.pages_offset) :
    st'.img.length = st.img.length ∧
    (∀ i, (i < d0 ∨ (d0 + 32 * ms.length ≤ i ∧ i < st.pages_offset)) →
      st'.img[i]? = st.img[i]?) ∧
    (∀ i m po, ms[i]? = some m → (page_offsets st.pages_offset ms)[i]? = some po →
      mem_read st'.img (d0 + 32 * i) 32 = some (metric_entry_bytes j2_header m po) ∧
      mem_read st'.img po 24 = some (page_header_bytes m (u32 (d0 + 32 * i))) ∧
      po + 32 ≤ st.img.length) := by
  induction ms generalizing st d0 with
  | nil =>
    simp only [migrate_metrics, Option.some.injEq] at h
    subst h
    exact ⟨rfl, fun _ _ => rfl, fun i m po hm => by simp at hm⟩
  | cons m rest ih =>
    unfold migrate_metrics at h
    rw [hd] at h
    simp only at h
    obtain ⟨⟨st1, cont⟩, hit, h⟩ := Option.bind_eq_some.mp h
    simp only [List.length_cons] at hsucc hsep ⊢
    obtain ⟨l1, f1, hdata, hcont⟩ := migrate_metric_spec hK hit hlen (by omega)
    cases cont with
    | false =>
      simp only [Bool.false_eq_true, if_false, Option.some.injEq] at h
      subst h
      rcases hdata with e | e | ⟨e, he, hp, hb⟩
      · rw [e] at hsucc; simp at hsucc
      · rw [e] at hsucc; simp only [Option.some.injEq] at hsucc; omega
      · rw [e] at hsucc
        simp only [Option.some.injEq] at hsucc
        have hr : rest.length = 0 := by omega
        refine ⟨l1, fun i hi => f1 i (by omega), ?_⟩
        intro i m' po hm hpo
        cases i with
        | zero =>
          simp only [List.getElem?_cons_zero, Option.some.injEq] at hm
          simp only [page_offsets, List.getElem?_cons_zero, Option.some.injEq] at hpo
          subst hm hpo
          exact ⟨he, hp, hb⟩
        | succ j =>
          simp only [List.getElem?_cons_succ] at hm
          have := List.getElem?_eq_some_iff.mp hm
          obtain ⟨hj, _⟩ := this
          omega
    | true =>
      simp only [if_true] at h
      obtain ⟨hd1, hpo1, _⟩ := hcont rfl
      have hrest := ih h hd1 (by rw [hsucc]; exact congrArg some (by omega)) (by rw [l1]; exact hlen)
        (by rw [hpo1]; omega)
      obtain ⟨l2, f2, e2⟩ := hrest
      rcases hdata with e | e | ⟨_, he, hp, hb⟩
      · rw [e] at hd1; simp at hd1
      · rw [e] at hd1; simp at hd1
      refine ⟨l2.trans l1, ?_, ?_⟩
      · intro i hi
        rw [f2 i (by rw [hpo1]; omega), f1 i (by omega)]
      · intro i m' po hm hpo
        cases i with
        | zero =>
          simp only [List.getElem?_cons_zero, Option.some.injEq] at hm
          simp only [page_offsets, List.getElem?_cons_zero, Option.some.injEq] at hpo
          subst hm hpo
          simp only [Nat.mul_zero, Nat.add_zero]
          refine ⟨?_, ?_, hb⟩
          · exact (mem_read_congr l2 (fun i h1 h2 => f2 i (by omega))).trans he
          · exact (mem_read_congr l2 (fun i h1 h2 => f2 i (by rw [hpo1]; omega))).trans hp
        | succ j =>
          simp only [List.getElem?_cons_succ] at hm
          simp only [page_offsets, List.getElem?_cons_succ] at hpo
          rw [← hpo1] at hpo
          have := e2 j m' po hm hpo
          have e : d0 + 32 * (j + 1) = d0 + 32 + 32 * j := by omega
          rw [e, ← l1]
          exact this

/-! ## Range of the CRC -/

theorem crc32_shift_lt {c : Nat} (h : c < 2 ^ 32) : crc32_shift c < 2 ^ 32 := by
  unfold crc32_shift CRC32_POLY
  split
  · exact Nat.xor_lt_two_pow (by omega) (by norm_num)
  · omega

theorem crc32_byte_lt {c : Nat} (b : Nat) (h : c < 2 ^ 32) : crc32_byte c b < 2 ^ 32 := by
  unfold crc32_byte
  have h0 : c ^^^ (b % 256) < 2 ^ 32 :=
    Nat.xor_lt_two_pow h (lt_trans (Nat.mod_lt _ (by norm_num)) (by norm_num))
  exact crc32_shift_lt (crc32_shift_lt (crc32_shift_lt (crc32_shift_lt
    (crc32_shift_lt (crc32_shift_lt (crc32_shift_lt (crc32_shift_lt h0)))))))

theorem crc32_foldl_lt (buf : List Nat) {c : Nat} (h : c < 2 ^ 32) :
    buf.foldl crc32_byte c < 2 ^ 32 := by
  induction buf generalizing c with
  | nil => exact h
  | cons b rest ih => exact ih (crc32_byte_lt b h)

theorem crc32_lt (buf : List Nat) : crc32 0 buf < 2 ^ 32 := by
  unfold crc32
  exact Nat.xor_lt_two_pow (crc32_foldl_lt buf (by norm_num)) (by norm_num)

theorem crc32_mod (buf : List Nat) : crc32 0 buf % 256 ^ 4 = crc32 0 buf := by
  have := crc32_lt buf
  exact Nat.mod_eq_of_lt (by norm_num at this ⊢; exact this)

/-! ## The fields of a stored header -/

theorem journal_v2_header_bytes_length (h : journal_v2_header) : h.bytes.length = 72 := by
  simp [journal_v2_header.bytes, length_le_bytes]

theorem header_field_magic {img : List Nat} {h : journal_v2_header}
    (hr : mem_read img 0 72 = some h.bytes) : read_le img 0 4 = some (h.magic % 256 ^ 4) := by
  have := @read_le_of_block ([])
    (le_bytes 4 0 ++ le_bytes 8 h.start_time_ut ++
      le_bytes 8 h.end_time_ut ++ le_bytes 4 h.extent_count ++ le_bytes 4 h.extent_offset ++
      le_bytes 4 h.extent_trailer_offset ++ le_bytes 4 h.metric_count ++
      le_bytes 4 h.metric_offset ++ le_bytes 4 h.metric_trailer_offset ++
      le_bytes 4 h.page_count ++ le_bytes 4 h.page_offset ++
      le_bytes 4 h.total_file_size ++ le_bytes 4 h.original_file_size ++ le_bytes 8 h.data)
    img 0 4 (h.magic) 72 (by rw [hr]; simp [journal_v2_header.bytes, List.append_assoc])
  simpa using this

theorem header_field_start_time_ut {img : List Nat} {h : journal_v2_header}
    (hr : mem_read img 0 72 = some h.bytes) :
    read_le img 8 8 = some (h.start_time_ut % 256 ^ 8) := by
  have := @read_le_of_block (le_bytes 4 h.magic ++ le_bytes 4 0)
    (le_bytes 8 h.end_time_ut ++ le_bytes 4 h.extent_count ++ le_bytes 4 h.extent_offset ++
      le_bytes 4 h.extent_trailer_offset ++ le_bytes 4 h.metric_count ++
      le_bytes 4 h.metric_offset ++ le_bytes 4 h.metric_trailer_offset ++
      le_bytes 4 h.page_count ++ le_bytes 4 h.page_offset ++
      le_bytes 4 h.total_file_size ++ le_bytes 4 h.original_file_size ++ le_bytes 8 h.data)
    img 0 8 (h.start_time_ut) 72 (by rw [hr]; simp [journal_v2_header.bytes, List.append_assoc])
  simpa [length_le_bytes] using this

theorem header_field_extent_count {img : List Nat} {h : journal_v2_header}
    (hr : mem_read img 0 72 = some h.bytes) :
    read_le img 24 4 = some (h.extent_count % 256 ^ 4) := by
  have := @read_le_of_block (le_bytes 4 h.magic ++ le_bytes 4 0 ++ le_bytes 8 h.start_time_ut ++
      le_bytes 8 h.end_time_ut)
    (le_bytes 4 h.extent_offset ++
      le_bytes 4 h.extent_trailer_offset ++ le_bytes 4 h.metric_count ++
      le_bytes 4 h.metric_offset ++ le_bytes 4 h.metric_trailer_offset ++
      le_bytes 4 h.page_count ++ le_bytes 4 h.page_offset ++
      le_bytes 4 h.total_file_size ++ le_bytes 4 h.original_file_size ++ le_bytes 8 h.data)
    img 0 4 (h.extent_count) 72 (by rw [hr]; simp [journal_v2_header.bytes, List.append_assoc])
  simpa [length_le_bytes] using this

theorem header_field_extent_offset {img : List Nat} {h : journal_v2_header}
    (hr : mem_read img 0 72 = some h.bytes) :
    read_le img 28 4 = some (h.extent_offset % 256 ^ 4) := by
  have := @read_le_of_block (le_bytes 4 h.magic ++ le_bytes 4 0 ++ le_bytes 8 h.start_time_ut ++
      le_bytes 8 h.end_time_ut ++ le_bytes 4 h.extent_count)
    (le_bytes 4 h.extent_trailer_offset ++ le_bytes 4 h.metric_count ++
      le_bytes 4 h.metric_offset ++ le_bytes 4 h.metric_trailer_offset ++
      le_bytes 4 h.page_count ++ le_bytes 4 h.page_offset ++
      le_bytes 4 h.total_file_size ++ le_bytes 4 h.original_file_size ++ le_bytes 8 h.data)
    img 0 4 (h.extent_offset) 72 (by rw [hr]; simp [journal_v2_header.bytes, List.append_assoc])
  simpa [length_le_bytes] using this

theorem header_field_extent_trailer_offset {img : List Nat} {h : journal_v2_header}
    (hr : mem_read img 0 72 = some h.bytes) :
    read_le img 32 4 = some (h.extent_trailer_offset % 256 ^ 4) := by
  have := @read_le_of_block (le_bytes 4 h.magic ++ le_bytes 4 0 ++ le_bytes 8 h.start_time_ut ++
      le_bytes 8 h.end_time_ut ++ le_bytes 4 h.extent_count ++ le_bytes 4 h.extent_offset)
    (le_bytes 4 h.metric_count ++
      le_bytes 4 h.metric_offset ++ le_bytes 4 h.metric_trailer_offset ++
      le_bytes 4 h.page_count ++ le_bytes 4 h.page_offset ++
      le_bytes 4 h.total_file_size ++ le_bytes 4 h.original_file_size ++ le_bytes 8 h.data)
    img 0 4 (h.extent_trailer_offset) 72 (by rw [hr]; simp [journal_v2_header.bytes, List.append_assoc])
  simpa [length_le_bytes] using this

theorem header_field_metric_count {img : List Nat} {h : journal_v2_header}
    (hr : mem_read img 0 72 = some h.bytes) :
    read_le img 36 4 = some (h.metric_count % 256 ^ 4) := by
  have := @read_le_of_block (le_bytes 4 h.magic ++ le_bytes 4 0 ++ le_bytes 8 h.start_time_ut ++
      le_bytes 8 h.end_time_ut ++ le_bytes 4 h.extent_count ++ le_bytes 4 h.extent_offset ++
      le_bytes 4 h.extent_trailer_offset)
    (le_bytes 4 h.metric_offset ++ le_bytes 4 h.metric_trailer_offset ++
      le_bytes 4 h.page_count ++ le_bytes 4 h.page_offset ++
      le_bytes 4 h.total_file_size ++ le_bytes 4 h.original_file_size ++ le_bytes 8 h.data)
    img 0 4 (h.metric_count) 72 (by rw [hr]; simp [journal_v2_header.bytes, List.append_assoc])
  simpa [length_le_bytes] using this

theorem header_field_metric_offset {img : List Nat} {h : journal_v2_header}
    (hr : mem_read img 0 72 = some h.bytes) :
    read_le img 40 4 = some (h.metric_offset % 256 ^ 4) := by
  have := @read_le_of_block (le_bytes 4 h.magic ++ le_bytes 4 0 ++ le_bytes 8 h.start_time_ut ++
      le_bytes 8 h.end_time_ut ++ le_bytes 4 h.extent_count ++ le_bytes 4 h.extent_offset ++
      le_bytes 4 h.extent_trailer_offset ++ le_bytes 4 h.metric_count)
    (le_bytes 4 h.metric_trailer_offset ++
      le_bytes 4 h.page_count ++ le_bytes 4 h.page_offset ++
      le_bytes 4 h.total_file_size ++ le_bytes 4 h.original_file_size ++ le_bytes 8 h.data)
    img 0 4 (h.metric_offset) 72 (by rw [hr]; simp [journal_v2_header.bytes, List.append_assoc])
  simpa [length_le_bytes] using this

theorem header_field_metric_trailer_offset {img : List Nat} {h : journal_v2_header}
    (hr : mem_read img 0 72 = some h.bytes) :
    read_le img 44 4 = some (h.metric_trailer_offset % 256 ^ 4) := by
  have := @read_le_of_block (le_bytes 4 h.magic ++ le_bytes 4 0 ++ le_bytes 8 h.start_time_ut ++
      le_bytes 8 h.end_time_ut ++ le_bytes 4 h.extent_count ++ le_bytes 4 h.extent_offset ++
      le_bytes 4 h.extent_trailer_offset ++ le_bytes 4 h.metric_count ++
      le_bytes 4 h.metric_offset)
    (le_bytes 4 h.page_count ++ le_bytes 4 h.page_offset ++
      le_bytes 4 h.total_file_size ++ le_bytes 4 h.original_file_size ++ le_bytes 8 h.data)
    img 0 4 (h.metric_trailer_offset) 72 (by rw [hr]; simp [journal_v2_header.bytes, List.append_assoc])
  simpa [length_le_bytes] using this

theorem header_field_total_file_size {img : List Nat} {h : journal_v2_header}
    (hr : mem_read img 0 72 = some h.bytes) :
    read_le img 56 4 = some (h.total_file_size % 256 ^ 4) := by
  have := @read_le_of_block (le_bytes 4 h.magic ++ le_bytes 4 0 ++ le_bytes 8 h.start_time_ut ++
      le_bytes 8 h.end_time_ut ++ le_bytes 4 h.extent_count ++ le_bytes 4 h.extent_offset ++
      le_bytes 4 h.extent_trailer_offset ++ le_bytes 4 h.metric_count ++
      le_bytes 4 h.metric_offset ++ le_bytes 4 h.metric_trailer_offset ++
      le_bytes 4 h.page_count ++ le_bytes 4 h.page_offset)
    (le_bytes 4 h.original_file_size ++ le_bytes 8 h.data)
    img 0 4 (h.total_file_size) 72 (by rw [hr]; simp [journal_v2_header.bytes, List.append_assoc])
  simpa [length_le_bytes] using this

theorem header_field_original_file_size {img : List Nat} {h : journal_v2_header}
    (hr : mem_read img 0 72 = some h.bytes) :
    read_le img 60 4 = some (h.original_file_size % 256 ^ 4) := by
  have := @read_le_of_block (le_bytes 4 h.magic ++ le_bytes 4 0 ++ le_bytes 8 h.start_time_ut ++
      le_bytes 8 h.end_time_ut ++ le_bytes 4 h.extent_count ++ le_bytes 4 h.extent_offset ++
      le_bytes 4 h.extent_trailer_offset ++ le_bytes 4 h.metric_count ++
      le_bytes 4 h.metric_offset ++ le_bytes 4 h.metric_trailer_offset ++
      le_bytes 4 h.page_count ++ le_bytes 4 h.page_offset ++ le_bytes 4 h.total_file_size)
    (le_bytes 8 h.data)
    img 0 4 (h.original_file_size) 72 (by rw [hr]; simp [journal_v2_header.bytes, List.append_assoc])
  simpa [length_le_bytes] using this

/-! ## The migrator: what a published file holds -/

theorem compute_layout_exact (K : Consts) (ne nm np : Nat)
    (hsize : (compute_layout K ne nm np).total_file_size < 2 ^ 32) :
    (compute_layout K ne nm np).extent_offset = 72 + K.JOURNAL_V2_HEADER_PADDING_SZ ∧
    (compute_layout K ne nm np).extent_offset_trailer =
      (compute_layout K ne nm np).extent_offset + ne * 24 ∧
    (compute_layout K ne nm np).metrics_offset =
      (compute_layout K ne nm np).extent_offset_trailer + 4 ∧
    (compute_layout K ne nm np).metric_offset_trailer =
      (compute_layout K ne nm np).metrics_offset + nm * 32 ∧
    (compute_layout K ne nm np).pages_offset =
      (compute_layout K ne nm np).metric_offset_trailer + 4 ∧
    (compute_layout K ne nm np).trailer_offset =
      (compute_layout K ne nm np).pages_offset + np * 56 ∧
    (compute_layout K ne nm np).total_file_size =
      (compute_layout K ne nm np).trailer_offset + 4 := by
  simp only [compute_layout, u32, sizeof_journal_v2_header, sizeof_journal_extent_list,
    sizeof_journal_v2_block_trailer, sizeof_journal_metric_list, sizeof_journal_page_list,
    sizeof_journal_page_header] at hsize ⊢
  have e232 : (2 : Nat) ^ 32 = 4294967296 := by norm_num
  rw [e232] at hsize ⊢
  have h1 : (72 + K.JOURNAL_V2_HEADER_PADDING_SZ) % 4294967296 =
      72 + K.JOURNAL_V2_HEADER_PADDING_SZ := Nat.mod_eq_of_lt (by omega)
  have h2 : (72 + K.JOURNAL_V2_HEADER_PADDING_SZ + ne * 24) % 4294967296 =
      72 + K.JOURNAL_V2_HEADER_PADDING_SZ + ne * 24 := Nat.mod_eq_of_lt (by omega)
  have h3 : (72 + K.JOURNAL_V2_HEADER_PADDING_SZ + ne * 24 + 4) % 4294967296 =
      72 + K.JOURNAL_V2_HEADER_PADDING_SZ + ne * 24 + 4 := Nat.mod_eq_of_lt (by omega)
  have h4 : (72 + K.JOURNAL_V2_HEADER_PADDING_SZ + ne * 24 + 4 + nm * 32) % 4294967296 =
      72 + K.JOURNAL_V2_HEADER_PADDING_SZ + ne * 24 + 4 + nm * 32 := Nat.mod_eq_of_lt (by omega)
  have h5 : (72 + K.JOURNAL_V2_HEADER_PADDING_SZ + ne * 24 + 4 + nm * 32 + 4) % 4294967296 =
      72 + K.JOURNAL_V2_HEADER_PADDING_SZ + ne * 24 + 4 + nm * 32 + 4 :=
    Nat.mod_eq_of_lt (by omega)
  have h6 : (72 + K.JOURNAL_V2_HEADER_PADDING_SZ + ne * 24 + 4 + nm * 32 + 4 +
      np * (20 + 32 + 4)) % 4294967296 =
      72 + K.JOURNAL_V2_HEADER_PADDING_SZ + ne * 24 + 4 + nm * 32 + 4 + np * (20 + 32 + 4) :=
    Nat.mod_eq_of_lt (by omega)
  rw [h1, h2, h3, h4, h5, h6]
  refine ⟨rfl, rfl, rfl, rfl, rfl, by omega, rfl⟩

theorem journal_v2_write_extent_list_length (exts : List jv2_extents_info) {img img' : List Nat}
    {base : Nat} (h : journal_v2_write_extent_list exts img base = some img') :
    img'.length = img.length := by
  induction exts generalizing img with
  | nil => simp only [journal_v2_write_extent_list, Option.some.injEq] at h; rw [h]
  | cons e rest ih =>
    unfold journal_v2_write_extent_list at h
    obtain ⟨i1, h1, h⟩ := Option.bind_eq_some.mp h
    obtain ⟨i2, h2, h⟩ := Option.bind_eq_some.mp h
    obtain ⟨i3, h3, h⟩ := Option.bind_eq_some.mp h
    obtain ⟨i4, h4, h⟩ := Option.bind_eq_some.mp h
    rw [ih h, mem_write_length h4, mem_write_length h3, mem_write_length h2,
      mem_write_length h1]

theorem crc32set_spec {img img' : List Nat} {off : Nat} {buf : List Nat}
    (h : crc32set img off (crc32 0 buf) = some img') :
    modified_within off (off + 4) img img' ∧ read_le img' off 4 = some (crc32 0 buf) := by
  unfold crc32set write_le at h
  have hm := mem_write_modified h
  have hr := mem_read_write_same h
  rw [length_le_bytes] at hm hr
  refine ⟨hm, ?_⟩
  unfold read_le
  rw [hr]
  simp only [Option.map_some', le_value_le_bytes, crc32_mod]

theorem qsort_uuid_list_length (l : List jv2_metrics_info) :
    (qsort_uuid_list l).length = l.length := by
  unfold qsort_uuid_list
  exact List.length_insertionSort _ _

set_option maxHeartbeats 2000000 in
/-- A run of the migrator that publishes a mapping leaves a file of the
computed size that holds the header, the three section checksums, and the
metric list entries and page headers of the metrics in sorted order. -/
theorem do_migrate_published {K : Consts} (hK : K.WF) {mapping : List Nat} {truncate_ok : Bool}
    {journalfile_pos : Nat} {JudyL_metrics : List jv2_metrics_info}
    {JudyL_extents_pos : List jv2_extents_info} {ne nm np : Nat} {r : migrate_result}
    (h : do_migrate_to_v2_callback K mapping truncate_ok journalfile_pos JudyL_metrics
      JudyL_extents_pos ne nm np = some r)
    (hpub : r.journal_data ≠ none)
    (hsize : (compute_layout K ne nm np).total_file_size < 2 ^ 32) :
    r.journal_data = some (r.file, (compute_layout K ne nm np).total_file_size) ∧
    published_file K journalfile_pos JudyL_metrics ne nm np r.file := by
  obtain ⟨e1, e2, e3, e4, e5, e6, e7⟩ := compute_layout_exact K ne nm np hsize
  unfold do_migrate_to_v2_callback at h
  simp only at h
  generalize hL : compute_layout K ne nm np = L at *
  obtain ⟨eo, eto, mo, mto, po, tro, total⟩ := L
  simp only at *
  by_cases c0 : mapping.length ≠ total
  · rw [if_pos c0] at h; simp at h
  rw [if_neg c0] at h
  have hlen0 := not_not.mp c0
  obtain ⟨img0, hw0, h0⟩ := Option.bind_eq_some.mp h
  clear h
  obtain ⟨img1, hw1, h1⟩ := Option.bind_eq_some.mp h0
  clear h0
  by_cases c1 : eo + JudyL_extents_pos.length * sizeof_journal_extent_list ≠ eto
  · rw [if_pos c1] at h1; simp at h1
  rw [if_neg c1] at h1
  obtain ⟨buf, hbuf, h2⟩ := Option.bind_eq_some.mp h1
  clear h1
  obtain ⟨img2, hw2, h3⟩ := Option.bind_eq_some.mp h2
  clear h2
  by_cases c2 : eo + JudyL_extents_pos.length * sizeof_journal_extent_list +
      sizeof_journal_v2_block_trailer ≠ mo
  · rw [if_pos c2] at h3; simp at h3
  rw [if_neg c2] at h3
  by_cases c3 : JudyL_metrics.length ≠ nm
  · rw [if_pos c3] at h3; simp at h3
  rw [if_neg c3] at h3
  have hcount : JudyL_metrics.length = nm := not_not.mp c3
  obtain ⟨st, hloop, h4⟩ := Option.bind_eq_some.mp h3
  clear h3
  by_cases c4 : st.data = some mto
  swap
  · rw [if_neg c4] at h4
    obtain ⟨img3, _, h5⟩ := Option.bind_eq_some.mp h4
    exfalso
    apply hpub
    by_cases c5 : u32 sizeof_journal_v2_header = total
    · rw [if_pos c5] at h5
      simp only [Option.some.injEq] at h5
      rw [← h5]
    · rw [if_neg c5] at h5
      cases truncate_ok with
      | true =>
        simp only [if_true, Option.some.injEq] at h5
        rw [← h5]
      | false =>
        simp only [Bool.false_eq_true, if_false, Option.some.injEq] at h5
        rw [← h5]
  rw [if_pos c4] at h4
  obtain ⟨buf', hbuf', h5⟩ := Option.bind_eq_some.mp h4
  clear h4
  obtain ⟨img3, hw3, h6⟩ := Option.bind_eq_some.mp h5
  clear h5
  obtain ⟨img4, hw4, h7⟩ := Option.bind_eq_some.mp h6
  clear h6
  obtain ⟨img5, hw5, h8⟩ := Option.bind_eq_some.mp h7
  clear h7
  simp only [Option.some.injEq] at h8
  subst h8
  clear hpub
  simp only [sizeof_journal_extent_list, sizeof_journal_metric_list] at hbuf hbuf'
  have c2' := not_not.mp c2
  -- sizes
  have l0 : img0.length = mapping.length := mem_write_length hw0
  have l1 : img1.length = img0.length := journal_v2_write_extent_list_length _ hw1
  obtain ⟨m2, r2⟩ := crc32set_spec hw2
  have l2 : img2.length = total := by
    rw [m2.1, l1, l0, hlen0]
  have hq := qsort_uuid_list_length JudyL_metrics
  obtain ⟨ls, fs, es⟩ := migrate_metrics_spec hK (qsort_uuid_list JudyL_metrics) hloop rfl
    (by rw [c4, hq, hcount, e4]; exact congrArg some (by omega))
    (by simp only; rw [l2]; exact hsize)
    (by simp only; rw [hq, hcount, c2']; omega)
  simp only at ls fs es
  rw [c2'] at fs es
  obtain ⟨m3, r3⟩ := crc32set_spec hw3
  obtain ⟨m4, r4⟩ := crc32set_spec hw4
  have m5 := mem_write_modified hw5
  have r5 := mem_read_write_same hw5
  rw [journal_v2_header_bytes_length] at m5 r5
  simp only [Nat.zero_add] at m5
  have l5 : img5.length = total := by
    rw [m5.1, m4.1, m3.1, ls, l2]
  clear hw0 hw1 hw2 hw3 hw4 hw5 hloop c0 c1 c2 c3 c4 hlen0 l0 l1
  rw [hq, hcount] at fs
  clear hq
  have g1 : read_le img5 tro 4 = some (crc32 0
      (migration_header K journalfile_pos JudyL_metrics ne nm np).bytes) := by
    rw [m5.read_le _ 4 (Or.inr (by omega))]
    exact r4
  have g2 : mem_read img5 eo (ne * 24) = some buf := by
    rw [m5.mem_read _ _ (Or.inr (by omega)), m4.mem_read _ _ (Or.inl (by omega)),
      m3.mem_read _ _ (Or.inl (by omega)),
      mem_read_congr ls (fun i h1 h2 => fs i (Or.inl (by omega))),
      m2.mem_read _ _ (Or.inl (by omega))]
    exact hbuf
  have g3 : read_le img5 eto 4 = some (crc32 0 buf) := by
    rw [m5.read_le _ _ (Or.inr (by omega)), m4.read_le _ _ (Or.inl (by omega)),
      m3.read_le _ _ (Or.inl (by omega))]
    unfold read_le
    rw [mem_read_congr ls (fun i h1 h2 => fs i (Or.inl (by omega)))]
    exact r2
  have g4 : mem_read img5 mo (nm * 32) = some buf' := by
    rw [m5.mem_read _ _ (Or.inr (by omega)), m4.mem_read _ _ (Or.inl (by omega)),
      m3.mem_read _ _ (Or.inl (by omega))]
    exact hbuf'
  have g5 : read_le img5 mto 4 = some (crc32 0 buf') := by
    rw [m5.read_le _ _ (Or.inr (by omega)), m4.read_le _ _ (Or.inl (by omega))]
    exact r3
  have g6 : ∀ i m p, (qsort_uuid_list JudyL_metrics)[i]? = some m →
      (page_offsets po (qsort_uuid_list JudyL_metrics))[i]? = some p →
      mem_read img5 (mo + 32 * i) 32 = some (metric_entry_bytes
        (migration_header K journalfile_pos JudyL_metrics ne nm np) m p) ∧
      mem_read img5 p 24 = some (page_header_bytes m (u32 (mo + 32 * i))) := by
    intro i m p hm hpo
    obtain ⟨a1, a2, a3⟩ := es i m p hm hpo
    have hi : i < nm := by
      have := (List.getElem?_eq_some_iff.mp hm).1
      rw [qsort_uuid_list_length] at this
      omega
    have hpo' := page_offsets_ge _ _ _ _ hpo
    rw [l2] at a3
    clear es hm hpo fs
    constructor
    · rw [m5.mem_read _ _ (Or.inr (by omega)), m4.mem_read _ _ (Or.inl (by omega)),
        m3.mem_read _ _ (Or.inl (by omega))]
      exact a1
    · rw [m5.mem_read _ _ (Or.inr (by omega)), m4.mem_read _ _ (Or.inl (by omega)),
        m3.mem_read _ _ (Or.inr (by omega))]
      exact a2
  refine ⟨rfl, ?_⟩
  rw [show img5 = (migrate_result.mk img5 (some (img5, total)) total 0).file from rfl] at *
  exact ⟨by rw [hL]; exact l5, r5, by rw [hL]; exact g1, ⟨buf, by rw [hL]; exact g2,
    by rw [hL]; exact g3⟩, ⟨buf', by rw [hL]; exact g4, by rw [hL]; exact g5⟩, hcount,
    by rw [hL]; exact g6⟩

/-! ## The validator on a published file -/

theorem check_journal_v2_extent_list_ok {data : List Nat} {file_size eto eo ec : Nat}
    {buf : List Nat}
    (h1 : read_le data 32 4 = some eto) (h2 : read_le data 28 4 = some eo)
    (h3 : read_le data 24 4 = some ec) (h4 : mem_read data eo (u32 (ec * 24)) = some buf)
    (h5 : read_le data eto 4 = some (crc32 0 buf)) :
    check_journal_v2_extent_list data file_size = some 0 := by
  simp [check_journal_v2_extent_list, h1, h2, h3, sizeof_journal_extent_list, h4, crc32cmp, h5]

theorem check_journal_v2_metric_list_ok {data : List Nat} {file_size mto mo mc : Nat}
    {buf : List Nat}
    (h1 : read_le data 44 4 = some mto) (h2 : read_le data 40 4 = some mo)
    (h3 : read_le data 36 4 = some mc) (h4 : mem_read data mo (u32 (mc * 32)) = some buf)
    (h5 : read_le data mto 4 = some (crc32 0 buf)) :
    check_journal_v2_metric_list data file_size = some 0 := by
  simp [check_journal_v2_metric_list, h1, h2, h3, sizeof_journal_metric_list, h4, crc32cmp, h5]

theorem check_journal_v2_file_ok {K : Consts} (hK : K.WF) {data : List Nat}
    {file_size original_size : Nat} {hdr : List Nat}
    (h1 : read_le data 0 4 = some K.JOURVAL_V2_MAGIC)
    (h2 : read_le data 56 4 = some file_size)
    (h3 : original_size = 0 ∨ read_le data 60 4 = some original_size)
    (h4 : 4 ≤ file_size)
    (h5 : mem_read data 0 72 = some hdr)
    (h6 : read_le data (file_size - 4) 4 = some (crc32 0 hdr))
    (h7 : check_journal_v2_extent_list data file_size = some 0)
    (h8 : check_journal_v2_metric_list data file_size = some 0) :
    check_journal_v2_file K false data file_size original_size = some 0 := by
  obtain ⟨_, _, _, k1, k2, _⟩ := hK
  have h4' : ¬ file_size < 4 := by omega
  rcases h3 with h3 | h3
  · subst h3
    simp [check_journal_v2_file, h1, k1, k2, h2, sizeof_journal_v2_block_trailer, h4',
      sizeof_journal_v2_header, h5, crc32cmp, h6, h7, h8]
  · by_cases ho : original_size = 0
    · subst ho
      simp [check_journal_v2_file, h1, k1, k2, h2, sizeof_journal_v2_block_trailer, h4',
        sizeof_journal_v2_header, h5, crc32cmp, h6, h7, h8]
    · simp [check_journal_v2_file, h1, k1, k2, h2, h3, ho, sizeof_journal_v2_block_trailer, h4',
        sizeof_journal_v2_header, h5, crc32cmp, h6, h7, h8]

theorem mod_256_pow_4 {x : Nat} (h : x < 2 ^ 32) : x % 256 ^ 4 = x :=
  Nat.mod_eq_of_lt (by norm_num at h ⊢; exact h)

/-- C1: the file that a publishing run of `do_migrate_to_v2_callback` leaves
passes `check_journal_v2_file` (deep check disabled) when the validator is
given the size `total_file_size` and an `original_size` that is 0 or the
`original_file_size` written: the file trailer, the extent trailer and the
metric trailer all verify. The sizes of a v2 file are 32-bit fields, so the
computed size is taken below `2 ^ 32`. -/
theorem migrated_file_passes_check (K : Consts) (hK : K.WF) (mapping : List Nat)
    (truncate_ok : Bool) (journalfile_pos : Nat) (JudyL_metrics : List jv2_metrics_info)
    (JudyL_extents_pos : List jv2_extents_info) (ne nm np : Nat) (r : migrate_result)
    (original_size : Nat)
    (h : do_migrate_to_v2_callback K mapping truncate_ok journalfile_pos JudyL_metrics
      JudyL_extents_pos ne nm np = some r)
    (hpub : r.journal_data ≠ none)
    (hsize : (compute_layout K ne nm np).total_file_size < 2 ^ 32)
    (horig : original_size = 0 ∨ original_size = u32 journalfile_pos) :
    check_journal_v2_file K false r.file (compute_layout K ne nm np).total_file_size
      original_size = some 0 := by
  obtain ⟨_, P⟩ := do_migrate_published hK h hpub hsize
  obtain ⟨e1, e2, e3, e4, e5, e6, e7⟩ := compute_layout_exact K ne nm np hsize
  obtain ⟨buf, b1, b2⟩ := P.extents
  obtain ⟨buf', b1', b2'⟩ := P.metrics
  have hne : ne < 2 ^ 32 := by omega
  have hnm : nm < 2 ^ 32 := by omega
  have f_magic := header_field_magic P.header
  have f_ec := header_field_extent_count P.header
  have f_eo := header_field_extent_offset P.header
  have f_eto := header_field_extent_trailer_offset P.header
  have f_mc := header_field_metric_count P.header
  have f_mo := header_field_metric_offset P.header
  have f_mto := header_field_metric_trailer_offset P.header
  have f_total := header_field_total_file_size P.header
  have f_orig := header_field_original_file_size P.header
  simp only [migration_header] at f_magic f_ec f_eo f_eto f_mc f_mo f_mto f_total f_orig
  have u_lt : ∀ x, u32 x < 2 ^ 32 := fun x => Nat.mod_lt _ (by norm_num)
  have u_id : ∀ x, x < 2 ^ 32 → u32 x = x := fun x hx => Nat.mod_eq_of_lt hx
  rw [mod_256_pow_4 hK.1] at f_magic
  rw [u_id _ hne, mod_256_pow_4 hne] at f_ec
  rw [mod_256_pow_4 (by omega)] at f_eo f_eto f_mo f_mto
  rw [u_id _ hnm, mod_256_pow_4 hnm] at f_mc
  rw [u_id _ hsize, mod_256_pow_4 hsize] at f_total
  rw [mod_256_pow_4 (u_lt _)] at f_orig
  refine check_journal_v2_file_ok hK f_magic f_total ?_ (by omega) P.header ?_
    (check_journal_v2_extent_list_ok f_eto f_eo f_ec
      (by rw [u_id (ne * 24) (by omega)]; exact b1) b2)
    (check_journal_v2_metric_list_ok f_mto f_mo f_mc
      (by rw [u_id (nm * 32) (by omega)]; exact b1') b2')
  · rcases horig with h0 | h0
    · exact Or.inl h0
    · exact Or.inr (by rw [h0]; exact f_orig)
  · have : (compute_layout K ne nm np).total_file_size - 4 =
        (compute_layout K ne nm np).trailer_offset := by omega
    rw [this]
    exact P.file_trailer

/-! ## The order of the metric list -/

theorem uuid_compare_total (a b : List Nat) : uuid_compare a b ≤ 0 ∨ uuid_compare b a ≤ 0 := by
  induction a generalizing b with
  | nil => left; simp [uuid_compare]
  | cons x as ih =>
    cases b with
    | nil => left; simp [uuid_compare]
    | cons y bs =>
      simp only [uuid_compare]
      rcases Nat.lt_trichotomy x y with hxy | hxy | hxy
      · left; simp [hxy]
      · subst hxy
        simp only [lt_irrefl, if_false]
        exact ih bs
      · right; simp [hxy]

theorem uuid_compare_trans (a b c : List Nat) (hab : a.length = b.length)
    (hbc : b.length = c.length) (h1 : uuid_compare a b ≤ 0) (h2 : uuid_compare b c ≤ 0) :
    uuid_compare a c ≤ 0 := by
  induction a generalizing b c with
  | nil => simp [uuid_compare]
  | cons x as ih =>
    cases b with
    | nil => simp at hab
    | cons y bs =>
      cases c with
      | nil => simp at hbc
      | cons z cs =>
        simp only [uuid_compare] at h1 h2 ⊢
        simp only [List.length_cons, Nat.add_right_cancel_iff] at hab hbc
        by_cases hxy : x < y
        · by_cases hyz : y < z
          · simp [lt_trans hxy hyz]
          · by_cases hzy : z < y
            · simp [hyz, hzy] at h2
            · have : y = z := by omega
              subst this
              simp [hxy]
        · by_cases hyx : y < x
          · simp [hxy, hyx] at h1
          · have : x = y := by omega
            subst this
            simp only [lt_irrefl, if_false] at h1
            by_cases hyz : x < z
            · simp [hyz]
            · by_cases hzy : z < x
              · simp [hyz, hzy] at h2
              · simp only [hyz, hzy, if_false] at h2 ⊢
                exact ih bs cs hab hbc h1 h2

theorem uuid_compare_eq_zero (a b : List Nat) (hab : a.length = b.length)
    (h : uuid_compare a b = 0) : a = b := by
  induction a generalizing b with
  | nil => cases b with
    | nil => rfl
    | cons y bs => simp at hab
  | cons x as ih =>
    cases b with
    | nil => simp at hab
    | cons y bs =>
      simp only [uuid_compare] at h
      simp only [List.length_cons, Nat.add_right_cancel_iff] at hab
      by_cases hxy : x < y
      · simp [hxy] at h
      · by_cases hyx : y < x
        · simp [hxy, hyx] at h
        · simp only [hxy, hyx, if_false] at h
          have : x = y := by omega
          rw [this, ih bs hab h]

theorem journal_metric_le_total (a b : jv2_metrics_info) :
    journal_metric_le a b ∨ journal_metric_le b a :=
  uuid_compare_total _ _

theorem journal_metric_le_trans (a b c : jv2_metrics_info) (h1 : journal_metric_le a b)
    (h2 : journal_metric_le b c) : journal_metric_le a c :=
  uuid_compare_trans _ _ _ (by simp [uuid_bytes_length]) (by simp [uuid_bytes_length]) h1 h2

theorem qsort_uuid_list_sorted (l : List jv2_metrics_info) :
    List.Sorted journal_metric_le (qsort_uuid_list l) :=
  @List.sorted_insertionSort _ journal_metric_le _ ⟨journal_metric_le_total⟩
    ⟨journal_metric_le_trans⟩ l

theorem qsort_uuid_list_perm (l : List jv2_metrics_info) : (qsort_uuid_list l).Perm l :=
  List.perm_insertionSort _ l

/-- Two metrics of the sorted list at increasing indices, with distinct
well-formed identifiers, are in strictly ascending byte-wise order. -/
theorem qsort_uuid_list_strict (l : List jv2_metrics_info)
    (hwf : ∀ m ∈ l, m.uuid.length = 16 ∧ ∀ b ∈ m.uuid, b < 256)
    (hdistinct : (l.map (fun m => m.uuid)).Nodup)
    (i j : Nat) (a b : jv2_metrics_info) (hij : i < j)
    (ha : (qsort_uuid_list l)[i]? = some a) (hb : (qsort_uuid_list l)[j]? = some b) :
    uuid_compare a.uuid b.uuid < 0 := by
  have hs := qsort_uuid_list_sorted l
  have hp := qsort_uuid_list_perm l
  obtain ⟨hi', ea⟩ := List.getElem?_eq_some_iff.mp ha
  obtain ⟨hj', eb⟩ := List.getElem?_eq_some_iff.mp hb
  have hle : journal_metric_le a b := by
    have := List.pairwise_iff_getElem.mp hs i j hi' hj' hij
    rwa [ea, eb] at this
  have hma : a ∈ l := hp.mem_iff.mp (ea ▸ List.getElem_mem _)
  have hmb : b ∈ l := hp.mem_iff.mp (eb ▸ List.getElem_mem _)
  have hua := uuid_bytes_eq_self a.uuid (hwf a hma).1 (hwf a hma).2
  have hub := uuid_bytes_eq_self b.uuid (hwf b hmb).1 (hwf b hmb).2
  unfold journal_metric_le journal_metric_compare at hle
  rw [hua, hub] at hle
  have hne : a.uuid ≠ b.uuid := by
    have hnd : ((qsort_uuid_list l).map (fun m => m.uuid)).Nodup :=
      (hp.map _).nodup_iff.mpr hdistinct
    intro e
    have h1 : ((qsort_uuid_list l).map (fun m => m.uuid))[i]? = some a.uuid := by
      simp [List.getElem?_map, ha]
    have h2 : ((qsort_uuid_list l).map (fun m => m.uuid))[j]? = some a.uuid := by
      simp [List.getElem?_map, hb, e]
    have hi2 : i < ((qsort_uuid_list l).map (fun m => m.uuid)).length := by simpa using hi'
    have hj2 : j < ((qsort_uuid_list l).map (fun m => m.uuid)).length := by simpa using hj'
    have := (@List.Nodup.getElem_inj_iff _ _ hnd i hi2 j hj2).mp (by
      rw [List.getElem?_eq_getElem hi2] at h1
      rw [List.getElem?_eq_getElem hj2] at h2
      simp only [Option.some.injEq] at h1 h2
      rw [h1, h2])
    omega
  have hz : uuid_compare a.uuid b.uuid ≠ 0 := fun e =>
    hne (uuid_compare_eq_zero _ _ (by rw [(hwf a hma).1, (hwf b hmb).1]) e)
  omega

theorem mem_read_prefix (pre : List Nat) {post img : List Nat} {off n : Nat}
    (h : mem_read img off n = some (pre ++ post)) :
    mem_read img off pre.length = some pre := by
  have hn := mem_read_length h
  simp only [List.length_append] at hn
  have := mem_read_sub h 0 pre.length (by omega)
  simpa using this

theorem page_offsets_step (po : Nat) (ms : List jv2_metrics_info) (i j pi pj : Nat)
    (m : jv2_metrics_info) (hij : i < j) (hm : ms[i]? = some m)
    (hi : (page_offsets po ms)[i]? = some pi) (hj : (page_offsets po ms)[j]? = some pj) :
    pi + 36 + 20 * (m.number_of_pages % 2 ^ 32) ≤ pj := by
  induction ms generalizing po i j with
  | nil => simp at hm
  | cons m0 rest ih =>
    cases j with
    | zero => omega
    | succ j' =>
      simp only [page_offsets, List.getElem?_cons_succ] at hj
      cases i with
      | zero =>
        simp only [List.getElem?_cons_zero, Option.some.injEq] at hm
        simp only [page_offsets, List.getElem?_cons_zero, Option.some.injEq] at hi
        subst hm hi
        exact page_offsets_ge _ _ _ _ hj
      | succ i' =>
        simp only [List.getElem?_cons_succ] at hm
        simp only [page_offsets, List.getElem?_cons_succ] at hi
        exact ih _ i' j' (by omega) hm hi hj

/-- The metric list entry and the page header of the metric at index `i` of
a published file. -/
theorem published_entry {K : Consts} {journalfile_pos : Nat}
    {JudyL_metrics : List jv2_metrics_info} {ne nm np : Nat} {file : List Nat}
    (P : published_file K journalfile_pos JudyL_metrics ne nm np file)
    (hsize : (compute_layout K ne nm np).total_file_size < 2 ^ 32) (i : Nat) (hi : i < nm) :
    ∃ m po, (qsort_uuid_list JudyL_metrics)[i]? = some m ∧
      (page_offsets (compute_layout K ne nm np).pages_offset
        (qsort_uuid_list JudyL_metrics))[i]? = some po ∧
      mem_read file ((compute_layout K ne nm np).metrics_offset + 32 * i) 16 =
        some (uuid_bytes m.uuid) ∧
      read_le file ((compute_layout K ne nm np).metrics_offset + 32 * i + 16) 4 =
        some (m.number_of_pages % 2 ^ 32) ∧
      read_le file ((compute_layout K ne nm np).metrics_offset + 32 * i + 20) 4 = some po ∧
      mem_read file po 16 = some (uuid_bytes m.uuid) ∧
      read_le file (po + 16) 4 = some (m.number_of_pages % 2 ^ 32) ∧
      read_le file (po + 20) 4 = some ((compute_layout K ne nm np).metrics_offset + 32 * i) := by
  obtain ⟨e1, e2, e3, e4, e5, e6, e7⟩ := compute_layout_exact K ne nm np hsize
  have hq := qsort_uuid_list_length JudyL_metrics
  have hi1 : i < (qsort_uuid_list JudyL_metrics).length := by rw [hq, P.count]; exact hi
  have hi2 : i < (page_offsets (compute_layout K ne nm np).pages_offset
      (qsort_uuid_list JudyL_metrics)).length := by rw [page_offsets_length]; exact hi1
  refine ⟨(qsort_uuid_list JudyL_metrics)[i], _, List.getElem?_eq_getElem hi1,
    List.getElem?_eq_getElem hi2, ?_⟩
  obtain ⟨a1, a2⟩ := P.entries i _ _ (List.getElem?_eq_getElem hi1) (List.getElem?_eq_getElem hi2)
  generalize (qsort_uuid_list JudyL_metrics)[i] = m at a1 a2 ⊢
  generalize (page_offsets (compute_layout K ne nm np).pages_offset
    (qsort_uuid_list JudyL_metrics))[i] = po at a1 a2 ⊢
  have hpo : po < 2 ^ 32 := by
    have := (mem_read_eq_some a2).1
    rw [P.length_eq] at this
    omega
  have hmo : (compute_layout K ne nm np).metrics_offset + 32 * i < 2 ^ 32 := by omega
  have e256 : (256 : Nat) ^ 4 = 2 ^ 32 := by norm_num
  unfold metric_entry_bytes at a1
  unfold page_header_bytes at a2
  refine ⟨?_, ?_, ?_, ?_, ?_, ?_⟩
  · have := mem_read_prefix (uuid_bytes m.uuid) (by simpa [List.append_assoc] using a1)
    rwa [uuid_bytes_length] at this
  · have := read_le_of_block (uuid_bytes m.uuid) (_) (by simpa [List.append_assoc] using a1)
    rwa [uuid_bytes_length, e256] at this
  · have := read_le_of_block (uuid_bytes m.uuid ++ le_bytes 4 m.number_of_pages) (_)
      (by simpa [List.append_assoc] using a1)
    simp only [List.length_append, uuid_bytes_length, length_le_bytes] at this
    rwa [mod_256_pow_4 hpo] at this
  · have := mem_read_prefix (uuid_bytes m.uuid) (by simpa [List.append_assoc] using a2)
    rwa [uuid_bytes_length] at this
  · have := read_le_of_block (uuid_bytes m.uuid) (_) a2
    rwa [uuid_bytes_length, e256] at this
  · have := read_le_of_block (uuid_bytes m.uuid ++ le_bytes 4 m.number_of_pages) ([]) (by simpa using a2)
    simp only [List.length_append, uuid_bytes_length, length_le_bytes] at this
    have hu : u32 ((compute_layout K ne nm np).metrics_offset + 32 * i) =
        (compute_layout K ne nm np).metrics_offset + 32 * i := Nat.mod_eq_of_lt hmo
    rwa [hu, mod_256_pow_4 hmo] at this

/-- C4: in the file of a publishing migration the metric list holds the
identifiers of a permutation of the input metrics, and each entry's
identifier is byte-wise strictly below the next entry's (the input
identifiers being well-formed and pairwise distinct). -/
theorem migrated_metric_list_sorted (K : Consts) (hK : K.WF) (mapping : List Nat)
    (truncate_ok : Bool) (journalfile_pos : Nat) (JudyL_metrics : List jv2_metrics_info)
    (JudyL_extents_pos : List jv2_extents_info) (ne nm np : Nat) (r : migrate_result)
    (h : do_migrate_to_v2_callback K mapping truncate_ok journalfile_pos JudyL_metrics
      JudyL_extents_pos ne nm np = some r)
    (hpub : r.journal_data ≠ none)
    (hsize : (compute_layout K ne nm np).total_file_size < 2 ^ 32)
    (hwf : ∀ m ∈ JudyL_metrics, m.uuid.length = 16 ∧ ∀ b ∈ m.uuid, b < 256)
    (hdistinct : (JudyL_metrics.map (fun m => m.uuid)).Nodup) :
    ∃ metric_offset sorted,
      read_le r.file 40 4 = some metric_offset ∧ read_le r.file 36 4 = some nm ∧
      List.Perm sorted JudyL_metrics ∧
      (∀ i m, sorted[i]? = some m →
        mem_read r.file (metric_offset + 32 * i) 16 = some m.uuid) ∧
      (∀ i a b, i + 1 < nm →
        mem_read r.file (metric_offset + 32 * i) 16 = some a →
        mem_read r.file (metric_offset + 32 * (i + 1)) 16 = some b →
        uuid_compare a b < 0) := by
  obtain ⟨_, P⟩ := do_migrate_published hK h hpub hsize
  obtain ⟨e1, e2, e3, e4, e5, e6, e7⟩ := compute_layout_exact K ne nm np hsize
  have hnm : nm < 2 ^ 32 := by omega
  have f_mc := header_field_metric_count P.header
  have f_mo := header_field_metric_offset P.header
  simp only [migration_header] at f_mc f_mo
  rw [show u32 nm = nm from Nat.mod_eq_of_lt hnm, mod_256_pow_4 hnm] at f_mc
  rw [mod_256_pow_4 (by omega)] at f_mo
  have hp := qsort_uuid_list_perm JudyL_metrics
  have key : ∀ i m, (qsort_uuid_list JudyL_metrics)[i]? = some m →
      mem_read r.file ((compute_layout K ne nm np).metrics_offset + 32 * i) 16 =
        some m.uuid := by
    intro i m hm
    have hi : i < nm := by
      have := (List.getElem?_eq_some_iff.mp hm).1
      rw [qsort_uuid_list_length, P.count] at this
      exact this
    obtain ⟨m', po, hm', _, hu, _⟩ := published_entry P hsize i hi
    rw [hm] at hm'
    simp only [Option.some.injEq] at hm'
    subst hm'
    have hmem : m ∈ JudyL_metrics := by
      obtain ⟨hlt, he⟩ := List.getElem?_eq_some_iff.mp hm
      exact hp.mem_iff.mp (he ▸ List.getElem_mem _)
    rwa [uuid_bytes_eq_self _ (hwf m hmem).1 (hwf m hmem).2] at hu
  refine ⟨_, qsort_uuid_list JudyL_metrics, f_mo, f_mc, hp, key, ?_⟩
  intro i a b hi ha hb
  have hl : (qsort_uuid_list JudyL_metrics).length = nm := by
    rw [qsort_uuid_list_length, P.count]
  have h1 : i < (qsort_uuid_list JudyL_metrics).length := by omega
  have h2 : i + 1 < (qsort_uuid_list JudyL_metrics).length := by omega
  have k1 := key i _ (List.getElem?_eq_getElem h1)
  have k2 := key (i + 1) _ (List.getElem?_eq_getElem h2)
  rw [ha] at k1
  rw [hb] at k2
  simp only [Option.some.injEq] at k1 k2
  rw [k1, k2]
  exact qsort_uuid_list_strict JudyL_metrics hwf hdistinct i (i + 1) _ _ (by omega)
    (List.getElem?_eq_getElem h1) (List.getElem?_eq_getElem h2)

theorem migrated_file_passes_check_witness :
    example_consts.WF ∧ example_migration 8192 = some example_result ∧
    example_result.journal_data ≠ none ∧
    check_journal_v2_file example_consts false example_result.file
      (compute_layout example_consts 1 3 4).total_file_size 8192 = some 0 :=
  ⟨by decide, by decide!, by decide!,
    migrated_file_passes_check example_consts (by decide) example_mapping true 8192 example_metrics
      example_extents 1 3 4 example_result 8192 (by decide!) (by decide!) (by decide)
      (Or.inr (by decide))⟩

theorem metric_retention_round_trip_witness :
    journal_v2_write_metric_page example_header (List.replicate 64 0) 0 example_metric 40 =
      some (example_metric.uuid ++ [1, 0, 0, 0, 40, 0, 0, 0, 0, 0, 0, 0, 59, 0, 0, 0] ++
        List.replicate 32 0, some 32) ∧
    ∃ delta_start_s delta_end_s,
      read_le (example_metric.uuid ++ [1, 0, 0, 0, 40, 0, 0, 0, 0, 0, 0, 0, 59, 0, 0, 0] ++
        List.replicate 32 0) (0 + 24) 4 = some delta_start_s ∧
      read_le (example_metric.uuid ++ [1, 0, 0, 0, 40, 0, 0, 0, 0, 0, 0, 0, 59, 0, 0, 0] ++
        List.replicate 32 0) (0 + 28) 4 = some delta_end_s ∧
      mem_read (example_metric.uuid ++ [1, 0, 0, 0, 40, 0, 0, 0, 0, 0, 0, 0, 59, 0, 0, 0] ++
        List.replicate 32 0) 0 16 = some example_metric.uuid ∧
      u64_to_time (example_header.start_time_ut / USEC_PER_SEC) + (delta_start_s : Int) =
        example_metric.first_time_s ∧
      u64_to_time (example_header.start_time_ut / USEC_PER_SEC) + (delta_end_s : Int) =
        example_metric.last_time_s ∧
      ∀ r, load_metric_entry (example_metric.uuid ++
          [1, 0, 0, 0, 40, 0, 0, 0, 0, 0, 0, 0, 59, 0, 0, 0] ++ List.replicate 32 0)
          (u64_to_time (example_header.start_time_ut / USEC_PER_SEC)) 3 0 = some r →
        r.1 = example_metric.uuid ∧ r.2.1 = example_metric.first_time_s ∧
        r.2.2.1 = example_metric.last_time_s :=
  ⟨by decide!,
    metric_retention_round_trip example_header (List.replicate 64 0) _ 0 32 40 3 example_metric
      (by decide!) (by decide) (by decide) (by decide!) (by decide!) (by decide!) (by decide!)
      (by decide!)⟩

theorem migrated_metric_list_sorted_witness :
    example_migration 8192 = some example_result ∧ example_result.journal_data ≠ none ∧
    ∃ metric_offset sorted,
      read_le example_result.file 40 4 = some metric_offset ∧
      read_le example_result.file 36 4 = some 3 ∧
      List.Perm sorted example_metrics ∧
      (∀ i m, sorted[i]? = some m →
        mem_read example_result.file (metric_offset + 32 * i) 16 = some m.uuid) ∧
      (∀ i a b, i + 1 < 3 →
        mem_read example_result.file (metric_offset + 32 * i) 16 = some a →
        mem_read example_result.file (metric_offset + 32 * (i + 1)) 16 = some b →
        uuid_compare a b < 0) :=
  ⟨by decide!, by decide!,
    migrated_metric_list_sorted example_consts (by decide) example_mapping true 8192 example_metrics
      example_extents 1 3 4 example_result (by decide!) (by decide!) (by decide)
      (by decide) (by decide)⟩

theorem check_journal_v2_file_magic_first_witness :
    upstream_consts.WF ∧ read_le [0x19, 0x10, 0x22, 0x02] 0 4 = some 0x02221019 ∧
    ((0x02221019 = upstream_consts.JOURVAL_V2_REBUILD_MAGIC →
      check_journal_v2_file upstream_consts false [0x19, 0x10, 0x22, 0x02] 4 0 = some 2) ∧
    (0x02221019 = upstream_consts.JOURVAL_V2_SKIP_MAGIC →
      check_journal_v2_file upstream_consts false [0x19, 0x10, 0x22, 0x02] 4 0 = some 3) ∧
    (0x02221019 ≠ upstream_consts.JOURVAL_V2_REBUILD_MAGIC →
      0x02221019 ≠ upstream_consts.JOURVAL_V2_SKIP_MAGIC →
      0x02221019 ≠ upstream_consts.JOURVAL_V2_MAGIC →
      check_journal_v2_file upstream_consts false [0x19, 0x10, 0x22, 0x02] 4 0 = some 1) ∧
    (∀ rc, check_journal_v2_file upstream_consts false [0x19, 0x10, 0x22, 0x02] 4 0 = some rc →
      rc = 0 ∨ rc = 1 ∨ rc = 2 ∨ rc = 3)) :=
  ⟨by decide, by decide,
    check_journal_v2_file_magic_first upstream_consts (by decide) false _ 4 0 _ (by decide)⟩

theorem check_journal_v2_file_sizes_witness :
    example_consts.WF ∧
    read_le example_result.file 0 4 = some example_consts.JOURVAL_V2_MAGIC ∧
    read_le example_result.file 56 4 = some 436 ∧
    read_le example_result.file 60 4 = some 8192 ∧
    ((436 ≠ 500 →
      check_journal_v2_file example_consts false example_result.file 500 4096 = some 1) ∧
    (4096 ≠ 0 → 8192 ≠ 4096 →
      check_journal_v2_file example_consts false example_result.file 500 4096 = some 1) ∧
    (check_journal_v2_file example_consts false example_result.file 500 0 =
      check_journal_v2_file example_consts false example_result.file 500 8192)) :=
  ⟨by decide, by decide!, by decide!, by decide!,
    check_journal_v2_file_sizes example_consts (by decide) false example_result.file 500 4096
      436 8192 (by decide!) (by decide!) (by decide!)⟩

/-! ## The code at two failing inputs -/

/-- C3 (the code at a failing input): the loader walks the file of the
example migration, whose metric list has three entries; the entry whose own
page count is 2 and whose retention is `[1000, 1119]` is fed with the
`update_every` 59, which is `119 / (3 - 1)`: the divisor is the number of
metrics minus one, where the entry's own page count gives `119 / (2 - 1)`. -/
theorem load_journal_file_v2_update_every_divisor :
    ((load_journal_file_v2 example_consts false (some 8192) (.mapped example_result.file)
      2000).map (fun l => (l.rc, l.updates.map (fun u =>
        (u.entry.uuid.head?, u.entry.first_time_s, u.entry.last_time_s,
          u.expand_update_every_s))))) =
      some (0, [(some 1, 1000, 1119, 59), (some 2, 1000, 1059, 0), (some 3, 1060, 1119, 0)]) ∧
    read_le example_result.file 36 4 = some 3 ∧
    read_le example_result.file (108 + 16) 4 = some 2 := by
  decide!

/-- C8 (the code at a failing input): a v1 journal of 8292 bytes is loaded
with `journalfile->pos` 8192, the block boundary below its length; the
migrator publishes a file whose `original_file_size` is 8192, and the loader,
which compares that field with the `st_size` 8292 of the v1 journal, returns
1 and publishes nothing. -/
theorem original_file_size_is_aligned_floor :
    load_journal_file_pos 8292 = 8192 ∧
    ((example_migration (load_journal_file_pos 8292)).bind (fun r =>
      (read_le r.file 60 4).bind (fun original_file_size =>
        (load_journal_file_v2 example_consts false (some 8292) (.mapped r.file) 2000).map
          (fun l => (r.journal_data.isSome, original_file_size, l.rc,
            l.journal_data.isSome))))) = some (true, 8192, 1, false) := by
  decide!

/-! ## Algebra of the CRC-32 register -/

theorem xor_mod_two (a b : Nat) : (a ^^^ b) % 2 = (a % 2 + b % 2) % 2 := by
  have h := Nat.testBit_xor a b 0
  simp only [Nat.testBit_zero] at h
  rcases Nat.mod_two_eq_zero_or_one a with ha | ha <;>
  rcases Nat.mod_two_eq_zero_or_one b with hb | hb <;>
  rcases Nat.mod_two_eq_zero_or_one (a ^^^ b) with hab | hab <;>
  simp [ha, hb, hab] at h ⊢

theorem crc32_shift_xor (a b : Nat) :
    crc32_shift (a ^^^ b) = crc32_shift a ^^^ crc32_shift b := by
  unfold crc32_shift
  rw [xor_mod_two, Nat.xor_div_two]
  rcases Nat.mod_two_eq_zero_or_one a with ha | ha <;>
  rcases Nat.mod_two_eq_zero_or_one b with hb | hb
  · simp [ha, hb]
  · simp [ha, hb, Nat.xor_assoc]
  · simp only [ha, hb]
    norm_num
    rw [Nat.xor_assoc, Nat.xor_assoc, Nat.xor_comm (b / 2) CRC32_POLY]
  · simp only [ha, hb]
    norm_num
    rw [Nat.xor_assoc, ← Nat.xor_assoc CRC32_POLY, Nat.xor_comm CRC32_POLY (b / 2),
      Nat.xor_assoc (b / 2), Nat.xor_self, Nat.xor_zero]

theorem crc32_shift_zero : crc32_shift 0 = 0 := by decide

theorem crc32_shift_iterate_xor (n a b : Nat) :
    crc32_shift^[n] (a ^^^ b) = crc32_shift^[n] a ^^^ crc32_shift^[n] b := by
  induction n generalizing a b with
  | zero => rfl
  | succ n ih => simp only [Function.iterate_succ_apply, crc32_shift_xor, ih]

theorem crc32_shift_iterate_zero (n : Nat) : crc32_shift^[n] 0 = 0 := by
  induction n with
  | zero => rfl
  | succ n ih => simp only [Function.iterate_succ_apply, crc32_shift_zero, ih]

theorem crc32_shift_iterate_lt (n : Nat) {c : Nat} (h : c < 2 ^ 32) :
    crc32_shift^[n] c < 2 ^ 32 := by
  induction n generalizing c with
  | zero => exact h
  | succ n ih => simp only [Function.iterate_succ_apply]; exact ih (crc32_shift_lt h)

theorem crc32_shift_eq_zero {c : Nat} (hc : c < 2 ^ 32) (h : crc32_shift c = 0) : c = 0 := by
  unfold crc32_shift at h
  split at h
  · exfalso
    have h1 : c / 2 = CRC32_POLY := by
      have := Nat.xor_eq_zero.mp h
      exact this
    unfold CRC32_POLY at h1
    omega
  · omega

theorem crc32_shift_injective {a b : Nat} (ha : a < 2 ^ 32) (hb : b < 2 ^ 32)
    (h : crc32_shift a = crc32_shift b) : a = b := by
  have h1 : crc32_shift (a ^^^ b) = 0 := by rw [crc32_shift_xor, h, Nat.xor_self]
  exact Nat.xor_eq_zero.mp (crc32_shift_eq_zero (Nat.xor_lt_two_pow ha hb) h1)

theorem crc32_shift_iterate_injective (n : Nat) {a b : Nat} (ha : a < 2 ^ 32) (hb : b < 2 ^ 32)
    (h : crc32_shift^[n] a = crc32_shift^[n] b) : a = b := by
  induction n generalizing a b with
  | zero => exact h
  | succ n ih =>
    simp only [Function.iterate_succ_apply] at h
    exact crc32_shift_injective ha hb (ih (crc32_shift_lt ha) (crc32_shift_lt hb) h)

theorem xor_xor_xor_comm (a b c d : Nat) : (a ^^^ b) ^^^ (c ^^^ d) = (a ^^^ c) ^^^ (b ^^^ d) := by
  rw [Nat.xor_assoc, Nat.xor_assoc, ← Nat.xor_assoc b, Nat.xor_comm b c, Nat.xor_assoc c]

theorem gf_mul_upto_lt (u : Nat) {w : Nat} (hw : w < 2 ^ 32) (n : Nat) :
    gf_mul_upto u w n < 2 ^ 32 := by
  induction n with
  | zero => simp [gf_mul_upto]
  | succ n ih =>
    simp only [gf_mul_upto]
    apply Nat.xor_lt_two_pow ih
    split
    · exact crc32_shift_iterate_lt n hw
    · norm_num

theorem gf_mul_upto_xor_right (u a b n : Nat) :
    gf_mul_upto u (a ^^^ b) n = gf_mul_upto u a n ^^^ gf_mul_upto u b n := by
  induction n with
  | zero => simp [gf_mul_upto]
  | succ n ih =>
    simp only [gf_mul_upto, ih, crc32_shift_iterate_xor]
    split
    · rw [xor_xor_xor_comm]
    · simp

theorem gf_mul_upto_xor_left (u v w n : Nat) :
    gf_mul_upto (u ^^^ v) w n = gf_mul_upto u w n ^^^ gf_mul_upto v w n := by
  induction n with
  | zero => simp [gf_mul_upto]
  | succ n ih =>
    simp only [gf_mul_upto, ih, Nat.testBit_xor]
    cases u.testBit (31 - n) <;> cases v.testBit (31 - n) <;> simp
    · rw [Nat.xor_assoc]
    · rw [Nat.xor_assoc, Nat.xor_assoc, Nat.xor_comm (crc32_shift^[n] w)]
    · rw [xor_xor_xor_comm, Nat.xor_self, Nat.xor_zero]

theorem gf_mul_upto_zero_right (u n : Nat) : gf_mul_upto u 0 n = 0 := by
  induction n with
  | zero => rfl
  | succ n ih => simp [gf_mul_upto, ih, crc32_shift_iterate_zero]

theorem gf_mul_upto_zero_left (w n : Nat) : gf_mul_upto 0 w n = 0 := by
  induction n with
  | zero => rfl
  | succ n ih => simp [gf_mul_upto, ih]

/-- A map of registers that is additive and commutes with the shift moves
through a product. -/
theorem gf_mul_upto_map (f : Nat → Nat)
    (hadd : ∀ a b, a < 2 ^ 32 → b < 2 ^ 32 → f (a ^^^ b) = f a ^^^ f b)
    (hshift : ∀ a, a < 2 ^ 32 → f (crc32_shift a) = crc32_shift (f a))
    (u : Nat) {c : Nat} (hc : c < 2 ^ 32) (n : Nat) :
    f (gf_mul_upto u c n) = gf_mul_upto u (f c) n := by
  have hzero : f 0 = 0 := by
    have := hadd 0 0 (by norm_num) (by norm_num)
    simp only [Nat.xor_self] at this
    exact this
  have hiter : ∀ k, f (crc32_shift^[k] c) = crc32_shift^[k] (f c) := by
    intro k
    induction k with
    | zero => rfl
    | succ k ih =>
      rw [Function.iterate_succ_apply', Function.iterate_succ_apply',
        hshift _ (crc32_shift_iterate_lt k hc), ih]
  induction n with
  | zero => simp [gf_mul_upto, hzero]
  | succ n ih =>
    simp only [gf_mul_upto]
    rw [hadd _ _ (gf_mul_upto_lt u hc n) (by
      split
      · exact crc32_shift_iterate_lt n hc
      · norm_num), ih]
    split
    · rw [hiter]
    · rw [hzero]

theorem crc32_shift_iterate_gf_one (n : Nat) (hn : n ≤ 31) :
    crc32_shift^[n] gf_one = 2 ^ (31 - n) := by
  induction n with
  | zero => rfl
  | succ n ih =>
    rw [Function.iterate_succ_apply', ih (by omega)]
    unfold crc32_shift
    have e : 31 - n = (31 - (n + 1)) + 1 := by omega
    rw [e, pow_succ]
    have h2 : 2 ^ (31 - (n + 1)) * 2 % 2 = 0 := Nat.mul_mod_left _ _
    simp [h2]

theorem clear_low_bits_step (u k : Nat) :
    (u / 2 ^ (k + 1)) * 2 ^ (k + 1) ^^^ (if u.testBit k then 2 ^ k else 0) =
      (u / 2 ^ k) * 2 ^ k := by
  apply Nat.eq_of_testBit_eq
  intro j
  rw [Nat.testBit_xor, ← Nat.shiftRight_eq_div_pow, ← Nat.shiftRight_eq_div_pow,
    ← Nat.shiftLeft_eq, ← Nat.shiftLeft_eq, Nat.testBit_shiftLeft, Nat.testBit_shiftLeft,
    Nat.testBit_shiftRight, Nat.testBit_shiftRight]
  by_cases hb : u.testBit k = true
  · rw [if_pos hb, Nat.testBit_two_pow]
    rcases Nat.lt_trichotomy j k with h | h | h
    · have h1 : ¬ j ≥ k + 1 := by omega
      have h2 : ¬ j ≥ k := by omega
      have h3 : ¬ k = j := by omega
      simp [h1, h2, h3]
    · subst h
      simp [hb]
    · have h1 : j ≥ k + 1 := by omega
      have h2 : j ≥ k := by omega
      have h3 : ¬ k = j := by omega
      have e1 : k + 1 + (j - (k + 1)) = j := by omega
      have e2 : k + (j - k) = j := by omega
      simp [h1, h2, h3, e1, e2]
  · rw [if_neg hb]
    simp only [Bool.not_eq_true] at hb
    rcases Nat.lt_trichotomy j k with h | h | h
    · have h1 : ¬ j ≥ k + 1 := by omega
      have h2 : ¬ j ≥ k := by omega
      simp [h1, h2]
    · subst h
      simp [hb]
    · have h1 : j ≥ k + 1 := by omega
      have h2 : j ≥ k := by omega
      have e1 : k + 1 + (j - (k + 1)) = j := by omega
      have e2 : k + (j - k) = j := by omega
      simp [h1, h2, e1, e2]

theorem gf_mul_upto_one (u : Nat) (hu : u < 2 ^ 32) (n : Nat) (hn : n ≤ 32) :
    gf_mul_upto u gf_one n = (u / 2 ^ (32 - n)) * 2 ^ (32 - n) := by
  induction n with
  | zero =>
    simp only [gf_mul_upto, Nat.sub_zero]
    rw [Nat.div_eq_of_lt hu, Nat.zero_mul]
  | succ n ih =>
    simp only [gf_mul_upto]
    rw [ih (by omega), crc32_shift_iterate_gf_one n (by omega)]
    have e : 32 - n = (31 - n) + 1 := by omega
    have e' : 32 - (n + 1) = 31 - n := by omega
    rw [e, e']
    exact clear_low_bits_step u (31 - n)

theorem gf_mul_one (u : Nat) (hu : u < 2 ^ 32) : gf_mul u gf_one = u := by
  unfold gf_mul
  rw [gf_mul_upto_one u hu 32 (le_refl _)]
  simp

theorem gf_mul_lt (u : Nat) {w : Nat} (hw : w < 2 ^ 32) : gf_mul u w < 2 ^ 32 :=
  gf_mul_upto_lt u hw 32

theorem gf_mul_xor_right (u a b : Nat) : gf_mul u (a ^^^ b) = gf_mul u a ^^^ gf_mul u b :=
  gf_mul_upto_xor_right u a b 32

theorem gf_mul_xor_left (u v w : Nat) : gf_mul (u ^^^ v) w = gf_mul u w ^^^ gf_mul v w :=
  gf_mul_upto_xor_left u v w 32

theorem gf_mul_zero_right (u : Nat) : gf_mul u 0 = 0 := gf_mul_upto_zero_right u 32

theorem gf_mul_shift (u w : Nat) : gf_mul u (crc32_shift w) = crc32_shift (gf_mul u w) := by
  unfold gf_mul
  have key : ∀ n, gf_mul_upto u (crc32_shift w) n = crc32_shift (gf_mul_upto u w n) := by
    intro n
    induction n with
    | zero => simp [gf_mul_upto, crc32_shift_zero]
    | succ n ih =>
      simp only [gf_mul_upto, ih, crc32_shift_xor]
      split
      · rw [← Function.iterate_succ_apply, Function.iterate_succ_apply']
      · rw [crc32_shift_zero]
  exact key 32

/-- An additive map of registers that commutes with the shift is the
multiplication by its value at the polynomial 1. -/
theorem gf_map_eq_mul (f : Nat → Nat)
    (hadd : ∀ a b, a < 2 ^ 32 → b < 2 ^ 32 → f (a ^^^ b) = f a ^^^ f b)
    (hshift : ∀ a, a < 2 ^ 32 → f (crc32_shift a) = crc32_shift (f a))
    (u : Nat) (hu : u < 2 ^ 32) : f u = gf_mul u (f gf_one) := by
  have h := gf_mul_upto_map f hadd hshift u (c := gf_one) (by unfold gf_one; norm_num) 32
  have h1 : gf_mul_upto u gf_one 32 = u := gf_mul_one u hu
  rw [h1] at h
  exact h

theorem gf_mul_comm (u w : Nat) (hu : u < 2 ^ 32) (hw : w < 2 ^ 32) :
    gf_mul u w = gf_mul w u := by
  have h := gf_map_eq_mul (gf_mul u) (fun a b _ _ => gf_mul_xor_right u a b)
    (fun a _ => gf_mul_shift u a) w hw
  rw [gf_mul_one u hu] at h
  exact h

theorem gf_one_mul (w : Nat) (hw : w < 2 ^ 32) : gf_mul gf_one w = w := by
  rw [gf_mul_comm _ _ (by unfold gf_one; norm_num) hw, gf_mul_one w hw]

/-- The shift iterated `n` times is the multiplication by the `n`-th power
of the indeterminate. -/
theorem crc32_shift_iterate_eq_mul (n w : Nat) (hw : w < 2 ^ 32) :
    crc32_shift^[n] w = gf_mul (crc32_shift^[n] gf_one) w := by
  have h := gf_map_eq_mul (crc32_shift^[n]) (fun a b _ _ => crc32_shift_iterate_xor n a b)
    (fun a _ => by rw [← Function.iterate_succ_apply, Function.iterate_succ_apply']) w hw
  rw [h, gf_mul_comm _ _ hw (crc32_shift_iterate_lt n (by unfold gf_one; norm_num))]

theorem gf_x_pow_add (a b : Nat) :
    crc32_shift^[a + b] gf_one =
      gf_mul (crc32_shift^[a] gf_one) (crc32_shift^[b] gf_one) := by
  rw [Function.iterate_add_apply,
    crc32_shift_iterate_eq_mul a _ (crc32_shift_iterate_lt b (by unfold gf_one; norm_num))]

theorem gf_pow_aux_spec (fuel n a b : Nat) (hn : n < 2 ^ fuel) :
    gf_pow_aux fuel n (crc32_shift^[b] gf_one) (crc32_shift^[a] gf_one) =
      crc32_shift^[a + b * n] gf_one := by
  induction fuel generalizing n a b with
  | zero =>
    have : n = 0 := by simpa using hn
    subst this
    simp [gf_pow_aux]
  | succ fuel ih =>
    unfold gf_pow_aux
    by_cases h0 : n = 0
    · subst h0; simp
    · rw [if_neg h0, ← gf_x_pow_add b b]
      have hn2 : n / 2 < 2 ^ fuel := by
        rw [pow_succ] at hn
        omega
      by_cases hodd : n % 2 = 1
      · rw [if_pos hodd, ← gf_x_pow_add a b, ih (n / 2) (a + b) (b + b) hn2]
        congr 1
        have : n = 2 * (n / 2) + 1 := by omega
        calc a + b + (b + b) * (n / 2) = a + b * (2 * (n / 2) + 1) := by ring
          _ = a + b * n := by rw [← this]
      · rw [if_neg hodd, ih (n / 2) a (b + b) hn2]
        congr 1
        have : n = 2 * (n / 2) := by omega
        calc a + (b + b) * (n / 2) = a + b * (2 * (n / 2)) := by ring
          _ = a + b * n := by rw [← this]

theorem gf_x_pow_spec (n : Nat) (hn : n < 2 ^ 33) : gf_x_pow n = crc32_shift^[n] gf_one := by
  unfold gf_x_pow
  have := gf_pow_aux_spec 33 n 0 1 hn
  simpa using this

/-- The shift has period `2 ^ 32 - 1` on the polynomial 1. -/
theorem crc32_shift_iterate_period_one : crc32_shift^[2 ^ 32 - 1] gf_one = gf_one := by
  have h : gf_x_pow (2 ^ 32) = crc32_shift gf_one := by decide!
  rw [gf_x_pow_spec _ (by norm_num)] at h
  have e : 2 ^ 32 = (2 ^ 32 - 1) + 1 := by norm_num
  rw [e, Function.iterate_succ_apply'] at h
  exact crc32_shift_injective (crc32_shift_iterate_lt _ (by unfold gf_one; norm_num))
    (by unfold gf_one; norm_num) h

theorem crc32_shift_iterate_period (v : Nat) (hv : v < 2 ^ 32) :
    crc32_shift^[2 ^ 32 - 1] v = v := by
  rw [crc32_shift_iterate_eq_mul _ v hv, crc32_shift_iterate_period_one, gf_one_mul v hv]

/-- A register fixed by `n` shifts is zero when the polynomial
`x ^ n + 1` has an inverse `u` modulo the generator. -/
theorem fixed_register_eq_zero (n u v : Nat) (hn : n < 2 ^ 33) (hv : v < 2 ^ 32)
    (hu : gf_mul u (gf_x_pow n ^^^ gf_one) = gf_one)
    (hfix : crc32_shift^[n] v = v) : v = 0 := by
  have h1 : gf_one < 2 ^ 32 := by unfold gf_one; norm_num
  have hx : gf_x_pow n < 2 ^ 32 := by
    rw [gf_x_pow_spec n hn]; exact crc32_shift_iterate_lt n h1
  have hc : gf_x_pow n ^^^ gf_one < 2 ^ 32 := Nat.xor_lt_two_pow hx h1
  -- (x ^ n + 1) * v = 0
  have hz : gf_mul (gf_x_pow n ^^^ gf_one) v = 0 := by
    rw [gf_mul_xor_left, gf_one_mul v hv, gf_x_pow_spec n hn,
      ← crc32_shift_iterate_eq_mul n v hv, hfix, Nat.xor_self]
  -- the map z ↦ z * v is additive and commutes with the shift
  have hmap := gf_mul_upto_map (fun z => gf_mul z v)
    (fun a b _ _ => gf_mul_xor_left a b v)
    (fun a ha => by
      show gf_mul (crc32_shift a) v = crc32_shift (gf_mul a v)
      rw [gf_mul_comm _ _ (crc32_shift_lt ha) hv, gf_mul_shift, gf_mul_comm _ _ hv ha])
    u hc 32
  simp only at hmap
  have hu' : gf_mul_upto u (gf_x_pow n ^^^ gf_one) 32 = gf_one := hu
  rw [hu', hz, gf_one_mul v hv, gf_mul_upto_zero_right] at hmap
  exact hmap

theorem iterate_fixed_mul {f : Nat → Nat} {v : Nat} (k t : Nat) (h : f^[k] v = v) :
    f^[k * t] v = v := by
  induction t with
  | zero => rfl
  | succ t ih => rw [Nat.mul_succ, Function.iterate_add_apply, h, ih]

theorem iterate_fixed_gcd {f : Nat → Nat} {v : Nat} (a b : Nat) :
    f^[a] v = v → f^[b] v = v → f^[Nat.gcd a b] v = v := by
  refine Nat.gcd.induction a b ?_ ?_
  · intro n _ h
    rwa [Nat.gcd_zero_left]
  · intro m n _ ih hm hn
    rw [Nat.gcd_rec]
    apply ih _ hm
    have e : n = n % m + m * (n / m) := by
      rw [Nat.add_comm]; exact (Nat.div_add_mod n m).symm
    rw [e, Function.iterate_add_apply, iterate_fixed_mul m (n / m) hm] at hn
    exact hn

theorem prime_factor_of_crc_period (q : Nat) (hq : q.Prime) (hd : q ∣ 2 ^ 32 - 1) :
    q = 3 ∨ q = 5 ∨ q = 17 ∨ q = 257 ∨ q = 65537 := by
  have e : 2 ^ 32 - 1 = 3 * (5 * (17 * (257 * 65537))) := by norm_num
  rw [e] at hd
  have p3 : Nat.Prime 3 := by norm_num
  have p5 : Nat.Prime 5 := by norm_num
  have p17 : Nat.Prime 17 := by norm_num
  have p257 : Nat.Prime 257 := by norm_num
  have p65537 : Nat.Prime 65537 := by norm_num
  rcases (Nat.Prime.dvd_mul hq).mp hd with h | h
  · exact Or.inl ((Nat.prime_dvd_prime_iff_eq hq p3).mp h)
  rcases (Nat.Prime.dvd_mul hq).mp h with h | h
  · exact Or.inr (Or.inl ((Nat.prime_dvd_prime_iff_eq hq p5).mp h))
  rcases (Nat.Prime.dvd_mul hq).mp h with h | h
  · exact Or.inr (Or.inr (Or.inl ((Nat.prime_dvd_prime_iff_eq hq p17).mp h)))
  rcases (Nat.Prime.dvd_mul hq).mp h with h | h
  · exact Or.inr (Or.inr (Or.inr (Or.inl ((Nat.prime_dvd_prime_iff_eq hq p257).mp h))))
  · exact Or.inr (Or.inr (Or.inr (Or.inr ((Nat.prime_dvd_prime_iff_eq hq p65537).mp h))))

theorem no_fixed_register_below_period (v : Nat) (hv : v < 2 ^ 32) (hv0 : v ≠ 0) (q : Nat)
    (hq : q = 3 ∨ q = 5 ∨ q = 17 ∨ q = 257 ∨ q = 65537) :
    crc32_shift^[(2 ^ 32 - 1) / q] v ≠ v := by
  intro hfix
  apply hv0
  rcases hq with rfl | rfl | rfl | rfl | rfl
  · exact fixed_register_eq_zero _ 0xc736eb52 v (by norm_num) hv (by decide!) hfix
  · exact fixed_register_eq_zero _ 0x3d436701 v (by norm_num) hv (by decide!) hfix
  · exact fixed_register_eq_zero _ 0xe1a0922e v (by norm_num) hv (by decide!) hfix
  · exact fixed_register_eq_zero _ 0x3c1c66b1 v (by norm_num) hv (by decide!) hfix
  · exact fixed_register_eq_zero _ 0xd4e6c8ca v (by norm_num) hv (by decide!) hfix

/-- The generator polynomial of CRC-32 is primitive: a non-zero register
comes back to itself only after a multiple of `2 ^ 32 - 1` shifts. -/
theorem crc32_shift_period_dvd (v m : Nat) (hv : v < 2 ^ 32) (hv0 : v ≠ 0)
    (hfix : crc32_shift^[m] v = v) : (2 ^ 32 - 1) ∣ m := by
  have hN := crc32_shift_iterate_period v hv
  have hg := iterate_fixed_gcd m (2 ^ 32 - 1) hfix hN
  have hdvd : Nat.gcd m (2 ^ 32 - 1) ∣ 2 ^ 32 - 1 := Nat.gcd_dvd_right _ _
  have hdvm : Nat.gcd m (2 ^ 32 - 1) ∣ m := Nat.gcd_dvd_left _ _
  generalize Nat.gcd m (2 ^ 32 - 1) = g at hg hdvd hdvm
  by_cases hgN : g = 2 ^ 32 - 1
  · rw [← hgN]; exact hdvm
  exfalso
  obtain ⟨k, hk⟩ := hdvd
  have hk1 : k ≠ 1 := by
    intro e
    rw [e, Nat.mul_one] at hk
    exact hgN hk.symm
  obtain ⟨q, hq, hqk⟩ := Nat.exists_prime_and_dvd hk1
  obtain ⟨t, ht⟩ := hqk
  have hqN : q ∣ 2 ^ 32 - 1 := ⟨g * t, by rw [hk, ht]; ring⟩
  have hcases := prime_factor_of_crc_period q hq hqN
  have hdiv : (2 ^ 32 - 1) / q = g * t := by
    apply Nat.div_eq_of_eq_mul_right hq.pos
    rw [hk, ht]; ring
  apply no_fixed_register_below_period v hv hv0 q hcases
  rw [hdiv]
  exact iterate_fixed_mul _ t hg

/-! ## The CRC of a buffer after one byte changed -/

theorem crc32_byte_eq (c b : Nat) : crc32_byte c b = crc32_shift^[8] (c ^^^ b % 256) := rfl

theorem crc32_foldl_xor (l : List Nat) (c e : Nat) :
    l.foldl crc32_byte (c ^^^ e) = l.foldl crc32_byte c ^^^ crc32_shift^[8 * l.length] e := by
  induction l generalizing c e with
  | nil => simp
  | cons b rest ih =>
    simp only [List.foldl_cons, List.length_cons]
    have h : crc32_byte (c ^^^ e) b = crc32_byte c b ^^^ crc32_shift^[8] e := by
      rw [crc32_byte_eq, crc32_byte_eq, Nat.xor_assoc, Nat.xor_comm e, ← Nat.xor_assoc,
        crc32_shift_iterate_xor]
    rw [h, ih, ← Function.iterate_add_apply]
    congr 2

theorem crc32_set (l : List Nat) (i y : Nat) (hi : i < l.length)
    (hx : l[i] < 256) (hy : y < 256) :
    crc32 0 (l.set i y) = crc32 0 l ^^^ crc32_shift^[8 * (l.length - i)] (l[i] ^^^ y) := by
  unfold crc32
  generalize (0 ^^^ 0xFFFFFFFF) = c
  have key : ∀ (l : List Nat) (i : Nat) (c : Nat) (hi : i < l.length), l[i] < 256 →
      (l.set i y).foldl crc32_byte c =
        l.foldl crc32_byte c ^^^ crc32_shift^[8 * (l.length - i)] (l[i] ^^^ y) := by
    intro l
    induction l with
    | nil => intro i c hi; simp at hi
    | cons b rest ih =>
      intro i c hi hb
      cases i with
      | zero =>
        simp only [List.set_cons_zero, List.foldl_cons, List.getElem_cons_zero,
          List.length_cons, Nat.sub_zero] at hb ⊢
        have h : crc32_byte c y = crc32_byte c b ^^^ crc32_shift^[8] (b ^^^ y) := by
          rw [crc32_byte_eq, crc32_byte_eq, Nat.mod_eq_of_lt hy, Nat.mod_eq_of_lt hb,
            ← crc32_shift_iterate_xor]
          congr 1
          rw [Nat.xor_assoc, ← Nat.xor_assoc b, Nat.xor_self, Nat.zero_xor]
        rw [h, crc32_foldl_xor, ← Function.iterate_add_apply]
        congr 2
      | succ j =>
        simp only [List.set_cons_succ, List.foldl_cons, List.getElem_cons_succ,
          List.length_cons] at hb ⊢
        rw [ih j _ (by simpa using hi) hb]
        congr 3
        omega
  rw [key l i c hi hx]
  rw [Nat.xor_assoc, Nat.xor_comm (crc32_shift^[_] _), ← Nat.xor_assoc]

theorem crc32_shift_iterate_ne_zero (n : Nat) {d : Nat} (hd : d < 2 ^ 32) (h0 : d ≠ 0) :
    crc32_shift^[n] d ≠ 0 := by
  intro h
  apply h0
  have := crc32_shift_iterate_injective n hd (by norm_num : (0 : Nat) < 2 ^ 32)
    (by rw [h, crc32_shift_iterate_zero])
  exact this

theorem xor_ne_zero_of_ne {x y : Nat} (h : x ≠ y) : x ^^^ y ≠ 0 :=
  fun e => h (Nat.xor_eq_zero.mp e)

theorem xor_lt_256 {x y : Nat} (hx : x < 256) (hy : y < 256) : x ^^^ y < 256 :=
  Nat.xor_lt_two_pow (n := 8) hx hy

/-- One changed byte changes the CRC-32 of a buffer. -/
theorem crc32_set_ne (l : List Nat) (i y : Nat) (hi : i < l.length)
    (hx : l[i] < 256) (hy : y < 256) (hne : l[i] ≠ y) :
    crc32 0 (l.set i y) ≠ crc32 0 l := by
  rw [crc32_set l i y hi hx hy]
  intro h
  have h1 : crc32_shift^[8 * (l.length - i)] (l[i] ^^^ y) = 0 := by
    have := congrArg (fun z => crc32 0 l ^^^ z) h
    simp only [← Nat.xor_assoc, Nat.xor_self, Nat.zero_xor] at this
    exact this
  exact crc32_shift_iterate_ne_zero _
    (lt_trans (xor_lt_256 hx hy) (by norm_num)) (xor_ne_zero_of_ne hne) h1

/-! ## A little-endian field after one byte changed -/

theorem byte_cons_xor (a b v w : Nat) (ha : a < 256) (hb : b < 256) :
    (a + 256 * v) ^^^ (b + 256 * w) = (a ^^^ b) + 256 * (v ^^^ w) := by
  apply Nat.eq_of_testBit_eq
  intro j
  have e : (256 : Nat) = 2 ^ 8 := by norm_num
  have hab : a ^^^ b < 2 ^ 8 := xor_lt_256 ha hb
  rw [Nat.testBit_xor, Nat.add_comm a, Nat.add_comm b, Nat.add_comm (a ^^^ b), e,
    Nat.testBit_mul_pow_two_add _ (by omega), Nat.testBit_mul_pow_two_add _ (by omega),
    Nat.testBit_mul_pow_two_add _ hab]
  split
  · rw [Nat.testBit_xor]
  · rw [Nat.testBit_xor]

theorem le_value_set (t : List Nat) (k y : Nat) (hk : k < t.length)
    (hb : ∀ b ∈ t, b < 256) (hy : y < 256) :
    le_value (t.set k y) = le_value t ^^^ ((t[k] ^^^ y) * 256 ^ k) := by
  induction t generalizing k with
  | nil => simp at hk
  | cons b rest ih =>
    have hb0 : b < 256 := hb b (List.mem_cons_self _ _)
    cases k with
    | zero =>
      simp only [List.set_cons_zero, le_value, List.getElem_cons_zero, pow_zero, Nat.mul_one,
        Nat.mod_eq_of_lt hb0, Nat.mod_eq_of_lt hy]
      have h := byte_cons_xor b (b ^^^ y) (le_value rest) 0 hb0 (xor_lt_256 hb0 hy)
      simp only [Nat.mul_zero, Nat.add_zero, Nat.xor_zero] at h
      rw [h, ← Nat.xor_assoc, Nat.xor_self, Nat.zero_xor]
    | succ j =>
      have hj : j < rest.length := by simpa using hk
      simp only [List.set_cons_succ, le_value, List.getElem_cons_succ, Nat.mod_eq_of_lt hb0]
      rw [ih j hj (fun x hx => hb x (List.mem_cons_of_mem _ hx))]
      have h := byte_cons_xor b 0 (le_value rest) ((rest[j] ^^^ y) * 256 ^ j) hb0 (by norm_num)
      simp only [Nat.zero_add, Nat.xor_zero] at h
      rw [← h]
      congr 1
      rw [pow_succ]; ring

theorem le_value_set_ne (t : List Nat) (k y : Nat) (hk : k < t.length)
    (hb : ∀ b ∈ t, b < 256) (hy : y < 256) (hne : t[k] ≠ y) :
    le_value (t.set k y) ≠ le_value t := by
  rw [le_value_set t k y hk hb hy]
  intro h
  have h1 : (t[k] ^^^ y) * 256 ^ k = 0 := by
    have := congrArg (fun z => le_value t ^^^ z) h
    simp only [← Nat.xor_assoc, Nat.xor_self, Nat.zero_xor] at this
    exact this
  rcases Nat.mul_eq_zero.mp h1 with h2 | h2
  · exact xor_ne_zero_of_ne hne h2
  · exact (pow_ne_zero k (by norm_num)) h2

/-! ## A checksum field that lies inside the bytes it covers -/

theorem crc32_shift_double (e : Nat) : crc32_shift (2 * e) = e := by
  unfold crc32_shift
  rw [if_neg (by omega)]
  omega

theorem crc32_shift_iterate_mul_pow (m d : Nat) : crc32_shift^[m] (d * 2 ^ m) = d := by
  induction m with
  | zero => simp
  | succ n ih =>
    rw [Function.iterate_succ_apply]
    have : d * 2 ^ (n + 1) = 2 * (d * 2 ^ n) := by rw [pow_succ]; ring
    rw [this, crc32_shift_double, ih]

theorem xor_left_cancel {a b c : Nat} (h : a ^^^ b = a ^^^ c) : b = c := by
  have := congrArg (fun z => a ^^^ z) h
  simp only [← Nat.xor_assoc, Nat.xor_self, Nat.zero_xor] at this
  exact this

theorem crc_period_coprime_eight : Nat.Coprime 4294967295 8 := by
  decide

theorem crc_period_dvd_of_dvd_eight_mul (n : Nat) (h : 4294967295 ∣ 8 * n) : 4294967295 ∣ n :=
  crc_period_coprime_eight.dvd_of_dvd_mul_left h

/-- The stored CRC-32 of a buffer cannot follow a change of one byte that
belongs both to the buffer and to the stored value: `region[i]` and
`trailer[k]` are the same byte of the file, and the distance from the start
of the stored value to the end of the buffer is below the period of the
generator. -/
theorem crc32_overlap_ne (region trailer : List Nat) (i k y : Nat)
    (hi : i < region.length) (hk : k < trailer.length)
    (hx : region[i] < 256) (hy : y < 256) (ht : ∀ b ∈ trailer, b < 256)
    (hsame : trailer[k] = region[i]) (hne : region[i] ≠ y)
    (hcrc : crc32 0 region = le_value trailer)
    (hn : k + (region.length - i) < 4294967295) :
    crc32 0 (region.set i y) ≠ le_value (trailer.set k y) := by
  rw [crc32_set region i y hi hx hy, le_value_set trailer k y hk ht hy, hsame, hcrc]
  intro h
  have hA := xor_left_cancel h
  have hd : region[i] ^^^ y < 2 ^ 32 := lt_trans (xor_lt_256 hx hy) (by norm_num)
  have hd0 : region[i] ^^^ y ≠ 0 := xor_ne_zero_of_ne hne
  have h256 : (256 : Nat) ^ k = 2 ^ (8 * k) := by
    rw [pow_mul]; norm_num
  rw [h256] at hA
  have hB := congrArg (crc32_shift^[8 * k]) hA
  rw [crc32_shift_iterate_mul_pow, ← Function.iterate_add_apply] at hB
  have hdvd := crc32_shift_period_dvd _ _ hd hd0 hB
  have e : 2 ^ 32 - 1 = 4294967295 := by norm_num
  rw [e] at hdvd
  have h8 : 8 * k + 8 * (region.length - i) = 8 * (k + (region.length - i)) := by ring
  rw [h8] at hdvd
  have hdvd2 := crc_period_dvd_of_dvd_eight_mul _ hdvd
  clear hdvd h8 e hB hA h h256 hcrc hd hd0 hsame hne ht
  have hpos : 0 < k + (region.length - i) := by omega
  have hle := Nat.le_of_dvd hpos hdvd2
  omega

/-! ## Reading a mapping in which one byte was changed -/

theorem mem_read_set_outside (data : List Nat) (p y o n : Nat) (h : p < o ∨ o + n ≤ p) :
    mem_read (data.set p y) o n = mem_read data o n := by
  apply mem_read_congr (List.length_set _ _ _)
  intro i h1 h2
  rw [List.getElem?_set_ne (by omega)]

theorem read_le_set_outside (data : List Nat) (p y o n : Nat) (h : p < o ∨ o + n ≤ p) :
    read_le (data.set p y) o n = read_le data o n := by
  unfold read_le
  rw [mem_read_set_outside data p y o n h]

theorem mem_read_set_inside {data : List Nat} {o n : Nat} {l : List Nat} (p y : Nat)
    (h : mem_read data o n = some l) (h1 : o ≤ p) (h2 : p < o + n) :
    mem_read (data.set p y) o n = some (l.set (p - o) y) ∧ l[p - o]? = data[p]? := by
  obtain ⟨hb, rfl⟩ := mem_read_eq_some h
  constructor
  · rw [mem_read_of_le (by rw [List.length_set]; exact hb)]
    congr 1
    apply List.ext_getElem?
    intro i
    by_cases hi : i < n
    · rw [List.getElem?_take_of_lt hi, List.getElem?_drop, List.getElem?_set,
        List.getElem?_set]
      by_cases hpi : p = o + i
      · have hpo : p - o = i := by omega
        rw [if_pos hpi, if_pos hpo]
        simp only [List.length_take, List.length_drop]
        have c1 : p < data.length := by omega
        have c2 : p - o < min n (data.length - o) := by omega
        rw [if_pos c1, if_pos c2]
      · have hpo : ¬ p - o = i := by omega
        rw [if_neg hpi, if_neg hpo, List.getElem?_take_of_lt hi, List.getElem?_drop]
    · have e1 : ((List.drop o (data.set p y)).take n)[i]? = none := by
        apply List.getElem?_eq_none
        simp only [List.length_take]
        omega
      have e2 : (((List.drop o data).take n).set (p - o) y)[i]? = none := by
        apply List.getElem?_eq_none
        simp only [List.length_set, List.length_take]
        omega
      rw [e1, e2]
  · rw [List.getElem?_take_of_lt (by omega), List.getElem?_drop]
    congr 1
    omega

theorem mem_read_bytes {data : List Nat} {o n : Nat} {l : List Nat}
    (hbytes : ∀ b ∈ data, b < 256) (h : mem_read data o n = some l) : ∀ b ∈ l, b < 256 := by
  obtain ⟨_, rfl⟩ := mem_read_eq_some h
  intro b hb
  exact hbytes b (List.mem_of_mem_drop (List.mem_of_mem_take hb))

/-- A field that holds the changed byte reads a different value. -/
theorem read_le_set_inside_ne {data : List Nat} {o n v : Nat} (p y : Nat)
    (hbytes : ∀ b ∈ data, b < 256) (hy : y < 256) (hne : data[p]? ≠ some y)
    (h : read_le data o n = some v) (h1 : o ≤ p) (h2 : p < o + n) :
    ∃ v', read_le (data.set p y) o n = some v' ∧ v' ≠ v := by
  unfold read_le at h ⊢
  obtain ⟨l, hl, rfl⟩ := Option.map_eq_some'.mp h
  obtain ⟨hs, hx⟩ := mem_read_set_inside p y hl h1 h2
  have hlen := mem_read_length hl
  have hk : p - o < l.length := by omega
  refine ⟨le_value (l.set (p - o) y), by rw [hs]; rfl, ?_⟩
  apply le_value_set_ne l (p - o) y hk (mem_read_bytes hbytes hl) hy
  intro e
  apply hne
  rw [← hx, List.getElem?_eq_getElem hk, e]

/-- A checksummed section in which one byte was changed (a byte of the
section, of its stored checksum, or of both) no longer matches its stored
checksum. -/
theorem section_byte_change {data : List Nat} {off len toff : Nat} {buf : List Nat} (p y : Nat)
    (hbytes : ∀ b ∈ data, b < 256) (hy : y < 256) (hne : data[p]? ≠ some y)
    (hbuf : mem_read data off len = some buf)
    (hcrc : read_le data toff 4 = some (crc32 0 buf))
    (hp : (off ≤ p ∧ p < off + len) ∨ (toff ≤ p ∧ p < toff + 4))
    (hn : toff ≤ p → p < toff + 4 → off + len < toff + 4294967295) :
    ∃ buf' s, mem_read (data.set p y) off len = some buf' ∧
      read_le (data.set p y) toff 4 = some s ∧ s ≠ crc32 0 buf' := by
  have hlen := mem_read_length hbuf
  by_cases hin : off ≤ p ∧ p < off + len
  · obtain ⟨hs, hx⟩ := mem_read_set_inside p y hbuf hin.1 hin.2
    have hk : p - off < buf.length := by omega
    have hxb : buf[p - off] < 256 :=
      mem_read_bytes hbytes hbuf _ (List.getElem_mem hk)
    have hxne : buf[p - off] ≠ y := by
      intro e
      apply hne
      rw [← hx, List.getElem?_eq_getElem hk, e]
    by_cases ht : toff ≤ p ∧ p < toff + 4
    · unfold read_le at hcrc ⊢
      obtain ⟨t, htr, hv⟩ := Option.map_eq_some'.mp hcrc
      obtain ⟨hts, htx⟩ := mem_read_set_inside p y htr ht.1 ht.2
      have htlen := mem_read_length htr
      have hkt : p - toff < t.length := by omega
      refine ⟨_, _, hs, by rw [hts]; rfl, ?_⟩
      apply Ne.symm
      apply crc32_overlap_ne buf t (p - off) (p - toff) y hk hkt hxb hy
        (mem_read_bytes hbytes htr) ?_ hxne hv.symm (by have := hn ht.1 ht.2; omega)
      have : t[p - toff]? = buf[p - off]? := by rw [htx, hx]
      rw [List.getElem?_eq_getElem hkt, List.getElem?_eq_getElem hk] at this
      exact Option.some.inj this
    · refine ⟨_, _, hs, ?_, (crc32_set_ne buf (p - off) y hk hxb hy hxne).symm⟩
      rw [read_le_set_outside data p y toff 4 (by omega)]
      exact hcrc
  · have ht : toff ≤ p ∧ p < toff + 4 := by
      rcases hp with h | h
      · exact absurd h hin
      · exact h
    obtain ⟨s, hs, hsne⟩ := read_le_set_inside_ne p y hbytes hy hne hcrc ht.1 ht.2
    refine ⟨buf, s, ?_, hs, hsne⟩
    rw [mem_read_set_outside data p y off len (by omega)]
    exact hbuf

/-! ## What an accepted image holds, and how a section check fails -/

theorem check_journal_v2_extent_list_zero {data : List Nat} {file_size : Nat}
    (h : check_journal_v2_extent_list data file_size = some 0) :
    ∃ eto eo ec buf, read_le data 32 4 = some eto ∧ read_le data 28 4 = some eo ∧
      read_le data 24 4 = some ec ∧ mem_read data eo (u32 (ec * 24)) = some buf ∧
      read_le data eto 4 = some (crc32 0 buf) := by
  unfold check_journal_v2_extent_list at h
  obtain ⟨eto, h1, h⟩ := Option.bind_eq_some.mp h
  obtain ⟨eo, h2, h⟩ := Option.bind_eq_some.mp h
  obtain ⟨ec, h3, h⟩ := Option.bind_eq_some.mp h
  obtain ⟨buf, h4, h⟩ := Option.bind_eq_some.mp h
  obtain ⟨rc, h5, h⟩ := Option.bind_eq_some.mp h
  refine ⟨eto, eo, ec, buf, h1, h2, h3, h4, ?_⟩
  unfold crc32cmp at h5
  obtain ⟨s, hs, hd⟩ := Option.map_eq_some'.mp h5
  by_cases hc : s = crc32 0 buf
  · rw [hs, hc]
  · have : rc = true := by rw [← hd]; exact decide_eq_true hc
    rw [this] at h
    simp at h

theorem check_journal_v2_metric_list_zero {data : List Nat} {file_size : Nat}
    (h : check_journal_v2_metric_list data file_size = some 0) :
    ∃ mto mo mc buf, read_le data 44 4 = some mto ∧ read_le data 40 4 = some mo ∧
      read_le data 36 4 = some mc ∧ mem_read data mo (u32 (mc * 32)) = some buf ∧
      read_le data mto 4 = some (crc32 0 buf) := by
  unfold check_journal_v2_metric_list at h
  obtain ⟨mto, h1, h⟩ := Option.bind_eq_some.mp h
  obtain ⟨mo, h2, h⟩ := Option.bind_eq_some.mp h
  obtain ⟨mc, h3, h⟩ := Option.bind_eq_some.mp h
  obtain ⟨buf, h4, h⟩ := Option.bind_eq_some.mp h
  obtain ⟨rc, h5, h⟩ := Option.bind_eq_some.mp h
  refine ⟨mto, mo, mc, buf, h1, h2, h3, h4, ?_⟩
  unfold crc32cmp at h5
  obtain ⟨s, hs, hd⟩ := Option.map_eq_some'.mp h5
  by_cases hc : s = crc32 0 buf
  · rw [hs, hc]
  · have : rc = true := by rw [← hd]; exact decide_eq_true hc
    rw [this] at h
    simp at h

theorem check_journal_v2_extent_list_fail {data : List Nat} {file_size eto eo ec s : Nat}
    {buf : List Nat}
    (h1 : read_le data 32 4 = some eto) (h2 : read_le data 28 4 = some eo)
    (h3 : read_le data 24 4 = some ec) (h4 : mem_read data eo (u32 (ec * 24)) = some buf)
    (h5 : read_le data eto 4 = some s) (h6 : s ≠ crc32 0 buf) :
    check_journal_v2_extent_list data file_size = some 1 := by
  simp [check_journal_v2_extent_list, h1, h2, h3, sizeof_journal_extent_list, h4, crc32cmp, h5,
    h6]

theorem check_journal_v2_metric_list_fail {data : List Nat} {file_size mto mo mc s : Nat}
    {buf : List Nat}
    (h1 : read_le data 44 4 = some mto) (h2 : read_le data 40 4 = some mo)
    (h3 : read_le data 36 4 = some mc) (h4 : mem_read data mo (u32 (mc * 32)) = some buf)
    (h5 : read_le data mto 4 = some s) (h6 : s ≠ crc32 0 buf) :
    check_journal_v2_metric_list data file_size = some 1 := by
  simp [check_journal_v2_metric_list, h1, h2, h3, sizeof_journal_metric_list, h4, crc32cmp, h5,
    h6]

/-- What `check_journal_v2_file` has verified when it returns 0. -/
theorem check_journal_v2_file_zero {K : Consts} {deep : Bool} {data : List Nat}
    {file_size original_size : Nat}
    (h : check_journal_v2_file K deep data file_size original_size = some 0) :
    read_le data 0 4 = some K.JOURVAL_V2_MAGIC ∧
    K.JOURVAL_V2_MAGIC ≠ K.JOURVAL_V2_REBUILD_MAGIC ∧
    K.JOURVAL_V2_MAGIC ≠ K.JOURVAL_V2_SKIP_MAGIC ∧
    read_le data 56 4 = some file_size ∧
    (original_size ≠ 0 → read_le data 60 4 = some original_size) ∧
    4 ≤ file_size ∧
    (∃ hdr, mem_read data 0 72 = some hdr ∧
      read_le data (file_size - 4) 4 = some (crc32 0 hdr)) ∧
    check_journal_v2_extent_list data file_size = some 0 ∧
    check_journal_v2_metric_list data file_size = some 0 := by
  unfold check_journal_v2_file at h
  obtain ⟨m, hm, h⟩ := Option.bind_eq_some.mp h
  by_cases h1 : m = K.JOURVAL_V2_REBUILD_MAGIC
  · rw [if_pos h1] at h; simp at h
  rw [if_neg h1] at h
  by_cases h2 : m = K.JOURVAL_V2_SKIP_MAGIC
  · rw [if_pos h2] at h; simp at h
  rw [if_neg h2] at h
  by_cases h3 : m ≠ K.JOURVAL_V2_MAGIC
  · rw [if_pos h3] at h; simp at h
  rw [if_neg h3] at h
  have h3' : m = K.JOURVAL_V2_MAGIC := not_not.mp h3
  subst h3'
  obtain ⟨t, ht, h⟩ := Option.bind_eq_some.mp h
  by_cases h4 : t ≠ file_size
  · rw [if_pos h4] at h; simp at h
  rw [if_neg h4] at h
  have h4' : t = file_size := not_not.mp h4
  subst h4'
  obtain ⟨differs, hdiff, h⟩ := Option.bind_eq_some.mp h
  by_cases h5 : differs = true
  · rw [if_pos h5] at h; simp at h
  rw [if_neg h5] at h
  by_cases h6 : t < sizeof_journal_v2_block_trailer
  · rw [if_pos h6] at h; simp at h
  rw [if_neg h6] at h
  obtain ⟨hdr, hhdr, h⟩ := Option.bind_eq_some.mp h
  obtain ⟨rc1, hrc1, h⟩ := Option.bind_eq_some.mp h
  by_cases h7 : rc1 = true
  · rw [if_pos h7] at h; simp at h
  rw [if_neg h7] at h
  obtain ⟨rc2, hrc2, h⟩ := Option.bind_eq_some.mp h
  by_cases h8 : rc2 ≠ 0
  · rw [if_pos h8] at h; simp at h
  rw [if_neg h8] at h
  obtain ⟨rc3, hrc3, h⟩ := Option.bind_eq_some.mp h
  by_cases h9 : rc3 ≠ 0
  · rw [if_pos h9] at h; simp at h
  clear h
  have h8' : rc2 = 0 := not_not.mp h8
  have h9' : rc3 = 0 := not_not.mp h9
  subst h8' h9'
  unfold sizeof_journal_v2_block_trailer at h6 hrc1
  unfold sizeof_journal_v2_header at hhdr
  refine ⟨hm, h1, h2, ht, ?_, by omega, ⟨hdr, hhdr, ?_⟩, hrc2, hrc3⟩
  · intro ho
    rw [if_pos ho] at hdiff
    obtain ⟨v, hv, hd⟩ := Option.map_eq_some'.mp hdiff
    by_cases hc : v = original_size
    · rw [hv, hc]
    · exact absurd (by rw [← hd]; exact decide_eq_true hc) h5
  · unfold crc32cmp at hrc1
    obtain ⟨s, hs, hd⟩ := Option.map_eq_some'.mp hrc1
    by_cases hc : s = crc32 0 hdr
    · rw [hs, hc]
    · exact absurd (by rw [← hd]; exact decide_eq_true hc) h7

/-! ## The results of `check_journal_v2_file` stage by stage -/

theorem check_journal_v2_file_of_magic (K : Consts) (deep : Bool) {data : List Nat}
    (file_size original_size : Nat) {m : Nat}
    (hm : read_le data 0 4 = some m) (hne : m ≠ K.JOURVAL_V2_MAGIC) :
    check_journal_v2_file K deep data file_size original_size =
      some (if m = K.JOURVAL_V2_REBUILD_MAGIC then 2
        else if m = K.JOURVAL_V2_SKIP_MAGIC then 3 else 1) := by
  unfold check_journal_v2_file
  rw [hm, Option.bind_eq_bind, Option.some_bind]
  by_cases h1 : m = K.JOURVAL_V2_REBUILD_MAGIC
  · rw [if_pos h1, if_pos h1]
  rw [if_neg h1, if_neg h1]
  by_cases h2 : m = K.JOURVAL_V2_SKIP_MAGIC
  · rw [if_pos h2, if_pos h2]
  rw [if_neg h2, if_neg h2, if_pos hne]

theorem check_journal_v2_file_fail_total (K : Consts) (deep : Bool) {data : List Nat}
    {file_size t : Nat} (original_size : Nat)
    (h1 : read_le data 0 4 = some K.JOURVAL_V2_MAGIC)
    (k1 : K.JOURVAL_V2_MAGIC ≠ K.JOURVAL_V2_REBUILD_MAGIC)
    (k2 : K.JOURVAL_V2_MAGIC ≠ K.JOURVAL_V2_SKIP_MAGIC)
    (h2 : read_le data 56 4 = some t) (h3 : t ≠ file_size) :
    check_journal_v2_file K deep data file_size original_size = some 1 := by
  simp [check_journal_v2_file, h1, k1, k2, h2, h3]

theorem check_journal_v2_file_fail_original (K : Consts) (deep : Bool) {data : List Nat}
    {file_size original_size v : Nat}
    (h1 : read_le data 0 4 = some K.JOURVAL_V2_MAGIC)
    (k1 : K.JOURVAL_V2_MAGIC ≠ K.JOURVAL_V2_REBUILD_MAGIC)
    (k2 : K.JOURVAL_V2_MAGIC ≠ K.JOURVAL_V2_SKIP_MAGIC)
    (h2 : read_le data 56 4 = some file_size)
    (ho : original_size ≠ 0) (h3 : read_le data 60 4 = some v) (h4 : v ≠ original_size) :
    check_journal_v2_file K deep data file_size original_size = some 1 := by
  simp [check_journal_v2_file, h1, k1, k2, h2, ho, h3, h4]

theorem check_journal_v2_file_fail_trailer (K : Consts) (deep : Bool) {data : List Nat}
    {file_size original_size s : Nat} {hdr : List Nat}
    (h1 : read_le data 0 4 = some K.JOURVAL_V2_MAGIC)
    (k1 : K.JOURVAL_V2_MAGIC ≠ K.JOURVAL_V2_REBUILD_MAGIC)
    (k2 : K.JOURVAL_V2_MAGIC ≠ K.JOURVAL_V2_SKIP_MAGIC)
    (h2 : read_le data 56 4 = some file_size)
    (h3 : original_size ≠ 0 → read_le data 60 4 = some original_size)
    (h4 : 4 ≤ file_size)
    (h5 : mem_read data 0 72 = some hdr)
    (h6 : read_le data (file_size - 4) 4 = some s) (h7 : s ≠ crc32 0 hdr) :
    check_journal_v2_file K deep data file_size original_size = some 1 := by
  have h4' : ¬ file_size < 4 := by omega
  by_cases ho : original_size = 0
  · subst ho
    simp [check_journal_v2_file, h1, k1, k2, h2, sizeof_journal_v2_block_trailer, h4',
      sizeof_journal_v2_header, h5, crc32cmp, h6, h7]
  · simp [check_journal_v2_file, h1, k1, k2, h2, h3 ho, ho, sizeof_journal_v2_block_trailer,
      h4', sizeof_journal_v2_header, h5, crc32cmp, h6, h7]

theorem check_journal_v2_file_fail_extent (K : Consts) (deep : Bool) {data : List Nat}
    {file_size original_size : Nat} {hdr : List Nat}
    (h1 : read_le data 0 4 = some K.JOURVAL_V2_MAGIC)
    (k1 : K.JOURVAL_V2_MAGIC ≠ K.JOURVAL_V2_REBUILD_MAGIC)
    (k2 : K.JOURVAL_V2_MAGIC ≠ K.JOURVAL_V2_SKIP_MAGIC)
    (h2 : read_le data 56 4 = some file_size)
    (h3 : original_size ≠ 0 → read_le data 60 4 = some original_size)
    (h4 : 4 ≤ file_size)
    (h5 : mem_read data 0 72 = some hdr)
    (h6 : read_le data (file_size - 4) 4 = some (crc32 0 hdr))
    (h7 : check_journal_v2_extent_list data file_size = some 1) :
    check_journal_v2_file K deep data file_size original_size = some 1 := by
  have h4' : ¬ file_size < 4 := by omega
  by_cases ho : original_size = 0
  · subst ho
    simp [check_journal_v2_file, h1, k1, k2, h2, sizeof_journal_v2_block_trailer, h4',
      sizeof_journal_v2_header, h5, crc32cmp, h6, h7]
  · simp [check_journal_v2_file, h1, k1, k2, h2, h3 ho, ho, sizeof_journal_v2_block_trailer,
      h4', sizeof_journal_v2_header, h5, crc32cmp, h6, h7]

theorem check_journal_v2_file_fail_metric (K : Consts) (deep : Bool) {data : List Nat}
    {file_size original_size : Nat} {hdr : List Nat}
    (h1 : read_le data 0 4 = some K.JOURVAL_V2_MAGIC)
    (k1 : K.JOURVAL_V2_MAGIC ≠ K.JOURVAL_V2_REBUILD_MAGIC)
    (k2 : K.JOURVAL_V2_MAGIC ≠ K.JOURVAL_V2_SKIP_MAGIC)
    (h2 : read_le data 56 4 = some file_size)
    (h3 : original_size ≠ 0 → read_le data 60 4 = some original_size)
    (h4 : 4 ≤ file_size)
    (h5 : mem_read data 0 72 = some hdr)
    (h6 : read_le data (file_size - 4) 4 = some (crc32 0 hdr))
    (h7 : check_journal_v2_extent_list data file_size = some 0)
    (h8 : check_journal_v2_metric_list data file_size = some 1) :
    check_journal_v2_file K deep data file_size original_size = some 1 := by
  have h4' : ¬ file_size < 4 := by omega
  by_cases ho : original_size = 0
  · subst ho
    simp [check_journal_v2_file, h1, k1, k2, h2, sizeof_journal_v2_block_trailer, h4',
      sizeof_journal_v2_header, h5, crc32cmp, h6, h7, h8]
  · simp [check_journal_v2_file, h1, k1, k2, h2, h3 ho, ho, sizeof_journal_v2_block_trailer,
      h4', sizeof_journal_v2_header, h5, crc32cmp, h6, h7, h8]

/-! ## One changed byte of the header -/

/-- One byte of the header of an accepted image is changed: the validator
answers from the new magic (2 for the rebuild magic, 3 for the skip magic)
and with 1 otherwise; a byte after the magic always gives 1. -/
theorem header_byte_change (K : Consts) (deep : Bool) (data : List Nat)
    (original_size p y : Nat)
    (hbytes : ∀ b ∈ data, b < 256) (hy : y < 256)
    (h0 : check_journal_v2_file K deep data data.length original_size = some 0)
    (hp : p < sizeof_journal_v2_header) (hne : data[p]? ≠ some y) :
    check_journal_v2_file K deep (data.set p y) data.length original_size =
      some (if read_le (data.set p y) 0 4 = some K.JOURVAL_V2_REBUILD_MAGIC then 2
        else if read_le (data.set p y) 0 4 = some K.JOURVAL_V2_SKIP_MAGIC then 3 else 1) ∧
    (4 ≤ p →
      check_journal_v2_file K deep (data.set p y) data.length original_size = some 1) := by
  obtain ⟨g1, k1, k2, g2, g3, g4, ⟨hdr, g5, g6⟩, -, -⟩ := check_journal_v2_file_zero h0
  unfold sizeof_journal_v2_header at hp
  by_cases hp4 : p < 4
  · obtain ⟨m, hm, hmne⟩ := read_le_set_inside_ne p y hbytes hy hne g1 (Nat.zero_le _) (by omega)
    refine ⟨?_, fun h => absurd hp4 (by omega)⟩
    rw [check_journal_v2_file_of_magic K deep _ _ hm hmne, hm]
    simp only [Option.some.injEq]
  have g1' : read_le (data.set p y) 0 4 = some K.JOURVAL_V2_MAGIC := by
    rw [read_le_set_outside data p y 0 4 (by omega)]; exact g1
  have key : check_journal_v2_file K deep (data.set p y) data.length original_size = some 1 := by
    by_cases hpt : 56 ≤ p ∧ p < 56 + 4
    · obtain ⟨t, ht, htne⟩ := read_le_set_inside_ne p y hbytes hy hne g2 hpt.1 hpt.2
      exact check_journal_v2_file_fail_total K deep original_size g1' k1 k2 ht htne
    have g2' : read_le (data.set p y) 56 4 = some data.length := by
      rw [read_le_set_outside data p y 56 4 (by omega)]; exact g2
    by_cases hpo : original_size ≠ 0 ∧ 60 ≤ p ∧ p < 60 + 4
    · obtain ⟨v, hv, hvne⟩ :=
        read_le_set_inside_ne p y hbytes hy hne (g3 hpo.1) hpo.2.1 hpo.2.2
      exact check_journal_v2_file_fail_original K deep g1' k1 k2 g2' hpo.1 hv hvne
    have g3' : original_size ≠ 0 → read_le (data.set p y) 60 4 = some original_size := by
      intro ho
      rw [read_le_set_outside data p y 60 4 (by
        by_contra hc
        exact hpo ⟨ho, by omega, by omega⟩)]
      exact g3 ho
    obtain ⟨hdr', s, e1, e2, e3⟩ :=
      section_byte_change p y hbytes hy hne g5 g6 (Or.inl ⟨Nat.zero_le _, by omega⟩)
        (fun _ _ => by omega)
    exact check_journal_v2_file_fail_trailer K deep g1' k1 k2 g2' g3' g4 e1 e2 e3
  refine ⟨?_, fun _ => key⟩
  rw [key, g1']
  simp only [Option.some.injEq]
  rw [if_neg k1, if_neg k2]

/-! ## One changed byte after the header -/

theorem read_le_four_lt {data : List Nat} {o v : Nat} (h : read_le data o 4 = some v) :
    v < 4294967296 := by
  unfold read_le at h
  obtain ⟨l, hl, rfl⟩ := Option.map_eq_some'.mp h
  have := le_value_lt l
  rw [mem_read_length hl] at this
  norm_num at this
  exact this

/-- One byte after the header of an accepted image is changed, inside the
bytes of the extent list or of the metric list that the validator checksums:
the validator answers 1. -/
theorem list_byte_change (K : Consts) (deep : Bool) (data : List Nat)
    (original_size p y ec eo mc mo : Nat)
    (hbytes : ∀ b ∈ data, b < 256) (hy : y < 256)
    (h0 : check_journal_v2_file K deep data data.length original_size = some 0)
    (hec : read_le data 24 4 = some ec) (heo : read_le data 28 4 = some eo)
    (hmc : read_le data 36 4 = some mc) (hmo : read_le data 40 4 = some mo)
    (hp : (eo ≤ p ∧ p < eo + u32 (ec * sizeof_journal_extent_list)) ∨
      (mo ≤ p ∧ p < mo + u32 (mc * sizeof_journal_metric_list)))
    (hhdr : sizeof_journal_v2_header ≤ p) (hne : data[p]? ≠ some y) :
    read_le (data.set p y) 0 4 = some K.JOURVAL_V2_MAGIC ∧
    check_journal_v2_file K deep (data.set p y) data.length original_size = some 1 := by
  obtain ⟨g1, k1, k2, g2, g3, g4, ⟨hdr, g5, g6⟩, g7, g8⟩ := check_journal_v2_file_zero h0
  unfold sizeof_journal_v2_header at hhdr
  unfold sizeof_journal_extent_list sizeof_journal_metric_list at hp
  have hfs := read_le_four_lt g2
  have out : ∀ o, o + 4 ≤ 72 → read_le (data.set p y) o 4 = read_le data o 4 :=
    fun o ho => read_le_set_outside data p y o 4 (by omega)
  have g1' : read_le (data.set p y) 0 4 = some K.JOURVAL_V2_MAGIC := by
    rw [out 0 (by omega)]; exact g1
  refine ⟨g1', ?_⟩
  have g2' : read_le (data.set p y) 56 4 = some data.length := by
    rw [out 56 (by omega)]; exact g2
  have g3' : original_size ≠ 0 → read_le (data.set p y) 60 4 = some original_size := by
    intro ho; rw [out 60 (by omega)]; exact g3 ho
  by_cases hft : data.length - 4 ≤ p ∧ p < data.length - 4 + 4
  · obtain ⟨hdr', s, e1, e2, e3⟩ :=
      section_byte_change p y hbytes hy hne g5 g6 (Or.inr hft) (fun _ _ => by omega)
    exact check_journal_v2_file_fail_trailer K deep g1' k1 k2 g2' g3' g4 e1 e2 e3
  have g5' : mem_read (data.set p y) 0 72 = some hdr := by
    rw [mem_read_set_outside data p y 0 72 (by omega)]; exact g5
  have g6' : read_le (data.set p y) (data.length - 4) 4 = some (crc32 0 hdr) := by
    rw [read_le_set_outside data p y (data.length - 4) 4 (by omega)]; exact g6
  obtain ⟨eto, eo', ec', ebuf, x1, x2, x3, x4, x5⟩ := check_journal_v2_extent_list_zero g7
  obtain ⟨mto, mo', mc', mbuf, m1, m2, m3, m4, m5⟩ := check_journal_v2_metric_list_zero g8
  have e1 : eo' = eo := Option.some.inj (x2.symm.trans heo)
  have e2 : ec' = ec := Option.some.inj (x3.symm.trans hec)
  have e3 : mo' = mo := Option.some.inj (m2.symm.trans hmo)
  have e4 : mc' = mc := Option.some.inj (m3.symm.trans hmc)
  subst e1 e2 e3 e4
  have x1' : read_le (data.set p y) 32 4 = some eto := by rw [out 32 (by omega)]; exact x1
  have x2' : read_le (data.set p y) 28 4 = some eo' := by rw [out 28 (by omega)]; exact x2
  have x3' : read_le (data.set p y) 24 4 = some ec' := by rw [out 24 (by omega)]; exact x3
  have m1' : read_le (data.set p y) 44 4 = some mto := by rw [out 44 (by omega)]; exact m1
  have m2' : read_le (data.set p y) 40 4 = some mo' := by rw [out 40 (by omega)]; exact m2
  have m3' : read_le (data.set p y) 36 4 = some mc' := by rw [out 36 (by omega)]; exact m3
  have xb := (mem_read_eq_some x4).1
  have mb := (mem_read_eq_some m4).1
  by_cases hx : (eo' ≤ p ∧ p < eo' + u32 (ec' * 24)) ∨ (eto ≤ p ∧ p < eto + 4)
  · obtain ⟨b, s, c1, c2, c3⟩ :=
      section_byte_change p y hbytes hy hne x4 x5 hx (fun _ _ => by omega)
    exact check_journal_v2_file_fail_extent K deep g1' k1 k2 g2' g3' g4 g5' g6'
      (check_journal_v2_extent_list_fail x1' x2' x3' c1 c2 c3)
  have hx1 : p < eo' ∨ eo' + u32 (ec' * 24) ≤ p := by
    by_contra hc; exact hx (Or.inl (by omega))
  have hx2 : p < eto ∨ eto + 4 ≤ p := by
    by_contra hc; exact hx (Or.inr (by omega))
  have x4' : mem_read (data.set p y) eo' (u32 (ec' * 24)) = some ebuf := by
    rw [mem_read_set_outside data p y _ _ hx1]; exact x4
  have x5' : read_le (data.set p y) eto 4 = some (crc32 0 ebuf) := by
    rw [read_le_set_outside data p y _ _ hx2]; exact x5
  have hm : mo' ≤ p ∧ p < mo' + u32 (mc' * 32) := by
    rcases hp with h | h
    · exact absurd h (by omega)
    · exact h
  obtain ⟨b, s, c1, c2, c3⟩ :=
    section_byte_change p y hbytes hy hne m4 m5 (Or.inl hm) (fun _ _ => by omega)
  exact check_journal_v2_file_fail_metric K deep g1' k1 k2 g2' g3' g4 g5' g6'
    (check_journal_v2_extent_list_ok x1' x2' x3' x4' x5')
    (check_journal_v2_metric_list_fail m1' m2' m3' c1 c2 c3)

theorem load_journal_file_v2_of_check (K : Consts) (deep : Bool) (v1_size : Option Nat)
    (data : List Nat) (now_s : Int) (rc : Nat)
    (hlen : sizeof_journal_v2_header ≤ data.length)
    (hrc : check_journal_v2_file K deep data data.length
      (match v1_size with
        | some st_size => u32 st_size
        | none => 0) = some rc)
    (hne : rc ≠ 0) :
    load_journal_file_v2 K deep v1_size (.mapped data) now_s =
      some { rc := rc, journal_data := none, fs_errors := 0, updates := [] } := by
  unfold load_journal_file_v2
  simp only [not_lt.mpr hlen, if_false, hrc, Option.bind_eq_bind, Option.some_bind]
  rw [if_pos hne]

theorem magic_result_ne_zero (c1 c2 : Prop) [Decidable c1] [Decidable c2] :
    (if c1 then 2 else if c2 then 3 else 1) ≠ 0 := by
  split
  · decide
  · split <;> decide

/-- C9, as the code has it: in an image that `check_journal_v2_file` accepts
(bytes `0..255`, validated at its own length), one byte of the v2 header is
changed to a different value. The validator then never returns 0: it
returns 1, except that a change of one of the four magic bytes that produces
the rebuild magic gives 2 and one that produces the skip magic gives 3. A
change of any header byte after the magic gives 1. `load_journal_file_v2`
returns the same code, stores no mapping and feeds nothing to the registry. -/
theorem header_byte_change_rejected (K : Consts) (deep : Bool) (data : List Nat)
    (original_size p y : Nat)
    (hbytes : ∀ b ∈ data, b < 256) (hy : y < 256)
    (h0 : check_journal_v2_file K deep data data.length original_size = some 0)
    (hp : p < sizeof_journal_v2_header) (hne : data[p]? ≠ some y) :
    check_journal_v2_file K deep (data.set p y) data.length original_size =
      some (if read_le (data.set p y) 0 4 = some K.JOURVAL_V2_REBUILD_MAGIC then 2
        else if read_le (data.set p y) 0 4 = some K.JOURVAL_V2_SKIP_MAGIC then 3 else 1) ∧
    (4 ≤ p →
      check_journal_v2_file K deep (data.set p y) data.length original_size = some 1) ∧
    ∀ (v1_size : Option Nat) (now_s : Int),
      (match v1_size with
        | some st_size => u32 st_size
        | none => 0) = original_size →
      load_journal_file_v2 K deep v1_size (.mapped (data.set p y)) now_s =
        some { rc := (if read_le (data.set p y) 0 4 = some K.JOURVAL_V2_REBUILD_MAGIC then 2
                 else if read_le (data.set p y) 0 4 = some K.JOURVAL_V2_SKIP_MAGIC then 3
                 else 1),
               journal_data := none, fs_errors := 0, updates := [] } := by
  obtain ⟨a, b⟩ := header_byte_change K deep data _ p y hbytes hy h0 hp hne
  refine ⟨a, b, ?_⟩
  intro v1_size now_s e
  subst e
  obtain ⟨-, -, -, -, -, -, ⟨hdr, g5, -⟩, -, -⟩ := check_journal_v2_file_zero h0
  have hlen : sizeof_journal_v2_header ≤ (data.set p y).length := by
    rw [List.length_set]
    exact (mem_read_eq_some g5).1
  have a' := a
  rw [← List.length_set data p y] at a'
  exact load_journal_file_v2_of_check K deep v1_size (data.set p y) now_s _ hlen a'
    (magic_result_ne_zero _ _)

/-- C10, as the code has it: in an image that `check_journal_v2_file`
accepts (bytes `0..255`, validated at its own length), one byte is changed to
a different value among the bytes of the extent list or of the metric list
that the validator checksums: the `extent_count * sizeof(struct
journal_extent_list)` bytes at `extent_offset` and the `metric_count *
sizeof(struct journal_metric_list)` bytes at `metric_offset`, each length as
the 32-bit `uInt len` of `crc32` receives it (the whole list whenever the
list is shorter than `2 ^ 32` bytes). The validator then never returns 0. It
returns 1 whenever the changed byte is not one of the four magic bytes, in
particular whenever the list lies after the header; when the list covers the
magic, a change that produces the rebuild magic gives 2 and one that
produces the skip magic gives 3. -/
theorem list_byte_change_rejected (K : Consts) (deep : Bool) (data : List Nat)
    (original_size p y extent_count extent_offset metric_count metric_offset : Nat)
    (hbytes : ∀ b ∈ data, b < 256) (hy : y < 256)
    (h0 : check_journal_v2_file K deep data data.length original_size = some 0)
    (hec : read_le data 24 4 = some extent_count)
    (heo : read_le data 28 4 = some extent_offset)
    (hmc : read_le data 36 4 = some metric_count)
    (hmo : read_le data 40 4 = some metric_offset)
    (hp : (extent_offset ≤ p ∧
        p < extent_offset + u32 (extent_count * sizeof_journal_extent_list)) ∨
      (metric_offset ≤ p ∧
        p < metric_offset + u32 (metric_count * sizeof_journal_metric_list)))
    (hne : data[p]? ≠ some y) :
    check_journal_v2_file K deep (data.set p y) data.length original_size =
      some (if read_le (data.set p y) 0 4 = some K.JOURVAL_V2_REBUILD_MAGIC then 2
        else if read_le (data.set p y) 0 4 = some K.JOURVAL_V2_SKIP_MAGIC then 3 else 1) ∧
    (4 ≤ p →
      check_journal_v2_file K deep (data.set p y) data.length original_size = some 1) := by
  by_cases hhdr : p < sizeof_journal_v2_header
  · exact header_byte_change K deep data _ p y hbytes hy h0 hhdr hne
  · obtain ⟨-, k1, k2, -⟩ := check_journal_v2_file_zero h0
    obtain ⟨m, c⟩ := list_byte_change K deep data original_size p y extent_count extent_offset
      metric_count metric_offset hbytes hy h0 hec heo hmc hmo hp (not_lt.mp hhdr) hne
    refine ⟨?_, fun _ => c⟩
    rw [c, m]
    simp only [Option.some.injEq]
    rw [if_neg k1, if_neg k2]

/-! ## Instances at the example file, one byte changed -/

theorem example_file_accepted :
    check_journal_v2_file example_consts false example_result.file
      example_result.file.length 8192 = some 0 := by
  decide!

theorem example_file_bytes : ∀ b ∈ example_result.file, b < 256 := by
  decide!

/-- C9 does not hold as stated: the file of the example migration is
accepted; byte 3 of its header, the high byte of the magic `0x01221019`, is
changed from 1 to 0, which makes the magic `0x00221019`, and the validator
returns 2, not 1. -/
theorem header_magic_byte_change_gives_rebuild :
    check_journal_v2_file example_consts false example_result.file
      example_result.file.length 8192 = some 0 ∧
    3 < sizeof_journal_v2_header ∧ example_result.file[3]? = some 1 ∧
    check_journal_v2_file example_consts false (example_result.file.set 3 0)
      example_result.file.length 8192 = some 2 := by
  decide!

theorem header_byte_change_rejected_witness :
    check_journal_v2_file example_consts false example_result.file
      example_result.file.length 8192 = some 0 ∧
    example_result.file[8]? = some 0 ∧
    check_journal_v2_file example_consts false (example_result.file.set 8 1)
      example_result.file.length 8192 = some 1 :=
  ⟨example_file_accepted, by decide!,
    (header_byte_change_rejected example_consts false example_result.file 8192 8 1
      example_file_bytes (by decide) example_file_accepted (by decide) (by decide!)).2.1
      (by decide)⟩

/-- C10 does not hold as stated: `overlapping_image` is accepted and its
extent list is the 24 bytes at offset 0; byte 3, inside the extent list, is
changed from 1 to 0, which makes the magic `0x00221019`, and the validator
returns 2, not 1. -/
theorem extent_list_byte_change_gives_rebuild :
    check_journal_v2_file upstream_consts false overlapping_image
      overlapping_image.length 0 = some 0 ∧
    read_le overlapping_image 24 4 = some 1 ∧ read_le overlapping_image 28 4 = some 0 ∧
    3 < 0 + 1 * sizeof_journal_extent_list ∧ overlapping_image[3]? = some 1 ∧
    check_journal_v2_file upstream_consts false (overlapping_image.set 3 0)
      overlapping_image.length 0 = some 2 := by
  decide!

/-- A list of `2 ^ 32` bytes or more is checksummed for its length modulo
`2 ^ 32` only: `long_list_image` is accepted, byte 85 lies inside the range
of its extent list, and the image is still accepted after that byte changed
from 0 to 1. -/
theorem long_list_byte_change_accepted :
    check_journal_v2_file upstream_consts false long_list_image long_list_image.length 0 =
      some 0 ∧
    read_le long_list_image 24 4 = some (2 ^ 29) ∧ read_le long_list_image 28 4 = some 72 ∧
    72 ≤ 85 ∧ 85 < 72 + 2 ^ 29 * sizeof_journal_extent_list ∧
    u32 (2 ^ 29 * sizeof_journal_extent_list) = 0 ∧
    long_list_image[85]? = some 0 ∧
    check_journal_v2_file upstream_consts false (long_list_image.set 85 1)
      long_list_image.length 0 = some 0 := by
  decide!

theorem list_byte_change_rejected_witness :
    check_journal_v2_file example_consts false example_result.file
      example_result.file.length 8192 = some 0 ∧
    read_le example_result.file 36 4 = some 3 ∧ read_le example_result.file 40 4 = some 108 ∧
    example_result.file[140]? = some 2 ∧
    check_journal_v2_file example_consts false (example_result.file.set 140 3)
      example_result.file.length 8192 = some 1 :=
  ⟨example_file_accepted, by decide!, by decide!, by decide!,
    (list_byte_change_rejected example_consts false example_result.file 8192 140 3 1 80 3 108
      example_file_bytes (by decide) example_file_accepted (by decide!) (by decide!)
      (by decide!) (by decide!) (Or.inr (by decide)) (by decide!)).2 (by decide)⟩

/-- C11: a v2 file that passes `check_journal_v2_file` (magic, sizes and
checksums verify) and whose header has `metric_count == 0` makes
`load_journal_file_v2` return 1; nothing is stored in `journal_data` and no
registry update is made. -/
theorem load_journal_file_v2_no_metrics (K : Consts) (deep : Bool) (v1_size : Option Nat)
    (data : List Nat) (now_s : Int)
    (hcheck : check_journal_v2_file K deep data data.length
      (match v1_size with
        | some st_size => u32 st_size
        | none => 0) = some 0)
    (hcount : read_le data 36 4 = some 0) :
    load_journal_file_v2 K deep v1_size (.mapped data) now_s =
      some { rc := 1, journal_data := none, fs_errors := 0, updates := [] } := by
  obtain ⟨-, -, -, -, -, -, ⟨hdr, g5, -⟩, -, -⟩ := check_journal_v2_file_zero hcheck
  have hlen : ¬ data.length < sizeof_journal_v2_header := not_lt.mpr (mem_read_eq_some g5).1
  unfold load_journal_file_v2
  simp only [hlen, if_false, hcheck, Option.bind_eq_bind, Option.some_bind, hcount]
  simp

theorem load_journal_file_v2_no_metrics_witness :
    check_journal_v2_file upstream_consts false overlapping_image overlapping_image.length 0 =
      some 0 ∧
    read_le overlapping_image 36 4 = some 0 ∧
    load_journal_file_v2 upstream_consts false none (.mapped overlapping_image) 0 =
      some { rc := 1, journal_data := none, fs_errors := 0, updates := [] } :=
  ⟨by decide!, by decide!,
    load_journal_file_v2_no_metrics upstream_consts false none overlapping_image 0
      (by decide!) (by decide!)⟩

/-- C12: whenever `check_journal_v2_file` returns a non-zero code,
`load_journal_file_v2` returns that code, stores nothing in `(journal_data,
journal_data_size)` and makes no registry call; in particular a file of at
least `sizeof(struct journal_v2_header)` bytes whose magic is the skip magic
gives 3. -/
theorem load_journal_file_v2_check_failed (K : Consts) (deep : Bool) (v1_size : Option Nat)
    (data : List Nat) (now_s : Int)
    (hlen : sizeof_journal_v2_header ≤ data.length) :
    (∀ rc, check_journal_v2_file K deep data data.length
        (match v1_size with
          | some st_size => u32 st_size
          | none => 0) = some rc → rc ≠ 0 →
      load_journal_file_v2 K deep v1_size (.mapped data) now_s =
        some { rc := rc, journal_data := none, fs_errors := 0, updates := [] }) ∧
    (K.JOURVAL_V2_SKIP_MAGIC ≠ K.JOURVAL_V2_REBUILD_MAGIC →
      K.JOURVAL_V2_SKIP_MAGIC ≠ K.JOURVAL_V2_MAGIC →
      read_le data 0 4 = some K.JOURVAL_V2_SKIP_MAGIC →
      load_journal_file_v2 K deep v1_size (.mapped data) now_s =
        some { rc := 3, journal_data := none, fs_errors := 0, updates := [] }) := by
  refine ⟨fun rc hrc hne =>
    load_journal_file_v2_of_check K deep v1_size data now_s rc hlen hrc hne, ?_⟩
  intro k1 k2 hm
  have h := check_journal_v2_file_of_magic K deep data.length
    (match v1_size with
      | some st_size => u32 st_size
      | none => 0) hm k2
  rw [if_neg k1, if_pos rfl] at h
  exact load_journal_file_v2_of_check K deep v1_size data now_s 3 hlen h (by decide)

/-- A file of exactly `sizeof(struct journal_v2_header)` bytes that bears the
skip magic `0x02221019`. -/
theorem load_journal_file_v2_check_failed_witness :
    (le_bytes 4 0x02221019 ++ List.replicate 68 0).length = sizeof_journal_v2_header ∧
    load_journal_file_v2 upstream_consts true (some 8192)
        (.mapped (le_bytes 4 0x02221019 ++ List.replicate 68 0)) 0 =
      some { rc := 3, journal_data := none, fs_errors := 0, updates := [] } :=
  ⟨by decide,
    (load_journal_file_v2_check_failed upstream_consts true (some 8192)
      (le_bytes 4 0x02221019 ++ List.replicate 68 0) 0 (by decide)).2
      (by decide) (by decide) (by decide!)⟩

/-- C20 does not hold as stated: the member `latest_update_every_s` of
`MRG_ENTRY` is a `uint32_t`, so an `update_every_s` of `2 ^ 32 + 1` seconds
reaches the registry entry as 1. -/
theorem retention_update_narrows_update_every :
    (update_metric_retention_and_granularity_by_uuid [] 10 20 (2 ^ 32 + 1) 30).entry
      = { uuid := [], first_time_s := 10, last_time_s := 20, latest_update_every_s := 1 } := by
  decide

/-- C20, as the code has it: for all inputs the registry entry has
`last' = min(last, now)` and `first' = min(first, last')`, zero timestamps
included, and the same two values are the arguments of
`mrg_metric_expand_retention`, which receives `update_every_s` unchanged;
the entry holds `update_every_s` in its 32-bit member, that is reduced
modulo `2 ^ 32`, hence unchanged when `0 ≤ update_every_s < 2 ^ 32`. -/
theorem retention_update_clamps (uuid : List Nat)
    (first_time_s last_time_s update_every_s now_s : Int) :
    (update_metric_retention_and_granularity_by_uuid uuid first_time_s last_time_s
      update_every_s now_s).entry.uuid = uuid ∧
    (update_metric_retention_and_granularity_by_uuid uuid first_time_s last_time_s
      update_every_s now_s).entry.last_time_s = min last_time_s now_s ∧
    (update_metric_retention_and_granularity_by_uuid uuid first_time_s last_time_s
      update_every_s now_s).entry.first_time_s = min first_time_s (min last_time_s now_s) ∧
    ((update_metric_retention_and_granularity_by_uuid uuid first_time_s last_time_s
      update_every_s now_s).entry.latest_update_every_s : Int) = update_every_s % 2 ^ 32 ∧
    (0 ≤ update_every_s → update_every_s < 2 ^ 32 →
      ((update_metric_retention_and_granularity_by_uuid uuid first_time_s last_time_s
        update_every_s now_s).entry.latest_update_every_s : Int) = update_every_s) ∧
    (update_metric_retention_and_granularity_by_uuid uuid first_time_s last_time_s
      update_every_s now_s).expand_last_time_s = min last_time_s now_s ∧
    (update_metric_retention_and_granularity_by_uuid uuid first_time_s last_time_s
      update_every_s now_s).expand_first_time_s = min first_time_s (min last_time_s now_s) ∧
    (update_metric_retention_and_granularity_by_uuid uuid first_time_s last_time_s
      update_every_s now_s).expand_update_every_s = update_every_s := by
  have hl : (if last_time_s > now_s then now_s else last_time_s) = min last_time_s now_s := by
    split
    · exact (min_eq_right (by omega)).symm
    · exact (min_eq_left (by omega)).symm
  have hf : ∀ l : Int, (if first_time_s > l then l else first_time_s) = min first_time_s l := by
    intro l
    split
    · exact (min_eq_right (by omega)).symm
    · exact (min_eq_left (by omega)).symm
  have hu : ((u32 (int_to_u64 update_every_s) : Nat) : Int) = update_every_s % 2 ^ 32 := by
    unfold u32 int_to_u64
    have h1 : (0 : Int) ≤ update_every_s % 2 ^ 64 := Int.emod_nonneg _ (by norm_num)
    rw [Int.natCast_mod, Int.toNat_of_nonneg h1]
    norm_num
  unfold update_metric_retention_and_granularity_by_uuid
  simp only [hl, hf, true_and, and_true, hu]
  intro h0 h1
  exact Int.emod_eq_of_lt h0 h1

theorem retention_update_clamps_witness :
    (update_metric_retention_and_granularity_by_uuid [] 0 4600 1 1000).entry =
      { uuid := [], first_time_s := 0, last_time_s := 1000, latest_update_every_s := 1 } ∧
    ((update_metric_retention_and_granularity_by_uuid [] 0 4600 1 1000).entry.latest_update_every_s
      : Int) = 1 :=
  ⟨by decide,
    (retention_update_clamps [] 0 4600 1 1000).2.2.2.2.1 (by decide) (by decide)⟩

/-! ## `replay_transaction`, case by case -/

theorem replay_transaction_padding {σ : Type} (P : Protocol) (E : Externals σ) (now_s : Int)
    {mem : List Nat} (buf max_size : Nat) (st : σ)
    (htype : read_le mem (buf + P.JF_HEADER_TYPE) 1 = some P.STORE_PADDING) :
    replay_transaction P E now_s mem buf max_size st =
      some { ret := 0, id := 0, restored := none, state := st } := by
  unfold replay_transaction
  rw [htype, Option.some_bind, if_pos rfl]

theorem replay_transaction_short {σ : Type} (P : Protocol) (E : Externals σ) (now_s : Int)
    {mem : List Nat} (buf : Nat) {max_size : Nat} (st : σ) {type : Nat}
    (htype : read_le mem (buf + P.JF_HEADER_TYPE) 1 = some type)
    (hshort : max_size < P.sizeof_jf_transaction_header) :
    replay_transaction P E now_s mem buf max_size st =
      some { ret := 0, id := 0, restored := none, state := st } := by
  unfold replay_transaction
  rw [htype, Option.some_bind]
  by_cases hp : P.STORE_PADDING = type
  · rw [if_pos hp]
  · rw [if_neg hp, if_pos hshort]

theorem replay_transaction_too_big {σ : Type} (P : Protocol) (E : Externals σ) (now_s : Int)
    {mem : List Nat} (buf : Nat) {max_size : Nat} (st : σ) {type id payload_length : Nat}
    (htype : read_le mem (buf + P.JF_HEADER_TYPE) 1 = some type)
    (hpad : type ≠ P.STORE_PADDING)
    (hhdr : P.sizeof_jf_transaction_header ≤ max_size)
    (hid : read_le mem (buf + P.JF_HEADER_ID) 8 = some id)
    (hpl : read_le mem (buf + P.JF_HEADER_PAYLOAD_LENGTH) P.JF_HEADER_PAYLOAD_LENGTH_SZ =
      some payload_length)
    (hbig : u32 (P.sizeof_jf_transaction_header + payload_length +
      P.sizeof_jf_transaction_trailer) > max_size) :
    replay_transaction P E now_s mem buf max_size st =
      some { ret := 0, id := id, restored := none, state := st } := by
  unfold replay_transaction
  rw [htype, Option.some_bind, if_neg (Ne.symm hpad), if_neg (not_lt.mpr hhdr), hid,
    Option.some_bind, hpl, Option.some_bind]
  simp only
  rw [if_pos hbig]

/-- The value stored in `*id` whenever `replay_transaction` returns: 0 for a
padding tag or when the header does not fit, and otherwise the `id` member of
the header, whatever the size and the checksum of the record. -/
theorem replay_transaction_id {σ : Type} (P : Protocol) (E : Externals σ) (now_s : Int)
    {mem : List Nat} {buf max_size : Nat} {st : σ} {r : replay_result σ}
    (h : replay_transaction P E now_s mem buf max_size st = some r) :
    ∃ type, read_le mem (buf + P.JF_HEADER_TYPE) 1 = some type ∧
      ((type = P.STORE_PADDING ∨ max_size < P.sizeof_jf_transaction_header) →
        r.id = 0 ∧ r.ret = 0) ∧
      (type ≠ P.STORE_PADDING → P.sizeof_jf_transaction_header ≤ max_size →
        read_le mem (buf + P.JF_HEADER_ID) 8 = some r.id) := by
  unfold replay_transaction at h
  obtain ⟨type, htype, h⟩ := Option.bind_eq_some.mp h
  refine ⟨type, htype, ?_⟩
  by_cases hp : P.STORE_PADDING = type
  · rw [if_pos hp] at h
    cases h
    exact ⟨fun _ => ⟨rfl, rfl⟩, fun hne => absurd hp.symm hne⟩
  rw [if_neg hp] at h
  by_cases hs : P.sizeof_jf_transaction_header > max_size
  · rw [if_pos hs] at h
    cases h
    exact ⟨fun _ => ⟨rfl, rfl⟩, fun _ hle => absurd hs (not_lt.mpr hle)⟩
  rw [if_neg hs] at h
  obtain ⟨id, hid, h⟩ := Option.bind_eq_some.mp h
  obtain ⟨pl, hpl, h⟩ := Option.bind_eq_some.mp h
  have hrid : r.id = id := by
    simp only at h
    by_cases hb : u32 (P.sizeof_jf_transaction_header + pl +
        P.sizeof_jf_transaction_trailer) > max_size
    · rw [if_pos hb] at h; cases h; rfl
    rw [if_neg hb] at h
    obtain ⟨record, -, h⟩ := Option.bind_eq_some.mp h
    obtain ⟨ret, -, h⟩ := Option.bind_eq_some.mp h
    by_cases hc : ret = true
    · rw [if_pos hc] at h; cases h; rfl
    rw [if_neg hc] at h
    by_cases hd : type = P.STORE_DATA
    · rw [if_pos hd] at h
      obtain ⟨x, -, h⟩ := Option.bind_eq_some.mp h
      cases h; rfl
    · rw [if_neg hd] at h; cases h; rfl
  refine ⟨fun hor => ?_, fun _ _ => hrid ▸ hid⟩
  rcases hor with h1 | h1
  · exact absurd h1.symm hp
  · exact absurd h1 hs

/-! ## `restore_extent_metadata`, descriptor by descriptor -/

theorem read_le_of_le {mem : List Nat} {off n : Nat} (h : off + n ≤ mem.length) :
    ∃ v, read_le mem off n = some v := by
  unfold read_le
  rw [mem_read_of_le h]
  exact ⟨_, rfl⟩

theorem restore_valid_descr_spec {σ : Type} (P : Protocol) (E : Externals σ) {mem : List Nat}
    (buf descr : Nat) (temp_id : List Nat) (vd : VALIDATED_PAGE_DESCRIPTOR)
    (metric : Option Nat) (st : σ) {extent_offset extent_size page_length : Nat}
    (h1 : read_le mem (buf + P.JF_STORE_EXTENT_OFFSET) 8 = some extent_offset)
    (h2 : read_le mem (buf + P.JF_STORE_EXTENT_SIZE) 4 = some extent_size)
    (h3 : read_le mem (descr + P.DESCR_PAGE_LENGTH) 4 = some page_length) :
    ∃ st' m metric_id pre,
      restore_valid_descr P E mem buf descr temp_id vd metric st =
        some (st', [external_call.mrg_metric_get_and_acquire temp_id] ++ pre ++
          [external_call.pgc_open_add_hot_page
            { metric_id := metric_id, start_time_s := vd.start_time_s,
              end_time_s := vd.end_time_s, update_every_s := vd.update_every_s,
              extent_offset := extent_offset, extent_size := extent_size,
              page_length := page_length },
           external_call.mrg_metric_release (some m)]) ∧
      ∀ c ∈ pre, (∃ entry, c = external_call.mrg_metric_add_and_acquire entry) ∨
        (∃ x a b d, c = external_call.mrg_metric_expand_retention x a b d) := by
  unfold restore_valid_descr
  rw [h1, Option.some_bind, h2, Option.some_bind, h3, Option.some_bind]
  refine ⟨_, _, _, _, by
    rw [List.append_assoc [external_call.mrg_metric_get_and_acquire temp_id]], ?_⟩
  intro c hc
  rcases List.mem_append.mp hc with h | h
  · cases metric with
    | some m => simp at h
    | none =>
      simp only [List.mem_singleton] at h
      exact Or.inl ⟨_, h⟩
  · split at h
    · simp only [List.mem_singleton] at h
      exact Or.inr ⟨_, _, _, _, h⟩
    · simp at h

/-- What one iteration of the loop of `restore_extent_metadata` does with
the descriptor `i` of a payload that is readable up to the end of that
descriptor. -/
theorem restore_extent_descr_spec {σ : Type} (P : Protocol) (hP : P.WF) (E : Externals σ)
    (now_s : Int) {mem : List Nat} (buf i : Nat) (st : σ)
    (hmem : buf + P.sizeof_jf_store_data + (i + 1) * P.sizeof_extent_page_descr ≤ mem.length) :
    ∃ r, restore_extent_descr P E now_s mem buf i st = some r ∧
      descriptor_calls P E now_s mem buf i r.2 := by
  obtain ⟨-, -, -, -, -, w1, w2, -, w3, w4, w5, -⟩ := hP
  have hmul : (i + 1) * P.sizeof_extent_page_descr =
      i * P.sizeof_extent_page_descr + P.sizeof_extent_page_descr := by ring
  rw [hmul] at hmem
  unfold descriptor_calls
  generalize hd : buf + P.sizeof_jf_store_data + i * P.sizeof_extent_page_descr = descr at *
  have hdle : descr + P.sizeof_extent_page_descr ≤ mem.length := by omega
  obtain ⟨page_type, e1⟩ := read_le_of_le (show descr + P.DESCR_TYPE + 1 ≤ mem.length by omega)
  have e2 := mem_read_of_le (show descr + P.DESCR_UUID + 16 ≤ mem.length by omega)
  have e3 := mem_read_of_le hdle
  obtain ⟨eo, e4⟩ :=
    read_le_of_le (show buf + P.JF_STORE_EXTENT_OFFSET + 8 ≤ mem.length by omega)
  obtain ⟨es, e5⟩ :=
    read_le_of_le (show buf + P.JF_STORE_EXTENT_SIZE + 4 ≤ mem.length by omega)
  obtain ⟨pl, e6⟩ :=
    read_le_of_le (show descr + P.DESCR_PAGE_LENGTH + 4 ≤ mem.length by omega)
  generalize hu : (mem.drop (descr + P.DESCR_UUID)).take 16 = temp_id at e2
  generalize hb : (mem.drop descr).take P.sizeof_extent_page_descr = descr_bytes at e3
  suffices key : ∃ r, restore_extent_descr P E now_s mem buf i st = some r ∧
      (page_type > P.PAGE_TYPE_MAX → r.2 = []) ∧
      (page_type ≤ P.PAGE_TYPE_MAX →
        ∃ metric overwrite_zero_update_every_s,
          ((E.validate_extent_page_descr descr_bytes now_s overwrite_zero_update_every_s
              false).data_on_disk_valid = false →
            r.2 = [external_call.mrg_metric_get_and_acquire temp_id,
              external_call.mrg_metric_release metric]) ∧
          ((E.validate_extent_page_descr descr_bytes now_s overwrite_zero_update_every_s
              false).data_on_disk_valid = true →
            ∃ m metric_id pre,
              r.2 = [external_call.mrg_metric_get_and_acquire temp_id] ++ pre ++
                [external_call.pgc_open_add_hot_page
                  { metric_id := metric_id
                    start_time_s := (E.validate_extent_page_descr descr_bytes now_s
                      overwrite_zero_update_every_s false).start_time_s
                    end_time_s := (E.validate_extent_page_descr descr_bytes now_s
                      overwrite_zero_update_every_s false).end_time_s
                    update_every_s := (E.validate_extent_page_descr descr_bytes now_s
                      overwrite_zero_update_every_s false).update_every_s
                    extent_offset := eo, extent_size := es, page_length := pl },
                 external_call.mrg_metric_release (some m)] ∧
              ∀ c ∈ pre, (∃ entry, c = external_call.mrg_metric_add_and_acquire entry) ∨
                (∃ x a b d, c = external_call.mrg_metric_expand_retention x a b d))) by
    obtain ⟨r, hr, k1, k2⟩ := key
    exact ⟨r, hr, page_type, temp_id, descr_bytes, eo, es, pl, e1, e2, e3, e4, e5, e6, k1, k2⟩
  unfold restore_extent_descr
  simp only [hd]
  rw [e1, Option.some_bind]
  by_cases ht : page_type > P.PAGE_TYPE_MAX
  · rw [if_pos ht]
    exact ⟨_, rfl, fun _ => rfl, fun hle => absurd ht (not_lt.mpr hle)⟩
  rw [if_neg ht, e2, Option.some_bind, e3, Option.some_bind]
  generalize hov : (match (E.mrg_metric_get_and_acquire st temp_id).1 with
    | some m => E.mrg_metric_get_update_every_s (E.mrg_metric_get_and_acquire st temp_id).2 m
    | none => 0) = ov
  by_cases hv : (E.validate_extent_page_descr descr_bytes now_s ov false).data_on_disk_valid
      = true
  · have hv' : (!(E.validate_extent_page_descr descr_bytes now_s ov
        false).data_on_disk_valid) = false := by rw [hv]; rfl
    rw [hv']
    simp only [Bool.false_eq_true, if_false]
    obtain ⟨st', m, metric_id, pre, hq, hpre⟩ := restore_valid_descr_spec P E buf descr temp_id
      (E.validate_extent_page_descr descr_bytes now_s ov false)
      (E.mrg_metric_get_and_acquire st temp_id).1 (E.mrg_metric_get_and_acquire st temp_id).2
      e4 e5 e6
    refine ⟨_, hq, fun h => absurd h ht,
      fun _ => ⟨(E.mrg_metric_get_and_acquire st temp_id).1, ov, ?_, ?_⟩⟩
    · intro hf
      rw [hv] at hf
      exact absurd hf (by decide)
    · intro _
      exact ⟨m, metric_id, pre, rfl, hpre⟩
  · have hv' : (!(E.validate_extent_page_descr descr_bytes now_s ov
        false).data_on_disk_valid) = true := by
      rw [Bool.not_eq_true] at hv; rw [hv]; rfl
    rw [hv']
    simp only [if_true]
    refine ⟨_, rfl, fun h => absurd h ht,
      fun _ => ⟨(E.mrg_metric_get_and_acquire st temp_id).1, ov, ?_, ?_⟩⟩
    · intro _; rfl
    · intro ht'; exact absurd ht' hv

theorem restore_extent_descrs_segments {σ : Type} (P : Protocol) (E : Externals σ)
    (now_s : Int) (mem : List Nat) (buf : Nat) (Q : Nat → List external_call → Prop)
    (remaining : Nat) :
    ∀ (i : Nat) (st : σ),
      (∀ j st, i ≤ j → j < i + remaining →
        ∃ r, restore_extent_descr P E now_s mem buf j st = some r ∧ Q j r.2) →
      ∃ (st' : σ) (segs : List (List external_call)), restore_extent_descrs P E now_s mem buf remaining i st =
          some (st', segs.flatten) ∧ segs.length = remaining ∧
        ∀ k seg, segs[k]? = some seg → Q (i + k) seg := by
  induction remaining with
  | zero =>
    intro i st _
    exact ⟨st, [], rfl, rfl, fun k seg h => by simp at h⟩
  | succ n ih =>
    intro i st hstep
    obtain ⟨r, hr, hq⟩ := hstep i st (le_refl _) (by omega)
    obtain ⟨st', segs, hs, hl, hseg⟩ := ih (i + 1) r.1
      (fun j st hj1 hj2 => hstep j st (by omega) (by omega))
    refine ⟨st', r.2 :: segs, ?_, by simp [hl], ?_⟩
    · unfold restore_extent_descrs
      rw [hr, Option.some_bind, hs, Option.some_bind]
      simp only [List.flatten_cons]
    · intro k seg hk
      cases k with
      | zero =>
        simp only [List.getElem?_cons_zero, Option.some.injEq] at hk
        subst hk
        exact hq
      | succ k =>
        simp only [List.getElem?_cons_succ] at hk
        have := hseg k seg hk
        have e : i + (k + 1) = i + 1 + k := by omega
        rw [e]
        exact this

theorem read_le_one_lt {mem : List Nat} {o v : Nat} (h : read_le mem o 1 = some v) :
    v < 256 := by
  unfold read_le at h
  obtain ⟨l, hl, rfl⟩ := Option.map_eq_some'.mp h
  have := le_value_lt l
  rw [mem_read_length hl] at this
  simpa using this

theorem restore_payload_length {P : Protocol} (hP : P.WF) {count : Nat} (hc : count < 256) :
    u32 (P.sizeof_jf_store_data + u32 (P.sizeof_extent_page_descr * count)) =
      P.sizeof_jf_store_data + count * P.sizeof_extent_page_descr := by
  obtain ⟨-, -, -, -, -, -, -, -, -, -, -, w⟩ := hP
  have h1 : P.sizeof_extent_page_descr * count ≤ P.sizeof_extent_page_descr * 255 :=
    Nat.mul_le_mul_left _ (by omega)
  have h2 : P.sizeof_extent_page_descr * count = count * P.sizeof_extent_page_descr :=
    Nat.mul_comm _ _
  unfold u32
  rw [Nat.mod_eq_of_lt (a := P.sizeof_extent_page_descr * count) (by omega),
    Nat.mod_eq_of_lt (by omega), h2]

/-- `restore_extent_metadata` returns whenever the byte that holds
`number_of_pages` is readable and the descriptors it announces, when they
fit `max_size`, are readable. -/
theorem restore_extent_metadata_total {σ : Type} (P : Protocol) (hP : P.WF)
    (E : Externals σ) (now_s : Int) (mem : List Nat) (buf max_size : Nat) (st : σ)
    (hnum : buf + P.JF_STORE_NUMBER_OF_PAGES < mem.length)
    (hmem : buf + max_size ≤ mem.length) :
    ∃ r, restore_extent_metadata P E now_s mem buf max_size st = some r := by
  obtain ⟨count, hcount⟩ :=
    read_le_of_le (show buf + P.JF_STORE_NUMBER_OF_PAGES + 1 ≤ mem.length by omega)
  by_cases hfit : P.sizeof_jf_store_data + count * P.sizeof_extent_page_descr ≤ max_size
  · have hstep : ∀ j (s : σ), 0 ≤ j → j < 0 + count →
        ∃ r, restore_extent_descr P E now_s mem buf j s = some r ∧
          (fun (_ : Nat) (_ : List external_call) => True) j r.2 := by
      intro j s _ hj
      have hle : (j + 1) * P.sizeof_extent_page_descr ≤ count * P.sizeof_extent_page_descr :=
        Nat.mul_le_mul_right _ (by omega)
      obtain ⟨r, hr, -⟩ := @restore_extent_descr_spec σ P hP E now_s mem buf j s (by omega)
      exact ⟨r, hr, trivial⟩
    obtain ⟨st', segs, hs, -⟩ :=
      restore_extent_descrs_segments P E now_s mem buf (fun _ _ => True) count 0 st hstep
    refine ⟨(st', segs.flatten), ?_⟩
    unfold restore_extent_metadata
    rw [hcount, Option.some_bind]
    simp only
    rw [restore_payload_length hP (read_le_one_lt hcount), if_neg (not_lt.mpr hfit)]
    exact hs
  · refine ⟨(st, []), ?_⟩
    unfold restore_extent_metadata
    rw [hcount, Option.some_bind]
    simp only
    rw [restore_payload_length hP (read_le_one_lt hcount), if_pos (not_le.mp hfit)]

/-- C14 does not hold as stated: a store-data record of 69 bytes, of which
the header fits, is replayed with 60 bytes remaining; `replay_transaction`
returns 0, not a size. -/
theorem replay_transaction_too_big_returns_zero :
    (example_transaction 1 5 example_payload).length = 69 ∧
    replay_transaction upstream_protocol example_externals 2000
        (example_transaction 1 5 example_payload) 0 60 [] =
      some { ret := 0, id := 5, restored := none, state := [] } := by
  decide!

/-- C14, as the code has it: for a record whose type is not the padding tag,
whose header fits `max_size` and whose size `sizeof(header) + payload_length
+ sizeof(trailer)` (a value below `2 ^ 32`) exceeds `max_size`,
`replay_transaction` drops the record (no call is made, the state is
unchanged), stores the id of the header in `*id` and returns 0, the unknown
size. -/
theorem replay_transaction_record_too_big {σ : Type} (P : Protocol) (E : Externals σ)
    (now_s : Int) (mem : List Nat) (buf max_size : Nat) (st : σ)
    (type id payload_length : Nat)
    (htype : read_le mem (buf + P.JF_HEADER_TYPE) 1 = some type)
    (hpad : type ≠ P.STORE_PADDING)
    (hhdr : P.sizeof_jf_transaction_header ≤ max_size)
    (hid : read_le mem (buf + P.JF_HEADER_ID) 8 = some id)
    (hpl : read_le mem (buf + P.JF_HEADER_PAYLOAD_LENGTH) P.JF_HEADER_PAYLOAD_LENGTH_SZ =
      some payload_length)
    (hsize : P.sizeof_jf_transaction_header + payload_length +
      P.sizeof_jf_transaction_trailer < 2 ^ 32)
    (hbig : P.sizeof_jf_transaction_header + payload_length +
      P.sizeof_jf_transaction_trailer > max_size) :
    replay_transaction P E now_s mem buf max_size st =
      some { ret := 0, id := id, restored := none, state := st } := by
  apply replay_transaction_too_big P E now_s buf st htype hpad hhdr hid hpl
  unfold u32
  rw [Nat.mod_eq_of_lt hsize]
  exact hbig

theorem replay_transaction_record_too_big_witness :
    replay_transaction upstream_protocol example_externals 2000
        (example_transaction 1 5 example_payload) 0 68 [] =
      some { ret := 0, id := 5, restored := none, state := [] } :=
  replay_transaction_record_too_big upstream_protocol example_externals 2000
    (example_transaction 1 5 example_payload) 0 68 [] 1 5 50
    (by decide!) (by decide) (by decide) (by decide!) (by decide!) (by decide) (by decide)

/-- A record that fits, with the byte of `number_of_pages` readable: for a
record whose type is not the padding tag and whose size `sizeof(header) +
payload_length + sizeof(trailer)` is at most `max_size`, the record being
readable, `replay_transaction` returns exactly that size and stores the id of
the header, whether the checksum matches or not and whatever the type;
`restore_extent_metadata` is invoked exactly when the stored checksum equals
the CRC-32 of header and payload and the type is `STORE_DATA`, and otherwise
the registry and the cache are left as they were. The last hypothesis is
needed: `restore_extent_metadata` reads `number_of_pages` before it compares
the payload length, also when the payload is shorter than the fixed part of
the store-data record. -/
theorem replay_transaction_record_fits {σ : Type} (P : Protocol) (hP : P.WF)
    (E : Externals σ) (now_s : Int) (mem : List Nat) (buf max_size : Nat) (st : σ)
    (type id payload_length stored : Nat) (record : List Nat)
    (htype : read_le mem (buf + P.JF_HEADER_TYPE) 1 = some type)
    (hpad : type ≠ P.STORE_PADDING)
    (hid : read_le mem (buf + P.JF_HEADER_ID) 8 = some id)
    (hpl : read_le mem (buf + P.JF_HEADER_PAYLOAD_LENGTH) P.JF_HEADER_PAYLOAD_LENGTH_SZ =
      some payload_length)
    (hmax : max_size < 2 ^ 32)
    (hfit : P.sizeof_jf_transaction_header + payload_length +
      P.sizeof_jf_transaction_trailer ≤ max_size)
    (hrec : mem_read mem buf (P.sizeof_jf_transaction_header + payload_length) = some record)
    (hsum : read_le mem (buf + P.sizeof_jf_transaction_header + payload_length) 4 =
      some stored)
    (hnum : type = P.STORE_DATA → stored = crc32 0 record →
      buf + P.sizeof_jf_transaction_header + P.JF_STORE_NUMBER_OF_PAGES < mem.length) :
    ∃ r, replay_transaction P E now_s mem buf max_size st = some r ∧
      r.ret = P.sizeof_jf_transaction_header + payload_length +
        P.sizeof_jf_transaction_trailer ∧
      r.id = id ∧
      (r.restored ≠ none ↔ (stored = crc32 0 record ∧ type = P.STORE_DATA)) ∧
      (r.restored = none → r.state = st) := by
  have h1 : u32 (P.sizeof_jf_transaction_header + payload_length +
      P.sizeof_jf_transaction_trailer) = P.sizeof_jf_transaction_header + payload_length +
      P.sizeof_jf_transaction_trailer := Nat.mod_eq_of_lt (by omega)
  have h2 : u32 (P.sizeof_jf_transaction_header + payload_length) =
      P.sizeof_jf_transaction_header + payload_length := Nat.mod_eq_of_lt (by omega)
  unfold replay_transaction
  rw [htype, Option.some_bind, if_neg (Ne.symm hpad), if_neg (by omega), hid,
    Option.some_bind, hpl, Option.some_bind]
  simp only
  rw [h1, if_neg (not_lt.mpr hfit), h2, hrec, Option.some_bind]
  unfold crc32cmp
  rw [hsum, Option.map_some', Option.some_bind]
  by_cases hc : stored = crc32 0 record
  · have hd : decide (stored ≠ crc32 0 record) = false := by simp [hc]
    rw [hd]
    simp only [Bool.false_eq_true, if_false]
    by_cases ht : type = P.STORE_DATA
    · rw [if_pos ht]
      obtain ⟨x, hx⟩ := restore_extent_metadata_total P hP E now_s mem
        (buf + P.sizeof_jf_transaction_header) payload_length st (hnum ht hc)
        (by have := (mem_read_eq_some hrec).1; omega)
      rw [hx, Option.some_bind]
      exact ⟨_, rfl, rfl, rfl, ⟨fun _ => ⟨hc, ht⟩, fun _ => by simp⟩,
        fun h => by simp at h⟩
    · rw [if_neg ht]
      exact ⟨_, rfl, rfl, rfl, ⟨fun h => absurd rfl h, fun h => absurd h.2 ht⟩, fun _ => rfl⟩
  · have hd : decide (stored ≠ crc32 0 record) = true := by simp [hc]
    rw [hd]
    simp only [if_true]
    exact ⟨_, rfl, rfl, rfl, ⟨fun h => absurd rfl h, fun h => absurd h.1 hc⟩, fun _ => rfl⟩

theorem replay_transaction_record_fits_witness :
    ∃ r, replay_transaction upstream_protocol example_externals 2000
        (example_transaction 1 5 example_payload) 0 100 [] = some r ∧
      r.ret = 15 + 50 + 4 ∧ r.id = 5 ∧
      (r.restored ≠ none ↔
        (crc32 0 ((example_transaction 1 5 example_payload).take 65) =
            crc32 0 ((example_transaction 1 5 example_payload).take 65) ∧
          1 = 1)) ∧
      (r.restored = none → r.state = []) :=
  replay_transaction_record_fits upstream_protocol (by decide) example_externals 2000
    (example_transaction 1 5 example_payload) 0 100 [] 1 5 50
    (crc32 0 ((example_transaction 1 5 example_payload).take 65))
    ((example_transaction 1 5 example_payload).take 65)
    (by decide!) (by decide) (by decide!) (by decide!) (by decide) (by decide) (by decide!)
    (by decide!) (fun _ _ => by decide!)

/-! ## The chunk cursor and `max_id` of `iterate_transactions` -/

theorem unsigned_to_int_zero : unsigned_to_int 0 = 0 := by decide

theorem unsigned_to_int_of_lt {x : Nat} (h : x < 2 ^ 31) : unsigned_to_int x = (x : Int) := by
  unfold unsigned_to_int
  have h1 : x % 2 ^ 32 = x := Nat.mod_eq_of_lt (by omega)
  rw [h1, if_pos h]

theorem next_pos_i_zero (pos_i : Nat) (h : pos_i + RRDENG_BLOCK_SIZE < 2 ^ 64) :
    next_pos_i pos_i 0 = pos_i / RRDENG_BLOCK_SIZE * RRDENG_BLOCK_SIZE + RRDENG_BLOCK_SIZE ∧
    pos_i < next_pos_i pos_i 0 := by
  have e : next_pos_i pos_i 0 =
      pos_i / RRDENG_BLOCK_SIZE * RRDENG_BLOCK_SIZE + RRDENG_BLOCK_SIZE := by
    unfold next_pos_i
    rw [unsigned_to_int_zero, if_pos rfl]
    unfold ALIGN_BYTES_FLOOR u64
    rw [Nat.mod_eq_of_lt h]
    unfold RRDENG_BLOCK_SIZE
    rw [Nat.add_div_right _ (by norm_num)]
    ring
  refine ⟨e, ?_⟩
  rw [e]
  unfold RRDENG_BLOCK_SIZE
  omega

theorem next_pos_i_size (pos_i ret : Nat) (h0 : ret ≠ 0) (h1 : ret < 2 ^ 31)
    (h2 : pos_i + ret < 2 ^ 64) : next_pos_i pos_i ret = pos_i + ret := by
  unfold next_pos_i
  rw [unsigned_to_int_of_lt h1, if_neg (by exact_mod_cast h0)]
  unfold int_to_u64
  have e : ((pos_i : Int) + (ret : Int)) % 2 ^ 64 = ((pos_i + ret : Nat) : Int) := by
    rw [Int.emod_eq_of_lt (by positivity) (by exact_mod_cast h2)]
    push_cast
    ring
  rw [e, Int.toNat_ofNat]

/-- C17 fails on the code: `corrupted` content can make the scan read outside
the journal. The journal of two blocks whose second block starts with
`oversized_record` is mapped (8192 bytes); at the chunk cursor 0
`iterate_transactions` passes `max_size = pos + size_bytes - pos_i = 8192`
although 4096 bytes are left, the record of 4119 bytes is taken to fit, and
the checksum is computed over 4115 bytes from offset 4096: `replay_transaction`
reads beyond the mapping and the scan returns no `max_id`, whatever the
iteration bound. -/
theorem iterate_transactions_reads_beyond_journal :
    (example_journal oversized_record).length = 8192 ∧
    replay_transaction upstream_protocol example_externals 2000
      (example_journal oversized_record) 4096 8192 [] = none ∧
    ∀ fuel, iterate_transactions upstream_protocol example_externals 2000 8192
      (some (example_journal oversized_record)) [] (fun _ _ => none) fuel [] = none := by
  have h1 : replay_transaction upstream_protocol example_externals 2000
      (example_journal oversized_record) 4096 8192 [] = none := by decide!
  refine ⟨by decide!, h1, ?_⟩
  intro fuel
  cases fuel with
  | zero => rfl
  | succ n =>
    have hs : u32 (if READAHEAD_BYTES < u64 (8192 - upstream_protocol.sizeof_rrdeng_jf_sb)
        then READAHEAD_BYTES else u64 (8192 - upstream_protocol.sizeof_rrdeng_jf_sb)) = 4096 := by
      decide
    have hlt : upstream_protocol.sizeof_rrdeng_jf_sb < 8192 := by decide
    unfold iterate_transactions
    rw [iterate_chunks, if_pos hlt]
    simp only [hs]
    rw [iterate_chunk, if_pos (by decide)]
    have hm : u32 (u64 (upstream_protocol.sizeof_rrdeng_jf_sb + 4096 - 0)) = 8192 := by decide
    have hb : upstream_protocol.sizeof_rrdeng_jf_sb + 0 = 4096 := by decide
    rw [hm, hb, h1]
    rfl

/-! ## `max_id` is the maximum of the ids reported -/

theorem foldl_max_ge (l : List Nat) (a : Nat) : a ≤ l.foldl max a := by
  induction l generalizing a with
  | nil => exact le_refl _
  | cons b rest ih =>
    simp only [List.foldl_cons]
    exact le_trans (le_max_left a b) (ih _)

theorem iterate_chunk_invariant {σ : Type} (P : Protocol) (E : Externals σ) (now_s : Int)
    (mem : List Nat) (buf pos size_bytes : Nat) (fuel : Nat) :
    ∀ (pos_i : Nat) (acc r : iterate_result σ), scan_invariant P E now_s acc →
      iterate_chunk P E now_s mem buf pos size_bytes fuel pos_i acc = some r →
      scan_invariant P E now_s r := by
  induction fuel with
  | zero =>
    intro pos_i acc r hinv h
    unfold iterate_chunk at h
    split at h
    · cases h
    · cases h; exact hinv
  | succ n ih =>
    intro pos_i acc r hinv h
    rw [iterate_chunk] at h
    by_cases hlt : pos_i < size_bytes
    · rw [if_pos hlt] at h
      obtain ⟨x, hx, h⟩ := Option.bind_eq_some.mp h
      refine ih _ _ r ?_ h
      obtain ⟨h1, h2⟩ := hinv
      constructor
      · simp only [List.map_append, List.map_cons, List.map_nil, List.foldl_append,
          List.foldl_cons, List.foldl_nil, ← h1]
        rw [max_def]
        by_cases hc : acc.max_id > x.id
        · rw [if_pos hc, if_neg (by omega)]
        · rw [if_neg hc, if_pos (by omega)]
      · intro c hc
        rcases List.mem_append.mp hc with hm | hm
        · exact h2 c hm
        · simp only [List.mem_singleton] at hm
          subst hm
          exact ⟨mem, acc.state, x, hx, rfl, rfl⟩
    · rw [if_neg hlt] at h
      cases h
      exact hinv

theorem iterate_chunks_invariant {σ : Type} (P : Protocol) (E : Externals σ) (now_s : Int)
    (file_size : Nat) (journalfile_data : Option (List Nat))
    (uv_fs_read : Nat → Nat → Option (List Nat)) (fuel : Nat) (chunks : Nat) :
    ∀ (pos buf : Nat) (heap : List Nat) (acc r : iterate_result σ),
      scan_invariant P E now_s acc →
      iterate_chunks P E now_s file_size journalfile_data uv_fs_read fuel chunks pos buf heap
        acc = some r →
      scan_invariant P E now_s r := by
  induction chunks with
  | zero =>
    intro pos buf heap acc r hinv h
    unfold iterate_chunks at h
    split at h
    · cases h
    · cases h; exact hinv
  | succ n ih =>
    intro pos buf heap acc r hinv h
    unfold iterate_chunks at h
    by_cases hlt : pos < file_size
    · rw [if_pos hlt] at h
      cases journalfile_data with
      | none =>
        simp only at h
        cases hrd : uv_fs_read pos (u32 (if READAHEAD_BYTES < u64 (file_size - pos)
            then READAHEAD_BYTES else u64 (file_size - pos))) with
        | none =>
          rw [hrd] at h
          cases h
          exact hinv
        | some bytes =>
          rw [hrd] at h
          simp only at h
          obtain ⟨acc', ha, h⟩ := Option.bind_eq_some.mp h
          refine ih _ _ _ _ r (iterate_chunk_invariant P E now_s _ _ _ _ _ _ _ acc' ?_ ha) h
          exact ⟨hinv.1, hinv.2⟩
      | some data =>
        simp only at h
        obtain ⟨acc', ha, h⟩ := Option.bind_eq_some.mp h
        exact ih _ _ _ _ r (iterate_chunk_invariant P E now_s _ _ _ _ _ _ _ _ hinv ha) h
    · rw [if_neg hlt] at h
      cases h
      exact hinv

/-- C18 does not hold as stated: in `corrupted_journal` the only valid
transaction has id 1 and the record that follows it, whose checksum does not
match, has id 99; the scan returns `max_id = 99`. -/
theorem iterate_transactions_counts_dropped_ids :
    (iterate_transactions upstream_protocol example_externals 2000 8192
        (some corrupted_journal) [] (fun _ _ => none) 8 []).map
      (fun r => (r.max_id, r.replays.map (fun c => (c.pos_i, c.ret, c.id)), r.calls.length)) =
      some (99, [(0, 69, 1), (69, 69, 99), (138, 0, 0)], 4) ∧
    (replay_transaction upstream_protocol example_externals 2000 corrupted_journal
        (4096 + 69) 8123 [example_uuid]).map (fun r => (r.ret, r.id, r.restored)) =
      some (69, 99, none) := by
  decide!

/-- Every call that the walk over a chunk logs is a call of
`replay_transaction` on the memory of that chunk. -/
theorem iterate_chunk_scanned {σ : Type} (P : Protocol) (E : Externals σ) (now_s : Int)
    (M : Nat → List Nat → Prop) (mem : List Nat) (buf pos size_bytes : Nat) (hM : M pos mem)
    (fuel : Nat) :
    ∀ (pos_i : Nat) (acc r : iterate_result σ),
      (∀ c ∈ acc.replays, ∃ (m : List Nat) (s : σ) (x : replay_result σ), M c.pos m ∧
        replay_transaction P E now_s m c.buf c.max_size s = some x ∧
        x.ret = c.ret ∧ x.id = c.id) →
      iterate_chunk P E now_s mem buf pos size_bytes fuel pos_i acc = some r →
      ∀ c ∈ r.replays, ∃ (m : List Nat) (s : σ) (x : replay_result σ), M c.pos m ∧
        replay_transaction P E now_s m c.buf c.max_size s = some x ∧
        x.ret = c.ret ∧ x.id = c.id := by
  induction fuel with
  | zero =>
    intro pos_i acc r hinv h
    unfold iterate_chunk at h
    split at h
    · cases h
    · cases h; exact hinv
  | succ n ih =>
    intro pos_i acc r hinv h
    rw [iterate_chunk] at h
    by_cases hlt : pos_i < size_bytes
    · rw [if_pos hlt] at h
      obtain ⟨x, hx, h⟩ := Option.bind_eq_some.mp h
      refine ih _ _ r ?_ h
      intro c hc
      rcases List.mem_append.mp hc with hm | hm
      · exact hinv c hm
      · simp only [List.mem_singleton] at hm
        subst hm
        exact ⟨mem, acc.state, x, hM, hx, rfl, rfl⟩
    · rw [if_neg hlt] at h
      cases h
      exact hinv

/-- Every call that `iterate_transactions` logs is a call of
`replay_transaction` on the memory scanned for the chunk of the call. -/
theorem iterate_chunks_scanned {σ : Type} (P : Protocol) (E : Externals σ) (now_s : Int)
    (file_size : Nat) (journalfile_data : Option (List Nat))
    (uv_fs_read : Nat → Nat → Option (List Nat)) (fuel : Nat) (chunks : Nat) :
    ∀ (pos buf : Nat) (heap : List Nat) (acc r : iterate_result σ),
      (∀ c ∈ acc.replays, ∃ (m : List Nat) (s : σ) (x : replay_result σ),
        chunk_memory file_size journalfile_data uv_fs_read c.pos m ∧
        replay_transaction P E now_s m c.buf c.max_size s = some x ∧
        x.ret = c.ret ∧ x.id = c.id) →
      iterate_chunks P E now_s file_size journalfile_data uv_fs_read fuel chunks pos buf heap
        acc = some r →
      ∀ c ∈ r.replays, ∃ (m : List Nat) (s : σ) (x : replay_result σ),
        chunk_memory file_size journalfile_data uv_fs_read c.pos m ∧
        replay_transaction P E now_s m c.buf c.max_size s = some x ∧
        x.ret = c.ret ∧ x.id = c.id := by
  induction chunks with
  | zero =>
    intro pos buf heap acc r hinv h
    unfold iterate_chunks at h
    split at h
    · cases h
    · cases h; exact hinv
  | succ n ih =>
    intro pos buf heap acc r hinv h
    unfold iterate_chunks at h
    by_cases hlt : pos < file_size
    · rw [if_pos hlt] at h
      cases journalfile_data with
      | none =>
        simp only at h
        cases hrd : uv_fs_read pos (u32 (if READAHEAD_BYTES < u64 (file_size - pos)
            then READAHEAD_BYTES else u64 (file_size - pos))) with
        | none =>
          rw [hrd] at h
          cases h
          exact hinv
        | some bytes =>
          rw [hrd] at h
          simp only at h
          obtain ⟨acc', ha, h⟩ := Option.bind_eq_some.mp h
          refine ih _ _ _ _ r (iterate_chunk_scanned P E now_s
            (chunk_memory file_size none uv_fs_read) _ _ pos _
            (show chunk_memory file_size none uv_fs_read pos _ from ⟨bytes, heap, hrd, rfl⟩)
            _ _ _ acc' ?_ ha) h
          exact hinv
      | some data =>
        simp only at h
        obtain ⟨acc', ha, h⟩ := Option.bind_eq_some.mp h
        exact ih _ _ _ _ r (iterate_chunk_scanned P E now_s
          (chunk_memory file_size (some data) uv_fs_read) data _ pos _
          (show chunk_memory file_size (some data) uv_fs_read pos data from rfl)
          _ _ _ _ hinv ha) h
    · rw [if_neg hlt] at h
      cases h
      exact hinv

/-- C18, as the code has it: the `max_id` that `iterate_transactions`
returns is at least 1 and is the maximum of 1 and the ids reported by all
the calls of `replay_transaction`. Every call logged is a call on the memory
scanned for its chunk (the mapping of the journal, or the read buffer holding
the bytes that `uv_fs_read` delivered for the chunk), and it reports 0 only
for a padding tag or a header that does not fit `max_size`, and otherwise the
id member of the header at the cursor in that memory, also when the record
is then dropped because it does not fit or its checksum does not match. -/
theorem iterate_transactions_max_id {σ : Type} (P : Protocol) (E : Externals σ) (now_s : Int)
    (journalfile_pos : Nat) (journalfile_data : Option (List Nat)) (heap : List Nat)
    (uv_fs_read : Nat → Nat → Option (List Nat)) (fuel : Nat) (st : σ)
    (r : iterate_result σ)
    (h : iterate_transactions P E now_s journalfile_pos journalfile_data heap uv_fs_read fuel
      st = some r) :
    1 ≤ r.max_id ∧
    r.max_id = (r.replays.map (fun c => c.id)).foldl max 1 ∧
    ∀ c ∈ r.replays, ∃ (mem : List Nat) (type : Nat) (s : σ) (x : replay_result σ),
      chunk_memory journalfile_pos journalfile_data uv_fs_read c.pos mem ∧
      replay_transaction P E now_s mem c.buf c.max_size s = some x ∧
      x.ret = c.ret ∧ x.id = c.id ∧
      read_le mem (c.buf + P.JF_HEADER_TYPE) 1 = some type ∧
      ((type = P.STORE_PADDING ∨ c.max_size < P.sizeof_jf_transaction_header) →
        c.id = 0 ∧ c.ret = 0) ∧
      (type ≠ P.STORE_PADDING → P.sizeof_jf_transaction_header ≤ c.max_size →
        read_le mem (c.buf + P.JF_HEADER_ID) 8 = some c.id) := by
  unfold iterate_transactions at h
  have hinv := iterate_chunks_invariant P E now_s _ _ _ _ _ _ _ _ _ r
    (show scan_invariant P E now_s
      { max_id := 1, state := st, calls := [], replays := [], io_read_requests := 0,
        io_read_bytes := 0 } from ⟨rfl, fun c hc => by simp at hc⟩) h
  have hscan := iterate_chunks_scanned P E now_s _ _ _ _ _ _ _ _ _ r
    (fun c hc => by simp at hc) h
  obtain ⟨h1, -⟩ := hinv
  refine ⟨by rw [h1]; exact foldl_max_ge _ _, h1, ?_⟩
  intro c hc
  obtain ⟨mem, st0, r0, hM, hr0, e1, e2⟩ := hscan c hc
  obtain ⟨type, ht, k1, k2⟩ := replay_transaction_id P E now_s hr0
  rw [e1, e2] at k1
  rw [e2] at k2
  exact ⟨mem, type, st0, r0, hM, hr0, e1, e2, ht, k1, k2⟩

theorem iterate_transactions_max_id_witness :
    (iterate_transactions upstream_protocol example_externals 2000 8192
        (some corrupted_journal) [] (fun _ _ => none) 8 []).map (fun r => r.max_id) =
      some 99 ∧
    1 ≤ (99 : Nat) :=
  ⟨by decide!,
    (iterate_transactions_max_id upstream_protocol example_externals 2000 8192
      (some corrupted_journal) [] (fun _ _ => none) 8 []
      { max_id := 99, state := [example_uuid],
        calls := [external_call.mrg_metric_get_and_acquire example_uuid,
          external_call.mrg_metric_add_and_acquire
            { uuid := example_uuid, first_time_s := 1000, last_time_s := 1059,
              latest_update_every_s := 1 },
          external_call.pgc_open_add_hot_page
            { metric_id := 1, start_time_s := 1000, end_time_s := 1059, update_every_s := 1,
              extent_offset := 0, extent_size := 4096, page_length := 240 },
          external_call.mrg_metric_release (some 0)],
        replays := [{ pos := 4096, pos_i := 0, buf := 4096, max_size := 8192, ret := 69,
                      id := 1 },
                    { pos := 4096, pos_i := 69, buf := 4165, max_size := 8123, ret := 69,
                      id := 99 },
                    { pos := 4096, pos_i := 138, buf := 4234, max_size := 8054, ret := 0,
                      id := 0 }],
        io_read_requests := 0, io_read_bytes := 0 }
      (by decide!)).1⟩

/-! ## The abort path of the migrator -/

theorem migrate_metric_length {K : Consts} (hK : K.WF) {j2_header : journal_v2_header}
    {st st1 : migrate_state} {data : Nat} {metric_info : jv2_metrics_info} {continues : Bool}
    (h : migrate_metric K j2_header st data metric_info = some (st1, continues)) :
    st1.img.length = st.img.length := by
  unfold migrate_metric at h
  obtain ⟨⟨img1, n1⟩, hw1, h⟩ := Option.bind_eq_some.mp h
  obtain ⟨m1, -⟩ := journal_v2_write_metric_page_spec hw1
  cases n1 with
  | none =>
    simp only [Option.some.injEq, Prod.mk.injEq] at h
    obtain ⟨rfl, rfl⟩ := h
    exact m1.1
  | some d1 =>
    simp only at h
    obtain ⟨⟨img2, metric_page⟩, hw2, h⟩ := Option.bind_eq_some.mp h
    obtain ⟨m2, -⟩ := journal_v2_write_data_page_header_spec hK hw2
    obtain ⟨⟨img3, n3⟩, hw3, h⟩ := Option.bind_eq_some.mp h
    obtain ⟨m3, -⟩ := journal_v2_write_descriptors_spec _ hw3
    have l3 : img3.length = st.img.length := by rw [m3.1, m2.1, m1.1]
    cases n3 with
    | none =>
      simp only [Option.some.injEq, Prod.mk.injEq] at h
      obtain ⟨rfl, rfl⟩ := h
      exact l3
    | some pt =>
      simp only at h
      obtain ⟨⟨img4, npa⟩, hw4, h⟩ := Option.bind_eq_some.mp h
      obtain ⟨m4, -⟩ := journal_v2_write_data_page_trailer_spec hw4
      have l4 : img4.length = st.img.length := by rw [m4.1, l3]
      split at h
      · simp only [Option.some.injEq, Prod.mk.injEq] at h
        obtain ⟨rfl, rfl⟩ := h
        exact l4
      · simp only [Option.some.injEq, Prod.mk.injEq] at h
        obtain ⟨rfl, rfl⟩ := h
        exact l4

theorem migrate_metrics_length {K : Consts} (hK : K.WF) {j2_header : journal_v2_header}
    (ms : List jv2_metrics_info) {st st' : migrate_state}
    (h : migrate_metrics K j2_header ms st = some st') :
    st'.img.length = st.img.length := by
  induction ms generalizing st with
  | nil =>
    simp only [migrate_metrics, Option.some.injEq] at h
    rw [← h]
  | cons m rest ih =>
    unfold migrate_metrics at h
    cases hd : st.data with
    | none => rw [hd] at h; simp at h
    | some d =>
      rw [hd] at h
      simp only at h
      obtain ⟨⟨st1, c⟩, h1, h⟩ := Option.bind_eq_some.mp h
      have l1 := migrate_metric_length hK h1
      cases c with
      | true =>
        simp only [if_true] at h
        rw [ih h, l1]
      | false =>
        simp only [Bool.false_eq_true, if_false, Option.some.injEq] at h
        rw [← h, l1]

theorem header_field_data {img : List Nat} {h : journal_v2_header}
    (hr : mem_read img 0 72 = some h.bytes) : read_le img 64 8 = some (h.data % 256 ^ 8) := by
  have := @read_le_of_block
    (le_bytes 4 h.magic ++ le_bytes 4 0 ++ le_bytes 8 h.start_time_ut ++
      le_bytes 8 h.end_time_ut ++ le_bytes 4 h.extent_count ++ le_bytes 4 h.extent_offset ++
      le_bytes 4 h.extent_trailer_offset ++ le_bytes 4 h.metric_count ++
      le_bytes 4 h.metric_offset ++ le_bytes 4 h.metric_trailer_offset ++
      le_bytes 4 h.page_count ++ le_bytes 4 h.page_offset ++
      le_bytes 4 h.total_file_size ++ le_bytes 4 h.original_file_size) ([])
    img 0 8 (h.data) 72 (by rw [hr]; simp [journal_v2_header.bytes, List.append_assoc])
  simpa [length_le_bytes] using this

theorem mem_read_take {l : List Nat} {k o n : Nat} (h : o + n ≤ k) (hk : k ≤ l.length) :
    mem_read (l.take k) o n = mem_read l o n := by
  rw [mem_read_of_le (by rw [List.length_take]; omega), mem_read_of_le (by omega)]
  congr 1
  rw [List.drop_take, List.take_take, Nat.min_eq_left (by omega)]

theorem read_le_take {l : List Nat} {k o n : Nat} (h : o + n ≤ k) (hk : k ≤ l.length) :
    read_le (l.take k) o n = read_le l o n := by
  unfold read_le
  rw [mem_read_take h hk]

/-- C13 does not hold as stated: the migration of `mismatched_metrics` fails
the cursor check and aborts; when `truncate` fails, the file keeps its 260
bytes (it is not truncated to the 72 bytes of the header) and the failure is
counted. -/
theorem aborted_migration_truncate_failure :
    (aborted_migration false).map
        (fun r => (r.file.length, r.journal_data, r.disk_space, r.fs_errors)) =
      some (260, none, 260, 1) ∧
    sizeof_journal_v2_header = 72 := by
  decide!

/-- C13, as the code has it: for every run of the migrator that returns, the
loop over the metrics ran from the mapping `img` in which the extent section
is written and ended in a state `st`. When its cursor is not at the metric
list trailer (`NULL` after the metric writer returned `NULL`, `data_start`
after the cursor check failed), nothing is published in `(journal_data,
journal_data_size)`, the 72 bytes at offset 0 are the header with the skip
magic and `data == NULL`, and the file is truncated to exactly
`sizeof(struct journal_v2_header)` when `truncate` succeeds; when `truncate`
fails the file keeps its size and the failure is counted. A run whose cursor
ends at the metric list trailer publishes. -/
theorem aborted_migration_leaves_skip_header (K : Consts) (hK : K.WF) (mapping : List Nat)
    (truncate_ok : Bool) (journalfile_pos : Nat) (JudyL_metrics : List jv2_metrics_info)
    (JudyL_extents_pos : List jv2_extents_info) (ne nm np : Nat) (r : migrate_result)
    (h : do_migrate_to_v2_callback K mapping truncate_ok journalfile_pos JudyL_metrics
      JudyL_extents_pos ne nm np = some r) :
    ∃ img st,
      migrate_metrics K (migration_header K journalfile_pos JudyL_metrics ne nm np)
        (qsort_uuid_list JudyL_metrics)
        { img := img, data := some (compute_layout K ne nm np).metrics_offset,
          pages_offset := (compute_layout K ne nm np).pages_offset } = some st ∧
      (st.data = some (compute_layout K ne nm np).metric_offset_trailer →
        r.journal_data ≠ none) ∧
      (st.data ≠ some (compute_layout K ne nm np).metric_offset_trailer →
        r.journal_data = none ∧
        mem_read r.file 0 sizeof_journal_v2_header =
          some ({ migration_header K journalfile_pos JudyL_metrics ne nm np with
            magic := K.JOURVAL_V2_SKIP_MAGIC }).bytes ∧
        read_le r.file 0 4 = some K.JOURVAL_V2_SKIP_MAGIC ∧
        read_le r.file 64 8 = some 0 ∧
        (truncate_ok = true →
          r.file.length = sizeof_journal_v2_header ∧
          r.disk_space = sizeof_journal_v2_header ∧ r.fs_errors = 0) ∧
        (truncate_ok = false →
          r.file.length = (compute_layout K ne nm np).total_file_size ∧
          r.disk_space = (compute_layout K ne nm np).total_file_size ∧ r.fs_errors = 1)) := by
  have htot : (compute_layout K ne nm np).total_file_size ≥ 84 := by
    unfold compute_layout sizeof_journal_v2_header sizeof_journal_v2_block_trailer
    simp only
    omega
  unfold do_migrate_to_v2_callback at h
  simp only at h
  generalize hL : compute_layout K ne nm np = L at *
  obtain ⟨eo, eto, mo, mto, po, tro, total⟩ := L
  simp only at *
  by_cases c0 : mapping.length ≠ total
  · rw [if_pos c0] at h; simp at h
  rw [if_neg c0] at h
  have hlen0 := not_not.mp c0
  obtain ⟨img0, hw0, h0⟩ := Option.bind_eq_some.mp h
  clear h
  obtain ⟨img1, hw1, h1⟩ := Option.bind_eq_some.mp h0
  clear h0
  by_cases c1 : eo + JudyL_extents_pos.length * sizeof_journal_extent_list ≠ eto
  · rw [if_pos c1] at h1; simp at h1
  rw [if_neg c1] at h1
  obtain ⟨buf, hbuf, h2⟩ := Option.bind_eq_some.mp h1
  clear h1
  obtain ⟨img2, hw2, h3⟩ := Option.bind_eq_some.mp h2
  clear h2
  by_cases c2 : eo + JudyL_extents_pos.length * sizeof_journal_extent_list +
      sizeof_journal_v2_block_trailer ≠ mo
  · rw [if_pos c2] at h3; simp at h3
  rw [if_neg c2] at h3
  by_cases c3 : JudyL_metrics.length ≠ nm
  · rw [if_pos c3] at h3; simp at h3
  rw [if_neg c3] at h3
  obtain ⟨st, hloop, h4⟩ := Option.bind_eq_some.mp h3
  clear h3
  rw [not_not.mp c2] at hloop
  have l0 : img0.length = mapping.length := mem_write_length hw0
  have l1 : img1.length = img0.length := journal_v2_write_extent_list_length _ hw1
  have l2 : img2.length = img1.length := (crc32set_spec hw2).1.1
  have l3 : st.img.length = img2.length := migrate_metrics_length hK _ hloop
  refine ⟨img2, st, hloop, ?_, ?_⟩
  · intro c4
    rw [if_pos c4] at h4
    obtain ⟨buf', -, h5⟩ := Option.bind_eq_some.mp h4
    obtain ⟨img3, -, h6⟩ := Option.bind_eq_some.mp h5
    obtain ⟨img4, -, h7⟩ := Option.bind_eq_some.mp h6
    obtain ⟨img5, -, h8⟩ := Option.bind_eq_some.mp h7
    simp only [Option.some.injEq] at h8
    rw [← h8]
    simp
  · intro c4
    rw [if_neg c4] at h4
    obtain ⟨img3, hw3, h5⟩ := Option.bind_eq_some.mp h4
    clear h4
    have hb := journal_v2_header_bytes_length
      { migration_header K journalfile_pos JudyL_metrics ne nm np with
        magic := K.JOURVAL_V2_SKIP_MAGIC }
    have hrd := mem_read_write_same hw3
    rw [hb] at hrd
    have l4 : img3.length = st.img.length := mem_write_length hw3
    have hskip : K.JOURVAL_V2_SKIP_MAGIC % 256 ^ 4 = K.JOURVAL_V2_SKIP_MAGIC :=
      Nat.mod_eq_of_lt (by have := hK.2.2.1; norm_num at this ⊢; exact this)
    have hfull : mem_read img3 0 sizeof_journal_v2_header =
          some ({ migration_header K journalfile_pos JudyL_metrics ne nm np with
            magic := K.JOURVAL_V2_SKIP_MAGIC }).bytes ∧
        read_le img3 0 4 = some K.JOURVAL_V2_SKIP_MAGIC ∧
        read_le img3 64 8 = some 0 := by
      refine ⟨hrd, ?_, ?_⟩
      · have := header_field_magic hrd
        rw [this]
        exact congrArg some hskip
      · have := header_field_data hrd
        rw [this]
        rfl
    have c5 : ¬ u32 sizeof_journal_v2_header = total := by
      have : u32 sizeof_journal_v2_header = 72 := by decide
      omega
    rw [if_neg c5] at h5
    cases truncate_ok with
    | true =>
      have e72 : u32 sizeof_journal_v2_header = 72 := by decide
      rw [e72] at h5
      simp only [if_true, Option.some.injEq] at h5
      subst h5
      have hlen72 : 72 ≤ img3.length := by
        have := (mem_read_eq_some hrd).1
        omega
      refine ⟨rfl, ?_, ?_, ?_, fun _ => ⟨?_, rfl, rfl⟩, fun hf => absurd hf (by decide)⟩
      · show mem_read (img3.take 72) 0 72 = _
        rw [mem_read_take (k := 72) (o := 0) (n := 72) (by decide) hlen72]
        exact hfull.1
      · show read_le (img3.take 72) 0 4 = _
        rw [read_le_take (k := 72) (o := 0) (n := 4) (by decide) hlen72]; exact hfull.2.1
      · show read_le (img3.take 72) 64 8 = _
        rw [read_le_take (k := 72) (o := 64) (n := 8) (by decide) hlen72]; exact hfull.2.2
      · show (img3.take 72).length = 72
        rw [List.length_take]
        exact Nat.min_eq_left hlen72
    | false =>
      simp only [Bool.false_eq_true, if_false, Option.some.injEq] at h5
      subst h5
      refine ⟨rfl, hfull.1, hfull.2.1, hfull.2.2, fun hf => absurd hf (by decide),
        fun _ => ⟨by simp only; omega, rfl, rfl⟩⟩

theorem aborted_migration_leaves_skip_header_witness :
    ∃ img st,
      migrate_metrics example_consts
        (migration_header example_consts 8192 mismatched_metrics 1 1 2)
        (qsort_uuid_list mismatched_metrics)
        { img := img, data := some (compute_layout example_consts 1 1 2).metrics_offset,
          pages_offset := (compute_layout example_consts 1 1 2).pages_offset } = some st ∧
      (st.data = some (compute_layout example_consts 1 1 2).metric_offset_trailer →
        (none : Option (List Nat × Nat)) ≠ none) ∧
      (st.data ≠ some (compute_layout example_consts 1 1 2).metric_offset_trailer →
        (none : Option (List Nat × Nat)) = none ∧
        mem_read ({ migration_header example_consts 8192 mismatched_metrics 1 1 2 with
            magic := example_consts.JOURVAL_V2_SKIP_MAGIC }).bytes 0 sizeof_journal_v2_header =
          some ({ migration_header example_consts 8192 mismatched_metrics 1 1 2 with
            magic := example_consts.JOURVAL_V2_SKIP_MAGIC }).bytes ∧
        read_le ({ migration_header example_consts 8192 mismatched_metrics 1 1 2 with
            magic := example_consts.JOURVAL_V2_SKIP_MAGIC }).bytes 0 4 =
          some example_consts.JOURVAL_V2_SKIP_MAGIC ∧
        read_le ({ migration_header example_consts 8192 mismatched_metrics 1 1 2 with
            magic := example_consts.JOURVAL_V2_SKIP_MAGIC }).bytes 64 8 = some 0 ∧
        (true = true →
          ({ migration_header example_consts 8192 mismatched_metrics 1 1 2 with
            magic := example_consts.JOURVAL_V2_SKIP_MAGIC }).bytes.length =
            sizeof_journal_v2_header ∧
          sizeof_journal_v2_header = sizeof_journal_v2_header ∧ 0 = 0) ∧
        (true = false →
          ({ migration_header example_consts 8192 mismatched_metrics 1 1 2 with
            magic := example_consts.JOURVAL_V2_SKIP_MAGIC }).bytes.length =
            (compute_layout example_consts 1 1 2).total_file_size ∧
          sizeof_journal_v2_header = (compute_layout example_consts 1 1 2).total_file_size ∧
          0 = 1)) :=
  aborted_migration_leaves_skip_header example_consts (by decide)
    (List.replicate (compute_layout example_consts 1 1 2).total_file_size 0) true 8192
    mismatched_metrics example_extents 1 1 2
    { file := ({ migration_header example_consts 8192 mismatched_metrics 1 1 2 with
        magic := example_consts.JOURVAL_V2_SKIP_MAGIC }).bytes,
      journal_data := none, disk_space := sizeof_journal_v2_header, fs_errors := 0 }
    (by decide!)

/-- C19: a store-data payload with `count` descriptors that fits its
`payload_length` (`max_size`) and is readable. `restore_extent_metadata`
returns, and the calls it makes are the concatenation, in descriptor order,
of one segment per descriptor (`descriptor_calls`): no call for a descriptor
whose page type is above `PAGE_TYPE_MAX`; the lookup and the release only
(no registry insertion, no retention expansion, no hot page) when the
validation reports the data invalid; and otherwise exactly one
`pgc_open_add_hot_page`, which carries the validated `(start, end,
update_every)`, the `extent_offset` and `extent_size` of the record and the
`page_length` of the descriptor. -/
theorem restore_extent_metadata_hot_pages {σ : Type} (P : Protocol) (hP : P.WF)
    (E : Externals σ) (now_s : Int) (mem : List Nat) (buf max_size : Nat) (st : σ)
    (count : Nat)
    (hcount : read_le mem (buf + P.JF_STORE_NUMBER_OF_PAGES) 1 = some count)
    (hfit : P.sizeof_jf_store_data + count * P.sizeof_extent_page_descr ≤ max_size)
    (hmem : buf + P.sizeof_jf_store_data + count * P.sizeof_extent_page_descr ≤ mem.length) :
    ∃ (st' : σ) (segs : List (List external_call)),
      restore_extent_metadata P E now_s mem buf max_size st = some (st', segs.flatten) ∧
      segs.length = count ∧
      ∀ i seg, segs[i]? = some seg → descriptor_calls P E now_s mem buf i seg := by
  have hc := read_le_one_lt hcount
  have hstep : ∀ j (s : σ), 0 ≤ j → j < 0 + count →
      ∃ r, restore_extent_descr P E now_s mem buf j s = some r ∧
        descriptor_calls P E now_s mem buf j r.2 := by
    intro j s _ hj
    have hle : (j + 1) * P.sizeof_extent_page_descr ≤ count * P.sizeof_extent_page_descr :=
      Nat.mul_le_mul_right _ (by omega)
    exact restore_extent_descr_spec P hP E now_s buf j s (by omega)
  obtain ⟨st', segs, hs, hl, hseg⟩ :=
    restore_extent_descrs_segments P E now_s mem buf _ count 0 st hstep
  refine ⟨st', segs, ?_, hl, ?_⟩
  · unfold restore_extent_metadata
    rw [hcount, Option.some_bind]
    simp only
    rw [restore_payload_length hP hc, if_neg (not_lt.mpr hfit)]
    exact hs
  · intro i seg hi
    have := hseg i seg hi
    rw [Nat.zero_add] at this
    exact this

/-- The payload of scenario S1: one descriptor, one hot page. -/
theorem restore_extent_metadata_hot_pages_witness :
    restore_extent_metadata upstream_protocol example_externals 2000 example_payload 0 50 [] =
      some ([example_uuid],
        [external_call.mrg_metric_get_and_acquire example_uuid,
         external_call.mrg_metric_add_and_acquire
           { uuid := example_uuid, first_time_s := 1000, last_time_s := 1059,
             latest_update_every_s := 1 },
         external_call.pgc_open_add_hot_page
           { metric_id := 1, start_time_s := 1000, end_time_s := 1059, update_every_s := 1,
             extent_offset := 0, extent_size := 4096, page_length := 240 },
         external_call.mrg_metric_release (some 0)]) ∧
    ∃ (st' : List (List Nat)) (segs : List (List external_call)),
      restore_extent_metadata upstream_protocol example_externals 2000 example_payload 0 50
        [] = some (st', segs.flatten) ∧
      segs.length = 1 ∧
      ∀ i seg, segs[i]? = some seg →
        descriptor_calls upstream_protocol example_externals 2000 example_payload 0 i seg :=
  ⟨by decide!,
    restore_extent_metadata_hot_pages upstream_protocol (by decide) example_externals 2000
      example_payload 0 50 [] 1 (by decide!) (by decide) (by decide!)⟩


/-! ## What the v2 loader stores -/

theorem load_metric_list_clamped {data : List Nat} {hs now_s : Int} {entries : Nat}
    (n metric : Nat) {ups : List retention_update}
    (h : load_metric_list data hs now_s entries n metric = some ups) :
    ∀ u ∈ ups, u.entry.first_time_s ≤ u.entry.last_time_s ∧ u.entry.last_time_s ≤ now_s ∧
      u.expand_first_time_s = u.entry.first_time_s ∧
      u.expand_last_time_s = u.entry.last_time_s ∧
      (0 < now_s → 0 < hs → 0 < u.entry.first_time_s) := by
  induction n generalizing metric ups with
  | zero =>
    simp only [load_metric_list, Option.some.injEq] at h
    subst h
    intro u hu
    simp at hu
  | succ n ih =>
    unfold load_metric_list at h
    obtain ⟨⟨uuid, s, e, ue⟩, he, h⟩ := Option.bind_eq_some.mp h
    obtain ⟨rest, hr, h⟩ := Option.bind_eq_some.mp h
    simp only [Option.some.injEq] at h
    subst h
    intro u hu
    rcases List.mem_cons.mp hu with rfl | hu
    · unfold load_metric_entry at he
      obtain ⟨ds, -, he⟩ := Option.bind_eq_some.mp he
      obtain ⟨de, -, he⟩ := Option.bind_eq_some.mp he
      obtain ⟨me, -, he⟩ := Option.bind_eq_some.mp he
      obtain ⟨ue', -, he⟩ := Option.bind_eq_some.mp he
      obtain ⟨uu, -, he⟩ := Option.bind_eq_some.mp he
      simp only [Option.some.injEq, Prod.mk.injEq] at he
      obtain ⟨-, rfl, rfl, -⟩ := he
      unfold update_metric_retention_and_granularity_by_uuid
      simp only
      refine ⟨?_, ?_, trivial, trivial, ?_⟩
      · split <;> omega
      · split <;> omega
      · intro h1 h2
        split <;> split <;> omega
    · exact ih _ hr u hu

theorem read_le_eight_lt {data : List Nat} {o v : Nat} (h : read_le data o 8 = some v) :
    v < 2 ^ 64 := by
  unfold read_le at h
  obtain ⟨l, hl, rfl⟩ := Option.map_eq_some'.mp h
  have := le_value_lt l
  rw [mem_read_length hl] at this
  norm_num at this ⊢
  exact this

theorem u64_to_time_div_pos (ut : Nat) (h : ut < 2 ^ 64) (h1 : USEC_PER_SEC ≤ ut) :
    0 < u64_to_time (ut / USEC_PER_SEC) := by
  rw [u64_to_time_div ut h]
  have : 0 < ut / USEC_PER_SEC := Nat.div_pos h1 (by decide)
  exact_mod_cast this

/-- C21 does not hold as stated: the file that the migrator publishes for a
metric whose retention is `[0, 59]` has the header start second 0 and the
`delta_start_s` 0; the loader stores the start 0 in the registry (zero
timestamps are used as they are). -/
theorem load_journal_file_v2_stores_zero_start :
    (load_journal_file_v2 example_consts false (some 8192) (.mapped zero_start_file) 2000).map
      (fun l => (l.rc, l.updates.map (fun u =>
        (u.entry.first_time_s, u.entry.last_time_s, u.expand_first_time_s)))) =
      some (0, [(0, 59, 0)]) := by
  decide!

/-- C21, as the code has it: every registry update that `load_journal_file_v2`
makes carries a start and an end with `start ≤ end` and `end ≤ now`, the same
two values in the entry and in the arguments of `mrg_metric_expand_retention`;
the start is positive when `now` is positive and the `start_time_ut` of the
header is at least one second. -/
theorem load_journal_file_v2_stored_retention (K : Consts) (deep : Bool)
    (v1_size : Option Nat) (data : List Nat) (now_s : Int) (r : load_result)
    (h : load_journal_file_v2 K deep v1_size (.mapped data) now_s = some r) :
    ∀ u ∈ r.updates,
      u.entry.first_time_s ≤ u.entry.last_time_s ∧ u.entry.last_time_s ≤ now_s ∧
      u.expand_first_time_s = u.entry.first_time_s ∧
      u.expand_last_time_s = u.entry.last_time_s ∧
      (0 < now_s → (∃ ut, read_le data 8 8 = some ut ∧ USEC_PER_SEC ≤ ut) →
        0 < u.entry.first_time_s) := by
  unfold load_journal_file_v2 at h
  simp only at h
  by_cases hlen : data.length < sizeof_journal_v2_header
  · rw [if_pos hlen] at h
    simp only [Option.some.injEq] at h
    subst h
    intro u hu
    simp at hu
  rw [if_neg hlen] at h
  obtain ⟨rc, -, h⟩ := Option.bind_eq_some.mp h
  by_cases hrc : rc ≠ 0
  · rw [if_pos hrc] at h
    simp only [Option.some.injEq] at h
    subst h
    intro u hu
    simp at hu
  rw [if_neg hrc] at h
  obtain ⟨entries, -, h⟩ := Option.bind_eq_some.mp h
  by_cases he : entries = 0
  · rw [if_pos he] at h
    simp only [Option.some.injEq] at h
    subst h
    intro u hu
    simp at hu
  rw [if_neg he] at h
  obtain ⟨mo, -, h⟩ := Option.bind_eq_some.mp h
  obtain ⟨ut, hut, h⟩ := Option.bind_eq_some.mp h
  obtain ⟨ups, hups, h⟩ := Option.bind_eq_some.mp h
  simp only [Option.some.injEq] at h
  subst h
  intro u hu
  obtain ⟨a1, a2, a3, a4, a5⟩ := load_metric_list_clamped _ _ hups u hu
  refine ⟨a1, a2, a3, a4, fun hnow hex => a5 hnow ?_⟩
  obtain ⟨ut', hut', hge⟩ := hex
  rw [hut] at hut'
  simp only [Option.some.injEq] at hut'
  subst hut'
  exact u64_to_time_div_pos ut (read_le_eight_lt hut) hge

theorem load_journal_file_v2_stored_retention_witness :
    load_journal_file_v2 example_consts false (some 8192) (.mapped example_result.file) 1100 =
      some example_load ∧
    example_load.updates.length = 3 ∧
    ∀ u ∈ example_load.updates,
      u.entry.first_time_s ≤ u.entry.last_time_s ∧ u.entry.last_time_s ≤ 1100 ∧
      u.expand_first_time_s = u.entry.first_time_s ∧
      u.expand_last_time_s = u.entry.last_time_s ∧
      (0 < (1100 : Int) →
        (∃ ut, read_le example_result.file 8 8 = some ut ∧ USEC_PER_SEC ≤ ut) →
        0 < u.entry.first_time_s) :=
  ⟨by decide!, by decide!,
    load_journal_file_v2_stored_retention example_consts false (some 8192)
      example_result.file 1100 example_load (by decide!)⟩


/-! ## The times of the written header -/

theorem header_field_end_time_ut {img : List Nat} {h : journal_v2_header}
    (hr : mem_read img 0 72 = some h.bytes) :
    read_le img 16 8 = some (h.end_time_ut % 256 ^ 8) := by
  have := @read_le_of_block (le_bytes 4 h.magic ++ le_bytes 4 0 ++ le_bytes 8 h.start_time_ut)
    (le_bytes 4 h.extent_count ++ le_bytes 4 h.extent_offset ++
      le_bytes 4 h.extent_trailer_offset ++ le_bytes 4 h.metric_count ++
      le_bytes 4 h.metric_offset ++ le_bytes 4 h.metric_trailer_offset ++
      le_bytes 4 h.page_count ++ le_bytes 4 h.page_offset ++
      le_bytes 4 h.total_file_size ++ le_bytes 4 h.original_file_size ++ le_bytes 8 h.data)
    img 0 8 (h.end_time_ut) 72 (by rw [hr]; simp [journal_v2_header.bytes, List.append_assoc])
  simpa [length_le_bytes] using this

theorem foldl_MIN_spec (l : List jv2_metrics_info) (acc : Int) :
    (l.foldl (fun acc m => MIN acc m.first_time_s) acc = acc ∨
      ∃ m ∈ l, l.foldl (fun acc m => MIN acc m.first_time_s) acc = m.first_time_s) ∧
    l.foldl (fun acc m => MIN acc m.first_time_s) acc ≤ acc ∧
    ∀ m ∈ l, l.foldl (fun acc m => MIN acc m.first_time_s) acc ≤ m.first_time_s := by
  induction l generalizing acc with
  | nil => simp
  | cons a rest ih =>
    simp only [List.foldl_cons]
    obtain ⟨h1, h2, h3⟩ := ih (MIN acc a.first_time_s)
    have hm : (MIN acc a.first_time_s = acc ∧ acc ≤ a.first_time_s) ∨
        (MIN acc a.first_time_s = a.first_time_s ∧ a.first_time_s ≤ acc) := by
      unfold MIN
      split
      · exact Or.inl ⟨rfl, by omega⟩
      · exact Or.inr ⟨rfl, by omega⟩
    refine ⟨?_, ?_, ?_⟩
    · rcases h1 with h1 | ⟨m, hm1, hm2⟩
      · rcases hm with ⟨e, _⟩ | ⟨e, _⟩
        · exact Or.inl (by rw [h1, e])
        · exact Or.inr ⟨a, List.mem_cons_self _ _, by rw [h1, e]⟩
      · exact Or.inr ⟨m, List.mem_cons_of_mem _ hm1, hm2⟩
    · rcases hm with ⟨e, _⟩ | ⟨e, _⟩ <;> omega
    · intro m hmem
      rcases List.mem_cons.mp hmem with rfl | hmem
      · rcases hm with ⟨e, _⟩ | ⟨e, _⟩ <;> omega
      · exact h3 m hmem

theorem foldl_MAX_spec (l : List jv2_metrics_info) (acc : Int) :
    (l.foldl (fun acc m => MAX acc m.last_time_s) acc = acc ∨
      ∃ m ∈ l, l.foldl (fun acc m => MAX acc m.last_time_s) acc = m.last_time_s) ∧
    acc ≤ l.foldl (fun acc m => MAX acc m.last_time_s) acc ∧
    ∀ m ∈ l, m.last_time_s ≤ l.foldl (fun acc m => MAX acc m.last_time_s) acc := by
  induction l generalizing acc with
  | nil => simp
  | cons a rest ih =>
    simp only [List.foldl_cons]
    obtain ⟨h1, h2, h3⟩ := ih (MAX acc a.last_time_s)
    have hm : (MAX acc a.last_time_s = acc ∧ a.last_time_s ≤ acc) ∨
        (MAX acc a.last_time_s = a.last_time_s ∧ acc ≤ a.last_time_s) := by
      unfold MAX
      split
      · exact Or.inl ⟨rfl, by omega⟩
      · exact Or.inr ⟨rfl, by omega⟩
    refine ⟨?_, ?_, ?_⟩
    · rcases h1 with h1 | ⟨m, hm1, hm2⟩
      · rcases hm with ⟨e, _⟩ | ⟨e, _⟩
        · exact Or.inl (by rw [h1, e])
        · exact Or.inr ⟨a, List.mem_cons_self _ _, by rw [h1, e]⟩
      · exact Or.inr ⟨m, List.mem_cons_of_mem _ hm1, hm2⟩
    · rcases hm with ⟨e, _⟩ | ⟨e, _⟩ <;> omega
    · intro m hmem
      rcases List.mem_cons.mp hmem with rfl | hmem
      · rcases hm with ⟨e, _⟩ | ⟨e, _⟩ <;> omega
      · exact h3 m hmem

theorem usec_of_time (t : Int) (h0 : 0 ≤ t) (h1 : t * 1000000 < 2 ^ 64) :
    u64 (int_to_u64 t * USEC_PER_SEC) % 256 ^ 8 = t.toNat * USEC_PER_SEC := by
  unfold u64 int_to_u64 USEC_PER_SEC
  have e1 : t % 2 ^ 64 = t := Int.emod_eq_of_lt h0 (by omega)
  rw [e1]
  have e2 : ((t.toNat : Nat) : Int) = t := Int.toNat_of_nonneg h0
  have e3 : t.toNat * 1000000 < 2 ^ 64 := by
    have : ((t.toNat * 1000000 : Nat) : Int) < 2 ^ 64 := by push_cast; rw [e2]; exact h1
    exact_mod_cast this
  have e4 : (256 : Nat) ^ 8 = 2 ^ 64 := by norm_num
  rw [e4, Nat.mod_mod, Nat.mod_eq_of_lt e3]

/-- Every run of the migrator that returns has written, at offset 0, the
header it assembled: with the magic of a valid file when it publishes, with
the skip magic when it aborts. -/
theorem do_migrate_header_written {K : Consts} {mapping : List Nat} {truncate_ok : Bool}
    {journalfile_pos : Nat} {JudyL_metrics : List jv2_metrics_info}
    {JudyL_extents_pos : List jv2_extents_info} {ne nm np : Nat} {r : migrate_result}
    (h : do_migrate_to_v2_callback K mapping truncate_ok journalfile_pos JudyL_metrics
      JudyL_extents_pos ne nm np = some r) :
    ∃ magic, mem_read r.file 0 72 =
      some ({ migration_header K journalfile_pos JudyL_metrics ne nm np with
        magic := magic }).bytes := by
  unfold do_migrate_to_v2_callback at h
  simp only at h
  generalize hL : compute_layout K ne nm np = L at *
  obtain ⟨eo, eto, mo, mto, po, tro, total⟩ := L
  simp only at *
  by_cases c0 : mapping.length ≠ total
  · rw [if_pos c0] at h; simp at h
  rw [if_neg c0] at h
  obtain ⟨img0, hw0, h0⟩ := Option.bind_eq_some.mp h
  clear h
  obtain ⟨img1, hw1, h1⟩ := Option.bind_eq_some.mp h0
  clear h0
  by_cases c1 : eo + JudyL_extents_pos.length * sizeof_journal_extent_list ≠ eto
  · rw [if_pos c1] at h1; simp at h1
  rw [if_neg c1] at h1
  obtain ⟨buf, hbuf, h2⟩ := Option.bind_eq_some.mp h1
  clear h1
  obtain ⟨img2, hw2, h3⟩ := Option.bind_eq_some.mp h2
  clear h2
  by_cases c2 : eo + JudyL_extents_pos.length * sizeof_journal_extent_list +
      sizeof_journal_v2_block_trailer ≠ mo
  · rw [if_pos c2] at h3; simp at h3
  rw [if_neg c2] at h3
  by_cases c3 : JudyL_metrics.length ≠ nm
  · rw [if_pos c3] at h3; simp at h3
  rw [if_neg c3] at h3
  obtain ⟨st, hloop, h4⟩ := Option.bind_eq_some.mp h3
  clear h3
  by_cases c4 : st.data = some mto
  · rw [if_pos c4] at h4
    obtain ⟨buf', -, h5⟩ := Option.bind_eq_some.mp h4
    obtain ⟨img3, -, h6⟩ := Option.bind_eq_some.mp h5
    obtain ⟨img4, -, h7⟩ := Option.bind_eq_some.mp h6
    obtain ⟨img5, hw5, h8⟩ := Option.bind_eq_some.mp h7
    simp only [Option.some.injEq] at h8
    subst h8
    have hrd := mem_read_write_same hw5
    rw [journal_v2_header_bytes_length] at hrd
    exact ⟨K.JOURVAL_V2_MAGIC, hrd⟩
  · rw [if_neg c4] at h4
    obtain ⟨img3, hw3, h5⟩ := Option.bind_eq_some.mp h4
    clear h4
    have hrd := mem_read_write_same hw3
    rw [journal_v2_header_bytes_length] at hrd
    refine ⟨K.JOURVAL_V2_SKIP_MAGIC, ?_⟩
    have hlen72 : 72 ≤ img3.length := by
      have := (mem_read_eq_some hrd).1
      omega
    have e72 : u32 sizeof_journal_v2_header = 72 := by decide
    rw [e72] at h5
    by_cases c5 : 72 = total
    · rw [if_pos c5] at h5
      simp only [Option.some.injEq] at h5
      subst h5
      exact hrd
    rw [if_neg c5] at h5
    cases truncate_ok with
    | true =>
      simp only [if_true, Option.some.injEq] at h5
      subst h5
      show mem_read (img3.take 72) 0 72 = _
      rw [mem_read_take (k := 72) (o := 0) (n := 72) (by decide) hlen72]
      exact hrd
    | false =>
      simp only [Bool.false_eq_true, if_false, Option.some.injEq] at h5
      subst h5
      exact hrd

/-- C22: for every run of the migrator over a non-empty metric set whose
timestamps are seconds since the epoch (not negative, their microsecond value
within the 64-bit field), the header written at offset 0 of the file has
`start_time_ut` equal to the minimum `first_time_s` over the metrics times
`USEC_PER_SEC` and `end_time_ut` equal to the maximum `last_time_s` times
`USEC_PER_SEC`. -/
theorem migrated_header_times (K : Consts) (mapping : List Nat) (truncate_ok : Bool)
    (journalfile_pos : Nat) (JudyL_metrics : List jv2_metrics_info)
    (JudyL_extents_pos : List jv2_extents_info) (ne nm np : Nat) (r : migrate_result)
    (h : do_migrate_to_v2_callback K mapping truncate_ok journalfile_pos JudyL_metrics
      JudyL_extents_pos ne nm np = some r)
    (hne : JudyL_metrics ≠ [])
    (hrange : ∀ m ∈ JudyL_metrics,
      0 ≤ m.first_time_s ∧ m.first_time_s * 1000000 < 2 ^ 64 ∧
      0 ≤ m.last_time_s ∧ m.last_time_s * 1000000 < 2 ^ 64) :
    ∃ m_min ∈ JudyL_metrics, ∃ m_max ∈ JudyL_metrics,
      (∀ m ∈ JudyL_metrics, m_min.first_time_s ≤ m.first_time_s) ∧
      (∀ m ∈ JudyL_metrics, m.last_time_s ≤ m_max.last_time_s) ∧
      read_le r.file 8 8 = some (m_min.first_time_s.toNat * USEC_PER_SEC) ∧
      read_le r.file 16 8 = some (m_max.last_time_s.toNat * USEC_PER_SEC) := by
  obtain ⟨magic, hrd⟩ := do_migrate_header_written h
  have hs := header_field_start_time_ut hrd
  have he := header_field_end_time_ut hrd
  simp only [migration_header] at hs he
  obtain ⟨a1, a2, a3⟩ := foldl_MIN_spec JudyL_metrics LONG_MAX
  obtain ⟨b1, b2, b3⟩ := foldl_MAX_spec JudyL_metrics 0
  obtain ⟨m0, hm0⟩ := List.exists_mem_of_ne_nil _ hne
  have hmin : ∃ m ∈ JudyL_metrics,
      JudyL_metrics.foldl (fun acc m => MIN acc m.first_time_s) LONG_MAX = m.first_time_s := by
    rcases a1 with a1 | a1
    · refine ⟨m0, hm0, ?_⟩
      have := a3 m0 hm0
      have := (hrange m0 hm0).2.1
      rw [a1] at *
      unfold LONG_MAX at *
      omega
    · exact a1
  have hmax : ∃ m ∈ JudyL_metrics,
      JudyL_metrics.foldl (fun acc m => MAX acc m.last_time_s) 0 = m.last_time_s := by
    rcases b1 with b1 | b1
    · refine ⟨m0, hm0, ?_⟩
      have := b3 m0 hm0
      have := (hrange m0 hm0).2.2.1
      rw [b1] at *
      omega
    · exact b1
  obtain ⟨mn, hmn, emn⟩ := hmin
  obtain ⟨mx, hmx, emx⟩ := hmax
  refine ⟨mn, hmn, mx, hmx, fun m hm => by rw [← emn]; exact a3 m hm,
    fun m hm => by rw [← emx]; exact b3 m hm, ?_, ?_⟩
  · rw [hs, emn, usec_of_time _ (hrange mn hmn).1 (hrange mn hmn).2.1]
  · rw [he, emx, usec_of_time _ (hrange mx hmx).2.2.1 (hrange mx hmx).2.2.2]

theorem migrated_header_times_witness :
    example_migration 8192 = some example_result ∧ example_metrics ≠ [] ∧
    ∃ m_min ∈ example_metrics, ∃ m_max ∈ example_metrics,
      (∀ m ∈ example_metrics, m_min.first_time_s ≤ m.first_time_s) ∧
      (∀ m ∈ example_metrics, m.last_time_s ≤ m_max.last_time_s) ∧
      read_le example_result.file 8 8 = some (m_min.first_time_s.toNat * USEC_PER_SEC) ∧
      read_le example_result.file 16 8 = some (m_max.last_time_s.toNat * USEC_PER_SEC) :=
  ⟨by decide!, by decide,
    migrated_header_times example_consts example_mapping true 8192 example_metrics
      example_extents 1 3 4 example_result (by decide!) (by decide) (by decide)⟩


/-! ## The layout sum and the space guard -/

/-- C23 (the code at a failing input): for the example migration (one
extent, three metrics with 2, 1 and 1 pages, four pages in all) the size the
migrator computes is 436, where the sum with one page block per metric is
400: line 958 reserves a page header and a trailer for every page, not for
every metric. The three page blocks are at 208, 284 and 340, the last one
ends at 396, and the file trailer is at 432; the 36 bytes in between are
never written. -/
theorem total_file_size_reserves_per_page :
    (compute_layout example_consts 1 3 4).total_file_size = 436 ∧
    specified_total_file_size example_consts 1 example_metrics = 400 ∧
    (compute_layout example_consts 1 3 4).trailer_offset = 432 ∧
    page_offsets (compute_layout example_consts 1 3 4).pages_offset
      (qsort_uuid_list example_metrics) = [208, 284, 340] ∧
    340 + (sizeof_journal_page_header + 1 * sizeof_journal_page_list +
      sizeof_journal_v2_block_trailer) = 396 ∧
    (example_migration 8192).map (fun r =>
      (r.journal_data.isSome, r.file.length, read_le r.file 56 4,
        (r.file.drop 396).take 36)) =
      some (true, 436, some 436, List.replicate 36 0) := by
  decide!

theorem verify_journal_space_eq (j2_header : journal_v2_header) (data bytes : Nat)
    (h4 : 4 ≤ j2_header.total_file_size) (h32 : j2_header.total_file_size < 2 ^ 32)
    (hd : data + bytes < 2 ^ 64) :
    verify_journal_space j2_header data bytes =
      decide (data + bytes > j2_header.total_file_size - 4) := by
  unfold verify_journal_space u64 sizeof_journal_v2_block_trailer
  have e1 : (data + bytes) % 2 ^ 64 = data + bytes := Nat.mod_eq_of_lt hd
  have e2 : (j2_header.total_file_size + 2 ^ 64 - 4) % 2 ^ 64 =
      j2_header.total_file_size - 4 := by
    have : j2_header.total_file_size + 2 ^ 64 - 4 =
        (j2_header.total_file_size - 4) + 1 * 2 ^ 64 := by omega
    rw [this, Nat.add_mul_mod_self_right]
    exact Nat.mod_eq_of_lt (by omega)
  rw [e1, e2]

theorem journal_v2_write_data_page_header_total {K : Consts} (hK : K.WF) (img : List Nat)
    (data : Nat) (metric_info : jv2_metrics_info) (uuid_offset : Nat)
    (hfit : data + 32 ≤ img.length) :
    ∃ img', journal_v2_write_data_page_header K img data metric_info uuid_offset =
      some (img', data + 32) := by
  obtain ⟨-, -, -, -, -, -, k1, k2, k3, k4⟩ := hK
  unfold journal_v2_write_data_page_header
  have w1 : ∃ i1, mem_write img data (uuid_bytes metric_info.uuid ++
      le_bytes 4 metric_info.number_of_pages ++ le_bytes 4 uuid_offset) = some i1 := by
    unfold mem_write
    rw [if_pos (by simp only [List.length_append, uuid_bytes_length, length_le_bytes]; omega)]
    exact ⟨_, rfl⟩
  obtain ⟨i1, hw1⟩ := w1
  have l1 := mem_write_length hw1
  have w2 : ∃ i2, write_le i1 (data + K.PAGE_HEADER_CRC) 4 K.JOURVAL_V2_MAGIC = some i2 := by
    unfold write_le mem_write
    rw [if_pos (by rw [length_le_bytes]; omega)]
    exact ⟨_, rfl⟩
  obtain ⟨i2, hw2⟩ := w2
  have l2 : i2.length = i1.length := by unfold write_le at hw2; exact mem_write_length hw2
  have r3 : ∃ hdr, mem_read i2 data sizeof_journal_page_header = some hdr :=
    ⟨_, mem_read_of_le (by unfold sizeof_journal_page_header; omega)⟩
  obtain ⟨hdr, hr3⟩ := r3
  have w4 : ∃ i4, crc32set i2 (data + K.PAGE_HEADER_CHECKSUM) (crc32 0 hdr) = some i4 := by
    unfold crc32set write_le mem_write
    rw [if_pos (by rw [length_le_bytes]; omega)]
    exact ⟨_, rfl⟩
  obtain ⟨i4, hw4⟩ := w4
  refine ⟨i4, ?_⟩
  unfold sizeof_journal_page_header at hr3 ⊢
  simp only [hw1, hw2, hr3, hw4, Option.bind_eq_bind, Option.some_bind]

theorem journal_v2_write_data_page_trailer_total (img : List Nat) (data page_header : Nat)
    (entries : Nat) (he : read_le img (page_header + 16) 4 = some entries)
    (hbuf : page_header + 32 + entries * 20 ≤ img.length) (hfit : data + 4 ≤ img.length) :
    ∃ img', journal_v2_write_data_page_trailer img data page_header = some (img', data + 4) := by
  unfold journal_v2_write_data_page_trailer
  have r2 : ∃ buf, mem_read img (page_header + sizeof_journal_page_header)
      (entries * sizeof_journal_page_list) = some buf :=
    ⟨_, mem_read_of_le (by unfold sizeof_journal_page_header sizeof_journal_page_list; omega)⟩
  obtain ⟨buf, hr2⟩ := r2
  have w3 : ∃ i3, crc32set img data (crc32 0 buf) = some i3 := by
    unfold crc32set write_le mem_write
    rw [if_pos (by rw [length_le_bytes]; omega)]
    exact ⟨_, rfl⟩
  obtain ⟨i3, hw3⟩ := w3
  refine ⟨i3, ?_⟩
  unfold sizeof_journal_v2_block_trailer
  simp only [he, hr2, hw3, Option.bind_eq_bind, Option.some_bind]

/-- C24 does not hold as stated: with a `total_file_size` of 20 the guard
`verify_journal_space` answers 1 for a page header at offset 0 and for a
trailer at offset 52, yet `journal_v2_write_data_page_header` writes the 32
bytes of the header and returns the cursor 32, and
`journal_v2_write_data_page_trailer` writes the checksum and returns 56:
neither of them consults the guard. -/
theorem page_header_and_trailer_writers_skip_space_guard :
    verify_journal_space small_header 0 sizeof_journal_page_header = true ∧
    (journal_v2_write_data_page_header example_consts (List.replicate 64 0) 0 example_metric
      0).map (fun r => (r.1.take 32, r.2)) =
      some ([2, 2, 3, 4, 5, 6, 7, 8, 9, 10, 11, 12, 13, 14, 15, 16, 1, 0, 0, 0, 0, 0, 0, 0,
        203, 186, 79, 119, 0, 0, 0, 0], 32) ∧
    verify_journal_space small_header 52 sizeof_journal_v2_block_trailer = true ∧
    ((journal_v2_write_data_page_header example_consts (List.replicate 64 0) 0 example_metric
      0).bind (fun r => journal_v2_write_data_page_trailer r.1 52 0)).map
        (fun r => (decide ((r.1.drop 52).take 4 = [0, 0, 0, 0]), r.2)) = some (false, 56) := by
  decide!

/-- C24, as the code has it: the metric entry writer and the page entry
writer consult `verify_journal_space` and return `NULL`, leaving the mapping
as it is, whenever `cursor + bytes > total_file_size - sizeof(struct
journal_v2_block_trailer)`; the page header writer and the page trailer
writer take no notice of the guard: whenever the bytes they touch are inside
the mapping they write and return the cursor after what they wrote. -/
theorem section_writers_space_guard (K : Consts) (hK : K.WF) (j2_header : journal_v2_header)
    (img : List Nat) (data : Nat) (metric_info : jv2_metrics_info) (page_info : jv2_page_info)
    (pages_offset uuid_offset page_header entries : Nat)
    (h4 : sizeof_journal_v2_block_trailer ≤ j2_header.total_file_size)
    (h32 : j2_header.total_file_size < 2 ^ 32) (hd : data + 32 < 2 ^ 64) :
    (data + sizeof_journal_metric_list >
        j2_header.total_file_size - sizeof_journal_v2_block_trailer →
      journal_v2_write_metric_page j2_header img data metric_info pages_offset =
        some (img, none)) ∧
    (data + sizeof_journal_page_list >
        j2_header.total_file_size - sizeof_journal_v2_block_trailer →
      journal_v2_write_data_page j2_header img data page_info = some (img, none)) ∧
    (data + sizeof_journal_page_header ≤ img.length →
      ∃ img', journal_v2_write_data_page_header K img data metric_info uuid_offset =
        some (img', data + sizeof_journal_page_header)) ∧
    (read_le img (page_header + 16) 4 = some entries →
      page_header + sizeof_journal_page_header + entries * sizeof_journal_page_list ≤
        img.length →
      data + sizeof_journal_v2_block_trailer ≤ img.length →
      ∃ img', journal_v2_write_data_page_trailer img data page_header =
        some (img', data + sizeof_journal_v2_block_trailer)) := by
  unfold sizeof_journal_v2_block_trailer at h4
  simp only [sizeof_journal_metric_list, sizeof_journal_page_list,
    sizeof_journal_v2_block_trailer, sizeof_journal_page_header]
  refine ⟨fun hc => ?_, fun hc => ?_, fun hfit => ?_, fun he hbuf hfit => ?_⟩
  · unfold journal_v2_write_metric_page sizeof_journal_metric_list
    rw [verify_journal_space_eq j2_header data 32 h4 h32 hd, if_pos (decide_eq_true hc)]
  · unfold journal_v2_write_data_page sizeof_journal_page_list
    rw [verify_journal_space_eq j2_header data 20 h4 h32 (by omega),
      if_pos (decide_eq_true hc)]
  · exact journal_v2_write_data_page_header_total hK img data metric_info uuid_offset hfit
  · exact journal_v2_write_data_page_trailer_total img data page_header entries he hbuf hfit

theorem section_writers_space_guard_witness :
    example_consts.WF ∧
    sizeof_journal_v2_block_trailer ≤ small_header.total_file_size ∧
    small_header.total_file_size < 2 ^ 32 ∧
    journal_v2_write_metric_page small_header (List.replicate 64 0) 0 example_metric 0 =
      some (List.replicate 64 0, none) ∧
    journal_v2_write_data_page small_header (List.replicate 64 0) 0 (example_page 1000) =
      some (List.replicate 64 0, none) ∧
    (∃ img', journal_v2_write_data_page_header example_consts (List.replicate 64 0) 0
      example_metric 0 = some (img', 0 + sizeof_journal_page_header)) ∧
    (∃ img', journal_v2_write_data_page_trailer (List.replicate 64 0) 0 0 =
      some (img', 0 + sizeof_journal_v2_block_trailer)) :=
  ⟨by decide, by decide, by decide,
    (section_writers_space_guard example_consts (by decide) small_header (List.replicate 64 0)
      0 example_metric (example_page 1000) 0 0 0 0 (by decide) (by decide) (by decide)).1
      (by decide),
    (section_writers_space_guard example_consts (by decide) small_header (List.replicate 64 0)
      0 example_metric (example_page 1000) 0 0 0 0 (by decide) (by decide) (by decide)).2.1
      (by decide),
    (section_writers_space_guard example_consts (by decide) small_header (List.replicate 64 0)
      0 example_metric (example_page 1000) 0 0 0 0 (by decide) (by decide) (by decide)).2.2.1
      (by decide),
    (section_writers_space_guard example_consts (by decide) small_header (List.replicate 64 0)
      0 example_metric (example_page 1000) 0 0 0 0 (by decide) (by decide) (by decide)).2.2.2
      (by decide) (by decide) (by decide)⟩

theorem page_entry_bytes_length (j2_header : journal_v2_header) (page_info : jv2_page_info) :
    (page_entry_bytes j2_header page_info).length = 19 := by
  simp [page_entry_bytes, length_le_bytes]

/-- C25: `journal_v2_write_metric_page` and `journal_v2_write_data_page`, on
a mapping of at least `total_file_size` bytes, return `NULL` and leave the
mapping as it is exactly when `cursor + sizeof(entry) > total_file_size -
sizeof(struct journal_v2_block_trailer)`; otherwise they store one entry at
the cursor, change no byte outside it, and return `cursor + sizeof(entry)`. -/
theorem entry_writers_null_iff_no_space (j2_header : journal_v2_header) (img : List Nat)
    (data : Nat) (metric_info : jv2_metrics_info) (page_info : jv2_page_info)
    (pages_offset : Nat)
    (h4 : sizeof_journal_v2_block_trailer ≤ j2_header.total_file_size)
    (h32 : j2_header.total_file_size < 2 ^ 32)
    (hlen : j2_header.total_file_size ≤ img.length) (hd : data + 32 < 2 ^ 64) :
    (data + sizeof_journal_metric_list >
        j2_header.total_file_size - sizeof_journal_v2_block_trailer →
      journal_v2_write_metric_page j2_header img data metric_info pages_offset =
        some (img, none)) ∧
    (data + sizeof_journal_metric_list ≤
        j2_header.total_file_size - sizeof_journal_v2_block_trailer →
      ∃ img', journal_v2_write_metric_page j2_header img data metric_info pages_offset =
          some (img', some (data + sizeof_journal_metric_list)) ∧
        mem_read img' data sizeof_journal_metric_list =
          some (metric_entry_bytes j2_header metric_info pages_offset) ∧
        modified_within data (data + sizeof_journal_metric_list) img img') ∧
    (data + sizeof_journal_page_list >
        j2_header.total_file_size - sizeof_journal_v2_block_trailer →
      journal_v2_write_data_page j2_header img data page_info = some (img, none)) ∧
    (data + sizeof_journal_page_list ≤
        j2_header.total_file_size - sizeof_journal_v2_block_trailer →
      ∃ img', journal_v2_write_data_page j2_header img data page_info =
          some (img', some (data + sizeof_journal_page_list)) ∧
        mem_read img' data 19 = some (page_entry_bytes j2_header page_info) ∧
        modified_within data (data + sizeof_journal_page_list) img img') := by
  unfold sizeof_journal_v2_block_trailer at h4
  simp only [sizeof_journal_metric_list, sizeof_journal_page_list,
    sizeof_journal_v2_block_trailer]
  refine ⟨fun hc => ?_, fun hc => ?_, fun hc => ?_, fun hc => ?_⟩
  · unfold journal_v2_write_metric_page sizeof_journal_metric_list
    rw [verify_journal_space_eq j2_header data 32 h4 h32 hd, if_pos (decide_eq_true hc)]
  · have hw : ∃ img', mem_write img data (metric_entry_bytes j2_header metric_info
        pages_offset) = some img' := by
      unfold mem_write
      rw [if_pos (by
        simp only [metric_entry_bytes, List.length_append, uuid_bytes_length, length_le_bytes]
        omega)]
      exact ⟨_, rfl⟩
    obtain ⟨img', hw⟩ := hw
    have hm := mem_write_modified hw
    have hr := mem_read_write_same hw
    have hl : (metric_entry_bytes j2_header metric_info pages_offset).length = 32 := by
      simp [metric_entry_bytes, uuid_bytes_length, length_le_bytes]
    rw [hl] at hm hr
    refine ⟨img', ?_, hr, hm⟩
    unfold journal_v2_write_metric_page sizeof_journal_metric_list
    rw [verify_journal_space_eq j2_header data 32 h4 h32 hd,
      if_neg (by simp only [decide_eq_true_eq]; omega)]
    unfold metric_entry_bytes at hw
    simp only [hw, Option.bind_eq_bind, Option.some_bind]
  · unfold journal_v2_write_data_page sizeof_journal_page_list
    rw [verify_journal_space_eq j2_header data 20 h4 h32 (by omega),
      if_pos (decide_eq_true hc)]
  · have hl := page_entry_bytes_length j2_header page_info
    have hw : ∃ img', mem_write img data (page_entry_bytes j2_header page_info) =
        some img' := by
      unfold mem_write
      rw [if_pos (by rw [hl]; omega)]
      exact ⟨_, rfl⟩
    obtain ⟨img', hw⟩ := hw
    have hm := mem_write_modified hw
    have hr := mem_read_write_same hw
    rw [hl] at hm hr
    refine ⟨img', ?_, hr, hm.mono (le_refl _) (by omega)⟩
    unfold journal_v2_write_data_page sizeof_journal_page_list
    rw [verify_journal_space_eq j2_header data 20 h4 h32 (by omega),
      if_neg (by simp only [decide_eq_true_eq]; omega)]
    unfold page_entry_bytes at hw
    simp only [hw, Option.bind_eq_bind, Option.some_bind]

theorem entry_writers_null_iff_no_space_witness :
    sizeof_journal_v2_block_trailer ≤ example_header.total_file_size ∧
    example_header.total_file_size < 2 ^ 32 ∧
    example_header.total_file_size ≤ example_mapping.length ∧
    journal_v2_write_metric_page example_header example_mapping 420 example_metric 208 =
      some (example_mapping, none) ∧
    journal_v2_write_data_page example_header example_mapping 420 (example_page 1000) =
      some (example_mapping, none) ∧
    (∃ img', journal_v2_write_metric_page example_header example_mapping 108 example_metric
          208 = some (img', some (108 + sizeof_journal_metric_list)) ∧
        mem_read img' 108 sizeof_journal_metric_list =
          some (metric_entry_bytes example_header example_metric 208) ∧
        modified_within 108 (108 + sizeof_journal_metric_list) example_mapping img') ∧
    (∃ img', journal_v2_write_data_page example_header example_mapping 108
          (example_page 1000) = some (img', some (108 + sizeof_journal_page_list)) ∧
        mem_read img' 108 19 = some (page_entry_bytes example_header (example_page 1000)) ∧
        modified_within 108 (108 + sizeof_journal_page_list) example_mapping img') :=
  ⟨by decide, by decide, by decide!,
    (entry_writers_null_iff_no_space example_header example_mapping 420 example_metric
      (example_page 1000) 208 (by decide) (by decide) (by decide!) (by decide)).1 (by decide),
    (entry_writers_null_iff_no_space example_header example_mapping 420 example_metric
      (example_page 1000) 208 (by decide) (by decide) (by decide!) (by decide)).2.2.1
      (by decide),
    (entry_writers_null_iff_no_space example_header example_mapping 108 example_metric
      (example_page 1000) 208 (by decide) (by decide) (by decide!) (by decide)).2.1
      (by decide),
    (entry_writers_null_iff_no_space example_header example_mapping 108 example_metric
      (example_page 1000) 208 (by decide) (by decide) (by decide!) (by decide)).2.2.2
      (by decide)⟩


/-! ## The WAL flusher and its completion callback -/

theorem read_le_one_of_getElem {mem : List Nat} {i v : Nat} (h : mem[i]? = some v)
    (hv : v < 256) : read_le mem i 1 = some v := by
  obtain ⟨hi, hget⟩ := List.getElem?_eq_some_iff.mp h
  unfold read_le
  rw [mem_read_of_le (by omega)]
  have e : (mem.drop i).take 1 = [v] := by
    apply List.ext_getElem?
    intro j
    cases j with
    | zero => simp [List.getElem?_take, h]
    | succ k => simp [List.getElem?_take]
  rw [e]
  simp [le_value, Nat.mod_eq_of_lt hv]

/-- What the flusher does to the buffer and what it submits. -/
theorem wal_flush_transaction_buffer_spec (P : Protocol) (st : flush_state) (wal_ptr : Nat)
    (wal : WAL) (ret : Int) (hbuf : wal.buf.length = wal.buf_size) (hret : ret ≠ -1) :
    ∃ buf, (if wal.size < wal.buf_size then
          mem_write wal.buf wal.size [P.STORE_PADDING % 256] else some wal.buf) = some buf ∧
      wal_flush_transaction_buffer P st wal_ptr wal ret =
        some ({ st with
                journalfile_pos := u64 (st.journalfile_pos + wal.buf_size)
                disk_space := u64 (st.disk_space + wal.buf_size)
                io_write_bytes := stat_add st.io_write_bytes wal.buf_size
                io_write_requests := stat_add st.io_write_requests 1
                calls := st.calls ++
                  [flush_call.uv_fs_write wal_ptr buf (u32 wal.buf_size) st.journalfile_pos] },
              { wal with
                buf := buf
                io_descr := { bytes := u32 wal.buf_size, pos := st.journalfile_pos,
                              completion := none } }) := by
  have hb : ∃ buf, (if wal.size < wal.buf_size then
      mem_write wal.buf wal.size [P.STORE_PADDING % 256] else some wal.buf) = some buf := by
    by_cases hs : wal.size < wal.buf_size
    · rw [if_pos hs]
      unfold mem_write
      rw [if_pos (by simp only [List.length_singleton]; omega)]
      exact ⟨_, rfl⟩
    · rw [if_neg hs]
      exact ⟨_, rfl⟩
  obtain ⟨buf, hb⟩ := hb
  refine ⟨buf, hb, ?_⟩
  unfold wal_flush_transaction_buffer
  rw [hb]
  simp only [Option.bind_eq_bind, Option.some_bind, if_neg hret]

theorem iterate_chunk_done {σ : Type} (P : Protocol) (E : Externals σ) (now_s : Int)
    (mem : List Nat) (buf pos size_bytes fuel pos_i : Nat) (acc : iterate_result σ)
    (h : ¬ pos_i < size_bytes) :
    iterate_chunk P E now_s mem buf pos size_bytes fuel pos_i acc = some acc := by
  cases fuel with
  | zero => rw [iterate_chunk, if_neg h]
  | succ fuel => rw [iterate_chunk, if_neg h]

/-- C26: `wal_flush_transaction_buffer`, given a buffer of `buf_size` bytes
(below `2 ^ 32`), stores `STORE_PADDING` in the byte at index `size` when
`size < buf_size` and leaves the buffer as it is otherwise; no other byte
changes, in particular none of `[0, size)`; the write it submits carries the
buffer and the length `buf_size`. With the `type` member first in the
transaction header, in a memory that holds a buffer so written,
`replay_transaction` at that byte returns the size 0 (and the id 0, without
touching the registry) whatever `max_size` is; the cursor of the walk then
moves to the next block boundary, which lies after it; the walk over a chunk
that ends at or before that boundary returns there, having logged this one
call; and in a longer chunk it goes on from the boundary. -/
theorem wal_flush_transaction_buffer_padding {σ : Type} (P : Protocol) (E : Externals σ)
    (st : flush_state) (wal_ptr : Nat) (wal : WAL) (ret : Int)
    (hbuf : wal.buf.length = wal.buf_size) (h32 : wal.buf_size < 2 ^ 32) (hret : ret ≠ -1)
    (hpad : P.STORE_PADDING < 256) (htype : P.JF_HEADER_TYPE = 0) :
    ∃ st' wal', wal_flush_transaction_buffer P st wal_ptr wal ret = some (st', wal') ∧
      wal'.buf.length = wal.buf_size ∧
      (∀ i, i ≠ wal.size → wal'.buf[i]? = wal.buf[i]?) ∧
      (wal.size < wal.buf_size → wal'.buf[wal.size]? = some P.STORE_PADDING) ∧
      (¬ wal.size < wal.buf_size → wal'.buf = wal.buf) ∧
      st'.calls = st.calls ++
        [flush_call.uv_fs_write wal_ptr wal'.buf wal.buf_size st.journalfile_pos] ∧
      wal'.io_descr.bytes = wal.buf_size ∧
      (wal.size < wal.buf_size →
        ∀ (mem : List Nat) (now_s : Int) (b : Nat),
          mem_read mem b wal.buf_size = some wal'.buf →
          (∀ (max_size : Nat) (s : σ),
            replay_transaction P E now_s mem (b + wal.size) max_size s =
              some { ret := 0, id := 0, restored := none, state := s }) ∧
          ∀ (buf pos size_bytes fuel pos_i : Nat) (acc : iterate_result σ),
            b + wal.size = buf + pos_i →
            pos_i < size_bytes → pos_i + RRDENG_BLOCK_SIZE < 2 ^ 64 →
            pos_i < next_pos_i pos_i 0 ∧
            next_pos_i pos_i 0 =
              pos_i / RRDENG_BLOCK_SIZE * RRDENG_BLOCK_SIZE + RRDENG_BLOCK_SIZE ∧
            (size_bytes ≤ pos_i / RRDENG_BLOCK_SIZE * RRDENG_BLOCK_SIZE + RRDENG_BLOCK_SIZE →
              iterate_chunk P E now_s mem buf pos size_bytes (fuel + 1) pos_i acc =
                some
                  { max_id := acc.max_id
                    state := acc.state
                    calls := acc.calls
                    replays := acc.replays ++
                      [{ pos := pos, pos_i := pos_i, buf := buf + pos_i,
                         max_size := u32 (u64 (pos + size_bytes - pos_i)), ret := 0,
                         id := 0 }]
                    io_read_requests := acc.io_read_requests
                    io_read_bytes := acc.io_read_bytes }) ∧
            iterate_chunk P E now_s mem buf pos size_bytes (fuel + 1) pos_i acc =
              iterate_chunk P E now_s mem buf pos size_bytes fuel
                (pos_i / RRDENG_BLOCK_SIZE * RRDENG_BLOCK_SIZE + RRDENG_BLOCK_SIZE)
                { max_id := acc.max_id
                  state := acc.state
                  calls := acc.calls
                  replays := acc.replays ++
                    [{ pos := pos, pos_i := pos_i, buf := buf + pos_i,
                       max_size := u32 (u64 (pos + size_bytes - pos_i)), ret := 0, id := 0 }]
                  io_read_requests := acc.io_read_requests
                  io_read_bytes := acc.io_read_bytes }) := by
  obtain ⟨buf', hb, hrun⟩ := wal_flush_transaction_buffer_spec P st wal_ptr wal ret hbuf hret
  have e32 : u32 wal.buf_size = wal.buf_size := Nat.mod_eq_of_lt h32
  have hlen : buf'.length = wal.buf_size := by
    by_cases hs : wal.size < wal.buf_size
    · rw [if_pos hs] at hb
      rw [mem_write_length hb, hbuf]
    · rw [if_neg hs] at hb
      simp only [Option.some.injEq] at hb
      rw [← hb, hbuf]
  have hset : wal.size < wal.buf_size → buf'[wal.size]? = some P.STORE_PADDING := by
    intro hs
    rw [if_pos hs] at hb
    rw [mem_write_getElem? hb wal.size, if_pos ⟨le_refl _, by simp⟩]
    simp [Nat.mod_eq_of_lt hpad]
  refine ⟨_, _, hrun, hlen, ?_, hset, ?_, ?_, e32, ?_⟩
  · intro i hi
    show buf'[i]? = wal.buf[i]?
    by_cases hs : wal.size < wal.buf_size
    · rw [if_pos hs] at hb
      rw [mem_write_getElem? hb i, if_neg (by simp only [List.length_singleton]; omega)]
    · rw [if_neg hs] at hb
      simp only [Option.some.injEq] at hb
      rw [← hb]
  · intro hs
    show buf' = wal.buf
    rw [if_neg hs] at hb
    simp only [Option.some.injEq] at hb
    exact hb.symm
  · show st.calls ++ [flush_call.uv_fs_write wal_ptr buf' (u32 wal.buf_size)
      st.journalfile_pos] = _
    rw [e32]
  · intro hs mem now_s b hmem
    have hbyte : mem[b + wal.size]? = some P.STORE_PADDING := by
      rw [← mem_read_getElem? hmem wal.size hs]
      exact hset hs
    have hread0 : read_le mem (b + wal.size + P.JF_HEADER_TYPE) 1 = some P.STORE_PADDING := by
      rw [htype, Nat.add_zero]
      exact read_le_one_of_getElem hbyte hpad
    refine ⟨fun max_size s => replay_transaction_padding P E now_s (b + wal.size) max_size s
      hread0, ?_⟩
    intro buf pos size_bytes fuel pos_i acc hcur hlt hpos
    have hread : read_le mem (buf + pos_i + P.JF_HEADER_TYPE) 1 = some P.STORE_PADDING := by
      rw [← hcur]
      exact hread0
    have hr := replay_transaction_padding P E now_s (buf + pos_i)
      (u32 (u64 (pos + size_bytes - pos_i))) acc.state hread
    have e0 : (if acc.max_id > 0 then acc.max_id else 0) = acc.max_id := by
      split <;> omega
    have hstep : iterate_chunk P E now_s mem buf pos size_bytes (fuel + 1) pos_i acc =
        iterate_chunk P E now_s mem buf pos size_bytes fuel
          (pos_i / RRDENG_BLOCK_SIZE * RRDENG_BLOCK_SIZE + RRDENG_BLOCK_SIZE)
          { max_id := acc.max_id
            state := acc.state
            calls := acc.calls
            replays := acc.replays ++
              [{ pos := pos, pos_i := pos_i, buf := buf + pos_i,
                 max_size := u32 (u64 (pos + size_bytes - pos_i)), ret := 0, id := 0 }]
            io_read_requests := acc.io_read_requests
            io_read_bytes := acc.io_read_bytes } := by
      rw [iterate_chunk, if_pos hlt, hr, Option.some_bind]
      simp only [Option.getD_none, List.append_nil]
      rw [(next_pos_i_zero pos_i hpos).1, e0]
    refine ⟨(next_pos_i_zero pos_i hpos).2, (next_pos_i_zero pos_i hpos).1, ?_, hstep⟩
    intro hend
    rw [hstep]
    exact iterate_chunk_done P E now_s mem buf pos size_bytes fuel _ _ (by omega)

theorem wal_flush_transaction_buffer_padding_witness :
    example_wal.buf.length = example_wal.buf_size ∧ example_wal.buf_size < 2 ^ 32 ∧
    example_wal.size < example_wal.buf_size ∧
    upstream_protocol.STORE_PADDING < 256 ∧ upstream_protocol.JF_HEADER_TYPE = 0 ∧
    ∃ st' wal', wal_flush_transaction_buffer upstream_protocol example_flush_state 1
        example_wal 0 = some (st', wal') ∧
      wal'.buf.length = example_wal.buf_size ∧
      (∀ i, i ≠ example_wal.size → wal'.buf[i]? = example_wal.buf[i]?) ∧
      wal'.buf[example_wal.size]? = some upstream_protocol.STORE_PADDING ∧
      st'.calls = example_flush_state.calls ++
        [flush_call.uv_fs_write 1 wal'.buf example_wal.buf_size
          example_flush_state.journalfile_pos] ∧
      wal'.io_descr.bytes = example_wal.buf_size ∧
      (∀ (max_size : Nat) (s : List (List Nat)),
        replay_transaction upstream_protocol example_externals 2000 wal'.buf
            (0 + example_wal.size) max_size s =
          some { ret := 0, id := 0, restored := none, state := s }) ∧
      ∀ (fuel : Nat) (acc : iterate_result (List (List Nat))),
        iterate_chunk upstream_protocol example_externals 2000 wal'.buf 0 4096 4096 (fuel + 1)
            100 acc =
          some
            { max_id := acc.max_id
              state := acc.state
              calls := acc.calls
              replays := acc.replays ++
                [{ pos := 4096, pos_i := 100, buf := 0 + 100,
                   max_size := u32 (u64 (4096 + 4096 - 100)), ret := 0, id := 0 }]
              io_read_requests := acc.io_read_requests
              io_read_bytes := acc.io_read_bytes } := by
  refine ⟨by decide!, by decide, by decide, by decide, by decide, ?_⟩
  obtain ⟨st', wal', h1, h2, h3, h4, -, h6, h7, h8⟩ :=
    wal_flush_transaction_buffer_padding upstream_protocol example_externals
      example_flush_state 1 example_wal 0 (by decide!) (by decide) (by decide) (by decide)
      (by decide)
  have hm : mem_read wal'.buf 0 example_wal.buf_size = some wal'.buf := by
    rw [mem_read_of_le (by rw [h2]; exact Nat.le_refl _), List.drop_zero, ← h2,
      List.take_length]
  obtain ⟨r1, r2⟩ := h8 (by decide) wal'.buf 2000 0 hm
  refine ⟨st', wal', h1, h2, h3, h4 (by decide), h6, h7, r1, ?_⟩
  intro fuel acc
  exact (r2 0 4096 4096 fuel 100 acc (by decide) (by decide) (by decide)).2.2.1 (by decide)

/-- The ranges of a contiguous sequence lie between its start and its end,
and each one ends where or before every later one starts. -/
theorem contiguous_from_spec (ranges : List (Nat × Nat)) (p q : Nat)
    (h : contiguous_from p ranges q) :
    p ≤ q ∧ (∀ r ∈ ranges, p ≤ r.1 ∧ r.1 + r.2 ≤ q) ∧
    ranges.Pairwise (fun a b => a.1 + a.2 ≤ b.1) := by
  induction ranges generalizing p with
  | nil =>
    simp only [contiguous_from] at h
    subst h
    exact ⟨le_refl _, fun r hr => by simp at hr, List.Pairwise.nil⟩
  | cons r rest ih =>
    obtain ⟨h1, h2⟩ := h
    obtain ⟨a1, a2, a3⟩ := ih _ h2
    refine ⟨by omega, ?_, ?_⟩
    · intro x hx
      rcases List.mem_cons.mp hx with rfl | hx
      · omega
      · have := a2 x hx
        omega
    · refine List.Pairwise.cons ?_ a3
      intro x hx
      have := a2 x hx
      omega

theorem write_ranges_append (a b : List flush_call) :
    write_ranges (a ++ b) = write_ranges a ++ write_ranges b := by
  induction a with
  | nil => rfl
  | cons c rest ih =>
    cases c <;> simp [write_ranges, ih]

theorem contiguous_from_append (r1 r2 : List (Nat × Nat)) (p m q : Nat)
    (h1 : contiguous_from p r1 m) (h2 : contiguous_from m r2 q) :
    contiguous_from p (r1 ++ r2) q := by
  induction r1 generalizing p with
  | nil =>
    simp only [contiguous_from] at h1
    subst h1
    exact h2
  | cons r rest ih =>
    obtain ⟨a, b⟩ := h1
    exact ⟨a, ih _ b⟩

/-- The effect of a sequence of flushes and completions on the position and
on the writes issued, as long as the position stays below `2 ^ 64`. -/
theorem flush_run_spec (P : Protocol) (events : List flush_event) (st st' : flush_state)
    (h : flush_run P events st = some st')
    (hsmall : small_buffers events)
    (hpos : st.journalfile_pos + flushed_bytes events < 2 ^ 64) :
    st'.journalfile_pos = st.journalfile_pos + flushed_bytes events ∧
    ∃ ranges, write_ranges st'.calls = write_ranges st.calls ++ ranges ∧
      contiguous_from st.journalfile_pos ranges st'.journalfile_pos := by
  induction events generalizing st with
  | nil =>
    simp only [flush_run, Option.some.injEq] at h
    subst h
    exact ⟨by simp [flushed_bytes], [], by simp, rfl⟩
  | cons e rest ih =>
    cases e with
    | flush wal_ptr wal ret =>
      simp only [flush_run] at h
      obtain ⟨⟨st1, wal1⟩, h1, h2⟩ := Option.bind_eq_some.mp h
      simp only [flushed_bytes] at hpos ⊢
      obtain ⟨hs1, hs2⟩ := hsmall
      unfold wal_flush_transaction_buffer at h1
      obtain ⟨buf, -, h1⟩ := Option.bind_eq_some.mp h1
      by_cases hret : ret = -1
      · rw [if_pos hret] at h1; simp at h1
      rw [if_neg hret] at h1
      simp only [Option.some.injEq, Prod.mk.injEq] at h1
      obtain ⟨rfl, -⟩ := h1
      have e64 : u64 (st.journalfile_pos + wal.buf_size) = st.journalfile_pos + wal.buf_size :=
        Nat.mod_eq_of_lt (by omega)
      have e32 : u32 wal.buf_size = wal.buf_size := Nat.mod_eq_of_lt hs1
      obtain ⟨a1, ranges, a2, a3⟩ := ih _ h2 hs2 (by simp only; rw [e64]; omega)
      simp only at a1 a2 a3
      rw [e64] at a1 a3
      rw [write_ranges_append, e32] at a2
      refine ⟨by omega, (st.journalfile_pos, wal.buf_size) :: ranges, ?_, rfl, a3⟩
      rw [a2]
      simp [write_ranges]
    | completion wal_ptr result =>
      simp only [flush_run] at h
      simp only [flushed_bytes] at hpos ⊢
      have hp : (flush_transaction_buffer_cb st wal_ptr result).journalfile_pos =
          st.journalfile_pos := by
        unfold flush_transaction_buffer_cb
        split <;> rfl
      have hc : write_ranges (flush_transaction_buffer_cb st wal_ptr result).calls =
          write_ranges st.calls := by
        unfold flush_transaction_buffer_cb
        split <;> simp [write_ranges_append, write_ranges]
      obtain ⟨a1, ranges, a2, a3⟩ := ih _ h hsmall (by rw [hp]; exact hpos)
      rw [hp] at a1 a3
      rw [hc] at a2
      exact ⟨a1, ranges, a2, a3⟩

/-- C27: each call of `wal_flush_transaction_buffer` that returns has issued
one write at the position `p` the journal had and has set the position to
`p + buf_size` (a `uint64_t`); `flush_transaction_buffer_cb` leaves the
position as it is. Hence, over any sequence of flushes and completions (of
buffers below `2 ^ 32` bytes, the position staying below `2 ^ 64`), the
position does not decrease and the writes issued target ranges that follow
one another without gap or overlap, each starting where the one before
ends, from the first position to the last. -/
theorem flush_positions_contiguous (P : Protocol) (events : List flush_event)
    (st st' : flush_state)
    (h : flush_run P events st = some st') (hsmall : small_buffers events)
    (hpos : st.journalfile_pos + flushed_bytes events < 2 ^ 64) :
    (∀ (s s' : flush_state) (wal_ptr : Nat) (wal wal' : WAL) (ret : Int),
      wal_flush_transaction_buffer P s wal_ptr wal ret = some (s', wal') →
      s'.calls = s.calls ++
        [flush_call.uv_fs_write wal_ptr wal'.buf (u32 wal.buf_size) s.journalfile_pos] ∧
      s'.journalfile_pos = u64 (s.journalfile_pos + wal.buf_size)) ∧
    (∀ (s : flush_state) (wal_ptr : Nat) (result : Int),
      (flush_transaction_buffer_cb s wal_ptr result).journalfile_pos = s.journalfile_pos) ∧
    st.journalfile_pos ≤ st'.journalfile_pos ∧
    st'.journalfile_pos = st.journalfile_pos + flushed_bytes events ∧
    ∃ ranges, write_ranges st'.calls = write_ranges st.calls ++ ranges ∧
      contiguous_from st.journalfile_pos ranges st'.journalfile_pos ∧
      (∀ r ∈ ranges, st.journalfile_pos ≤ r.1 ∧ r.1 + r.2 ≤ st'.journalfile_pos) ∧
      ranges.Pairwise (fun a b => a.1 + a.2 ≤ b.1) := by
  refine ⟨?_, ?_, ?_⟩
  · intro s s' wal_ptr wal wal' ret h1
    unfold wal_flush_transaction_buffer at h1
    obtain ⟨buf, -, h1⟩ := Option.bind_eq_some.mp h1
    by_cases hret : ret = -1
    · rw [if_pos hret] at h1; simp at h1
    rw [if_neg hret] at h1
    simp only [Option.some.injEq, Prod.mk.injEq] at h1
    obtain ⟨rfl, rfl⟩ := h1
    exact ⟨rfl, rfl⟩
  · intro s wal_ptr result
    unfold flush_transaction_buffer_cb
    split <;> rfl
  · obtain ⟨a1, ranges, a2, a3⟩ := flush_run_spec P events st st' h hsmall hpos
    obtain ⟨b1, b2, b3⟩ := contiguous_from_spec ranges _ _ a3
    exact ⟨b1, a1, ranges, a2, a3, b2, b3⟩

theorem flush_positions_contiguous_witness :
    flush_run upstream_protocol example_flush_events example_flush_state =
      some example_flush_result ∧
    small_buffers example_flush_events ∧
    example_flush_state.journalfile_pos + flushed_bytes example_flush_events < 2 ^ 64 ∧
    example_flush_state.journalfile_pos ≤ example_flush_result.journalfile_pos ∧
    example_flush_result.journalfile_pos =
      example_flush_state.journalfile_pos + flushed_bytes example_flush_events ∧
    ∃ ranges, write_ranges example_flush_result.calls =
        write_ranges example_flush_state.calls ++ ranges ∧
      contiguous_from example_flush_state.journalfile_pos ranges
        example_flush_result.journalfile_pos ∧
      (∀ r ∈ ranges, example_flush_state.journalfile_pos ≤ r.1 ∧
        r.1 + r.2 ≤ example_flush_result.journalfile_pos) ∧
      ranges.Pairwise (fun a b => a.1 + a.2 ≤ b.1) :=
  ⟨by decide!, by decide, by decide,
    (flush_positions_contiguous upstream_protocol example_flush_events example_flush_state
      example_flush_result (by decide!) (by decide) (by decide)).2.2⟩

/-- C28: for every `req->result`, with an extent in flight and the error
counters below their maximum, `flush_transaction_buffer_cb` cleans the
request up and releases the WAL of the request, once, and makes no other
call (it issues no write); `extents_currently_being_flushed` goes down by
exactly 1; `io_errors` and `global_io_errors` go up by 1 when the result is
negative and keep their value otherwise; the position of the journal and the
write counters keep their value. -/
theorem flush_transaction_buffer_cb_effect (st : flush_state) (wal : Nat) (result : Int)
    (hflight : 1 ≤ st.extents_currently_being_flushed)
    (h32 : st.extents_currently_being_flushed < 2 ^ 32)
    (herr : st.io_errors + 1 < 2 ^ 64) (hglobal : st.global_io_errors + 1 < 2 ^ 64) :
    (flush_transaction_buffer_cb st wal result).calls =
      st.calls ++ [flush_call.uv_fs_req_cleanup wal, flush_call.wal_release wal] ∧
    (flush_transaction_buffer_cb st wal result).extents_currently_being_flushed + 1 =
      st.extents_currently_being_flushed ∧
    (result < 0 →
      (flush_transaction_buffer_cb st wal result).io_errors = st.io_errors + 1 ∧
      (flush_transaction_buffer_cb st wal result).global_io_errors =
        st.global_io_errors + 1) ∧
    (0 ≤ result →
      (flush_transaction_buffer_cb st wal result).io_errors = st.io_errors ∧
      (flush_transaction_buffer_cb st wal result).global_io_errors = st.global_io_errors) ∧
    (flush_transaction_buffer_cb st wal result).journalfile_pos = st.journalfile_pos ∧
    (flush_transaction_buffer_cb st wal result).disk_space = st.disk_space ∧
    (flush_transaction_buffer_cb st wal result).io_write_bytes = st.io_write_bytes ∧
    (flush_transaction_buffer_cb st wal result).io_write_requests = st.io_write_requests := by
  have e1 : u32 (st.extents_currently_being_flushed + 2 ^ 32 - 1) + 1 =
      st.extents_currently_being_flushed := by
    unfold u32
    have : st.extents_currently_being_flushed + 2 ^ 32 - 1 =
        (st.extents_currently_being_flushed - 1) + 1 * 2 ^ 32 := by omega
    rw [this, Nat.add_mul_mod_self_right, Nat.mod_eq_of_lt (by omega)]
    omega
  have e2 : stat_add st.io_errors 1 = st.io_errors + 1 := Nat.mod_eq_of_lt herr
  have e3 : stat_add st.global_io_errors 1 = st.global_io_errors + 1 :=
    Nat.mod_eq_of_lt hglobal
  unfold flush_transaction_buffer_cb
  by_cases hr : result < 0
  · rw [if_pos hr]
    exact ⟨rfl, e1, fun _ => ⟨e2, e3⟩, fun h0 => absurd hr (by omega), rfl, rfl, rfl, rfl⟩
  · rw [if_neg hr]
    exact ⟨rfl, e1, fun h0 => absurd h0 hr, fun _ => ⟨rfl, rfl⟩, rfl, rfl, rfl, rfl⟩

theorem flush_transaction_buffer_cb_effect_witness :
    1 ≤ example_flush_state.extents_currently_being_flushed ∧
    flush_transaction_buffer_cb example_flush_state 1 (-5) =
      { example_flush_state with
        io_errors := 1, global_io_errors := 1, extents_currently_being_flushed := 0,
        calls := [flush_call.uv_fs_req_cleanup 1, flush_call.wal_release 1] } ∧
    (flush_transaction_buffer_cb example_flush_state 1 (-5)).extents_currently_being_flushed
      + 1 = example_flush_state.extents_currently_being_flushed ∧
    (flush_transaction_buffer_cb example_flush_state 1 (-5)).io_errors =
      example_flush_state.io_errors + 1 :=
  ⟨by decide, by decide,
    (flush_transaction_buffer_cb_effect example_flush_state 1 (-5) (by decide) (by decide)
      (by decide) (by decide)).2.1,
    ((flush_transaction_buffer_cb_effect example_flush_state 1 (-5) (by decide) (by decide)
      (by decide) (by decide)).2.2.1 (by decide)).1⟩

/-! ## Deleting a journal file -/

theorem count_fs_error_deletions (st : fs_state) (ret : Int) :
    (count_fs_error st ret).journalfile_deletions = st.journalfile_deletions := by
  unfold count_fs_error
  split <;> rfl

/-- C29: `destroy_journal_file_unsafe` adds exactly 2 to
`journalfile_deletions` and returns what the `uv_fs_unlink` of the v1 journal
returned, whether the journal is open, whether a v2 file is mapped, and
whatever `uv_fs_ftruncate`, `uv_fs_close` and the two `uv_fs_unlink` return;
`unlink_journal_file` adds exactly 1 and returns what its `uv_fs_unlink`
returned. The counter is taken below its maximum. -/
theorem destroy_journal_file_unsafe_deletions (st : fs_state) (journalfile_file : Int)
    (journal_data : Option Nat)
    (ftruncate_ret close_ret unlink_v2_ret unlink_ret : Int)
    (hmax : st.journalfile_deletions + 2 < 2 ^ 64) :
    ( destroy_journal_file_unsafe st journalfile_file journal_data ftruncate_ret close_ret
      unlink_v2_ret unlink_ret).1.journalfile_deletions = st.journalfile_deletions + 2 ∧
    ( destroy_journal_file_unsafe st journalfile_file journal_data ftruncate_ret close_ret
      unlink_v2_ret unlink_ret).2 = unlink_ret ∧
    (unlink_journal_file st unlink_ret).1.journalfile_deletions =
      st.journalfile_deletions + 1 ∧
    (unlink_journal_file st unlink_ret).2 = unlink_ret := by
  have e1 : stat_add st.journalfile_deletions 1 = st.journalfile_deletions + 1 :=
    Nat.mod_eq_of_lt (by omega)
  have e2 : stat_add (st.journalfile_deletions + 1) 1 = st.journalfile_deletions + 2 :=
    Nat.mod_eq_of_lt (by omega)
  refine ⟨?_, rfl, ?_, rfl⟩
  · unfold destroy_journal_file_unsafe
    cases journal_data with
    | none =>
      by_cases hf : journalfile_file = 0
      · simp only [hf, ne_eq, not_true_eq_false, if_false, count_fs_error_deletions, e1, e2]
      · simp only [hf, ne_eq, not_false_eq_true, if_true, count_fs_error_deletions,
          close_uv_file, e1, e2]
    | some n =>
      by_cases hf : journalfile_file = 0
      · simp only [hf, ne_eq, not_true_eq_false, if_false, count_fs_error_deletions, e1, e2]
      · simp only [hf, ne_eq, not_false_eq_true, if_true, count_fs_error_deletions,
          close_uv_file, e1, e2]
  · unfold unlink_journal_file
    simp only [count_fs_error_deletions]
    exact e1

theorem destroy_journal_file_unsafe_deletions_witness :
    example_fs_state.journalfile_deletions + 2 < 2 ^ 64 ∧
    destroy_journal_file_unsafe example_fs_state 7 (some 436) (-5) 0 (-2) (-2) =
      ({ fs_errors := 3, global_fs_errors := 3, journalfile_deletions := 5,
         calls := [fs_call.uv_fs_ftruncate 7 0, fs_call.uv_fs_req_cleanup,
           fs_call.uv_fs_close 7, fs_call.uv_fs_req_cleanup, fs_call.uv_fs_unlink true,
           fs_call.uv_fs_req_cleanup, fs_call.uv_fs_unlink false, fs_call.uv_fs_req_cleanup,
           fs_call.munmap 436] }, -2) ∧
    ( destroy_journal_file_unsafe example_fs_state 7 (some 436) (-5) 0 (-2)
      (-2)).1.journalfile_deletions = example_fs_state.journalfile_deletions + 2 ∧
    (unlink_journal_file example_fs_state (-2)).1.journalfile_deletions =
      example_fs_state.journalfile_deletions + 1 :=
  ⟨by decide, by decide,
    (destroy_journal_file_unsafe_deletions example_fs_state 7 (some 436) (-5) 0 (-2) (-2)
      (by decide)).1,
    (destroy_journal_file_unsafe_deletions example_fs_state 7 (some 436) (-5) 0 (-2) (-2)
      (by decide)).2.2.1⟩


/-! ## The deep check of a migrated file -/

theorem read_le_congr {d1 d2 : List Nat} {off len : Nat} (hlen : d1.length = d2.length)
    (h : ∀ i, off ≤ i → i < off + len → d1[i]? = d2[i]?) :
    read_le d1 off len = read_le d2 off len := by
  unfold read_le
  rw [mem_read_congr hlen h]

/-- A page block that verifies keeps verifying when no byte of it changes. -/
theorem page_block_verifies_frame {K : Consts} (hK : K.WF) {img img' : List Nat}
    {po entries : Nat} (h : page_block_verifies K img po entries)
    (hlen : img'.length = img.length)
    (hsame : ∀ i, po ≤ i → i < po + 36 + 20 * entries → img'[i]? = img[i]?) :
    page_block_verifies K img' po entries := by
  obtain ⟨-, -, -, -, -, -, -, -, k3, k4⟩ := hK
  obtain ⟨h1, hdr, local_hdr, buf, h2, h3, h4, h5, h6⟩ := h
  refine ⟨?_, hdr, local_hdr, buf, ?_, h3, ?_, ?_, ?_⟩
  · rw [read_le_congr hlen (fun i a b => hsame i (by omega) (by omega))]; exact h1
  · rw [mem_read_congr hlen (fun i a b => hsame i (by omega) (by omega))]; exact h2
  · rw [read_le_congr hlen (fun i a b => hsame i (by omega) (by omega))]; exact h4
  · rw [mem_read_congr hlen (fun i a b => hsame i (by omega) (by omega))]; exact h5
  · rw [read_le_congr hlen (fun i a b => hsame i (by omega) (by omega))]; exact h6

/-- The loop "Verify complete UUID chain" counts every entry when each
metric list entry points to a page block that verifies. -/
theorem check_journal_v2_chain_ok (K : Consts) (data : List Nat) (file_size : Nat)
    (n metric verified : Nat) (hfs : file_size < 2 ^ 32)
    (h : ∀ j, j < n → ∃ uuid po e, mem_read data (metric + 32 * j) 16 = some uuid ∧
      read_le data (metric + 32 * j + 20) 4 = some po ∧ page_block_verifies K data po e)
    (hend : metric + 32 * n ≤ file_size) :
    check_journal_v2_chain K data file_size n metric verified =
      some (Sum.inr (verified + n)) := by
  induction n generalizing metric verified with
  | zero => simp [check_journal_v2_chain]
  | succ n ih =>
    obtain ⟨uuid, po, e, g1, g2, g3, hdr, local_hdr, buf, g4, g5, g6, g7, g8⟩ :=
      h 0 (by omega)
    simp only [Nat.mul_zero, Nat.add_zero] at g1 g2
    have he : le_value ((hdr.drop 16).take 4) = e := by
      have := mem_read_sub g4 16 4 (by omega)
      unfold read_le at g3
      rw [this] at g3
      simpa using g3
    have hcmp : ¬ u32 (metric + sizeof_journal_metric_list) > u32 file_size := by
      unfold u32 sizeof_journal_metric_list
      rw [Nat.mod_eq_of_lt hfs, Nat.mod_eq_of_lt (by omega)]
      omega
    have hrest := ih (metric + 32) (verified + 1)
      (fun j hj => by
        obtain ⟨u, p, e', a, b, c⟩ := h (j + 1) (by omega)
        refine ⟨u, p, e', ?_, ?_, c⟩
        · rw [← a]; congr 1; ring
        · rw [← b]; congr 1; ring)
      (by omega)
    unfold check_journal_v2_chain
    unfold sizeof_journal_page_header sizeof_journal_page_list
    simp only [g1, g2, g4, g5, crc32cmp, g6, he, g7, g8, Option.bind_eq_bind, Option.some_bind,
      Option.map_some', ne_eq, not_true_eq_false, decide_False, Bool.false_eq_true, if_false,
      if_neg hcmp]
    unfold sizeof_journal_metric_list
    rw [hrest]
    congr 2
    omega

/-- With `crc` and `checksum` in the same four bytes of the page header, the
checksum that `journal_v2_write_data_page_header` stores is the CRC-32 of
the stored header with its `crc` set to the magic. -/
theorem journal_v2_write_data_page_header_checksum {K : Consts} (hK : K.WF)
    (hunion : K.PAGE_HEADER_CRC = K.PAGE_HEADER_CHECKSUM) {img img' : List Nat}
    {data uuid_offset next : Nat} {metric_info : jv2_metrics_info}
    (h : journal_v2_write_data_page_header K img data metric_info uuid_offset =
      some (img', next)) :
    ∃ hdr local_hdr, mem_read img' data 32 = some hdr ∧
      mem_write hdr K.PAGE_HEADER_CRC (le_bytes 4 K.JOURVAL_V2_MAGIC) = some local_hdr ∧
      read_le img' (data + K.PAGE_HEADER_CHECKSUM) 4 = some (crc32 0 local_hdr) := by
  obtain ⟨-, -, -, -, -, -, k1, k2, -, -⟩ := hK
  unfold journal_v2_write_data_page_header at h
  obtain ⟨img1, hw1, h⟩ := Option.bind_eq_some.mp h
  obtain ⟨img2, hw2, h⟩ := Option.bind_eq_some.mp h
  obtain ⟨hdr2, hrd, h⟩ := Option.bind_eq_some.mp h
  obtain ⟨img3, hw3, h⟩ := Option.bind_eq_some.mp h
  simp only [Option.some.injEq, Prod.mk.injEq] at h
  obtain ⟨rfl, rfl⟩ := h
  rw [← hunion] at hw3 ⊢
  generalize K.PAGE_HEADER_CRC = c at *
  obtain ⟨m3, hck⟩ := crc32set_spec hw3
  unfold crc32set write_le at hw3
  unfold write_le at hw2
  unfold sizeof_journal_page_header at hrd
  have hb2 := (mem_read_eq_some hrd).1
  have l2 : hdr2.length = 32 := mem_read_length hrd
  have hrd3 : ∃ hdr3, mem_read img3 data 32 = some hdr3 :=
    ⟨_, mem_read_of_le (by rw [m3.1]; exact hb2)⟩
  obtain ⟨hdr3, hrd3⟩ := hrd3
  have l3 : hdr3.length = 32 := mem_read_length hrd3
  have hloc : ∃ local_hdr, mem_write hdr3 c (le_bytes 4 K.JOURVAL_V2_MAGIC) =
      some local_hdr := by
    unfold mem_write
    rw [if_pos (by rw [length_le_bytes, l3]; omega)]
    exact ⟨_, rfl⟩
  obtain ⟨local_hdr, hloc⟩ := hloc
  have ll : local_hdr.length = 32 := by rw [mem_write_length hloc, l3]
  have heq : local_hdr = hdr2 := by
    apply List.ext_getElem?
    intro i
    by_cases hi : i < 32
    · rw [mem_write_getElem? hloc i, length_le_bytes, mem_read_getElem? hrd i hi]
      by_cases hin : c ≤ i ∧ i < c + 4
      · rw [if_pos hin, mem_write_getElem? hw2 (data + i), length_le_bytes,
          if_pos ⟨by omega, by omega⟩]
        congr 1
        omega
      · rw [if_neg hin, mem_read_getElem? hrd3 i hi, mem_write_getElem? hw3 (data + i),
          length_le_bytes, if_neg (by omega)]
    · rw [List.getElem?_eq_none (by omega), List.getElem?_eq_none (by omega)]
  refine ⟨hdr3, local_hdr, hrd3, hloc, ?_⟩
  rw [heq]
  exact hck

/-- The trailer that `journal_v2_write_data_page_trailer` stores right after
the page list entries is the CRC-32 of the entries. -/
theorem journal_v2_write_data_page_trailer_checksum {img img' : List Nat}
    {data page_header next entries : Nat}
    (h : journal_v2_write_data_page_trailer img data page_header = some (img', next))
    (he : read_le img (page_header + 16) 4 = some entries)
    (hd : data = page_header + 32 + entries * 20) :
    ∃ buf, mem_read img' (page_header + 32) (entries * 20) = some buf ∧
      read_le img' (page_header + 32 + entries * 20) 4 = some (crc32 0 buf) := by
  unfold journal_v2_write_data_page_trailer at h
  rw [he] at h
  simp only [Option.bind_eq_bind, Option.some_bind] at h
  obtain ⟨buf, hb, h⟩ := Option.bind_eq_some.mp h
  obtain ⟨img1, hw, h⟩ := Option.bind_eq_some.mp h
  simp only [Option.some.injEq, Prod.mk.injEq] at h
  obtain ⟨rfl, rfl⟩ := h
  obtain ⟨m, hck⟩ := crc32set_spec hw
  unfold sizeof_journal_page_header sizeof_journal_page_list at hb
  refine ⟨buf, ?_, ?_⟩
  · rw [m.mem_read _ _ (Or.inl (by omega))]
    exact hb
  · rw [← hd]
    exact hck

/-- With room for every entry below the file trailer, the descriptor loop
writes all the entries and returns the cursor after the last one. -/
theorem journal_v2_write_descriptors_fits {j2_header : journal_v2_header}
    (pages : List jv2_page_info) {img img' : List Nat} {data_page : Nat} {next : Option Nat}
    (h4 : 4 ≤ j2_header.total_file_size) (h32 : j2_header.total_file_size < 2 ^ 32)
    (hroom : data_page + 20 * pages.length ≤ j2_header.total_file_size - 4)
    (h : journal_v2_write_descriptors j2_header pages img data_page = some (img', next)) :
    next = some (data_page + 20 * pages.length) := by
  induction pages generalizing img data_page with
  | nil =>
    simp only [journal_v2_write_descriptors, Option.some.injEq, Prod.mk.injEq] at h
    rw [← h.2]
    rfl
  | cons p rest ih =>
    simp only [List.length_cons] at hroom ⊢
    unfold journal_v2_write_descriptors at h
    obtain ⟨⟨img1, n1⟩, hw, h⟩ := Option.bind_eq_some.mp h
    unfold journal_v2_write_data_page sizeof_journal_page_list at hw
    rw [verify_journal_space_eq j2_header data_page 20 h4 h32 (by omega),
      if_neg (by simp only [decide_eq_true_eq]; omega)] at hw
    obtain ⟨img2, -, hw⟩ := Option.bind_eq_some.mp hw
    simp only [Option.some.injEq, Prod.mk.injEq] at hw
    obtain ⟨rfl, rfl⟩ := hw
    simp only at h
    rw [ih (by omega) h]
    congr 1
    omega

set_option maxHeartbeats 1000000 in
/-- One iteration of the loop over the sorted metrics, for a metric whose
page list has as many pages as its page count says and with room for its
page block below the file trailer: unless the metric entry writer returns
`NULL`, the iteration continues and leaves a page block that verifies. -/
theorem migrate_metric_block {K : Consts} (hK : K.WF)
    (hunion : K.PAGE_HEADER_CRC = K.PAGE_HEADER_CHECKSUM) {j2_header : journal_v2_header}
    {st st1 : migrate_state} {data : Nat} {metric_info : jv2_metrics_info} {continues : Bool}
    (h : migrate_metric K j2_header st data metric_info = some (st1, continues))
    (h4 : 4 ≤ j2_header.total_file_size) (h32 : j2_header.total_file_size < 2 ^ 32)
    (hnp : metric_info.number_of_pages < 2 ^ 32)
    (hjl : metric_info.JudyL_pages_by_start_time.length = metric_info.number_of_pages)
    (hroom : st.pages_offset + 36 + 20 * metric_info.number_of_pages ≤
      j2_header.total_file_size - 4) :
    (st1.data = none ∧ continues = false) ∨
    (continues = true ∧ st1.data = some (data + 32) ∧
      st1.pages_offset = st.pages_offset + 36 + 20 * metric_info.number_of_pages ∧
      page_block_verifies K st1.img st.pages_offset metric_info.number_of_pages) := by
  have hK' := hK
  obtain ⟨-, -, -, -, -, -, -, -, k3, k4⟩ := hK'
  unfold migrate_metric at h
  obtain ⟨⟨img1, n1⟩, hw1, h⟩ := Option.bind_eq_some.mp h
  obtain ⟨m1, hn1⟩ := journal_v2_write_metric_page_spec hw1
  cases n1 with
  | none =>
    simp only [Option.some.injEq, Prod.mk.injEq] at h
    obtain ⟨rfl, rfl⟩ := h
    exact Or.inl ⟨rfl, rfl⟩
  | some d1 =>
    rcases hn1 with hn1 | ⟨hd1, -⟩
    · simp at hn1
    simp only [Option.some.injEq] at hd1
    subst hd1
    simp only at h
    obtain ⟨⟨img2, metric_page⟩, hw2, h⟩ := Option.bind_eq_some.mp h
    obtain ⟨m2, hmp, hr2, hb2⟩ := journal_v2_write_data_page_header_spec hK hw2
    obtain ⟨hdr, local_hdr, c1, c2, c3⟩ :=
      journal_v2_write_data_page_header_checksum hK hunion hw2
    subst hmp
    obtain ⟨⟨img3, n3⟩, hw3, h⟩ := Option.bind_eq_some.mp h
    obtain ⟨m3, -⟩ := journal_v2_write_descriptors_spec _ hw3
    have hn3 := journal_v2_write_descriptors_fits _ h4 h32 (by rw [hjl]; omega) hw3
    rw [hjl] at hn3 m3
    subst hn3
    simp only at h
    obtain ⟨⟨img4, npa⟩, hw4, h⟩ := Option.bind_eq_some.mp h
    obtain ⟨m4, hnpa, -, -⟩ := journal_v2_write_data_page_trailer_spec hw4
    subst hnpa
    have hent : read_le img3 (st.pages_offset + 16) 4 = some metric_info.number_of_pages := by
      have p3 : mem_read img3 st.pages_offset 24 = mem_read img2 st.pages_offset 24 :=
        m3.mem_read _ 24 (Or.inl (by omega))
      have := read_le_of_block (uuid_bytes metric_info.uuid) (le_bytes 4 (u32 data))
        (p3.trans hr2)
      rw [uuid_bytes_length] at this
      rw [this]
      exact congrArg some (mod_256_pow_4 hnp)
    obtain ⟨buf, t1, t2⟩ := journal_v2_write_data_page_trailer_checksum hw4 hent (by omega)
    have hblock : page_block_verifies K img4 st.pages_offset metric_info.number_of_pages := by
      refine ⟨?_, hdr, local_hdr, buf, ?_, c2, ?_, t1, t2⟩
      · rw [m4.read_le _ 4 (Or.inl (by omega))]
        exact hent
      · rw [m4.mem_read _ 32 (Or.inl (by omega)), m3.mem_read _ 32 (Or.inl (by omega))]
        exact c1
      · rw [m4.read_le _ 4 (Or.inl (by omega)), m3.read_le _ 4 (Or.inl (by omega))]
        exact c3
    have hpo : u32 (st.pages_offset + (metric_info.number_of_pages * sizeof_journal_page_list +
        sizeof_journal_page_header + sizeof_journal_v2_block_trailer)) =
        st.pages_offset + 36 + 20 * metric_info.number_of_pages := by
      unfold u32 sizeof_journal_page_list sizeof_journal_page_header
        sizeof_journal_v2_block_trailer
      rw [Nat.mod_eq_of_lt (by omega)]
      omega
    have hnext : u32 (st.pages_offset + 32 + 20 * metric_info.number_of_pages + 4) =
        st.pages_offset + 36 + 20 * metric_info.number_of_pages := by
      unfold u32
      rw [Nat.mod_eq_of_lt (by omega)]
      omega
    rw [hpo, hnext, if_neg (by simp)] at h
    simp only [Option.some.injEq, Prod.mk.injEq] at h
    obtain ⟨rfl, rfl⟩ := h
    exact Or.inr ⟨rfl, rfl, rfl, hblock⟩

theorem page_blocks_size_cons (m : jv2_metrics_info) (rest : List jv2_metrics_info) :
    page_blocks_size (m :: rest) =
      36 + 20 * (m.number_of_pages % 2 ^ 32) + page_blocks_size rest := by
  simp [page_blocks_size]

set_option maxHeartbeats 1000000 in
/-- The loop over the sorted metrics, when it ends with the cursor after the
last metric list entry, for metrics whose page lists have as many pages as
their page counts say and with room for all the page blocks below the file
trailer: every page block verifies and lies between the first page offset
and the end of the blocks. -/
theorem migrate_metrics_blocks {K : Consts} (hK : K.WF)
    (hunion : K.PAGE_HEADER_CRC = K.PAGE_HEADER_CHECKSUM) {j2_header : journal_v2_header}
    (h4 : 4 ≤ j2_header.total_file_size) (h32 : j2_header.total_file_size < 2 ^ 32)
    (ms : List jv2_metrics_info) {st st' : migrate_state} {d0 : Nat}
    (h : migrate_metrics K j2_header ms st = some st')
    (hd : st.data = some d0)
    (hsucc : st'.data = some (d0 + 32 * ms.length))
    (hlen : st.img.length < 2 ^ 32)
    (hsep : d0 + 32 * ms.length ≤ st.pages_offset)
    (hpages : ∀ m ∈ ms, m.number_of_pages < 2 ^ 32 ∧
      m.JudyL_pages_by_start_time.length = m.number_of_pages)
    (hroom : st.pages_offset + page_blocks_size ms ≤ j2_header.total_file_size - 4) :
    ∀ (i : Nat) (m : jv2_metrics_info) (po : Nat), ms[i]? = some m →
      (page_offsets st.pages_offset ms)[i]? = some po →
      page_block_verifies K st'.img po m.number_of_pages ∧ st.pages_offset ≤ po ∧
      po + 36 + 20 * m.number_of_pages ≤ st.pages_offset + page_blocks_size ms := by
  induction ms generalizing st d0 with
  | nil =>
    intro i m po hm
    simp at hm
  | cons m rest ih =>
    have hm0 := hpages m (List.mem_cons_self _ _)
    have emod : m.number_of_pages % 2 ^ 32 = m.number_of_pages := Nat.mod_eq_of_lt hm0.1
    rw [page_blocks_size_cons, emod] at hroom ⊢
    simp only [List.length_cons] at hsucc hsep
    unfold migrate_metrics at h
    rw [hd] at h
    simp only at h
    obtain ⟨⟨st1, c⟩, h1, h⟩ := Option.bind_eq_some.mp h
    obtain ⟨l1, -, -, -⟩ := migrate_metric_spec hK h1 hlen (by omega)
    rcases migrate_metric_block hK hunion h1 h4 h32 hm0.1 hm0.2 (by omega) with
      ⟨b1, b2⟩ | ⟨b1, b2, b3, b4⟩
    · subst b2
      simp only [Bool.false_eq_true, if_false, Option.some.injEq] at h
      subst h
      rw [b1] at hsucc
      simp at hsucc
    subst b1
    simp only [if_true] at h
    have hsucc' : st'.data = some (d0 + 32 + 32 * rest.length) := by
      rw [hsucc]; congr 1; omega
    have hsep' : d0 + 32 + 32 * rest.length ≤ st1.pages_offset := by rw [b3]; omega
    have hlen' : st1.img.length < 2 ^ 32 := by rw [l1]; exact hlen
    have hroom' : st1.pages_offset + page_blocks_size rest ≤ j2_header.total_file_size - 4 := by
      rw [b3]; omega
    have hrest := ih h b2 hsucc' hlen' hsep'
      (fun x hx => hpages x (List.mem_cons_of_mem _ hx)) hroom'
    obtain ⟨l2, f2, -⟩ := migrate_metrics_spec hK rest h b2 hsucc' hlen' hsep'
    intro i x po hx hpo
    cases i with
    | zero =>
      simp only [List.getElem?_cons_zero, Option.some.injEq] at hx
      subst hx
      simp only [page_offsets, List.getElem?_cons_zero, Option.some.injEq] at hpo
      subst hpo
      refine ⟨?_, le_refl _, by omega⟩
      refine page_block_verifies_frame hK b4 l2 (fun j hj1 hj2 => f2 j (Or.inr ⟨by omega, ?_⟩))
      rw [b3]
      exact hj2
    | succ j =>
      simp only [List.getElem?_cons_succ] at hx
      simp only [page_offsets, List.getElem?_cons_succ, emod] at hpo
      rw [← b3] at hpo
      obtain ⟨r1, r2, r3⟩ := hrest j x po hx hpo
      rw [b3] at r2 r3
      exact ⟨r1, by omega, by omega⟩

theorem mem_le_sum_map (f : jv2_metrics_info → Nat) (ms : List jv2_metrics_info)
    (m : jv2_metrics_info) (hm : m ∈ ms) : f m ≤ (ms.map f).sum := by
  induction ms with
  | nil => simp at hm
  | cons a rest ih =>
    simp only [List.map_cons, List.sum_cons]
    rcases List.mem_cons.mp hm with rfl | hm
    · omega
    · have := ih hm
      omega

theorem page_blocks_size_le (ms : List jv2_metrics_info)
    (h : ∀ m ∈ ms, 1 ≤ m.number_of_pages) :
    page_blocks_size ms ≤ 56 * (ms.map (fun m => m.number_of_pages)).sum := by
  induction ms with
  | nil => simp [page_blocks_size]
  | cons a rest ih =>
    rw [page_blocks_size_cons]
    simp only [List.map_cons, List.sum_cons]
    have h1 := h a (List.mem_cons_self _ _)
    have h2 := ih (fun m hm => h m (List.mem_cons_of_mem _ hm))
    have h3 : a.number_of_pages % 2 ^ 32 ≤ a.number_of_pages := Nat.mod_le _ _
    omega

set_option maxHeartbeats 2000000 in
/-- A run of the migrator that publishes, over metrics that each have at
least one page and as many pages in their page list as their page count
says, `number_of_pages` being the sum of the page counts: every page block of
the published file verifies. -/
theorem do_migrate_blocks {K : Consts} (hK : K.WF)
    (hunion : K.PAGE_HEADER_CRC = K.PAGE_HEADER_CHECKSUM) {mapping : List Nat}
    {truncate_ok : Bool} {journalfile_pos : Nat} {JudyL_metrics : List jv2_metrics_info}
    {JudyL_extents_pos : List jv2_extents_info} {ne nm np : Nat} {r : migrate_result}
    (h : do_migrate_to_v2_callback K mapping truncate_ok journalfile_pos JudyL_metrics
      JudyL_extents_pos ne nm np = some r)
    (hpub : r.journal_data ≠ none)
    (hsize : (compute_layout K ne nm np).total_file_size < 2 ^ 32)
    (hpages : ∀ m ∈ JudyL_metrics, 1 ≤ m.number_of_pages ∧
      m.JudyL_pages_by_start_time.length = m.number_of_pages)
    (hnp : np = (JudyL_metrics.map (fun m => m.number_of_pages)).sum) :
    ∀ (i : Nat) (m : jv2_metrics_info) (p : Nat),
      (qsort_uuid_list JudyL_metrics)[i]? = some m →
      (page_offsets (compute_layout K ne nm np).pages_offset
        (qsort_uuid_list JudyL_metrics))[i]? = some p →
      page_block_verifies K r.file p m.number_of_pages := by
  obtain ⟨e1, e2, e3, e4, e5, e6, e7⟩ := compute_layout_exact K ne nm np hsize
  have htfs : (migration_header K journalfile_pos JudyL_metrics ne nm np).total_file_size =
      (compute_layout K ne nm np).total_file_size := by
    show u32 _ = _
    exact Nat.mod_eq_of_lt hsize
  have hperm := qsort_uuid_list_perm JudyL_metrics
  have hsum : ((qsort_uuid_list JudyL_metrics).map (fun m => m.number_of_pages)).sum = np := by
    rw [hnp]
    exact (hperm.map _).sum_eq
  have hbs : page_blocks_size (qsort_uuid_list JudyL_metrics) ≤ 56 * np := by
    rw [← hsum]
    exact page_blocks_size_le _ (fun m hm => (hpages m (hperm.mem_iff.mp hm)).1)
  have hpages' : ∀ m ∈ qsort_uuid_list JudyL_metrics, m.number_of_pages < 2 ^ 32 ∧
      m.JudyL_pages_by_start_time.length = m.number_of_pages := by
    intro m hm
    refine ⟨?_, (hpages m (hperm.mem_iff.mp hm)).2⟩
    have := mem_le_sum_map (fun m => m.number_of_pages) _ m hm
    rw [hsum] at this
    simp only at this
    omega
  unfold do_migrate_to_v2_callback at h
  simp only at h
  generalize hL : compute_layout K ne nm np = L at *
  obtain ⟨eo, eto, mo, mto, po, tro, total⟩ := L
  simp only at *
  by_cases c0 : mapping.length ≠ total
  · rw [if_pos c0] at h; simp at h
  rw [if_neg c0] at h
  have hlen0 := not_not.mp c0
  obtain ⟨img0, hw0, h0⟩ := Option.bind_eq_some.mp h
  clear h
  obtain ⟨img1, hw1, h1⟩ := Option.bind_eq_some.mp h0
  clear h0
  by_cases c1 : eo + JudyL_extents_pos.length * sizeof_journal_extent_list ≠ eto
  · rw [if_pos c1] at h1; simp at h1
  rw [if_neg c1] at h1
  obtain ⟨buf, hbuf, h2⟩ := Option.bind_eq_some.mp h1
  clear h1
  obtain ⟨img2, hw2, h3⟩ := Option.bind_eq_some.mp h2
  clear h2
  by_cases c2 : eo + JudyL_extents_pos.length * sizeof_journal_extent_list +
      sizeof_journal_v2_block_trailer ≠ mo
  · rw [if_pos c2] at h3; simp at h3
  rw [if_neg c2] at h3
  by_cases c3 : JudyL_metrics.length ≠ nm
  · rw [if_pos c3] at h3; simp at h3
  rw [if_neg c3] at h3
  have hcount : JudyL_metrics.length = nm := not_not.mp c3
  obtain ⟨st, hloop, h4⟩ := Option.bind_eq_some.mp h3
  clear h3
  by_cases c4 : st.data = some mto
  swap
  · rw [if_neg c4] at h4
    obtain ⟨img3, _, h5⟩ := Option.bind_eq_some.mp h4
    exfalso
    apply hpub
    by_cases c5 : u32 sizeof_journal_v2_header = total
    · rw [if_pos c5] at h5
      simp only [Option.some.injEq] at h5
      rw [← h5]
    · rw [if_neg c5] at h5
      cases truncate_ok with
      | true =>
        simp only [if_true, Option.some.injEq] at h5
        rw [← h5]
      | false =>
        simp only [Bool.false_eq_true, if_false, Option.some.injEq] at h5
        rw [← h5]
  rw [if_pos c4] at h4
  obtain ⟨buf', hbuf', h5⟩ := Option.bind_eq_some.mp h4
  clear h4
  obtain ⟨img3, hw3, h6⟩ := Option.bind_eq_some.mp h5
  clear h5
  obtain ⟨img4, hw4, h7⟩ := Option.bind_eq_some.mp h6
  clear h6
  obtain ⟨img5, hw5, h8⟩ := Option.bind_eq_some.mp h7
  clear h7
  simp only [Option.some.injEq] at h8
  subst h8
  clear hpub
  have c2' := not_not.mp c2
  have l0 : img0.length = mapping.length := mem_write_length hw0
  have l1 : img1.length = img0.length := journal_v2_write_extent_list_length _ hw1
  obtain ⟨m2, -⟩ := crc32set_spec hw2
  have l2 : img2.length = total := by
    rw [m2.1, l1, l0, hlen0]
  have hq := qsort_uuid_list_length JudyL_metrics
  have hblocks := migrate_metrics_blocks hK hunion (by rw [htfs]; omega)
    (by rw [htfs]; exact hsize) (qsort_uuid_list JudyL_metrics) hloop rfl
    (by rw [c4, hq, hcount, e4]; exact congrArg some (by omega))
    (by simp only; rw [l2]; exact hsize)
    (by simp only; rw [hq, hcount, c2']; omega)
    hpages'
    (by simp only; rw [htfs]; omega)
  obtain ⟨ls, -, -⟩ := migrate_metrics_spec hK (qsort_uuid_list JudyL_metrics) hloop rfl
    (by rw [c4, hq, hcount, e4]; exact congrArg some (by omega))
    (by simp only; rw [l2]; exact hsize)
    (by simp only; rw [hq, hcount, c2']; omega)
  simp only at hblocks ls
  obtain ⟨m3, -⟩ := crc32set_spec hw3
  obtain ⟨m4, -⟩ := crc32set_spec hw4
  have m5 := mem_write_modified hw5
  rw [journal_v2_header_bytes_length] at m5
  simp only [Nat.zero_add] at m5
  intro i m p hm hp
  obtain ⟨b1, b2, b3⟩ := hblocks i m p hm hp
  have l5 : img5.length = st.img.length := by rw [m5.1, m4.1, m3.1]
  refine page_block_verifies_frame hK b1 l5 (fun j hj1 hj2 => ?_)
  show img5[j]? = st.img[j]?
  rw [m5.2 j (Or.inr (by omega)), m4.2 j (Or.inl (by omega)), m3.2 j (Or.inr (by omega))]

theorem check_journal_v2_file_deep_ok {K : Consts} (hK : K.WF) {data : List Nat}
    {file_size original_size mo mc : Nat} {hdr : List Nat}
    (h1 : read_le data 0 4 = some K.JOURVAL_V2_MAGIC)
    (h2 : read_le data 56 4 = some file_size)
    (h3 : original_size = 0 ∨ read_le data 60 4 = some original_size)
    (h4 : 4 ≤ file_size)
    (h5 : mem_read data 0 72 = some hdr)
    (h6 : read_le data (file_size - 4) 4 = some (crc32 0 hdr))
    (h7 : check_journal_v2_extent_list data file_size = some 0)
    (h8 : check_journal_v2_metric_list data file_size = some 0)
    (h9 : read_le data 40 4 = some mo) (h10 : read_le data 36 4 = some mc)
    (h11 : check_journal_v2_chain K data file_size mc mo 0 = some (Sum.inr mc)) :
    check_journal_v2_file K true data file_size original_size = some 0 := by
  obtain ⟨_, _, _, k1, k2, _⟩ := hK
  have h4' : ¬ file_size < 4 := by omega
  rcases h3 with h3 | h3
  · subst h3
    simp [check_journal_v2_file, h1, k1, k2, h2, sizeof_journal_v2_block_trailer, h4',
      sizeof_journal_v2_header, h5, crc32cmp, h6, h7, h8, h9, h10, h11]
  · by_cases ho : original_size = 0
    · subst ho
      simp [check_journal_v2_file, h1, k1, k2, h2, sizeof_journal_v2_block_trailer, h4',
        sizeof_journal_v2_header, h5, crc32cmp, h6, h7, h8, h9, h10, h11]
    · simp [check_journal_v2_file, h1, k1, k2, h2, h3, ho, sizeof_journal_v2_block_trailer, h4',
        sizeof_journal_v2_header, h5, crc32cmp, h6, h7, h8, h9, h10, h11]

set_option maxHeartbeats 1000000 in
/-- The deep check of a file migrated from consistent indices: with `crc`
and `checksum` naming the same four bytes of the page
header, a file that a run of `do_migrate_to_v2_callback` publishes passes
`check_journal_v2_file` with the deep check enabled, and every page block in
it verifies: the header checksum is the CRC-32 of a copy of the header whose
`crc` is the magic, and the trailer is the CRC-32 of the `entries *
sizeof(struct journal_page_list)` bytes after the header. The indices handed
to the migrator are consistent: every metric has at least one page and as
many pages in its page list as its page count says, and `number_of_pages` is
the sum of the page counts; the computed size is below `2 ^ 32`. -/
theorem migrated_file_passes_deep_check (K : Consts) (hK : K.WF)
    (hunion : K.PAGE_HEADER_CRC = K.PAGE_HEADER_CHECKSUM) (mapping : List Nat)
    (truncate_ok : Bool) (journalfile_pos : Nat) (JudyL_metrics : List jv2_metrics_info)
    (JudyL_extents_pos : List jv2_extents_info) (ne nm np : Nat) (r : migrate_result)
    (original_size : Nat)
    (h : do_migrate_to_v2_callback K mapping truncate_ok journalfile_pos JudyL_metrics
      JudyL_extents_pos ne nm np = some r)
    (hpub : r.journal_data ≠ none)
    (hsize : (compute_layout K ne nm np).total_file_size < 2 ^ 32)
    (horig : original_size = 0 ∨ original_size = u32 journalfile_pos)
    (hpages : ∀ m ∈ JudyL_metrics, 1 ≤ m.number_of_pages ∧
      m.JudyL_pages_by_start_time.length = m.number_of_pages)
    (hnp : np = (JudyL_metrics.map (fun m => m.number_of_pages)).sum) :
    check_journal_v2_file K true r.file (compute_layout K ne nm np).total_file_size
      original_size = some 0 ∧
    ∀ (i : Nat) (m : jv2_metrics_info) (p : Nat),
      (qsort_uuid_list JudyL_metrics)[i]? = some m →
      (page_offsets (compute_layout K ne nm np).pages_offset
        (qsort_uuid_list JudyL_metrics))[i]? = some p →
      page_block_verifies K r.file p m.number_of_pages := by
  have hblocks := do_migrate_blocks hK hunion h hpub hsize hpages hnp
  refine ⟨?_, hblocks⟩
  obtain ⟨_, P⟩ := do_migrate_published hK h hpub hsize
  obtain ⟨e1, e2, e3, e4, e5, e6, e7⟩ := compute_layout_exact K ne nm np hsize
  obtain ⟨buf, b1, b2⟩ := P.extents
  obtain ⟨buf', b1', b2'⟩ := P.metrics
  have hne : ne < 2 ^ 32 := by omega
  have hnm : nm < 2 ^ 32 := by omega
  have f_magic := header_field_magic P.header
  have f_ec := header_field_extent_count P.header
  have f_eo := header_field_extent_offset P.header
  have f_eto := header_field_extent_trailer_offset P.header
  have f_mc := header_field_metric_count P.header
  have f_mo := header_field_metric_offset P.header
  have f_mto := header_field_metric_trailer_offset P.header
  have f_total := header_field_total_file_size P.header
  have f_orig := header_field_original_file_size P.header
  simp only [migration_header] at f_magic f_ec f_eo f_eto f_mc f_mo f_mto f_total f_orig
  have u_lt : ∀ x, u32 x < 2 ^ 32 := fun x => Nat.mod_lt _ (by norm_num)
  have u_id : ∀ x, x < 2 ^ 32 → u32 x = x := fun x hx => Nat.mod_eq_of_lt hx
  rw [mod_256_pow_4 hK.1] at f_magic
  rw [u_id _ hne, mod_256_pow_4 hne] at f_ec
  rw [mod_256_pow_4 (by omega)] at f_eo f_eto f_mo f_mto
  rw [u_id _ hnm, mod_256_pow_4 hnm] at f_mc
  rw [u_id _ hsize, mod_256_pow_4 hsize] at f_total
  rw [mod_256_pow_4 (u_lt _)] at f_orig
  have hchain : check_journal_v2_chain K r.file (compute_layout K ne nm np).total_file_size nm
      (compute_layout K ne nm np).metrics_offset 0 = some (Sum.inr nm) := by
    have := check_journal_v2_chain_ok K r.file (compute_layout K ne nm np).total_file_size nm
      (compute_layout K ne nm np).metrics_offset 0 hsize
      (fun j hj => by
        obtain ⟨m, po, a1, a2, a3, -, a5, -⟩ := published_entry P hsize j hj
        exact ⟨_, po, _, a3, a5, hblocks j m po a1 a2⟩)
      (by omega)
    rw [this]
    simp
  refine check_journal_v2_file_deep_ok hK f_magic f_total ?_ (by omega) P.header ?_
    (check_journal_v2_extent_list_ok f_eto f_eo f_ec
      (by rw [u_id (ne * 24) (by omega)]; exact b1) b2)
    (check_journal_v2_metric_list_ok f_mto f_mo f_mc
      (by rw [u_id (nm * 32) (by omega)]; exact b1') b2') f_mo f_mc hchain
  · rcases horig with h0 | h0
    · exact Or.inl h0
    · exact Or.inr (by rw [h0]; exact f_orig)
  · have : (compute_layout K ne nm np).total_file_size - 4 =
        (compute_layout K ne nm np).trailer_offset := by omega
    rw [this]
    exact P.file_trailer

theorem migrated_file_passes_deep_check_witness :
    example_consts.WF ∧ example_consts.PAGE_HEADER_CRC = example_consts.PAGE_HEADER_CHECKSUM ∧
    example_migration 8192 = some example_result ∧
    example_result.journal_data ≠ none ∧
    check_journal_v2_file example_consts true example_result.file
      (compute_layout example_consts 1 3 4).total_file_size 8192 = some 0 ∧
    ∀ (i : Nat) (m : jv2_metrics_info) (p : Nat),
      (qsort_uuid_list example_metrics)[i]? = some m →
      (page_offsets (compute_layout example_consts 1 3 4).pages_offset
        (qsort_uuid_list example_metrics))[i]? = some p →
      page_block_verifies example_consts example_result.file p m.number_of_pages :=
  ⟨by decide, by decide, by decide!, by decide!,
    migrated_file_passes_deep_check example_consts (by decide) (by decide) example_mapping true
      8192 example_metrics example_extents 1 3 4 example_result 8192 (by decide!) (by decide!)
      (by decide) (Or.inr (by decide)) (by decide) (by decide)⟩

/-- The layout of the page header matters: were `checksum` a member of its
own after `crc` (offsets 24 and 28), the header checksum would be computed
before `checksum` is stored, and the chain check would reject the file of the
example migration, which the check without the chain accepts. -/
theorem deep_check_separate_members :
    (do_migrate_to_v2_callback separate_members_consts example_mapping true 8192
      example_metrics example_extents 1 3 4).bind (fun r =>
        (check_journal_v2_file separate_members_consts true r.file 436 8192).bind (fun deep =>
          (check_journal_v2_file separate_members_consts false r.file 436 8192).map
            (fun shallow => (r.journal_data.isSome, deep, shallow)))) =
      some (true, 1, 0) := by
  decide!


/-! ## The code at further failing inputs -/

/-- C33 (the code at a failing input): the only metric announces one page
and its page index holds two. The second page entry does not fit below the
file trailer, `journal_v2_write_descriptors` returns `NULL` and the loop
leaves by the `break` of line 1057 with `data` already at the metric list
trailer: the run publishes the mapping, the file passes the validator
without the chain check, and with the chain check it is rejected (the page
block has no trailer). -/
theorem overfull_last_metric_is_published :
    overfull_migration.map (fun r =>
      (r.journal_data.isSome, r.file.length, read_le r.file (108 + 16) 4,
        read_le r.file 0 4)) =
      some (true, 204, some 1, some example_consts.JOURVAL_V2_MAGIC) ∧
    overfull_migration.bind (fun r =>
      check_journal_v2_file example_consts false r.file r.file.length 8192) = some 0 ∧
    overfull_migration.bind (fun r =>
      check_journal_v2_file example_consts true r.file r.file.length 8192) = some 1 ∧
    (overfull_metrics.map (fun m =>
      (m.number_of_pages, m.JudyL_pages_by_start_time.length))) = [(1, 2)] := by
  decide!

/-- C34 (the code at a failing input): a journal of two blocks is replayed
without a mapping. At the chunk cursor 0, with 4096 bytes in the chunk,
`replay_transaction` receives `max_size = 8192`, and at the cursor 4066, with
30 bytes left, it receives `max_size = 4126`: the file offset 4096 of the
chunk is added. The store-data record that starts at 4066 is 69 bytes long;
its last 39 bytes are not in the chunk but in the bytes that an earlier use
left in the read buffer, and the record is replayed into the registry and
the open cache. -/
theorem iterate_transactions_max_size_exceeds_chunk :
    straddling_block.length = 4096 ∧
    straddling_replay.map (fun r => (r.replays.head?, r.replays.getLast?, r.replays.length)) =
      some (some { pos := 4096, pos_i := 0, buf := 0, max_size := 8192, ret := 219, id := 4 },
        some { pos := 4096, pos_i := 4066, buf := 4066, max_size := 4126, ret := 69, id := 5 },
        20) ∧
    straddling_replay.map (fun r => (r.max_id, r.calls, r.io_read_bytes)) =
      some (5,
        [external_call.mrg_metric_get_and_acquire example_uuid,
         external_call.mrg_metric_add_and_acquire
           { uuid := example_uuid, first_time_s := 1000, last_time_s := 1059,
             latest_update_every_s := 1 },
         external_call.pgc_open_add_hot_page
           { metric_id := 1, start_time_s := 1000, end_time_s := 1059, update_every_s := 1,
             extent_offset := 0, extent_size := 4096, page_length := 240 },
         external_call.mrg_metric_release (some 0)],
        4096) := by
  decide!

/-- C35 (the code at a failing input): the migrator publishes the file of one
metric with two pages; the file passes the validator, chain check included;
its `metric_count` is 1 and the `entries` of its only metric list entry is 2.
The loader divides by `metric_count - 1`, which is zero, and does not
return. -/
theorem load_journal_file_v2_divides_by_zero :
    check_journal_v2_file example_consts true two_page_file two_page_file.length 8192 =
      some 0 ∧
    read_le two_page_file 36 4 = some 1 ∧
    read_le two_page_file 40 4 = some 108 ∧
    read_le two_page_file (108 + 16) 4 = some 2 ∧
    load_metric_entry two_page_file 1000 1 108 = none ∧
    load_journal_file_v2 example_consts true (some 8192) (.mapped two_page_file) 2000 =
      none := by
  decide!

/-- C37 (the code at a failing input): the second block of the journal
starts with a record whose id is `2 ^ 64 - 1` (its checksum does not match;
the id is taken before the checksum is tested). The scan reports `max_id =
2 ^ 64 - 1`, `max_id + 1` wraps to 0, and `commit_log.transaction_id` keeps
the value 1 that `init_commit_log` gave it: it is not above the id
observed. -/
theorem load_journal_file_transaction_id_wraps :
    (load_journal_file_replay upstream_protocol example_externals 2000 8192
      (some (example_journal last_id_record)) [] (fun _ _ => none) 10 []
      init_commit_log).map (fun r => (r.1, r.2.max_id, r.2.replays.map (fun c => c.id))) =
      some (1, 2 ^ 64 - 1, [2 ^ 64 - 1, 0]) ∧
    load_journal_file_transaction_id init_commit_log (2 ^ 64 - 1) = 1 := by
  decide!

/-- C40 (the code at a failing input): the registry is empty and the only
descriptor of the payload fails validation. `mrg_metric_get_and_acquire`
returns `NULL`, nothing is acquired, and `mrg_metric_release` is called with
`NULL`. -/
theorem restore_extent_metadata_releases_null :
    restore_extent_metadata upstream_protocol example_externals 2000 invalid_descr_payload 0
      invalid_descr_payload.length [] =
      some ([], [external_call.mrg_metric_get_and_acquire example_uuid,
        external_call.mrg_metric_release none]) ∧
    (example_externals.mrg_metric_get_and_acquire [] example_uuid).1 = none := by
  decide!


/-! ## The order of the sections -/

theorem mem_of_getElem?_some {α : Type} {l : List α} {i : Nat} {a : α} (h : l[i]? = some a) :
    a ∈ l := by
  obtain ⟨h1, h2⟩ := List.getElem?_eq_some_iff.mp h
  rw [← h2]
  exact List.getElem_mem _

theorem page_offsets_within (po : Nat) (ms : List jv2_metrics_info) :
    ∀ (i : Nat) (m : jv2_metrics_info) (p : Nat), ms[i]? = some m →
      (page_offsets po ms)[i]? = some p →
      po ≤ p ∧ p + 36 + 20 * (m.number_of_pages % 2 ^ 32) ≤ po + page_blocks_size ms := by
  induction ms generalizing po with
  | nil =>
    intro i m p hm
    simp at hm
  | cons a rest ih =>
    intro i m p hm hp
    rw [page_blocks_size_cons]
    cases i with
    | zero =>
      simp only [List.getElem?_cons_zero, Option.some.injEq] at hm
      simp only [page_offsets, List.getElem?_cons_zero, Option.some.injEq] at hp
      subst hm
      subst hp
      omega
    | succ j =>
      simp only [List.getElem?_cons_succ] at hm
      simp only [page_offsets, List.getElem?_cons_succ] at hp
      have := ih _ j m p hm hp
      omega

theorem header_field_page_offset {img : List Nat} {h : journal_v2_header}
    (hr : mem_read img 0 72 = some h.bytes) :
    read_le img 52 4 = some (h.page_offset % 256 ^ 4) := by
  have := @read_le_of_block (le_bytes 4 h.magic ++ le_bytes 4 0 ++ le_bytes 8 h.start_time_ut ++
      le_bytes 8 h.end_time_ut ++ le_bytes 4 h.extent_count ++ le_bytes 4 h.extent_offset ++
      le_bytes 4 h.extent_trailer_offset ++ le_bytes 4 h.metric_count ++
      le_bytes 4 h.metric_offset ++ le_bytes 4 h.metric_trailer_offset ++
      le_bytes 4 h.page_count)
    (le_bytes 4 h.total_file_size ++ le_bytes 4 h.original_file_size ++ le_bytes 8 h.data)
    img 0 4 (h.page_offset) 72 (by rw [hr]; simp [journal_v2_header.bytes, List.append_assoc])
  simpa [length_le_bytes] using this

/-- C38: in the file that a run of `do_migrate_to_v2_callback` publishes,
when every metric has at least one page and the page counts of the metrics
sum to the `number_of_pages` argument (the computed size being below `2 ^
32`, the range of the `uint32_t` offsets), the sections follow one another
without overlap. The offsets stored in the header are the ones computed at
the start of the function: the extent list starts at or after the end of the
header, its trailer follows its `extent_count` entries, the metric list
follows that trailer, its trailer follows its `metric_count` entries, the
page blocks start after that trailer, and the file trailer is the last four
bytes of the file. The page block of every metric list entry, at the
`page_offset` stored in the entry and with the `entries` stored in it (a page
header that carries the same `entries` and points back to the entry, the
page list entries, a trailer), starts at or after the first page offset and
ends at or before the file trailer, the last block included, and it ends at
or before the block of every later entry. -/
theorem migration_sections_ordered (K : Consts) (hK : K.WF) (mapping : List Nat)
    (truncate_ok : Bool) (journalfile_pos : Nat) (JudyL_metrics : List jv2_metrics_info)
    (JudyL_extents_pos : List jv2_extents_info) (ne nm np : Nat) (r : migrate_result)
    (h : do_migrate_to_v2_callback K mapping truncate_ok journalfile_pos JudyL_metrics
      JudyL_extents_pos ne nm np = some r)
    (hpub : r.journal_data ≠ none)
    (hsize : (compute_layout K ne nm np).total_file_size < 2 ^ 32)
    (hpages : ∀ m ∈ JudyL_metrics, 1 ≤ m.number_of_pages)
    (hnp : np = (JudyL_metrics.map (fun m => m.number_of_pages)).sum) :
    ∃ extent_offset extent_trailer_offset metric_offset metric_trailer_offset page_offset
        total_file_size,
      read_le r.file 24 4 = some ne ∧ read_le r.file 28 4 = some extent_offset ∧
      read_le r.file 32 4 = some extent_trailer_offset ∧
      read_le r.file 36 4 = some nm ∧ read_le r.file 40 4 = some metric_offset ∧
      read_le r.file 44 4 = some metric_trailer_offset ∧
      read_le r.file 52 4 = some page_offset ∧
      read_le r.file 56 4 = some total_file_size ∧
      r.file.length = total_file_size ∧
      extent_offset = (compute_layout K ne nm np).extent_offset ∧
      extent_trailer_offset = (compute_layout K ne nm np).extent_offset_trailer ∧
      metric_offset = (compute_layout K ne nm np).metrics_offset ∧
      metric_trailer_offset = (compute_layout K ne nm np).metric_offset_trailer ∧
      page_offset = (compute_layout K ne nm np).pages_offset ∧
      total_file_size = (compute_layout K ne nm np).total_file_size ∧
      total_file_size - sizeof_journal_v2_block_trailer =
        (compute_layout K ne nm np).trailer_offset ∧
      sizeof_journal_v2_header ≤ extent_offset ∧
      extent_offset + ne * sizeof_journal_extent_list = extent_trailer_offset ∧
      extent_trailer_offset + sizeof_journal_v2_block_trailer = metric_offset ∧
      metric_offset + nm * sizeof_journal_metric_list = metric_trailer_offset ∧
      metric_trailer_offset + sizeof_journal_v2_block_trailer = page_offset ∧
      page_offset ≤ total_file_size - sizeof_journal_v2_block_trailer ∧
      sizeof_journal_v2_block_trailer ≤ total_file_size ∧
      (∀ i, i < nm → ∃ entries block,
        read_le r.file (metric_offset + i * sizeof_journal_metric_list + 16) 4 = some entries ∧
        read_le r.file (metric_offset + i * sizeof_journal_metric_list + 20) 4 = some block ∧
        read_le r.file (block + 16) 4 = some entries ∧
        read_le r.file (block + 20) 4 =
          some (metric_offset + i * sizeof_journal_metric_list) ∧
        page_offset ≤ block ∧
        block + (sizeof_journal_page_header + entries * sizeof_journal_page_list +
          sizeof_journal_v2_block_trailer) ≤
            total_file_size - sizeof_journal_v2_block_trailer) ∧
      (∀ i j entries_i block_i block_j, i < j → j < nm →
        read_le r.file (metric_offset + i * sizeof_journal_metric_list + 16) 4 =
          some entries_i →
        read_le r.file (metric_offset + i * sizeof_journal_metric_list + 20) 4 =
          some block_i →
        read_le r.file (metric_offset + j * sizeof_journal_metric_list + 20) 4 =
          some block_j →
        block_i + (sizeof_journal_page_header + entries_i * sizeof_journal_page_list +
          sizeof_journal_v2_block_trailer) ≤ block_j) := by
  obtain ⟨_, P⟩ := do_migrate_published hK h hpub hsize
  obtain ⟨e1, e2, e3, e4, e5, e6, e7⟩ := compute_layout_exact K ne nm np hsize
  have hne : ne < 2 ^ 32 := by omega
  have hnm : nm < 2 ^ 32 := by omega
  have f_ec := header_field_extent_count P.header
  have f_eo := header_field_extent_offset P.header
  have f_eto := header_field_extent_trailer_offset P.header
  have f_mc := header_field_metric_count P.header
  have f_mo := header_field_metric_offset P.header
  have f_mto := header_field_metric_trailer_offset P.header
  have f_po := header_field_page_offset P.header
  have f_total := header_field_total_file_size P.header
  simp only [migration_header] at f_ec f_eo f_eto f_mc f_mo f_mto f_po f_total
  have u_id : ∀ x, x < 2 ^ 32 → u32 x = x := fun x hx => Nat.mod_eq_of_lt hx
  rw [u_id _ hne, mod_256_pow_4 hne] at f_ec
  rw [mod_256_pow_4 (by omega)] at f_eo f_eto f_mo f_mto f_po
  rw [u_id _ hnm, mod_256_pow_4 hnm] at f_mc
  rw [u_id _ hsize, mod_256_pow_4 hsize] at f_total
  have hperm := qsort_uuid_list_perm JudyL_metrics
  have hsum : ((qsort_uuid_list JudyL_metrics).map (fun m => m.number_of_pages)).sum = np := by
    rw [hnp]
    exact (hperm.map _).sum_eq
  have hbs : page_blocks_size (qsort_uuid_list JudyL_metrics) ≤ 56 * np := by
    rw [← hsum]
    exact page_blocks_size_le _ (fun m hm => hpages m (hperm.mem_iff.mp hm))
  have hcomm : ∀ i, (compute_layout K ne nm np).metrics_offset + i * sizeof_journal_metric_list =
      (compute_layout K ne nm np).metrics_offset + 32 * i := by
    intro i; simp only [sizeof_journal_metric_list]; omega
  refine ⟨_, _, _, _, _, _, f_ec, f_eo, f_eto, f_mc, f_mo, f_mto, f_po, f_total, P.length_eq,
    rfl, rfl, rfl, rfl, rfl, rfl, ?_, ?_, ?_, ?_, ?_, ?_, ?_, ?_, ?_, ?_⟩
  · simp only [sizeof_journal_v2_block_trailer]; omega
  · simp only [sizeof_journal_v2_header]; omega
  · simp only [sizeof_journal_extent_list]; omega
  · simp only [sizeof_journal_v2_block_trailer]; omega
  · simp only [sizeof_journal_metric_list]; omega
  · simp only [sizeof_journal_v2_block_trailer]; omega
  · simp only [sizeof_journal_v2_block_trailer]; omega
  · simp only [sizeof_journal_v2_block_trailer]; omega
  · intro i hi
    obtain ⟨m, po, a1, a2, -, a4, a5, -, a7, a8⟩ := published_entry P hsize i hi
    have hw := page_offsets_within _ _ i m po a1 a2
    rw [hcomm i]
    refine ⟨_, po, a4, a5, a7, a8, hw.1, ?_⟩
    simp only [sizeof_journal_page_header, sizeof_journal_page_list,
      sizeof_journal_v2_block_trailer]
    omega
  · intro i j entries_i block_i block_j hij hj r1 r2 r3
    obtain ⟨m, po, a1, a2, -, a4, a5, -⟩ := published_entry P hsize i (by omega)
    obtain ⟨m', po', b1, b2, -, -, b5, -⟩ := published_entry P hsize j hj
    rw [hcomm i] at r1 r2
    rw [hcomm j] at r3
    have x1 : entries_i = m.number_of_pages % 2 ^ 32 := Option.some.inj (r1.symm.trans a4)
    have x2 : block_i = po := Option.some.inj (r2.symm.trans a5)
    have x3 : block_j = po' := Option.some.inj (r3.symm.trans b5)
    have := page_offsets_step _ _ i j po po' m hij a1 a2 b2
    simp only [sizeof_journal_page_header, sizeof_journal_page_list,
      sizeof_journal_v2_block_trailer]
    omega

theorem migration_sections_ordered_witness :
    example_result.file.length = 436 ∧
    read_le example_result.file 40 4 = some 108 ∧
    read_le example_result.file 36 4 = some 3 ∧
    read_le example_result.file 52 4 = some 208 ∧
    (∀ i, i < 3 → ∃ entries block,
      read_le example_result.file (108 + i * sizeof_journal_metric_list + 16) 4 =
        some entries ∧
      read_le example_result.file (108 + i * sizeof_journal_metric_list + 20) 4 = some block ∧
      read_le example_result.file (block + 16) 4 = some entries ∧
      read_le example_result.file (block + 20) 4 =
        some (108 + i * sizeof_journal_metric_list) ∧
      208 ≤ block ∧
      block + (sizeof_journal_page_header + entries * sizeof_journal_page_list +
        sizeof_journal_v2_block_trailer) ≤ 436 - sizeof_journal_v2_block_trailer) := by
  obtain ⟨eo, eto, mo, mto, po, tfs, -, -, -, h4, h5, -, h7, h8, h9, -, -, -, -, -, -, -, -, -,
      -, -, -, -, -, h24, -⟩ :=
    migration_sections_ordered example_consts (by decide) example_mapping true 8192
      example_metrics example_extents 1 3 4 example_result (by decide!) (by decide!)
      (by decide) (by decide) (by decide)
  have e1 : mo = 108 := Option.some.inj (h5.symm.trans (by decide!))
  have e2 : po = 208 := Option.some.inj (h7.symm.trans (by decide!))
  have e3 : tfs = 436 := Option.some.inj (h8.symm.trans (by decide!))
  subst e1 e2 e3
  exact ⟨h9, h5, h4, h7, h24⟩

/-! ## What `restore_extent_metadata` reads -/

theorem restore_valid_descr_congr {σ : Type} (P : Protocol) (hP : P.WF) (E : Externals σ)
    {mem mem' : List Nat} (buf i M : Nat) (temp_id : List Nat) (vd : VALIDATED_PAGE_DESCRIPTOR)
    (metric : Option Nat) (st : σ) (hlen : mem'.length = mem.length)
    (hsame : ∀ j, buf ≤ j → j < buf + M → mem'[j]? = mem[j]?)
    (hin : P.sizeof_jf_store_data + (i + 1) * P.sizeof_extent_page_descr ≤ M) :
    restore_valid_descr P E mem' buf
        (buf + P.sizeof_jf_store_data + i * P.sizeof_extent_page_descr) temp_id vd metric st =
      restore_valid_descr P E mem buf
        (buf + P.sizeof_jf_store_data + i * P.sizeof_extent_page_descr) temp_id vd metric st := by
  obtain ⟨-, -, -, -, -, w6, w7, -, -, -, w11, -⟩ := hP
  have e : (i + 1) * P.sizeof_extent_page_descr =
      i * P.sizeof_extent_page_descr + P.sizeof_extent_page_descr := by ring
  rw [e] at hin
  generalize i * P.sizeof_extent_page_descr = x at *
  have r1 : read_le mem' (buf + P.JF_STORE_EXTENT_OFFSET) 8 =
      read_le mem (buf + P.JF_STORE_EXTENT_OFFSET) 8 :=
    read_le_congr hlen (fun j a b => hsame j (by omega) (by omega))
  have r2 : read_le mem' (buf + P.JF_STORE_EXTENT_SIZE) 4 =
      read_le mem (buf + P.JF_STORE_EXTENT_SIZE) 4 :=
    read_le_congr hlen (fun j a b => hsame j (by omega) (by omega))
  have r3 : read_le mem' (buf + P.sizeof_jf_store_data + x + P.DESCR_PAGE_LENGTH) 4 =
      read_le mem (buf + P.sizeof_jf_store_data + x + P.DESCR_PAGE_LENGTH) 4 :=
    read_le_congr hlen (fun j a b => hsame j (by omega) (by omega))
  unfold restore_valid_descr
  simp only [r1, r2, r3]

theorem restore_extent_descr_congr {σ : Type} (P : Protocol) (hP : P.WF) (E : Externals σ)
    (now_s : Int) {mem mem' : List Nat} (buf i M : Nat) (st : σ)
    (hlen : mem'.length = mem.length)
    (hsame : ∀ j, buf ≤ j → j < buf + M → mem'[j]? = mem[j]?)
    (hin : P.sizeof_jf_store_data + (i + 1) * P.sizeof_extent_page_descr ≤ M) :
    restore_extent_descr P E now_s mem' buf i st =
      restore_extent_descr P E now_s mem buf i st := by
  have hv := fun temp_id vd metric st =>
    restore_valid_descr_congr P hP E buf i M temp_id vd metric st hlen hsame hin
  obtain ⟨-, -, -, -, -, -, -, -, w9, w10, -, -⟩ := hP
  have e : (i + 1) * P.sizeof_extent_page_descr =
      i * P.sizeof_extent_page_descr + P.sizeof_extent_page_descr := by ring
  rw [e] at hin
  unfold restore_extent_descr
  generalize i * P.sizeof_extent_page_descr = x at *
  have r1 : read_le mem' (buf + P.sizeof_jf_store_data + x + P.DESCR_TYPE) 1 =
      read_le mem (buf + P.sizeof_jf_store_data + x + P.DESCR_TYPE) 1 :=
    read_le_congr hlen (fun j a b => hsame j (by omega) (by omega))
  have r2 : mem_read mem' (buf + P.sizeof_jf_store_data + x + P.DESCR_UUID) 16 =
      mem_read mem (buf + P.sizeof_jf_store_data + x + P.DESCR_UUID) 16 :=
    mem_read_congr hlen (fun j a b => hsame j (by omega) (by omega))
  have r3 : mem_read mem' (buf + P.sizeof_jf_store_data + x) P.sizeof_extent_page_descr =
      mem_read mem (buf + P.sizeof_jf_store_data + x) P.sizeof_extent_page_descr :=
    mem_read_congr hlen (fun j a b => hsame j (by omega) (by omega))
  simp only [r1, r2, r3, hv]

theorem restore_extent_descrs_congr {σ : Type} (P : Protocol) (hP : P.WF) (E : Externals σ)
    (now_s : Int) {mem mem' : List Nat} (buf M : Nat) (hlen : mem'.length = mem.length)
    (hsame : ∀ j, buf ≤ j → j < buf + M → mem'[j]? = mem[j]?) (remaining : Nat) :
    ∀ (i : Nat) (st : σ),
      P.sizeof_jf_store_data + (i + remaining) * P.sizeof_extent_page_descr ≤ M →
      restore_extent_descrs P E now_s mem' buf remaining i st =
        restore_extent_descrs P E now_s mem buf remaining i st := by
  induction remaining with
  | zero =>
    intro i st _
    rfl
  | succ n ih =>
    intro i st hin
    have h1 : P.sizeof_jf_store_data + (i + 1) * P.sizeof_extent_page_descr ≤ M := by
      have : (i + 1) * P.sizeof_extent_page_descr ≤ (i + (n + 1)) * P.sizeof_extent_page_descr :=
        Nat.mul_le_mul_right _ (by omega)
      omega
    have h2 : ∀ st, restore_extent_descrs P E now_s mem' buf n (i + 1) st =
        restore_extent_descrs P E now_s mem buf n (i + 1) st := by
      intro st
      apply ih
      have : i + 1 + n = i + (n + 1) := by omega
      rw [this]
      exact hin
    unfold restore_extent_descrs
    rw [restore_extent_descr_congr P hP E now_s buf i M st hlen hsame h1]
    simp only [h2]

/-- C39: with `count` the `number_of_pages` of the payload, when
`sizeof(struct rrdeng_jf_store_data) + count * sizeof(struct
rrdeng_extent_page_descr)` exceeds `max_size` (the `payload_length` of the
transaction), `restore_extent_metadata` returns without any call into the
registry or the open cache and leaves their state as it is. Otherwise every
descriptor `i < count` lies inside the `max_size` bytes of the payload, and
the function reads nothing else: on a memory that holds the same bytes in
`[buf, buf + max_size)` it makes the same calls and leaves the same state. -/
theorem restore_extent_metadata_within_payload {σ : Type} (P : Protocol) (hP : P.WF)
    (E : Externals σ) (now_s : Int) (mem : List Nat) (buf max_size : Nat) (st : σ)
    (count : Nat)
    (hcount : read_le mem (buf + P.JF_STORE_NUMBER_OF_PAGES) 1 = some count) :
    (P.sizeof_jf_store_data + count * P.sizeof_extent_page_descr > max_size →
      restore_extent_metadata P E now_s mem buf max_size st = some (st, [])) ∧
    (P.sizeof_jf_store_data + count * P.sizeof_extent_page_descr ≤ max_size →
      (∀ i, i < count →
        buf + P.sizeof_jf_store_data + i * P.sizeof_extent_page_descr +
          P.sizeof_extent_page_descr ≤ buf + max_size) ∧
      ∀ mem' : List Nat, mem'.length = mem.length →
        (∀ j, buf ≤ j → j < buf + max_size → mem'[j]? = mem[j]?) →
        restore_extent_metadata P E now_s mem' buf max_size st =
          restore_extent_metadata P E now_s mem buf max_size st) := by
  have hc : count < 256 := read_le_one_lt hcount
  have hpl := restore_payload_length hP hc
  refine ⟨fun hbig => ?_, fun hfit => ⟨fun i hi => ?_, fun mem' hlen hsame => ?_⟩⟩
  · unfold restore_extent_metadata
    rw [hcount, Option.some_bind]
    simp only
    rw [hpl, if_pos hbig]
  · have : (i + 1) * P.sizeof_extent_page_descr ≤ count * P.sizeof_extent_page_descr :=
      Nat.mul_le_mul_right _ (by omega)
    have e : (i + 1) * P.sizeof_extent_page_descr =
        i * P.sizeof_extent_page_descr + P.sizeof_extent_page_descr := by ring
    omega
  · have w8 := hP.2.2.2.2.2.2.2.1
    have hcount' : read_le mem' (buf + P.JF_STORE_NUMBER_OF_PAGES) 1 = some count := by
      rw [read_le_congr hlen (fun j a b => hsame j (by omega) (by omega))]
      exact hcount
    unfold restore_extent_metadata
    rw [hcount, hcount', Option.some_bind, Option.some_bind]
    simp only
    rw [hpl, if_neg (by omega), if_neg (by omega)]
    exact restore_extent_descrs_congr P hP E now_s buf max_size hlen hsame count 0 st
      (by rw [Nat.zero_add]; exact hfit)

theorem restore_extent_metadata_within_payload_witness :
    upstream_protocol.WF ∧
    read_le example_payload (0 + upstream_protocol.JF_STORE_NUMBER_OF_PAGES) 1 = some 1 ∧
    restore_extent_metadata upstream_protocol example_externals 2000 example_payload 0 49 [] =
      some ([], []) ∧
    (∀ i, i < 1 →
      0 + upstream_protocol.sizeof_jf_store_data + i * upstream_protocol.sizeof_extent_page_descr +
        upstream_protocol.sizeof_extent_page_descr ≤ 0 + 50) ∧
    ∀ mem' : List Nat, mem'.length = example_payload.length →
      (∀ j, 0 ≤ j → j < 0 + 50 → mem'[j]? = example_payload[j]?) →
      restore_extent_metadata upstream_protocol example_externals 2000 mem' 0 50 [] =
        restore_extent_metadata upstream_protocol example_externals 2000 example_payload 0 50
          [] :=
  ⟨by decide, by decide,
    (restore_extent_metadata_within_payload upstream_protocol (by decide) example_externals
      2000 example_payload 0 49 [] 1 (by decide)).1 (by decide),
    ((restore_extent_metadata_within_payload upstream_protocol (by decide) example_externals
      2000 example_payload 0 50 [] 1 (by decide)).2 (by decide)).1,
    ((restore_extent_metadata_within_payload upstream_protocol (by decide) example_externals
      2000 example_payload 0 50 [] 1 (by decide)).2 (by decide)).2⟩

/-! ## The page list entries of a metric -/

theorem int_to_u64_u64_to_time (x : Nat) (h : x < 2 ^ 64) : int_to_u64 (u64_to_time x) = x := by
  unfold int_to_u64 u64_to_time
  rw [Nat.mod_eq_of_lt h]
  by_cases h1 : x < 2 ^ 63
  · rw [if_pos h1]
    have : ((x : Nat) : Int) % 2 ^ 64 = x := Int.emod_eq_of_lt (by omega) (by omega)
    rw [this]; simp
  · rw [if_neg h1]
    have : (((x : Nat) : Int) - 2 ^ 64) % 2 ^ 64 = x := by
      rw [Int.sub_emod, Int.emod_self, sub_zero, Int.emod_emod]
      exact Int.emod_eq_of_lt (by omega) (by omega)
    rw [this]; simp

theorem page_start_second_eq (ut : Nat) (h : ut < 2 ^ 64) :
    page_start_second ut = ut / USEC_PER_SEC := by
  unfold page_start_second
  rw [int_to_u64_u64_to_time ut h]

theorem delta_s_lt (t : Int) (ut : Nat) : delta_s t ut < 2 ^ 32 := by
  unfold delta_s
  have h1 := Int.emod_nonneg (t - ((ut / USEC_PER_SEC : Nat) : Int)) (by norm_num : (2 ^ 32 : Int) ≠ 0)
  have h2 := Int.emod_lt_of_pos (t - ((ut / USEC_PER_SEC : Nat) : Int)) (by norm_num : (0 : Int) < 2 ^ 32)
  omega

theorem metric_delta_s_eq (t : Int) (ut : Nat) (h : ut < 2 ^ 64) :
    metric_delta_s t ut = delta_s t ut := by
  unfold metric_delta_s metric_start_second delta_s u32 int_to_u64
  rw [u64_to_time_div ut h]
  generalize (t - ((ut / USEC_PER_SEC : Nat) : Int)) = d
  omega

theorem page_delta_s_eq (t : Int) (ut : Nat) (h : ut < 2 ^ 64) :
    page_delta_s t ut = delta_s t ut := by
  unfold page_delta_s
  rw [page_start_second_eq ut h]
  unfold delta_s u32 u64 int_to_u64
  have hs : ut / USEC_PER_SEC < 2 ^ 64 := lt_of_le_of_lt (Nat.div_le_self _ _) h
  generalize ut / USEC_PER_SEC = s at hs
  omega
/-- With room for the entry below the file trailer, on a mapping of at least
`total_file_size` bytes, `journal_v2_write_data_page` stores the entry of the
page at the cursor and returns the cursor after it. -/
theorem journal_v2_write_data_page_fits (j2_header : journal_v2_header) (img : List Nat)
    (data : Nat) (page_info : jv2_page_info)
    (h4 : 4 ≤ j2_header.total_file_size) (h32 : j2_header.total_file_size < 2 ^ 32)
    (hlen : j2_header.total_file_size ≤ img.length)
    (hroom : data + 20 ≤ j2_header.total_file_size - 4) :
    ∃ img', journal_v2_write_data_page j2_header img data page_info =
        some (img', some (data + 20)) ∧
      modified_within data (data + 20) img img' ∧
      mem_read img' data 19 = some (page_entry_bytes j2_header page_info) := by
  have hl := page_entry_bytes_length j2_header page_info
  have hw : ∃ img', mem_write img data (page_entry_bytes j2_header page_info) = some img' := by
    unfold mem_write
    rw [if_pos (by rw [hl]; omega)]
    exact ⟨_, rfl⟩
  obtain ⟨img', hw⟩ := hw
  refine ⟨img', ?_, ?_, ?_⟩
  · unfold journal_v2_write_data_page sizeof_journal_page_list
    rw [verify_journal_space_eq j2_header data 20 h4 h32 (by omega),
      if_neg (by simp only [decide_eq_true_eq]; omega)]
    unfold page_entry_bytes at hw
    simp only [hw, Option.bind_eq_bind, Option.some_bind]
  · have hm := mem_write_modified hw
    rw [hl] at hm
    exact hm.mono (le_refl _) (by omega)
  · have hr := mem_read_write_same hw
    rw [hl] at hr
    exact hr

/-- With room for every entry, the descriptor loop returns the cursor after
the last entry and leaves entry `j` holding page `j` of the list. -/
theorem journal_v2_write_descriptors_total (j2_header : journal_v2_header)
    (pages : List jv2_page_info) (img : List Nat) (data_page : Nat)
    (h4 : 4 ≤ j2_header.total_file_size) (h32 : j2_header.total_file_size < 2 ^ 32)
    (hlen : j2_header.total_file_size ≤ img.length)
    (hroom : data_page + 20 * pages.length ≤ j2_header.total_file_size - 4) :
    ∃ img', journal_v2_write_descriptors j2_header pages img data_page =
        some (img', some (data_page + 20 * pages.length)) ∧
      modified_within data_page (data_page + 20 * pages.length) img img' ∧
      ∀ (j : Nat) (p : jv2_page_info), pages[j]? = some p →
        mem_read img' (data_page + 20 * j) 19 = some (page_entry_bytes j2_header p) := by
  induction pages generalizing img data_page with
  | nil =>
    refine ⟨img, by simp [journal_v2_write_descriptors], modified_within.refl _ _ _, ?_⟩
    intro j p hj
    simp at hj
  | cons q rest ih =>
    simp only [List.length_cons] at hroom ⊢
    obtain ⟨img1, hw1, hm1, hr1⟩ :=
      journal_v2_write_data_page_fits j2_header img data_page q h4 h32 hlen (by omega)
    obtain ⟨img2, hw2, hm2, hr2⟩ := ih img1 (data_page + 20) (by rw [hm1.1]; exact hlen) (by omega)
    refine ⟨img2, ?_, ?_, ?_⟩
    · unfold journal_v2_write_descriptors
      simp only [hw1, Option.bind_eq_bind, Option.some_bind, hw2]
      congr 3
      omega
    · exact (hm1.mono (le_refl _) (by omega)).trans (hm2.mono (by omega) (by omega))
    · intro j p hj
      cases j with
      | zero =>
        simp only [List.getElem?_cons_zero, Option.some.injEq] at hj
        subst hj
        rw [Nat.mul_zero, Nat.add_zero, hm2.mem_read data_page 19 (Or.inl (by omega))]
        exact hr1
      | succ j =>
        simp only [List.getElem?_cons_succ] at hj
        have := hr2 j p hj
        rw [show data_page + 20 * (j + 1) = data_page + 20 + 20 * j by omega]
        exact this

theorem four_fields_of_block {img : List Nat} {off n a b c d : Nat} {f g : List Nat}
    (h : mem_read img off n =
      some (le_bytes 4 a ++ le_bytes 4 b ++ le_bytes 4 c ++ le_bytes 4 d ++ f ++ g)) :
    read_le img off 4 = some (a % 256 ^ 4) ∧ read_le img (off + 4) 4 = some (b % 256 ^ 4) ∧
    read_le img (off + 8) 4 = some (c % 256 ^ 4) ∧ read_le img (off + 12) 4 = some (d % 256 ^ 4) := by
  refine ⟨?_, ?_, ?_, ?_⟩
  · have := @read_le_of_block [] (le_bytes 4 b ++ le_bytes 4 c ++ le_bytes 4 d ++ f ++ g)
      img off 4 a n
      (by rw [h]; simp only [List.nil_append, List.append_assoc])
    simpa using this
  · have := @read_le_of_block (le_bytes 4 a) (le_bytes 4 c ++ le_bytes 4 d ++ f ++ g)
      img off 4 b n
      (by rw [h]; simp only [List.append_assoc])
    rw [length_le_bytes] at this
    exact this
  · have := @read_le_of_block (le_bytes 4 a ++ le_bytes 4 b) (le_bytes 4 d ++ f ++ g)
      img off 4 c n
      (by rw [h]; simp only [List.append_assoc])
    rw [List.length_append, length_le_bytes, length_le_bytes] at this
    exact this
  · have := @read_le_of_block (le_bytes 4 a ++ le_bytes 4 b ++ le_bytes 4 c) (f ++ g)
      img off 4 d n
      (by rw [h]; simp only [List.append_assoc])
    rw [List.length_append, List.length_append, length_le_bytes, length_le_bytes,
      length_le_bytes] at this
    exact this

/-- The members of a stored page list entry. -/
theorem page_entry_fields {j2_header : journal_v2_header} {p : jv2_page_info} {img : List Nat}
    {off : Nat} (h : mem_read img off 19 = some (page_entry_bytes j2_header p)) :
    read_le img off 4 = some (delta_s p.start_time_s j2_header.start_time_ut) ∧
    read_le img (off + 4) 4 = some (delta_s p.end_time_s j2_header.start_time_ut) ∧
    read_le img (off + 8) 4 = some (p.extent_index % 2 ^ 32) ∧
    read_le img (off + 12) 4 = some (int_to_u64 p.update_every_s % 2 ^ 32) := by
  have e : (256 : Nat) ^ 4 = 2 ^ 32 := by norm_num
  unfold page_entry_bytes at h
  obtain ⟨h1, h2, h3, h4⟩ := four_fields_of_block h
  rw [e] at h1 h2 h3 h4
  rw [Nat.mod_eq_of_lt (delta_s_lt _ _)] at h1 h2
  exact ⟨h1, h2, h3, h4⟩

/-- C32: with room for every entry below the file trailer, on a mapping of
at least `total_file_size` bytes, `journal_v2_write_descriptors` stores one
page list entry per page of the metric's `pages_by_start_time` map, entry `j`
for page `j` in ascending key order, with `delta_start_s = (start_time_s -
start_time_ut / USEC_PER_SEC) mod 2^32`, `delta_end_s = (end_time_s -
start_time_ut / USEC_PER_SEC) mod 2^32`, the extent index and the update
interval of the page, changes no byte outside the entries, and returns the
cursor advanced by the number of pages times `sizeof(struct
journal_page_list)`; the page delta as `journal_v2_write_data_page` computes
it and the metric delta as `journal_v2_write_metric_page` computes it
subtract the same start second of the header. -/
theorem journal_v2_write_descriptors_entries (j2_header : journal_v2_header)
    (pages : List jv2_page_info) (img : List Nat) (data_page : Nat)
    (hut : j2_header.start_time_ut < 2 ^ 64)
    (h4 : sizeof_journal_v2_block_trailer ≤ j2_header.total_file_size)
    (h32 : j2_header.total_file_size < 2 ^ 32)
    (hlen : j2_header.total_file_size ≤ img.length)
    (hroom : data_page + pages.length * sizeof_journal_page_list ≤
      j2_header.total_file_size - sizeof_journal_v2_block_trailer)
    (hrange : ∀ p ∈ pages,
      p.extent_index < 2 ^ 32 ∧ 0 ≤ p.update_every_s ∧ p.update_every_s < 2 ^ 32) :
    ∃ img', journal_v2_write_descriptors j2_header pages img data_page =
        some (img', some (data_page + pages.length * sizeof_journal_page_list)) ∧
      modified_within data_page (data_page + pages.length * sizeof_journal_page_list) img img' ∧
      (∀ (j : Nat) (p : jv2_page_info), pages[j]? = some p →
        mem_read img' (data_page + j * sizeof_journal_page_list) 19 =
          some (page_entry_bytes j2_header p) ∧
        read_le img' (data_page + j * sizeof_journal_page_list) 4 =
          some ((p.start_time_s -
            ((j2_header.start_time_ut / USEC_PER_SEC : Nat) : Int)) % 2 ^ 32).toNat ∧
        read_le img' (data_page + j * sizeof_journal_page_list + 4) 4 =
          some ((p.end_time_s -
            ((j2_header.start_time_ut / USEC_PER_SEC : Nat) : Int)) % 2 ^ 32).toNat ∧
        read_le img' (data_page + j * sizeof_journal_page_list + 8) 4 = some p.extent_index ∧
        read_le img' (data_page + j * sizeof_journal_page_list + 12) 4 =
          some p.update_every_s.toNat) ∧
      (∀ t : Int,
        page_delta_s t j2_header.start_time_ut = delta_s t j2_header.start_time_ut ∧
        metric_delta_s t j2_header.start_time_ut = delta_s t j2_header.start_time_ut ∧
        ((page_start_second j2_header.start_time_ut : Nat) : Int) =
          metric_start_second j2_header.start_time_ut) := by
  unfold sizeof_journal_page_list sizeof_journal_v2_block_trailer at *
  obtain ⟨img', hw, hm, hr⟩ := journal_v2_write_descriptors_total j2_header pages img data_page
    h4 h32 hlen (by omega)
  rw [show 20 * pages.length = pages.length * 20 by omega] at hw hm
  refine ⟨img', hw, hm, ?_, ?_⟩
  · intro j p hj
    have hb := hr j p hj
    rw [show 20 * j = j * 20 by omega] at hb
    obtain ⟨h1, h2, h3, h5⟩ := page_entry_fields hb
    obtain ⟨r1, r2, r3⟩ := hrange p (mem_of_getElem?_some hj)
    refine ⟨hb, h1, h2, ?_, ?_⟩
    · rw [h3, Nat.mod_eq_of_lt r1]
    · rw [h5]
      congr 1
      unfold int_to_u64
      omega
  · intro t
    refine ⟨page_delta_s_eq t _ hut, metric_delta_s_eq t _ hut, ?_⟩
    unfold metric_start_second
    rw [page_start_second_eq _ hut, u64_to_time_div _ hut]

theorem journal_v2_write_descriptors_entries_witness :
    ∃ img', journal_v2_write_descriptors example_header three_pages example_mapping 200 =
        some (img', some (200 + three_pages.length * sizeof_journal_page_list)) ∧
      modified_within 200 (200 + three_pages.length * sizeof_journal_page_list)
        example_mapping img' ∧
      (∀ (j : Nat) (p : jv2_page_info), three_pages[j]? = some p →
        mem_read img' (200 + j * sizeof_journal_page_list) 19 =
          some (page_entry_bytes example_header p) ∧
        read_le img' (200 + j * sizeof_journal_page_list) 4 =
          some ((p.start_time_s -
            ((example_header.start_time_ut / USEC_PER_SEC : Nat) : Int)) % 2 ^ 32).toNat ∧
        read_le img' (200 + j * sizeof_journal_page_list + 4) 4 =
          some ((p.end_time_s -
            ((example_header.start_time_ut / USEC_PER_SEC : Nat) : Int)) % 2 ^ 32).toNat ∧
        read_le img' (200 + j * sizeof_journal_page_list + 8) 4 = some p.extent_index ∧
        read_le img' (200 + j * sizeof_journal_page_list + 12) 4 =
          some p.update_every_s.toNat) ∧
      (∀ t : Int,
        page_delta_s t example_header.start_time_ut = delta_s t example_header.start_time_ut ∧
        metric_delta_s t example_header.start_time_ut =
          delta_s t example_header.start_time_ut ∧
        ((page_start_second example_header.start_time_ut : Nat) : Int) =
          metric_start_second example_header.start_time_ut) :=
  journal_v2_write_descriptors_entries example_header three_pages example_mapping 200
    (by decide!) (by decide!) (by decide!) (by decide!) (by decide!) (by decide!)

/-! ## The slots of the extent list -/

theorem journal_v2_write_extent_list_count_eq (exts : List jv2_extents_info) (count : Nat) :
    journal_v2_write_extent_list_count exts count = count + exts.length := by
  induction exts generalizing count with
  | nil => rfl
  | cons e rest ih =>
    unfold journal_v2_write_extent_list_count
    rw [ih, List.length_cons]
    omega

theorem mem_read_of_getElem? {d1 d2 : List Nat} {off len : Nat} {l : List Nat}
    (hlen : d1.length = d2.length) (h : mem_read d1 off len = some l)
    (hk : ∀ k, off ≤ k → k < off + len → d2[k]? = d1[k]?) :
    mem_read d2 off len = some l := by
  rw [← h]
  exact mem_read_congr hlen.symm hk

/-- The four assignments of one iteration: they fit whenever the slot lies in
the mapping, store the four members and change nothing else. -/
theorem write_extent_slot (img : List Nat) (entry : Nat) (pos bytes pages : Nat)
    (hfit : entry + 24 ≤ img.length) :
    ∃ img1 img2 img3 img4, write_le img entry 2 0 = some img1 ∧
      write_le img1 (entry + 8) 8 pos = some img2 ∧
      write_le img2 (entry + 16) 4 bytes = some img3 ∧
      write_le img3 (entry + 20) 2 pages = some img4 ∧
      img4.length = img.length ∧
      mem_read img4 entry 2 = some (le_bytes 2 0) ∧
      mem_read img4 (entry + 8) 8 = some (le_bytes 8 pos) ∧
      mem_read img4 (entry + 16) 4 = some (le_bytes 4 bytes) ∧
      mem_read img4 (entry + 20) 2 = some (le_bytes 2 pages) ∧
      ∀ k, ¬ ((entry ≤ k ∧ k < entry + 2) ∨ (entry + 8 ≤ k ∧ k < entry + 22)) →
        img4[k]? = img[k]? := by
  have w : ∀ (d : List Nat) (off wd v : Nat), off + wd ≤ d.length →
      ∃ d', write_le d off wd v = some d' := by
    intro d off wd v h
    unfold write_le mem_write
    rw [if_pos (by rw [length_le_bytes]; exact h)]
    exact ⟨_, rfl⟩
  obtain ⟨img1, h1⟩ := w img entry 2 0 (by omega)
  have l1 := mem_write_length h1
  obtain ⟨img2, h2⟩ := w img1 (entry + 8) 8 pos (by omega)
  have l2 := mem_write_length h2
  obtain ⟨img3, h3⟩ := w img2 (entry + 16) 4 bytes (by omega)
  have l3 := mem_write_length h3
  obtain ⟨img4, h4⟩ := w img3 (entry + 20) 2 pages (by omega)
  have l4 := mem_write_length h4
  have m1 := mem_write_modified h1
  have m2 := mem_write_modified h2
  have m3 := mem_write_modified h3
  have m4 := mem_write_modified h4
  have r1 := mem_read_write_same h1
  have r2 := mem_read_write_same h2
  have r3 := mem_read_write_same h3
  have r4 := mem_read_write_same h4
  simp only [length_le_bytes] at m1 m2 m3 m4 r1 r2 r3 r4
  refine ⟨img1, img2, img3, img4, h1, h2, h3, h4, by omega, ?_, ?_, ?_, ?_, ?_⟩
  · rw [m4.mem_read entry 2 (Or.inl (by omega)), m3.mem_read entry 2 (Or.inl (by omega)),
      m2.mem_read entry 2 (Or.inl (by omega))]
    exact r1
  · rw [m4.mem_read (entry + 8) 8 (Or.inl (by omega)),
      m3.mem_read (entry + 8) 8 (Or.inl (by omega))]
    exact r2
  · rw [m4.mem_read (entry + 16) 4 (Or.inl (by omega))]
    exact r3
  · exact r4
  · intro k hk
    rw [m4.2 k (by omega), m3.2 k (by omega), m2.2 k (by omega), m1.2 k (by omega)]
/-- The loop of `journal_v2_write_extent_list` over extents with distinct
indices whose slots lie in the mapping: it returns, every extent is found in
its slot afterwards, and no other byte changes. -/
theorem journal_v2_write_extent_list_char (exts : List jv2_extents_info) (img : List Nat)
    (base : Nat) (hnd : (exts.map (fun e => e.index)).Nodup)
    (hfit : ∀ e ∈ exts, base + e.index * 24 + 24 ≤ img.length) :
    ∃ img', journal_v2_write_extent_list exts img base = some img' ∧
      img'.length = img.length ∧
      (∀ e ∈ exts,
        mem_read img' (base + e.index * 24) 2 = some (le_bytes 2 0) ∧
        mem_read img' (base + e.index * 24 + 8) 8 = some (le_bytes 8 e.pos) ∧
        mem_read img' (base + e.index * 24 + 16) 4 = some (le_bytes 4 e.bytes) ∧
        mem_read img' (base + e.index * 24 + 20) 2 = some (le_bytes 2 e.number_of_pages)) ∧
      ∀ k, (∀ e ∈ exts, ¬ extent_slot_assigns base e k) → img'[k]? = img[k]? := by
  induction exts generalizing img with
  | nil =>
    exact ⟨img, rfl, rfl, fun e he => by simp at he, fun _ _ => rfl⟩
  | cons e rest ih =>
    rw [List.map_cons, List.nodup_cons] at hnd
    obtain ⟨hne, hnd⟩ := hnd
    obtain ⟨img1, img2, img3, img4, h1, h2, h3, h4, l4, r1, r2, r3, r4, hframe⟩ :=
      write_extent_slot img (base + e.index * 24) e.pos e.bytes e.number_of_pages
        (hfit e (List.mem_cons_self _ _))
    obtain ⟨img', hw, hl, hr, hf⟩ := ih img4 hnd
      (fun e' he' => by rw [l4]; exact hfit e' (List.mem_cons_of_mem _ he'))
    have hdis : ∀ k, base + e.index * 24 ≤ k → k < base + e.index * 24 + 24 →
        ∀ e' ∈ rest, ¬ extent_slot_assigns base e' k := by
      intro k hk1 hk2 e' he'
      have hi : e'.index ≠ e.index := by
        intro heq
        exact hne (List.mem_map.mpr ⟨e', he', heq⟩)
      unfold extent_slot_assigns sizeof_journal_extent_list
      omega
    refine ⟨img', ?_, by rw [hl, l4], ?_, ?_⟩
    · unfold journal_v2_write_extent_list sizeof_journal_extent_list
      simp only [h1, h2, h3, h4, Option.bind_eq_bind, Option.some_bind]
      exact hw
    · intro e' he'
      rcases List.mem_cons.mp he' with rfl | he'
      · refine ⟨?_, ?_, ?_, ?_⟩
        · exact mem_read_of_getElem? hl.symm r1 (fun k a b => hf k (hdis k (by omega) (by omega)))
        · exact mem_read_of_getElem? hl.symm r2 (fun k a b => hf k (hdis k (by omega) (by omega)))
        · exact mem_read_of_getElem? hl.symm r3 (fun k a b => hf k (hdis k (by omega) (by omega)))
        · exact mem_read_of_getElem? hl.symm r4 (fun k a b => hf k (hdis k (by omega) (by omega)))
      · exact hr e' he'
    · intro k hk
      rw [hf k (fun e' he' => hk e' (List.mem_cons_of_mem _ he'))]
      apply hframe
      have := hk e (List.mem_cons_self _ _)
      unfold extent_slot_assigns sizeof_journal_extent_list at this
      exact this

/-- Two mappings that hold the same extents in their slots and agree with a
third mapping everywhere else are the same mapping. -/
theorem extent_list_unique (exts : List jv2_extents_info) (base : Nat) (img a b : List Nat)
    (ha : ∀ e ∈ exts,
      mem_read a (base + e.index * 24) 2 = some (le_bytes 2 0) ∧
      mem_read a (base + e.index * 24 + 8) 8 = some (le_bytes 8 e.pos) ∧
      mem_read a (base + e.index * 24 + 16) 4 = some (le_bytes 4 e.bytes) ∧
      mem_read a (base + e.index * 24 + 20) 2 = some (le_bytes 2 e.number_of_pages))
    (hb : ∀ e ∈ exts,
      mem_read b (base + e.index * 24) 2 = some (le_bytes 2 0) ∧
      mem_read b (base + e.index * 24 + 8) 8 = some (le_bytes 8 e.pos) ∧
      mem_read b (base + e.index * 24 + 16) 4 = some (le_bytes 4 e.bytes) ∧
      mem_read b (base + e.index * 24 + 20) 2 = some (le_bytes 2 e.number_of_pages))
    (fa : ∀ k, (∀ e ∈ exts, ¬ extent_slot_assigns base e k) → a[k]? = img[k]?)
    (fb : ∀ k, (∀ e ∈ exts, ¬ extent_slot_assigns base e k) → b[k]? = img[k]?) :
    a = b := by
  apply List.ext_getElem?
  intro k
  by_cases hk : ∀ e ∈ exts, ¬ extent_slot_assigns base e k
  · rw [fa k hk, fb k hk]
  · push_neg at hk
    obtain ⟨e, he, hin⟩ := hk
    obtain ⟨a1, a2, a3, a4⟩ := ha e he
    obtain ⟨b1, b2, b3, b4⟩ := hb e he
    have key : ∀ (off w : Nat) (bs : List Nat), mem_read a off w = some bs →
        mem_read b off w = some bs → off ≤ k → k < off + w → a[k]? = b[k]? := by
      intro off w bs ra rb h1 h2
      have x := mem_read_getElem? ra (k - off) (by omega)
      have y := mem_read_getElem? rb (k - off) (by omega)
      rw [show off + (k - off) = k by omega] at x y
      rw [← x, ← y]
    unfold extent_slot_assigns sizeof_journal_extent_list at hin
    by_cases c1 : k < base + e.index * 24 + 2
    · exact key _ _ _ a1 b1 (by omega) (by omega)
    by_cases c2 : k < base + e.index * 24 + 16
    · exact key _ _ _ a2 b2 (by omega) (by omega)
    by_cases c3 : k < base + e.index * 24 + 20
    · exact key _ _ _ a3 b3 (by omega) (by omega)
    · exact key _ _ _ a4 b4 (by omega) (by omega)

theorem read_le_of_mem_read_le_bytes {img : List Nat} {off w v : Nat}
    (h : mem_read img off w = some (le_bytes w v)) (hv : v < 256 ^ w) :
    read_le img off w = some v := by
  unfold read_le
  rw [h, Option.map_some', le_value_le_bytes, Nat.mod_eq_of_lt hv]

/-- C31: for an extent map of `n` entries whose `index` members are a
permutation of `0 .. n-1` (the members holding values of their types, and the
page count fitting the `pages` member), on a mapping that holds the `n`
slots, `journal_v2_write_extent_list` returns `base + n * sizeof(struct
journal_extent_list)` and leaves in slot `i` the extent whose index is `i`:
`file_index = 0`, `datafile_offset = pos`, `datafile_size = bytes`, `pages =
number_of_pages`; no byte outside the `n` slots changes, and every other
order of enumeration of the same extents gives the same mapping and the same
pointer. -/
theorem journal_v2_write_extent_list_slots (exts : List jv2_extents_info) (img : List Nat)
    (base : Nat)
    (hperm : (exts.map (fun e => e.index)).Perm (List.range exts.length))
    (hfit : base + exts.length * sizeof_journal_extent_list ≤ img.length)
    (hrange : ∀ e ∈ exts, e.pos < 2 ^ 64 ∧ e.bytes < 2 ^ 32 ∧ e.number_of_pages < 2 ^ 16) :
    ∃ img', journal_v2_write_extent_list exts img base = some img' ∧
      journal_v2_write_extent_list_return exts base =
        base + exts.length * sizeof_journal_extent_list ∧
      modified_within base (base + exts.length * sizeof_journal_extent_list) img img' ∧
      (∀ i, i < exts.length → ∃ e ∈ exts, e.index = i ∧
        read_le img' (base + i * sizeof_journal_extent_list) 2 = some 0 ∧
        read_le img' (base + i * sizeof_journal_extent_list + 8) 8 = some e.pos ∧
        read_le img' (base + i * sizeof_journal_extent_list + 16) 4 = some e.bytes ∧
        read_le img' (base + i * sizeof_journal_extent_list + 20) 2 =
          some e.number_of_pages) ∧
      ∀ exts2 : List jv2_extents_info, exts2.Perm exts →
        journal_v2_write_extent_list exts2 img base = some img' ∧
        journal_v2_write_extent_list_return exts2 base =
          journal_v2_write_extent_list_return exts base := by
  have hnd : (exts.map (fun e => e.index)).Nodup := hperm.nodup_iff.mpr (List.nodup_range _)
  have hidx : ∀ e ∈ exts, e.index < exts.length := by
    intro e he
    have : e.index ∈ exts.map (fun e => e.index) := List.mem_map.mpr ⟨e, he, rfl⟩
    exact List.mem_range.mp (hperm.mem_iff.mp this)
  unfold sizeof_journal_extent_list at hfit ⊢
  have hfit1 : ∀ e ∈ exts, base + e.index * 24 + 24 ≤ img.length := by
    intro e he
    have := hidx e he
    omega
  obtain ⟨img', hw, hl, hr, hf⟩ := journal_v2_write_extent_list_char exts img base hnd hfit1
  have hret : ∀ l : List jv2_extents_info,
      journal_v2_write_extent_list_return l base = base + l.length * 24 := by
    intro l
    unfold journal_v2_write_extent_list_return sizeof_journal_extent_list
    rw [journal_v2_write_extent_list_count_eq, Nat.zero_add]
  refine ⟨img', hw, hret exts, ⟨hl, ?_⟩, ?_, ?_⟩
  · intro k hk
    apply hf
    intro e he
    have := hidx e he
    unfold extent_slot_assigns sizeof_journal_extent_list
    omega
  · intro i hi
    have : i ∈ exts.map (fun e => e.index) := hperm.mem_iff.mpr (List.mem_range.mpr hi)
    obtain ⟨e, he, rfl⟩ := List.mem_map.mp this
    obtain ⟨r1, r2, r3, r4⟩ := hr e he
    obtain ⟨v1, v2, v3⟩ := hrange e he
    exact ⟨e, he, rfl, read_le_of_mem_read_le_bytes r1 (by norm_num),
      read_le_of_mem_read_le_bytes r2 (by norm_num; omega),
      read_le_of_mem_read_le_bytes r3 (by norm_num; omega),
      read_le_of_mem_read_le_bytes r4 (by norm_num; omega)⟩
  · intro exts2 hp
    have hnd2 : (exts2.map (fun e => e.index)).Nodup :=
      ((hp.map (fun e => e.index)).nodup_iff).mpr hnd
    obtain ⟨img2, hw2, hl2, hr2, hf2⟩ := journal_v2_write_extent_list_char exts2 img base hnd2
      (fun e he => hfit1 e (hp.mem_iff.mp he))
    have e := extent_list_unique exts base img img2 img'
      (fun e he => hr2 e (hp.mem_iff.mpr he)) hr
      (fun k hk => hf2 k (fun e he => hk e (hp.mem_iff.mp he))) hf
    rw [hw2, e, hret, hret, hp.length_eq]
    exact ⟨rfl, rfl⟩

theorem journal_v2_write_extent_list_slots_witness :
    ∃ img', journal_v2_write_extent_list shuffled_extents (List.replicate 100 255) 20 =
        some img' ∧
      journal_v2_write_extent_list_return shuffled_extents 20 =
        20 + shuffled_extents.length * sizeof_journal_extent_list ∧
      modified_within 20 (20 + shuffled_extents.length * sizeof_journal_extent_list)
        (List.replicate 100 255) img' ∧
      (∀ i, i < shuffled_extents.length → ∃ e ∈ shuffled_extents, e.index = i ∧
        read_le img' (20 + i * sizeof_journal_extent_list) 2 = some 0 ∧
        read_le img' (20 + i * sizeof_journal_extent_list + 8) 8 = some e.pos ∧
        read_le img' (20 + i * sizeof_journal_extent_list + 16) 4 = some e.bytes ∧
        read_le img' (20 + i * sizeof_journal_extent_list + 20) 2 =
          some e.number_of_pages) ∧
      ∀ exts2 : List jv2_extents_info, exts2.Perm shuffled_extents →
        journal_v2_write_extent_list exts2 (List.replicate 100 255) 20 = some img' ∧
        journal_v2_write_extent_list_return exts2 20 =
          journal_v2_write_extent_list_return shuffled_extents 20 :=
  journal_v2_write_extent_list_slots shuffled_extents (List.replicate 100 255) 20
    (by decide) (by decide) (by decide)

/-! ## The walk over a chunk ends -/

/-- The size that `replay_transaction` returns is 0 or at most `max_size`. -/
theorem replay_transaction_ret_le {σ : Type} (P : Protocol) (E : Externals σ) (now_s : Int)
    {mem : List Nat} {buf max_size : Nat} {st : σ} {r : replay_result σ}
    (h : replay_transaction P E now_s mem buf max_size st = some r) :
    r.ret = 0 ∨ r.ret ≤ max_size := by
  unfold replay_transaction at h
  obtain ⟨type, htype, h⟩ := Option.bind_eq_some.mp h
  by_cases hp : P.STORE_PADDING = type
  · rw [if_pos hp] at h
    cases h
    exact Or.inl rfl
  rw [if_neg hp] at h
  by_cases hs : P.sizeof_jf_transaction_header > max_size
  · rw [if_pos hs] at h
    cases h
    exact Or.inl rfl
  rw [if_neg hs] at h
  obtain ⟨id, hid, h⟩ := Option.bind_eq_some.mp h
  obtain ⟨pl, hpl, h⟩ := Option.bind_eq_some.mp h
  simp only at h
  by_cases hb : u32 (P.sizeof_jf_transaction_header + pl +
      P.sizeof_jf_transaction_trailer) > max_size
  · rw [if_pos hb] at h; cases h; exact Or.inl rfl
  rw [if_neg hb] at h
  obtain ⟨record, -, h⟩ := Option.bind_eq_some.mp h
  obtain ⟨ret, -, h⟩ := Option.bind_eq_some.mp h
  right
  by_cases hc : ret = true
  · rw [if_pos hc] at h; cases h; exact not_lt.mp hb
  rw [if_neg hc] at h
  by_cases hd : type = P.STORE_DATA
  · rw [if_pos hd] at h
    obtain ⟨x, -, h⟩ := Option.bind_eq_some.mp h
    cases h; exact not_lt.mp hb
  · rw [if_neg hd] at h; cases h; exact not_lt.mp hb

/-- One step of the walk over a chunk of a journal smaller than `2 ^ 31`
bytes moves the cursor forward. -/
theorem replay_step_increases {σ : Type} (P : Protocol) (E : Externals σ) (now_s : Int)
    {mem : List Nat} {buf pos size_bytes pos_i : Nat} {st : σ} {r : replay_result σ}
    (hfile : pos + size_bytes < 2 ^ 31) (hi : pos_i < size_bytes)
    (h : replay_transaction P E now_s mem (buf + pos_i)
      (u32 (u64 (pos + size_bytes - pos_i))) st = some r) :
    pos_i < next_pos_i pos_i r.ret ∧
    (r.ret = 0 → next_pos_i pos_i r.ret =
      pos_i / RRDENG_BLOCK_SIZE * RRDENG_BLOCK_SIZE + RRDENG_BLOCK_SIZE) ∧
    (r.ret ≠ 0 → next_pos_i pos_i r.ret = pos_i + r.ret) := by
  have hm : u32 (u64 (pos + size_bytes - pos_i)) = pos + size_bytes - pos_i := by
    unfold u32 u64
    omega
  rw [hm] at h
  have hle := replay_transaction_ret_le P E now_s h
  by_cases h0 : r.ret = 0
  · rw [h0]
    obtain ⟨e, lt⟩ := next_pos_i_zero pos_i (by unfold RRDENG_BLOCK_SIZE; omega)
    exact ⟨lt, fun _ => e, fun hne => absurd rfl hne⟩
  · have hle2 : r.ret ≤ pos + size_bytes - pos_i := by
      rcases hle with hle | hle
      · exact absurd hle h0
      · exact hle
    have e := next_pos_i_size pos_i r.ret h0 (by omega) (by omega)
    rw [e]
    exact ⟨by omega, fun hz => absurd hz h0, fun _ => rfl⟩

/-- With as much fuel as the chunk has bytes left, the walk over a chunk
never uses the fuel up: it ends, unless a call of `replay_transaction` reads
outside the readable memory. -/
theorem iterate_chunk_fuel {σ : Type} (P : Protocol) (E : Externals σ) (now_s : Int)
    (mem : List Nat) (buf pos size_bytes : Nat) (hfile : pos + size_bytes < 2 ^ 31)
    (fuel : Nat) :
    ∀ (pos_i : Nat) (acc : iterate_result σ), size_bytes ≤ pos_i + fuel →
      (∃ r, iterate_chunk P E now_s mem buf pos size_bytes fuel pos_i acc = some r) ∨
      (∃ (pos_j : Nat) (st : σ), pos_j < size_bytes ∧
        replay_transaction P E now_s mem (buf + pos_j)
          (u32 (u64 (pos + size_bytes - pos_j))) st = none) := by
  induction fuel with
  | zero =>
    intro pos_i acc hf
    left
    unfold iterate_chunk
    rw [if_neg (by omega)]
    exact ⟨acc, rfl⟩
  | succ fuel ih =>
    intro pos_i acc hf
    unfold iterate_chunk
    by_cases hi : pos_i < size_bytes
    · rw [if_pos hi]
      cases hr : replay_transaction P E now_s mem (buf + pos_i)
          (u32 (u64 (pos + size_bytes - pos_i))) acc.state with
      | none => exact Or.inr ⟨pos_i, acc.state, hi, hr⟩
      | some r =>
        rw [Option.some_bind]
        obtain ⟨hlt, -, -⟩ := replay_step_increases P E now_s hfile hi hr
        exact ih _ _ (by omega)
    · rw [if_neg hi]
      exact Or.inl ⟨acc, rfl⟩

theorem read_le_lt {mem : List Nat} {o w v : Nat} (h : read_le mem o w = some v) :
    v < 256 ^ w := by
  unfold read_le at h
  obtain ⟨l, hl, rfl⟩ := Option.map_eq_some'.mp h
  have := le_value_lt l
  rw [mem_read_length hl] at this
  exact this

/-- With the memory readable up to `max_size` bytes after `buf` and a header
and a store-data record beyond, and a record size that does not wrap,
`replay_transaction` returns. -/
theorem replay_transaction_total {σ : Type} (P : Protocol) (hP : P.WF) (E : Externals σ)
    (now_s : Int) (mem : List Nat) (buf max_size : Nat) (st : σ)
    (hwrap : P.sizeof_jf_transaction_header + 2 ^ (8 * P.JF_HEADER_PAYLOAD_LENGTH_SZ) +
      P.sizeof_jf_transaction_trailer ≤ 2 ^ 32)
    (hmem : buf + max_size + P.sizeof_jf_transaction_header + P.sizeof_jf_store_data ≤
      mem.length) :
    ∃ r, replay_transaction P E now_s mem buf max_size st = some r := by
  obtain ⟨t1, t2, t3, t4, t5, s1, s2, s3, d1, d2, d3, hbig⟩ := hP
  have hP : P.WF := ⟨t1, t2, t3, t4, t5, s1, s2, s3, d1, d2, d3, hbig⟩
  obtain ⟨type, htype⟩ :=
    read_le_of_le (show buf + P.JF_HEADER_TYPE + 1 ≤ mem.length by omega)
  obtain ⟨id, hid⟩ := read_le_of_le (show buf + P.JF_HEADER_ID + 8 ≤ mem.length by omega)
  obtain ⟨pl, hpl⟩ := read_le_of_le
    (show buf + P.JF_HEADER_PAYLOAD_LENGTH + P.JF_HEADER_PAYLOAD_LENGTH_SZ ≤ mem.length by omega)
  have hpl_lt : pl < 2 ^ (8 * P.JF_HEADER_PAYLOAD_LENGTH_SZ) := by
    have := read_le_lt hpl
    rw [show (256 : Nat) = 2 ^ 8 by norm_num, ← pow_mul] at this
    exact this
  unfold replay_transaction
  rw [htype, Option.some_bind]
  by_cases hp : P.STORE_PADDING = type
  · rw [if_pos hp]; exact ⟨_, rfl⟩
  rw [if_neg hp]
  by_cases hs : P.sizeof_jf_transaction_header > max_size
  · rw [if_pos hs]; exact ⟨_, rfl⟩
  rw [if_neg hs, hid, Option.some_bind, hpl, Option.some_bind]
  simp only
  have hsz : u32 (P.sizeof_jf_transaction_header + pl + P.sizeof_jf_transaction_trailer) =
      P.sizeof_jf_transaction_header + pl + P.sizeof_jf_transaction_trailer := by
    unfold u32
    exact Nat.mod_eq_of_lt (by omega)
  have hsz2 : u32 (P.sizeof_jf_transaction_header + pl) =
      P.sizeof_jf_transaction_header + pl := by
    unfold u32
    exact Nat.mod_eq_of_lt (by omega)
  rw [hsz, hsz2]
  by_cases hb : P.sizeof_jf_transaction_header + pl + P.sizeof_jf_transaction_trailer > max_size
  · rw [if_pos hb]; exact ⟨_, rfl⟩
  rw [if_neg hb, mem_read_of_le (by omega), Option.some_bind]
  obtain ⟨loaded, hloaded⟩ := read_le_of_le
    (show buf + P.sizeof_jf_transaction_header + pl + 4 ≤ mem.length by omega)
  unfold crc32cmp
  rw [hloaded, Option.map_some', Option.some_bind]
  generalize decide (loaded ≠ crc32 0 (List.take (P.sizeof_jf_transaction_header + pl)
    (List.drop buf mem))) = ret
  by_cases hc : ret = true
  · rw [if_pos hc]; exact ⟨_, rfl⟩
  rw [if_neg hc]
  by_cases hd : type = P.STORE_DATA
  · rw [if_pos hd]
    obtain ⟨x, hx⟩ := restore_extent_metadata_total P hP E now_s mem
      (buf + P.sizeof_jf_transaction_header) pl st (by omega) (by omega)
    rw [hx, Option.some_bind]
    exact ⟨_, rfl⟩
  · rw [if_neg hd]; exact ⟨_, rfl⟩

/-- C36: for a journal file smaller than `2 ^ 31` bytes, in the walk of
`iterate_transactions` over a chunk (file offset `pos`, `size_bytes =
MIN(READAHEAD_BYTES, file_size - pos)` bytes, whatever the memory holds),
every step strictly increases the chunk cursor `pos_i`: to the next block
boundary when `replay_transaction` returns 0, by the positive record size
otherwise; so the walk never needs more than `size_bytes` iterations, it ends
unless a call of `replay_transaction` reads outside the readable memory, and
it does end when the memory is readable up to `file_size` bytes plus a
transaction header and a store-data record after `buf` (the layout being
well formed, with a record size that does not wrap). -/
theorem iterate_chunk_terminates {σ : Type} (P : Protocol) (E : Externals σ) (now_s : Int)
    (mem : List Nat) (buf file_size pos size_bytes : Nat)
    (hfile : file_size < 2 ^ 31) (hpos : pos < file_size)
    (hsize : size_bytes = u32 (if READAHEAD_BYTES < u64 (file_size - pos) then READAHEAD_BYTES
      else u64 (file_size - pos))) :
    (∀ (pos_i : Nat) (st : σ) (r : replay_result σ), pos_i < size_bytes →
      replay_transaction P E now_s mem (buf + pos_i)
        (u32 (u64 (pos + size_bytes - pos_i))) st = some r →
      pos_i < next_pos_i pos_i r.ret ∧
      (r.ret = 0 → next_pos_i pos_i r.ret =
        pos_i / RRDENG_BLOCK_SIZE * RRDENG_BLOCK_SIZE + RRDENG_BLOCK_SIZE) ∧
      (r.ret ≠ 0 → next_pos_i pos_i r.ret = pos_i + r.ret)) ∧
    (∀ (fuel : Nat) (acc : iterate_result σ), size_bytes ≤ fuel →
      (∃ r, iterate_chunk P E now_s mem buf pos size_bytes fuel 0 acc = some r) ∨
      (∃ (pos_j : Nat) (st : σ), pos_j < size_bytes ∧
        replay_transaction P E now_s mem (buf + pos_j)
          (u32 (u64 (pos + size_bytes - pos_j))) st = none)) ∧
    (P.WF →
      P.sizeof_jf_transaction_header + 2 ^ (8 * P.JF_HEADER_PAYLOAD_LENGTH_SZ) +
        P.sizeof_jf_transaction_trailer ≤ 2 ^ 32 →
      buf + file_size + P.sizeof_jf_transaction_header + P.sizeof_jf_store_data ≤ mem.length →
      ∀ (fuel : Nat) (acc : iterate_result σ), size_bytes ≤ fuel →
        ∃ r, iterate_chunk P E now_s mem buf pos size_bytes fuel 0 acc = some r) := by
  have hsz : pos + size_bytes ≤ file_size := by
    rw [hsize]
    unfold u32 u64 READAHEAD_BYTES RRDENG_BLOCK_SIZE
    split <;> omega
  have hlt : pos + size_bytes < 2 ^ 31 := by omega
  refine ⟨?_, ?_, ?_⟩
  · intro pos_i st r hi h
    exact replay_step_increases P E now_s hlt hi h
  · intro fuel acc hf
    exact iterate_chunk_fuel P E now_s mem buf pos size_bytes hlt fuel 0 acc (by omega)
  · intro hP hwrap hmem fuel acc hf
    rcases iterate_chunk_fuel P E now_s mem buf pos size_bytes hlt fuel 0 acc (by omega) with
      h | ⟨pos_j, st, hj, hnone⟩
    · exact h
    · have hm : u32 (u64 (pos + size_bytes - pos_j)) = pos + size_bytes - pos_j := by
        unfold u32 u64
        omega
      obtain ⟨r, hr⟩ := replay_transaction_total P hP E now_s mem (buf + pos_j)
        (u32 (u64 (pos + size_bytes - pos_j))) st hwrap (by rw [hm]; omega)
      rw [hr] at hnone
      cases hnone

theorem iterate_chunk_terminates_witness :
    (∀ (pos_i : Nat) (st : List (List Nat)) (r : replay_result (List (List Nat))),
      pos_i < 4096 →
      replay_transaction upstream_protocol example_externals 2000 readahead_buffer (0 + pos_i)
        (u32 (u64 (4096 + 4096 - pos_i))) st = some r →
      pos_i < next_pos_i pos_i r.ret ∧
      (r.ret = 0 → next_pos_i pos_i r.ret =
        pos_i / RRDENG_BLOCK_SIZE * RRDENG_BLOCK_SIZE + RRDENG_BLOCK_SIZE) ∧
      (r.ret ≠ 0 → next_pos_i pos_i r.ret = pos_i + r.ret)) ∧
    (∀ (fuel : Nat) (acc : iterate_result (List (List Nat))), 4096 ≤ fuel →
      ∃ r, iterate_chunk upstream_protocol example_externals 2000 readahead_buffer 0 4096 4096
        fuel 0 acc = some r) :=
  ⟨(iterate_chunk_terminates upstream_protocol example_externals 2000 readahead_buffer
      0 8192 4096 4096 (by decide) (by decide) (by decide!)).1,
   (iterate_chunk_terminates upstream_protocol example_externals 2000 readahead_buffer
      0 8192 4096 4096 (by decide) (by decide) (by decide!)).2.2
      (by decide) (by decide) (by decide!)⟩

/-- C30 (the code at a failing input): of two metrics the last announces one
page and has two in its page index. Its second page entry does not fit below
the file trailer, the loop leaves by the `break` of line 1057 with `data` at
the metric list trailer, and the run publishes the file (`crc` and
`checksum` name the same bytes of the page header here). With the deep check
enabled `check_journal_v2_file` returns 1 on the published file: the page
block of the first metric verifies, the one of the last metric has no
trailer. Without the deep check the file is accepted. -/
theorem published_file_fails_deep_check :
    example_consts.PAGE_HEADER_CRC = example_consts.PAGE_HEADER_CHECKSUM ∧
    overfull_second_migration.map (fun r => (r.journal_data.isSome, r.file.length,
      read_le r.file 0 4)) = some (true, 292, some example_consts.JOURVAL_V2_MAGIC) ∧
    overfull_second_migration.bind (fun r =>
      check_journal_v2_file example_consts true r.file r.file.length 8192) = some 1 ∧
    overfull_second_migration.bind (fun r =>
      check_journal_v2_file example_consts false r.file r.file.length 8192) = some 0 ∧
    overfull_second_migration.bind (fun r =>
      check_journal_v2_chain example_consts r.file r.file.length 2 108 0) =
      some (Sum.inr 1) := by
  decide!

theorem mem_read_append_right (pre l : List Nat) (o n : Nat) :
    mem_read (pre ++ l) (pre.length + o) n = mem_read l o n := by
  unfold mem_read
  rw [List.length_append, List.drop_append]
  by_cases h : o + n ≤ l.length
  · rw [if_pos (by omega), if_pos h]
  · rw [if_neg (by omega), if_neg h]

theorem mem_read_append_left (l tail : List Nat) (o n : Nat) (h : o + n ≤ l.length) :
    mem_read (l ++ tail) o n = mem_read l o n := by
  unfold mem_read
  rw [List.length_append, if_pos (by omega), if_pos h, List.drop_append_of_le_length (by omega),
    List.take_append_of_le_length (by rw [List.length_drop]; omega)]

theorem read_le_append_mid (pre l tail : List Nat) (o n : Nat) (h : o + n ≤ l.length) :
    read_le (pre ++ l ++ tail) (pre.length + o) n = read_le l o n := by
  unfold read_le
  rw [List.append_assoc, mem_read_append_right, mem_read_append_left _ _ _ _ h]
/-- With the memory readable for a header, the longest payload that the
header can announce, a trailer and a store-data record after `buf`,
`replay_transaction` returns. -/
theorem replay_transaction_readable {σ : Type} (P : Protocol) (hP : P.WF) (E : Externals σ)
    (now_s : Int) (mem : List Nat) (buf max_size : Nat) (st : σ)
    (hmem : buf + P.sizeof_jf_transaction_header + 2 ^ (8 * P.JF_HEADER_PAYLOAD_LENGTH_SZ) +
      P.sizeof_jf_transaction_trailer + P.sizeof_jf_store_data ≤ mem.length) :
    ∃ r, replay_transaction P E now_s mem buf max_size st = some r := by
  obtain ⟨t1, t2, t3, t4, t5, s1, s2, s3, d1, d2, d3, hbig⟩ := hP
  have hP : P.WF := ⟨t1, t2, t3, t4, t5, s1, s2, s3, d1, d2, d3, hbig⟩
  have hpow := Nat.two_pow_pos (8 * P.JF_HEADER_PAYLOAD_LENGTH_SZ)
  obtain ⟨type, htype⟩ :=
    read_le_of_le (show buf + P.JF_HEADER_TYPE + 1 ≤ mem.length by omega)
  obtain ⟨id, hid⟩ := read_le_of_le (show buf + P.JF_HEADER_ID + 8 ≤ mem.length by omega)
  obtain ⟨pl, hpl⟩ := read_le_of_le
    (show buf + P.JF_HEADER_PAYLOAD_LENGTH + P.JF_HEADER_PAYLOAD_LENGTH_SZ ≤ mem.length by omega)
  have hpl_lt : pl < 2 ^ (8 * P.JF_HEADER_PAYLOAD_LENGTH_SZ) := by
    have := read_le_lt hpl
    rw [show (256 : Nat) = 2 ^ 8 by norm_num, ← pow_mul] at this
    exact this
  unfold replay_transaction
  rw [htype, Option.some_bind]
  by_cases hp : P.STORE_PADDING = type
  · rw [if_pos hp]; exact ⟨_, rfl⟩
  rw [if_neg hp]
  by_cases hs : P.sizeof_jf_transaction_header > max_size
  · rw [if_pos hs]; exact ⟨_, rfl⟩
  rw [if_neg hs, hid, Option.some_bind, hpl, Option.some_bind]
  simp only
  by_cases hb : u32 (P.sizeof_jf_transaction_header + pl + P.sizeof_jf_transaction_trailer) >
      max_size
  · rw [if_pos hb]; exact ⟨_, rfl⟩
  have hu : u32 (P.sizeof_jf_transaction_header + pl) ≤ P.sizeof_jf_transaction_header + pl :=
    Nat.mod_le _ _
  rw [if_neg hb, mem_read_of_le (by omega), Option.some_bind]
  obtain ⟨loaded, hloaded⟩ := read_le_of_le
    (show buf + P.sizeof_jf_transaction_header + pl + 4 ≤ mem.length by omega)
  unfold crc32cmp
  rw [hloaded, Option.map_some', Option.some_bind]
  generalize decide (loaded ≠ crc32 0 (List.take (u32 (P.sizeof_jf_transaction_header + pl))
    (List.drop buf mem))) = ret
  by_cases hc : ret = true
  · rw [if_pos hc]; exact ⟨_, rfl⟩
  rw [if_neg hc]
  by_cases hd : type = P.STORE_DATA
  · rw [if_pos hd]
    obtain ⟨x, hx⟩ := restore_extent_metadata_total P hP E now_s mem
      (buf + P.sizeof_jf_transaction_header) pl st (by omega) (by omega)
    rw [hx, Option.some_bind]
    exact ⟨_, rfl⟩
  · rw [if_neg hd]; exact ⟨_, rfl⟩

/-- The size that `replay_transaction` returns is 0 or the size of a record
that the header can announce. -/
theorem replay_transaction_ret_layout {σ : Type} (P : Protocol) (E : Externals σ) (now_s : Int)
    {mem : List Nat} {buf max_size : Nat} {st : σ} {r : replay_result σ}
    (h : replay_transaction P E now_s mem buf max_size st = some r) :
    r.ret = 0 ∨ r.ret < P.sizeof_jf_transaction_header +
      2 ^ (8 * P.JF_HEADER_PAYLOAD_LENGTH_SZ) + P.sizeof_jf_transaction_trailer := by
  unfold replay_transaction at h
  obtain ⟨type, htype, h⟩ := Option.bind_eq_some.mp h
  by_cases hp : P.STORE_PADDING = type
  · rw [if_pos hp] at h
    cases h
    exact Or.inl rfl
  rw [if_neg hp] at h
  by_cases hs : P.sizeof_jf_transaction_header > max_size
  · rw [if_pos hs] at h
    cases h
    exact Or.inl rfl
  rw [if_neg hs] at h
  obtain ⟨id, hid, h⟩ := Option.bind_eq_some.mp h
  obtain ⟨pl, hpl, h⟩ := Option.bind_eq_some.mp h
  have hpl_lt : pl < 2 ^ (8 * P.JF_HEADER_PAYLOAD_LENGTH_SZ) := by
    have := read_le_lt hpl
    rw [show (256 : Nat) = 2 ^ 8 by norm_num, ← pow_mul] at this
    exact this
  have hu : u32 (P.sizeof_jf_transaction_header + pl + P.sizeof_jf_transaction_trailer) <
      P.sizeof_jf_transaction_header + 2 ^ (8 * P.JF_HEADER_PAYLOAD_LENGTH_SZ) +
        P.sizeof_jf_transaction_trailer :=
    lt_of_le_of_lt (Nat.mod_le _ _) (by omega)
  simp only at h
  by_cases hb : u32 (P.sizeof_jf_transaction_header + pl +
      P.sizeof_jf_transaction_trailer) > max_size
  · rw [if_pos hb] at h; cases h; exact Or.inl rfl
  rw [if_neg hb] at h
  obtain ⟨record, -, h⟩ := Option.bind_eq_some.mp h
  obtain ⟨ret, -, h⟩ := Option.bind_eq_some.mp h
  right
  by_cases hc : ret = true
  · rw [if_pos hc] at h; cases h; exact hu
  rw [if_neg hc] at h
  by_cases hd : type = P.STORE_DATA
  · rw [if_pos hd] at h
    obtain ⟨x, -, h⟩ := Option.bind_eq_some.mp h
    cases h; exact hu
  · rw [if_neg hd] at h; cases h; exact hu

/-- On readable memory, in a chunk whose calls all return sizes below
`2 ^ 31`, the walk returns and the calls it logs form a walk of the cursor
from where it started. -/
theorem iterate_chunk_walk {σ : Type} (P : Protocol) (hP : P.WF) (E : Externals σ)
    (now_s : Int) (mem : List Nat) (buf pos size_bytes : Nat)
    (hsz : size_bytes ≤ READAHEAD_BYTES)
    (hmem : buf + size_bytes + P.sizeof_jf_transaction_header +
      2 ^ (8 * P.JF_HEADER_PAYLOAD_LENGTH_SZ) + P.sizeof_jf_transaction_trailer +
      P.sizeof_jf_store_data ≤ mem.length)
    (hsizes : ∀ (p : Nat) (st : σ) (x : replay_result σ), p < size_bytes →
      replay_transaction P E now_s mem (buf + p) (u32 (u64 (pos + size_bytes - p))) st =
        some x → x.ret < 2 ^ 31)
    (fuel : Nat) :
    ∀ (pos_i : Nat) (acc : iterate_result σ), size_bytes ≤ pos_i + fuel →
      ∃ (r : iterate_result σ) (steps : List replay_record),
        iterate_chunk P E now_s mem buf pos size_bytes fuel pos_i acc = some r ∧
        r.replays = acc.replays ++ steps ∧
        cursor_walk P E now_s mem buf pos size_bytes pos_i steps := by
  have hra : READAHEAD_BYTES = 2 ^ 20 := by decide
  induction fuel with
  | zero =>
    intro pos_i acc hf
    refine ⟨acc, [], ?_, by simp, ?_⟩
    · exact iterate_chunk_done P E now_s mem buf pos size_bytes 0 pos_i acc (by omega)
    · show size_bytes ≤ pos_i
      omega
  | succ fuel ih =>
    intro pos_i acc hf
    by_cases hi : pos_i < size_bytes
    · obtain ⟨x, hx⟩ := replay_transaction_readable P hP E now_s mem (buf + pos_i)
        (u32 (u64 (pos + size_bytes - pos_i))) acc.state (by omega)
      have hlt31 := hsizes pos_i acc.state x hi hx
      have hnext : pos_i < next_pos_i pos_i x.ret ∧
          (x.ret = 0 → next_pos_i pos_i x.ret =
            pos_i / RRDENG_BLOCK_SIZE * RRDENG_BLOCK_SIZE + RRDENG_BLOCK_SIZE) ∧
          (x.ret ≠ 0 → next_pos_i pos_i x.ret = pos_i + x.ret) := by
        by_cases h0 : x.ret = 0
        · rw [h0]
          obtain ⟨e, lt⟩ := next_pos_i_zero pos_i (by unfold RRDENG_BLOCK_SIZE; omega)
          exact ⟨lt, fun _ => e, fun hne => absurd rfl hne⟩
        · have e := next_pos_i_size pos_i x.ret h0 hlt31 (by omega)
          rw [e]
          exact ⟨by omega, fun hz => absurd hz h0, fun _ => rfl⟩
      obtain ⟨r, steps, hr, hrep, hwalk⟩ := ih (next_pos_i pos_i x.ret)
        { max_id := if acc.max_id > x.id then acc.max_id else x.id
          state := x.state
          calls := acc.calls ++ x.restored.getD []
          replays := acc.replays ++
            [{ pos := pos, pos_i := pos_i, buf := buf + pos_i,
               max_size := u32 (u64 (pos + size_bytes - pos_i)), ret := x.ret, id := x.id }]
          io_read_requests := acc.io_read_requests
          io_read_bytes := acc.io_read_bytes } (by omega)
      refine ⟨r, (⟨pos, pos_i, buf + pos_i, u32 (u64 (pos + size_bytes - pos_i)), x.ret,
        x.id⟩ : replay_record) :: steps, ?_, ?_, ?_⟩
      · rw [iterate_chunk, if_pos hi, hx, Option.some_bind]
        exact hr
      · rw [hrep]
        simp
      · exact ⟨hi, rfl, ⟨acc.state, x, hx, rfl⟩, next_pos_i pos_i x.ret, hwalk, hnext.1,
          hnext.2.1, hnext.2.2⟩
    · refine ⟨acc, [], ?_, by simp, ?_⟩
      · exact iterate_chunk_done P E now_s mem buf pos size_bytes _ pos_i acc hi
      · show size_bytes ≤ pos_i
        omega
/-- In the layout with a four-byte `payload_length`, the record that
`wide_record_header` announces is returned with its size `2 ^ 31` wherever
enough memory follows it. -/
theorem replay_wide_record (pre tail : List Nat) (max_size : Nat) (st : List (List Nat))
    (hmax : 2 ^ 31 ≤ max_size) (hmax32 : max_size < 2 ^ 32) (htail : 2 ^ 31 ≤ tail.length) :
    ∃ r, replay_transaction wide_protocol example_externals 2000
        (pre ++ wide_record_header ++ tail) pre.length max_size st = some r ∧
      r.ret = 2 ^ 31 ∧ r.id = 7 ∧ r.restored = none ∧ r.state = st := by
  have hl : wide_record_header.length = 17 := by decide
  have hlen : (pre ++ wide_record_header ++ tail).length = pre.length + 17 + tail.length := by
    rw [List.length_append, List.length_append, hl]
  have htype : read_le (pre ++ wide_record_header ++ tail)
      (pre.length + wide_protocol.JF_HEADER_TYPE) 1 = some 2 := by
    show read_le (pre ++ wide_record_header ++ tail) (pre.length + 0) 1 = some 2
    rw [read_le_append_mid pre wide_record_header tail 0 1 (by have := hl; omega)]
    decide
  have hid : read_le (pre ++ wide_record_header ++ tail)
      (pre.length + wide_protocol.JF_HEADER_ID) 8 = some 7 := by
    show read_le (pre ++ wide_record_header ++ tail) (pre.length + 5) 8 = some 7
    rw [read_le_append_mid pre wide_record_header tail 5 8 (by have := hl; omega)]
    decide
  have hpl : read_le (pre ++ wide_record_header ++ tail)
      (pre.length + wide_protocol.JF_HEADER_PAYLOAD_LENGTH)
      wide_protocol.JF_HEADER_PAYLOAD_LENGTH_SZ = some (2 ^ 31 - 21) := by
    show read_le (pre ++ wide_record_header ++ tail) (pre.length + 13) 4 = some (2 ^ 31 - 21)
    rw [read_le_append_mid pre wide_record_header tail 13 4 (by have := hl; omega)]
    decide
  have hsz : wide_protocol.sizeof_jf_transaction_header + (2 ^ 31 - 21) +
      wide_protocol.sizeof_jf_transaction_trailer = 2 ^ 31 := by decide
  have hsz2 : wide_protocol.sizeof_jf_transaction_header + (2 ^ 31 - 21) = 2 ^ 31 - 4 := by
    decide
  obtain ⟨stored, hsum⟩ := @read_le_of_le (pre ++ wide_record_header ++ tail)
    (pre.length + wide_protocol.sizeof_jf_transaction_header + (2 ^ 31 - 21)) 4
    (by rw [hlen, Nat.add_assoc pre.length, hsz2]; omega)
  obtain ⟨r, hr, h1, h2, h3, h4⟩ := replay_transaction_record_fits wide_protocol (by decide)
    example_externals 2000 (pre ++ wide_record_header ++ tail) pre.length max_size st 2 7
    (2 ^ 31 - 21) stored _ htype (by decide) hid hpl hmax32 (by rw [hsz]; exact hmax)
    (mem_read_of_le (by rw [hlen, hsz2]; omega)) hsum
    (fun h => absurd h (by decide))
  refine ⟨r, hr, by rw [h1, hsz], h2, ?_, ?_⟩
  · by_contra hne
    exact absurd (h3.mp hne).2 (by decide)
  · apply h4
    by_contra hne
    exact absurd (h3.mp hne).2 (by decide)

/-- C16 does not hold as stated: in the layout of the spec (a four-byte
`payload_length`), the chunk at the file offset `2 ^ 31 + 4096` of a mapped
journal starts with a record of `2 ^ 31` bytes. `replay_transaction` returns
that size at the cursor 0 (`max_size` is `2 ^ 31 + 4096 + 2 ^ 20`); the `int
ret` that receives it is negative, and `pos_i += ret` leaves the cursor at
`2 ^ 64 - 2 ^ 31`, not at `0 + 2 ^ 31`. -/
theorem iterate_chunk_cursor_wraps :
    wide_protocol.WF ∧ wide_journal.length = 2 ^ 32 + 4113 ∧
    (∃ r, replay_transaction wide_protocol example_externals 2000 wide_journal
        (2 ^ 31 + 4096 + 0) (u32 (u64 (2 ^ 31 + 4096 + 2 ^ 20 - 0))) [] = some r ∧
      r.ret = 2 ^ 31 ∧ r.id = 7) ∧
    unsigned_to_int (2 ^ 31) = -2 ^ 31 ∧
    next_pos_i 0 (2 ^ 31) = 2 ^ 64 - 2 ^ 31 ∧ next_pos_i 0 (2 ^ 31) ≠ 0 + 2 ^ 31 ∧
    (iterate_chunk wide_protocol example_externals 2000 wide_journal (2 ^ 31 + 4096)
        (2 ^ 31 + 4096) (2 ^ 20) 1 0
        { max_id := 1, state := [], calls := [], replays := [], io_read_requests := 0,
          io_read_bytes := 0 }).map (fun r => (r.max_id, r.replays)) =
      some (7, [⟨2 ^ 31 + 4096, 0, 2 ^ 31 + 4096, 2 ^ 31 + 4096 + 2 ^ 20, 2 ^ 31, 7⟩]) := by
  have hl : wide_record_header.length = 17 := by decide
  have hpre : (List.replicate (2 ^ 31 + 4096) 0 : List Nat).length = 2 ^ 31 + 4096 :=
    List.length_replicate _ _
  have hmax : u32 (u64 (2 ^ 31 + 4096 + 2 ^ 20 - 0)) = 2 ^ 31 + 4096 + 2 ^ 20 := by decide
  obtain ⟨r, hr, h1, h2, h3, h4⟩ := replay_wide_record (List.replicate (2 ^ 31 + 4096) 0)
    (List.replicate (2 ^ 31) 0) (2 ^ 31 + 4096 + 2 ^ 20) [] (by decide) (by decide)
    (by rw [List.length_replicate])
  rw [hpre] at hr
  have hnext : next_pos_i 0 (2 ^ 31) = 2 ^ 64 - 2 ^ 31 := by decide
  refine ⟨by decide, ?_, ⟨r, ?_, h1, h2⟩, by decide, hnext, by decide, ?_⟩
  · unfold wide_journal
    rw [List.length_append, List.length_append, List.length_replicate, List.length_replicate,
      hl]
    norm_num
  · rw [hmax, Nat.add_zero]
    exact hr
  · rw [iterate_chunk, if_pos (by decide), hmax, Nat.add_zero]
    unfold wide_journal
    rw [hr, Option.some_bind, h1, hnext, iterate_chunk, if_neg (by decide), Option.map_some',
      h2]
    rfl
/-- C16, as the code has it: in the walk of `iterate_transactions` over a
chunk (`size_bytes <= READAHEAD_BYTES`), when `replay_transaction` reports
the size 0 at the cursor `pos_i`, which it does for a padding tag and when
`max_size` is below the header size, the cursor becomes `⌊pos_i / BLOCK⌋ *
BLOCK + BLOCK`, the next block boundary above `pos_i`; when it reports a
size below `2 ^ 31` (the size is received in an `int`), the cursor becomes
`pos_i` plus the size; in both cases the walk goes on from the new cursor.
On readable memory, in a chunk whose calls all report sizes below `2 ^ 31`,
the walk returns without an error and the calls it has logged are made at
cursors that follow one another by this rule, from 0 until the cursor leaves
the chunk. All calls report sizes below `2 ^ 31` in a journal smaller than
`2 ^ 31` bytes, and in a layout whose longest record is shorter than
that. -/
theorem iterate_chunk_cursor {σ : Type} (P : Protocol) (E : Externals σ) (now_s : Int)
    (mem : List Nat) (buf pos size_bytes : Nat) (hsz : size_bytes ≤ READAHEAD_BYTES) :
    (∀ (fuel pos_i : Nat) (acc : iterate_result σ) (x : replay_result σ),
      pos_i < size_bytes →
      replay_transaction P E now_s mem (buf + pos_i)
        (u32 (u64 (pos + size_bytes - pos_i))) acc.state = some x →
      (x.ret = 0 →
        next_pos_i pos_i x.ret =
          pos_i / RRDENG_BLOCK_SIZE * RRDENG_BLOCK_SIZE + RRDENG_BLOCK_SIZE ∧
        pos_i < next_pos_i pos_i x.ret) ∧
      (x.ret ≠ 0 → x.ret < 2 ^ 31 → next_pos_i pos_i x.ret = pos_i + x.ret) ∧
      (∀ type, read_le mem (buf + pos_i + P.JF_HEADER_TYPE) 1 = some type →
        (type = P.STORE_PADDING ∨
          u32 (u64 (pos + size_bytes - pos_i)) < P.sizeof_jf_transaction_header) →
        x.ret = 0) ∧
      iterate_chunk P E now_s mem buf pos size_bytes (fuel + 1) pos_i acc =
        iterate_chunk P E now_s mem buf pos size_bytes fuel (next_pos_i pos_i x.ret)
          { max_id := if acc.max_id > x.id then acc.max_id else x.id
            state := x.state
            calls := acc.calls ++ x.restored.getD []
            replays := acc.replays ++
              [{ pos := pos, pos_i := pos_i, buf := buf + pos_i,
                 max_size := u32 (u64 (pos + size_bytes - pos_i)), ret := x.ret, id := x.id }]
            io_read_requests := acc.io_read_requests
            io_read_bytes := acc.io_read_bytes }) ∧
    (P.WF →
      buf + size_bytes + P.sizeof_jf_transaction_header +
        2 ^ (8 * P.JF_HEADER_PAYLOAD_LENGTH_SZ) + P.sizeof_jf_transaction_trailer +
        P.sizeof_jf_store_data ≤ mem.length →
      (∀ (p : Nat) (st : σ) (x : replay_result σ), p < size_bytes →
        replay_transaction P E now_s mem (buf + p) (u32 (u64 (pos + size_bytes - p))) st =
          some x → x.ret < 2 ^ 31) →
      ∀ (fuel : Nat) (acc : iterate_result σ), size_bytes ≤ fuel →
        ∃ (r : iterate_result σ) (steps : List replay_record),
          iterate_chunk P E now_s mem buf pos size_bytes fuel 0 acc = some r ∧
          r.replays = acc.replays ++ steps ∧
          cursor_walk P E now_s mem buf pos size_bytes 0 steps) ∧
    (pos + size_bytes < 2 ^ 31 →
      ∀ (p : Nat) (st : σ) (x : replay_result σ), p < size_bytes →
        replay_transaction P E now_s mem (buf + p) (u32 (u64 (pos + size_bytes - p))) st =
          some x → x.ret < 2 ^ 31) ∧
    (P.sizeof_jf_transaction_header + 2 ^ (8 * P.JF_HEADER_PAYLOAD_LENGTH_SZ) +
        P.sizeof_jf_transaction_trailer ≤ 2 ^ 31 →
      ∀ (p : Nat) (st : σ) (x : replay_result σ), p < size_bytes →
        replay_transaction P E now_s mem (buf + p) (u32 (u64 (pos + size_bytes - p))) st =
          some x → x.ret < 2 ^ 31) := by
  have hra : READAHEAD_BYTES = 2 ^ 20 := by decide
  refine ⟨?_, ?_, ?_, ?_⟩
  · intro fuel pos_i acc x hlt hr
    refine ⟨?_, ?_, ?_, ?_⟩
    · intro h0
      rw [h0]
      exact next_pos_i_zero pos_i (by unfold RRDENG_BLOCK_SIZE; omega)
    · intro h0 hret
      exact next_pos_i_size pos_i x.ret h0 hret (by omega)
    · intro type ht hor
      obtain ⟨type', ht', hz, -⟩ := replay_transaction_id P E now_s hr
      rw [ht] at ht'
      cases ht'
      exact (hz hor).2
    · rw [iterate_chunk, if_pos hlt, hr, Option.some_bind]
  · intro hP hmem hsizes fuel acc hf
    exact iterate_chunk_walk P hP E now_s mem buf pos size_bytes hsz hmem hsizes fuel 0 acc
      (by omega)
  · intro hfile p st x hp hx
    have hm : u32 (u64 (pos + size_bytes - p)) = pos + size_bytes - p := by
      unfold u32 u64
      omega
    rw [hm] at hx
    rcases replay_transaction_ret_le P E now_s hx with h0 | hle
    · rw [h0]; norm_num
    · omega
  · intro hlay p st x hp hx
    rcases replay_transaction_ret_layout P E now_s hx with h0 | hlt
    · rw [h0]; norm_num
    · omega

theorem iterate_chunk_cursor_witness :
    (4096 : Nat) ≤ READAHEAD_BYTES ∧ upstream_protocol.WF ∧
    0 + 4096 + upstream_protocol.sizeof_jf_transaction_header +
        2 ^ (8 * upstream_protocol.JF_HEADER_PAYLOAD_LENGTH_SZ) +
        upstream_protocol.sizeof_jf_transaction_trailer +
        upstream_protocol.sizeof_jf_store_data ≤ long_readahead_buffer.length ∧
    4096 + 4096 < 2 ^ 31 ∧
    ∃ (r : iterate_result (List (List Nat))) (steps : List replay_record),
      iterate_chunk upstream_protocol example_externals 2000 long_readahead_buffer 0 4096 4096
        4096 0 (⟨1, [], [], [], 0, 0⟩ : iterate_result (List (List Nat))) = some r ∧
      r.replays = [] ++ steps ∧
      cursor_walk upstream_protocol example_externals 2000 long_readahead_buffer 0 4096 4096
        0 steps := by
  have hlen : 0 + 4096 + upstream_protocol.sizeof_jf_transaction_header +
      2 ^ (8 * upstream_protocol.JF_HEADER_PAYLOAD_LENGTH_SZ) +
      upstream_protocol.sizeof_jf_transaction_trailer +
      upstream_protocol.sizeof_jf_store_data ≤ long_readahead_buffer.length := by
    have h : (example_transaction 1 5 example_payload).length = 69 := by decide!
    unfold long_readahead_buffer
    rw [List.length_append, List.length_replicate, h]
    decide
  exact ⟨by decide, by decide, hlen, by decide,
    (iterate_chunk_cursor upstream_protocol example_externals 2000 long_readahead_buffer 0 4096
      4096 (by decide)).2.1 (by decide) hlen
      ((iterate_chunk_cursor upstream_protocol example_externals 2000 long_readahead_buffer 0
        4096 4096 (by decide)).2.2.1 (by decide)) 4096 ⟨1, [], [], [], 0, 0⟩ (by decide)⟩

theorem read_le_append_right (pre l : List Nat) (o n : Nat) :
    read_le (pre ++ l) (pre.length + o) n = read_le l o n := by
  unfold read_le
  rw [mem_read_append_right]

theorem crc32cmp_append_right (pre l : List Nat) (o crc : Nat) :
    crc32cmp (pre ++ l) (pre.length + o) crc = crc32cmp l o crc := by
  unfold crc32cmp
  rw [read_le_append_right]

theorem restore_valid_descr_shift {σ : Type} (P : Protocol) (E : Externals σ)
    (pre l : List Nat) (buf descr : Nat) (temp_id : List Nat) (vd : VALIDATED_PAGE_DESCRIPTOR)
    (metric : Option Nat) (st : σ) :
    restore_valid_descr P E (pre ++ l) (pre.length + buf) (pre.length + descr) temp_id vd
      metric st = restore_valid_descr P E l buf descr temp_id vd metric st := by
  simp only [restore_valid_descr, Nat.add_assoc, read_le_append_right]

theorem restore_extent_descr_shift {σ : Type} (P : Protocol) (E : Externals σ) (now_s : Int)
    (pre l : List Nat) (buf i : Nat) (st : σ) :
    restore_extent_descr P E now_s (pre ++ l) (pre.length + buf) i st =
      restore_extent_descr P E now_s l buf i st := by
  simp only [restore_extent_descr, Nat.add_assoc, read_le_append_right, mem_read_append_right,
    restore_valid_descr_shift]

theorem restore_extent_descrs_shift {σ : Type} (P : Protocol) (E : Externals σ) (now_s : Int)
    (pre l : List Nat) (buf : Nat) (remaining : Nat) :
    ∀ (i : Nat) (st : σ),
      restore_extent_descrs P E now_s (pre ++ l) (pre.length + buf) remaining i st =
        restore_extent_descrs P E now_s l buf remaining i st := by
  induction remaining with
  | zero =>
    intro i st
    rw [restore_extent_descrs, restore_extent_descrs]
  | succ n ih =>
    intro i st
    rw [restore_extent_descrs, restore_extent_descrs, restore_extent_descr_shift]
    simp only [ih]

theorem restore_extent_metadata_shift {σ : Type} (P : Protocol) (E : Externals σ)
    (now_s : Int) (pre l : List Nat) (buf max_size : Nat) (st : σ) :
    restore_extent_metadata P E now_s (pre ++ l) (pre.length + buf) max_size st =
      restore_extent_metadata P E now_s l buf max_size st := by
  simp only [restore_extent_metadata, Nat.add_assoc, read_le_append_right,
    restore_extent_descrs_shift]

theorem replay_transaction_shift {σ : Type} (P : Protocol) (E : Externals σ) (now_s : Int)
    (pre l : List Nat) (buf max_size : Nat) (st : σ) :
    replay_transaction P E now_s (pre ++ l) (pre.length + buf) max_size st =
      replay_transaction P E now_s l buf max_size st := by
  simp only [replay_transaction, Nat.add_assoc, read_le_append_right, mem_read_append_right,
    crc32cmp_append_right, restore_extent_metadata_shift]

theorem iterate_chunk_shift {σ : Type} (P : Protocol) (E : Externals σ) (now_s : Int)
    (pre l : List Nat) (buf pos size_bytes : Nat) (fuel : Nat) :
    ∀ (pos_i : Nat) (acc : iterate_result σ),
      iterate_chunk P E now_s (pre ++ l) (pre.length + buf) pos size_bytes fuel pos_i
          (shift_iterate_result pre.length acc) =
        (iterate_chunk P E now_s l buf pos size_bytes fuel pos_i acc).map
          (shift_iterate_result pre.length) := by
  induction fuel with
  | zero =>
    intro pos_i acc
    rw [iterate_chunk, iterate_chunk]
    by_cases h : pos_i < size_bytes
    · rw [if_pos h, if_pos h]
      rfl
    · rw [if_neg h, if_neg h]
      rfl
  | succ n ih =>
    intro pos_i acc
    rw [iterate_chunk, iterate_chunk]
    by_cases h : pos_i < size_bytes
    · rw [if_pos h, if_pos h, Nat.add_assoc, replay_transaction_shift]
      have hs : (shift_iterate_result pre.length acc).state = acc.state := rfl
      rw [hs]
      cases hr : replay_transaction P E now_s l (buf + pos_i)
          (u32 (u64 (pos + size_bytes - pos_i))) acc.state with
      | none => rfl
      | some r =>
        rw [Option.some_bind, Option.some_bind, ← ih]
        congr 1
        simp only [shift_iterate_result, shift_replay_record, List.map_append, List.map_cons,
          List.map_nil]
    · rw [if_neg h, if_neg h]
      rfl

theorem iterate_chunks_done {σ : Type} (P : Protocol) (E : Externals σ) (now_s : Int)
    (file_size : Nat) (journalfile_data : Option (List Nat))
    (uv_fs_read : Nat → Nat → Option (List Nat)) (fuel chunks pos buf : Nat) (heap : List Nat)
    (acc : iterate_result σ) (h : ¬ pos < file_size) :
    iterate_chunks P E now_s file_size journalfile_data uv_fs_read fuel chunks pos buf heap
      acc = some acc := by
  cases chunks with
  | zero => simp only [iterate_chunks, if_neg h]
  | succ n => simp only [iterate_chunks, if_neg h]

theorem iterate_transactions_mapped_chunk {σ : Type} (P : Protocol) (E : Externals σ)
    (now_s : Int) (file_size : Nat) (pre l heap : List Nat)
    (uv_fs_read : Nat → Nat → Option (List Nat)) (fuel : Nat) (st : σ)
    (hpre : pre.length = P.sizeof_rrdeng_jf_sb)
    (h1 : P.sizeof_rrdeng_jf_sb < file_size)
    (h2 : file_size ≤ P.sizeof_rrdeng_jf_sb + READAHEAD_BYTES)
    (h3 : P.sizeof_rrdeng_jf_sb + READAHEAD_BYTES < 2 ^ 64) :
    iterate_transactions P E now_s file_size (some (pre ++ l)) heap uv_fs_read (fuel + 1) st =
      (iterate_chunk P E now_s l 0 P.sizeof_rrdeng_jf_sb (file_size - P.sizeof_rrdeng_jf_sb)
        (fuel + 1) 0
        { max_id := 1, state := st, calls := [], replays := [], io_read_requests := 0,
          io_read_bytes := 0 }).map (shift_iterate_result P.sizeof_rrdeng_jf_sb) := by
  have hra : READAHEAD_BYTES = 2 ^ 20 := by decide
  have hsize : u32 (if READAHEAD_BYTES < u64 (file_size - P.sizeof_rrdeng_jf_sb)
      then READAHEAD_BYTES else u64 (file_size - P.sizeof_rrdeng_jf_sb)) =
      file_size - P.sizeof_rrdeng_jf_sb := by
    have e : u64 (file_size - P.sizeof_rrdeng_jf_sb) = file_size - P.sizeof_rrdeng_jf_sb := by
      unfold u64
      omega
    rw [e, if_neg (by omega)]
    unfold u32
    omega
  unfold iterate_transactions
  simp only [iterate_chunks, if_pos h1, hsize]
  have hshift := iterate_chunk_shift P E now_s pre l 0 P.sizeof_rrdeng_jf_sb
    (file_size - P.sizeof_rrdeng_jf_sb) (fuel + 1) 0
    { max_id := 1, state := st, calls := [], replays := [], io_read_requests := 0,
      io_read_bytes := 0 }
  rw [hpre] at hshift
  have hacc : shift_iterate_result P.sizeof_rrdeng_jf_sb
      ({ max_id := 1, state := st, calls := [], replays := [], io_read_requests := 0,
         io_read_bytes := 0 } : iterate_result σ) =
      { max_id := 1, state := st, calls := [], replays := [], io_read_requests := 0,
        io_read_bytes := 0 } := rfl
  rw [hacc, Nat.add_zero] at hshift
  rw [hshift]
  cases hc : iterate_chunk P E now_s l 0 P.sizeof_rrdeng_jf_sb
      (file_size - P.sizeof_rrdeng_jf_sb) (fuel + 1) 0
      { max_id := 1, state := st, calls := [], replays := [], io_read_requests := 0,
        io_read_bytes := 0 } with
  | none => rfl
  | some r =>
    rw [Option.map_some', Option.some_bind]
    exact iterate_chunks_done P E now_s _ _ _ _ _ _ _ _ _ (by unfold u64; omega)
theorem short_payload_block_walk_fails :
    iterate_chunk upstream_protocol example_externals 2000 short_payload_block 0 4096 4096 30 0
      (⟨1, [], [], [], 0, 0⟩ : iterate_result (List (List Nat))) = none := by
  decide!

theorem short_payload_block_walk_returns :
    (iterate_chunk upstream_protocol example_externals 2000
      (short_payload_block ++ List.replicate 9 0) 0 4096 4096 30 0
      (⟨1, [], [], [], 0, 0⟩ : iterate_result (List (List Nat)))).map
        (fun r => ((shift_iterate_result 4096 r).max_id,
          (shift_iterate_result 4096 r).replays.length,
          (shift_iterate_result 4096 r).replays.getLast?)) =
      some (7, 20,
        some { pos := 4096, pos_i := 4077, buf := 8173, max_size := 4115, ret := 19, id := 7 }) := by
  decide!

/-- C15 (the code at a failing input): the last 19 bytes of a mapped journal
of 8192 bytes are a store-data record with id 7, an empty payload and a
matching checksum. The record fits (`15 + 0 + 4 <= max_size`), yet
`replay_transaction` does not return its size: `restore_extent_metadata`
reads `number_of_pages` at offset 12 of the payload, 8 bytes after the end of
the mapping, before it compares the payload length. With nine more readable
bytes after the record the same call returns 19. -/
theorem replay_transaction_reads_beyond_empty_payload :
    (example_transaction 1 7 []).length = 19 ∧
    read_le (example_transaction 1 7 []) 0 1 = some upstream_protocol.STORE_DATA ∧
    read_le (example_transaction 1 7 []) 13 2 = some 0 ∧
    read_le (example_transaction 1 7 []) 15 4 =
      some (crc32 0 ((example_transaction 1 7 []).take 15)) ∧
    replay_transaction upstream_protocol example_externals 2000
      (example_transaction 1 7 []) 0 19 [] = none ∧
    replay_transaction upstream_protocol example_externals 2000
      (example_transaction 1 7 [] ++ List.replicate 9 0) 0 19 [] =
      some { ret := 19, id := 7, restored := some [], state := [] } ∧
    short_payload_block.length = 4096 ∧
    iterate_transactions upstream_protocol example_externals 2000 8192
      (some (List.replicate 4096 0 ++ short_payload_block)) [] (fun _ _ => none) 30 [] =
      none ∧
    (iterate_transactions upstream_protocol example_externals 2000 8192
      (some (List.replicate 4096 0 ++ short_payload_block ++ List.replicate 9 0)) []
      (fun _ _ => none) 30 []).map
        (fun r => (r.max_id, r.replays.length, r.replays.getLast?)) =
      some (7, 20,
        some { pos := 4096, pos_i := 4077, buf := 8173, max_size := 4115, ret := 19, id := 7 }) := by
  have hlen : (List.replicate 4096 0 : List Nat).length =
      upstream_protocol.sizeof_rrdeng_jf_sb := List.length_replicate _ _
  have h1 : iterate_transactions upstream_protocol example_externals 2000 8192
      (some (List.replicate 4096 0 ++ short_payload_block)) [] (fun _ _ => none) 30 [] =
      (iterate_chunk upstream_protocol example_externals 2000 short_payload_block 0 4096 4096
        30 0 (⟨1, [], [], [], 0, 0⟩ : iterate_result (List (List Nat)))).map
        (shift_iterate_result 4096) :=
    iterate_transactions_mapped_chunk upstream_protocol example_externals 2000 8192
      (List.replicate 4096 0) short_payload_block [] (fun _ _ => none) 29 [] hlen
      (by decide) (by decide) (by decide)
  have h2 : iterate_transactions upstream_protocol example_externals 2000 8192
      (some (List.replicate 4096 0 ++ (short_payload_block ++ List.replicate 9 0))) []
      (fun _ _ => none) 30 [] =
      (iterate_chunk upstream_protocol example_externals 2000
        (short_payload_block ++ List.replicate 9 0) 0 4096 4096
        30 0 (⟨1, [], [], [], 0, 0⟩ : iterate_result (List (List Nat)))).map
        (shift_iterate_result 4096) :=
    iterate_transactions_mapped_chunk upstream_protocol example_externals 2000 8192
      (List.replicate 4096 0) (short_payload_block ++ List.replicate 9 0) []
      (fun _ _ => none) 29 [] hlen (by decide) (by decide) (by decide)
  refine ⟨by decide!, by decide!, by decide!, by decide!, by decide!, by decide!, by decide!,
    ?_, ?_⟩
  · rw [h1, short_payload_block_walk_fails]
    rfl
  · rw [List.append_assoc, h2, Option.map_map]
    exact short_payload_block_walk_returns

end Journalfile
